import Mathlib

/-!
# ofxDabSpace: neighbor admission policy, N-tree neighbor search, grid and manager

Shallow embedding of `dab_space_neighbor_group_alg.cpp`,
`dab_space_neighbor_relation.cpp`, `dab_space.cpp`, `dab_space_ntree_visitor.cpp`,
`dab_space_object.cpp`, `dab_space_shape.cpp`, `dab_space_grid.cpp`,
`dab_space_alg_grid.cpp` and `dab_space_manager.cpp`.

Modelling conventions.
* A C++ `float` is a rational number: comparisons are those of the source, and there is no
  NaN, no infinity and no overflow. Three computations round as the source does, every
  operation to the nearest `float` or `double` with ties to even (`fl32`, `fl64`): the
  midpoint of a cell in `NTreeVisitor::buildTree`, and the two conversions between a
  position and an index vector of `SpaceGrid` (`position2index`, `index2position`). All
  other arithmetic is exact.
* `sqrt` is not part of the repository; the function computing it is an explicit argument
  `sqrtF` of every definition that calls it. `sqrtFloat` is the correctly rounded square
  root of a `float` that IEEE 754 requires of the operation.
* A pointer to a `SpaceObject` is the object's `mId` (ids are handed out by a counter, one
  per object); a `std::vector` is a `List`.
* A call either returns, throws a `dab::Exception`, or has undefined behaviour (a read
  outside a vector): the result type is `Except Fault _`.
* The recursive functions of the N-tree visitor take a recursion budget `fuel`.
* Positions of the proxies of a space have the dimension of the space (`Space::addObject`
  and `SpaceObject::setPosition` see to that; the overrides of `SpaceShape` do not check
  the length); the tree and classification code reads
  them by index.
* `math::VectorField<float>` of the ofxDabMath library is not part of the repository; the
  few operations of it that the grid code calls are modelled from the specification.
* The `Eigen::VectorXf value` that `GridAlg::updateNeighbors` declares without a value is
  the argument `value0` of the neighbor modes that read it.
* The matrices of a `SpaceShape` are of the openFrameworks library; the two operations on
  them that the cache calls are the fields of `MatrixOps`, and the cache records the calls
  of `updateMatrix` and `updateAABB` in `calls`.
-/

namespace dab.space

/-! ## Data model -/

/-- An `Eigen::VectorXf`. -/
abbrev Vec := List ℚ

/-- How a call can fail to return: a thrown `dab::Exception`, undefined behaviour, or (for
the recursive tree functions, which take a recursion budget) the budget running out. -/
inductive Fault where
  | exception
  | undefinedBehaviour
  | outOfFuel
deriving DecidableEq, Repr

deriving instance DecidableEq for Except

/-- The fields of `SpaceObject` that the neighbor code reads. -/
structure SpaceObject where
  mId : Nat
  mDim : Nat
  mPosition : Vec
deriving DecidableEq, Repr

/-- A `SpaceNeighborRelation`; the two object pointers are object ids. -/
structure SpaceNeighborRelation where
  mObject : Nat
  mNeighborObject : Nat
  mValue : Vec
  mDirection : Vec
  mDistance : ℚ
deriving DecidableEq, Repr

/-- The fields of `NeighborGroupAlg`; `mNeighborDirectionRows` is the number of rows of the
helper vector `mNeighborDirection` (set to the space dimension by `setNeighborGroup`). The
relation vector of the group is passed to every operation explicitly. -/
structure NeighborGroupAlg where
  mNeighborRadius : ℚ
  mMaxNeighborCount : Int
  mReplaceNeighborMode : Bool
  mNeighborDirectionRows : Nat
deriving DecidableEq, Repr

/-- Conversion of an `int` to `size_t`, as done by the comparison of a vector size with
`mMaxNeighborCount`. -/
def toSizeT (c : Int) : Nat :=
  if 0 ≤ c then c.toNat else (2 ^ 64 + c).toNat

/-- The distances stored along a relation vector. -/
def distances (rels : List SpaceNeighborRelation) : List ℚ :=
  rels.map SpaceNeighborRelation.mDistance

/-- The relation vector is sorted by non-decreasing distance. -/
def SortedByDistance (rels : List SpaceNeighborRelation) : Prop :=
  (distances rels).Sorted (· ≤ ·)

/-! ## SpaceNeighborRelation constructors -/

/-- Constructor `SpaceNeighborRelation(pObject, pNeighborObject, pDistance, pDirection)`. -/
def SpaceNeighborRelation.create (pObject pNeighborObject : SpaceObject) (pDistance : ℚ)
    (pDirection : Vec) : Except Fault SpaceNeighborRelation :=
  if pObject.mId = pNeighborObject.mId then .error .exception
  else if pObject.mDim ≠ pNeighborObject.mDim then .error .exception
  else if pDirection.length ≠ pNeighborObject.mDim then .error .exception
  else .ok ⟨pObject.mId, pNeighborObject.mId, pDirection, pDirection, pDistance⟩

/-- Constructor `SpaceNeighborRelation(pObject, pNeighborObject, pValue, pDirection,
pDistance)`. -/
def SpaceNeighborRelation.createValue (pObject pNeighborObject : SpaceObject) (pValue : Vec)
    (pDirection : Vec) (pDistance : ℚ) : Except Fault SpaceNeighborRelation :=
  if pObject.mId = pNeighborObject.mId then .error .exception
  else if pObject.mDim ≠ pNeighborObject.mDim then .error .exception
  else if pDirection.length ≠ pNeighborObject.mDim then .error .exception
  else .ok ⟨pObject.mId, pNeighborObject.mId, pValue, pDirection, pDistance⟩

/-! ## NeighborGroupAlg -/

/-- `NeighborGroupAlg::full`. -/
def NeighborGroupAlg.full (alg : NeighborGroupAlg) (rels : List SpaceNeighborRelation) : Bool :=
  decide (alg.mMaxNeighborCount > -1) && (alg.mReplaceNeighborMode == false)
    && decide (rels.length ≥ toSizeT alg.mMaxNeighborCount)

/-- `neighborRelations.insert(neighborRelations.begin() + i, r)`. -/
def insertAt (rels : List SpaceNeighborRelation) (i : Nat) (r : SpaceNeighborRelation) :
    List SpaceNeighborRelation :=
  rels.take i ++ r :: rels.drop i

/-- The backward scan of the "normal insert" branch:
`for(unsigned int i=neighborCount - 1; i>=0; --i)` with body
`if(neighborRelations[i]->distance() > d) insertionIndex = i; else break;`.
The arguments are the current `i` and the current `insertionIndex`. The loop condition
`i >= 0` never fails for an unsigned `i`: decrementing `i = 0` wraps around and the next
iteration reads outside the vector. -/
def scanBackward (rels : List SpaceNeighborRelation) (d : ℚ) : Nat → Nat → Except Fault Nat
  | 0, insertionIndex =>
    match rels[0]? with
    | none => .error .undefinedBehaviour
    | some r => if r.mDistance > d then .error .undefinedBehaviour else .ok insertionIndex
  | i + 1, insertionIndex =>
    match rels[i + 1]? with
    | none => .error .undefinedBehaviour
    | some r => if r.mDistance > d then scanBackward rels d i (i + 1) else .ok insertionIndex

/-- The index at which the new relation is inserted into a non-empty vector: the "closest
neighbor" test on `front()` and otherwise the backward scan. -/
def insertionIndex (rels : List SpaceNeighborRelation) (d : ℚ) : Except Fault Nat :=
  match rels.head? with
  | none => .error .undefinedBehaviour
  | some f =>
    if f.mDistance ≥ d then .ok 0
    else scanBackward rels d (rels.length - 1) rels.length

/-- The part shared by the three `createNeighbor` bodies once the relation exists: "first
neighbor", "closest neighbor" / "normal insert", and the removal of the last relation when
`exceeds` (the comparison of the new size with `mMaxNeighborCount`, which each entry point
spells in its own way) holds. `lastRelation == neighborRelation` is a pointer comparison:
the new relation is the last one exactly when it was inserted at the end. -/
def insertRelation (exceeds : Bool) (rels : List SpaceNeighborRelation)
    (r : SpaceNeighborRelation) : Except Fault (Bool × List SpaceNeighborRelation) :=
  if rels.length = 0 then .ok (true, rels ++ [r])
  else
    match insertionIndex rels r.mDistance with
    | .error e => .error e
    | .ok idx =>
      if exceeds then
        if idx = rels.length then .ok (false, (insertAt rels idx r).dropLast)
        else .ok (true, (insertAt rels idx r).dropLast)
      else .ok (true, insertAt rels idx r)

/-- The direction computed by the first entry point: `mNeighborDirection[d] =
object2Position[d] - object1Position[d]` for `d < dim`. -/
def directionOf (dim : Nat) (p1 p2 : Vec) : Vec :=
  (List.range dim).map fun d => p2.getD d 0 - p1.getD d 0

/-- The distance computed by the first entry point: the square root of the sum of the
squared components, accumulated in index order. -/
def distanceOf (sqrtF : ℚ → ℚ) (dir : Vec) : ℚ :=
  sqrtF (dir.foldl (fun acc x => acc + x * x) 0)

/-- `NeighborGroupAlg::createNeighbor(SpaceObject*, SpaceObject*)`: distance and direction
are computed from the two positions. -/
def NeighborGroupAlg.createNeighbor (sqrtF : ℚ → ℚ) (alg : NeighborGroupAlg)
    (rels : List SpaceNeighborRelation) (pObject1 pObject2 : SpaceObject) :
    Except Fault (Bool × List SpaceNeighborRelation) :=
  if alg.mMaxNeighborCount = 0 then .ok (false, rels)
  else
    let neighborCount : Int := rels.length
    if alg.mMaxNeighborCount > 0 ∧ alg.mMaxNeighborCount ≤ neighborCount
        ∧ alg.mReplaceNeighborMode = false then .ok (false, rels)
    else
      let dim := alg.mNeighborDirectionRows
      if pObject1.mPosition.length < dim ∨ pObject2.mPosition.length < dim then
        .error .undefinedBehaviour
      else
        let dir := directionOf dim pObject1.mPosition pObject2.mPosition
        let neighborDistance := distanceOf sqrtF dir
        if alg.mNeighborRadius ≥ 0 ∧ alg.mNeighborRadius < neighborDistance then .ok (false, rels)
        else
          let construct : Except Fault (Bool × List SpaceNeighborRelation) :=
            match SpaceNeighborRelation.create pObject1 pObject2 neighborDistance dir with
            | .error e => .error e
            | .ok r =>
              insertRelation
                (decide (alg.mMaxNeighborCount ≠ -1 ∧ neighborCount + 1 > alg.mMaxNeighborCount))
                rels r
          if alg.mMaxNeighborCount ≤ neighborCount ∧ alg.mReplaceNeighborMode = true then
            match rels.getLast? with
            | none => .error .undefinedBehaviour
            | some b => if b.mDistance < neighborDistance then .ok (false, rels) else construct
          else construct

/-- The part of the second and third entry point after the relation has been constructed:
radius test, "neighborlist full" test, insertion. -/
def admitConstructed (alg : NeighborGroupAlg) (rels : List SpaceNeighborRelation)
    (r : SpaceNeighborRelation) : Except Fault (Bool × List SpaceNeighborRelation) :=
  if alg.mNeighborRadius ≥ 0 ∧ alg.mNeighborRadius < r.mDistance then .ok (false, rels)
  else
    let insert : Except Fault (Bool × List SpaceNeighborRelation) :=
      insertRelation
        (decide (alg.mMaxNeighborCount ≠ -1 ∧ rels.length + 1 > toSizeT alg.mMaxNeighborCount))
        rels r
    if alg.mMaxNeighborCount ≠ -1 ∧ rels.length ≥ toSizeT alg.mMaxNeighborCount then
      if alg.mReplaceNeighborMode = false then .ok (false, rels)
      else
        match rels.getLast? with
        | none => .error .undefinedBehaviour
        | some b => if b.mDistance < r.mDistance then .ok (false, rels) else insert
    else insert

/-- `NeighborGroupAlg::createNeighbor(SpaceObject*, SpaceObject*, float, const VectorXf&)`:
distance and direction are supplied by the caller. -/
def NeighborGroupAlg.createNeighborDistDir (alg : NeighborGroupAlg)
    (rels : List SpaceNeighborRelation) (pObject1 pObject2 : SpaceObject) (pDistance : ℚ)
    (pDirection : Vec) : Except Fault (Bool × List SpaceNeighborRelation) :=
  if alg.mMaxNeighborCount = 0 then .ok (false, rels)
  else
    match SpaceNeighborRelation.create pObject1 pObject2 pDistance pDirection with
    | .error e => .error e
    | .ok r => admitConstructed alg rels r

/-- `NeighborGroupAlg::createNeighbor(SpaceObject*, SpaceObject*, const VectorXf&,
const VectorXf&, float)`: value, direction and distance are supplied by the caller. -/
def NeighborGroupAlg.createNeighborValueDirDist (alg : NeighborGroupAlg)
    (rels : List SpaceNeighborRelation) (pObject1 pObject2 : SpaceObject) (pValue : Vec)
    (pDirection : Vec) (pDistance : ℚ) : Except Fault (Bool × List SpaceNeighborRelation) :=
  if alg.mMaxNeighborCount = 0 then .ok (false, rels)
  else
    match SpaceNeighborRelation.createValue pObject1 pObject2 pValue pDirection pDistance with
    | .error e => .error e
    | .ok r => admitConstructed alg rels r

/-! ## Vocabulary of the statements -/

/-- The shape of every outcome a `createNeighbor` call can return for the constructed relation
`r`: either `false` with the vector unchanged, or `true` with `r` inserted at the insertion
index and, when `exceeds` holds, the old last relation removed. -/
def InsertOutcome (exceeds : Prop) (rels : List SpaceNeighborRelation)
    (r : SpaceNeighborRelation) (b : Bool) (l' : List SpaceNeighborRelation) : Prop :=
  (b = false ∧ l' = rels) ∨
    (b = true ∧ ∃ idx, idx ≤ rels.length ∧
      (rels ≠ [] → insertionIndex rels r.mDistance = .ok idx) ∧ (rels = [] → idx = 0) ∧
      ((l' = insertAt rels idx r ∧ (rels = [] ∨ ¬ exceeds)) ∨
        (rels ≠ [] ∧ exceeds ∧ idx ≠ rels.length ∧ l' = (insertAt rels idx r).dropLast)))

/-- The vector `l'` is `rels` with `r` inserted at some position, the old last relation of
`rels` being dropped at most. -/
def InsertedInto (rels : List SpaceNeighborRelation) (r : SpaceNeighborRelation)
    (l' : List SpaceNeighborRelation) : Prop :=
  ∃ idx, (idx ≤ rels.length ∧ l' = insertAt rels idx r) ∨
    (rels ≠ [] ∧ idx ≤ rels.dropLast.length ∧ l' = insertAt rels.dropLast idx r)

/-- Offering a sequence of candidates to the admission policy one after the other; `step`
is one `createNeighbor` call on the current relation vector. -/
def offerAll {C : Type} (step : List SpaceNeighborRelation → C →
    Except Fault (Bool × List SpaceNeighborRelation)) :
    List SpaceNeighborRelation → List C → Except Fault (List SpaceNeighborRelation)
  | rels, [] => .ok rels
  | rels, c :: cs =>
    match step rels c with
    | .error e => .error e
    | .ok (_, rels') => offerAll step rels' cs

/-- A distance passes the radius test of `createNeighbor`. -/
def admissible (radius d : ℚ) : Bool :=
  !(decide (radius ≥ 0) && decide (radius < d))

/-- The `k` smallest of the admissible distances among `ds`, with multiplicity, in ascending
order. -/
def nearestDistances (k : Nat) (radius : ℚ) (ds : List ℚ) : List ℚ :=
  ((ds.filter (admissible radius)).insertionSort (· ≤ ·)).take k

/-! ## Space, proxies and the N-tree -/

/-- The fields of `NeighborGroup`. -/
structure NeighborGroup where
  mVisible : Bool
  mNeighborGroupAlg : Option NeighborGroupAlg
  mNeighborRelations : List SpaceNeighborRelation
deriving DecidableEq, Repr

/-- A `SpaceProxyObject`: the object and its neighbor group in the space. A pointer to a
proxy is its index in the proxy vector `mObjects` of the space. -/
structure SpaceProxyObject where
  mSpaceObject : SpaceObject
  mNeighborGroup : NeighborGroup
deriving DecidableEq, Repr

/-- An `NTreeNode`. Node pointers are indices into the node store of the tree; `none` is
the null pointer. `mChildren` has `mChildrenCount` entries. -/
structure NTreeNode where
  mParent : Option Nat
  mChildren : List (Option Nat)
  mLastCheckedObject : Option Nat
  mLevel : Nat
  mMinPos : Vec
  mMaxPos : Vec
  mObjects : List Nat
deriving DecidableEq, Repr

/-- An `NTree` together with the nodes allocated for it (`nodes`, addressed by index). -/
structure NTree where
  mMaxDepth : Int
  mMinObjectCount : Int
  mMinPos : Vec
  mMaxPos : Vec
  mRootNode : Option Nat
  nodes : List NTreeNode
deriving DecidableEq, Repr

/-- An `NTreeAlg`: the `SpaceAlg` header (`mMinPos`, `mMaxPos`, `mFixedSize`), the tree, and
the dimension `mDim` of its `NTreeVisitor`. -/
structure NTreeAlg where
  mMinPos : Vec
  mMaxPos : Vec
  mFixedSize : Bool
  mTree : NTree
  mDim : Nat
deriving DecidableEq, Repr

/-- A `Space` whose algorithm is an `NTreeAlg`. The visible and the neighbor-capable vectors
hold proxy pointers. -/
structure Space where
  mSpaceAlg : NTreeAlg
  mObjects : List SpaceProxyObject
  mVisibleObjects : List Nat
  mNeighborObjects : List Nat
deriving DecidableEq, Repr

/-- `FLT_MAX`, the largest finite `float`. -/
def FLT_MAX : ℚ := (2 ^ 24 - 1) * 2 ^ 104

/-- Conversion of an `int` to `unsigned int`, as done by the comparison of `mMaxDepth` with a
node level. -/
def toUInt (c : Int) : Nat :=
  if 0 ≤ c then c.toNat else (2 ^ 32 + c).toNat

/-- `NeighborGroup::canHaveNeighbors`. -/
def NeighborGroup.canHaveNeighbors (g : NeighborGroup) : Bool :=
  match g.mNeighborGroupAlg with
  | none => false
  | some alg => decide (alg.mMaxNeighborCount ≠ 0)

/-- `SpaceProxyObject::canHaveNeighbors`. -/
def SpaceProxyObject.canHaveNeighbors (p : SpaceProxyObject) : Bool :=
  p.mNeighborGroup.mNeighborGroupAlg.isSome && p.mNeighborGroup.canHaveNeighbors

/-! ## Floating-point rounding -/

/-- The number of halvings that bring `n` below 2, with a budget. -/
def log2F : Nat → Nat → Nat
  | 0, _ => 0
  | fuel + 1, n => if n < 2 then 0 else log2F fuel (n / 2) + 1

/-- The largest `k` with `2 ^ k <= n`, for `n >= 1`. -/
def natLog2 (n : Nat) : Nat := log2F n n

/-- The binary exponent of `x` other than 0: the largest `e` with `2 ^ e <= |x|`. -/
def ratExponent (x : ℚ) : Int :=
  let a := natLog2 x.num.natAbs
  let b := natLog2 x.den
  if 2 ^ a * x.den ≤ 2 ^ b * x.num.natAbs then (a : Int) - b else (a : Int) - b - 1

/-- The power `2 ^ e` for an integer `e`. -/
def pow2 (e : Int) : ℚ :=
  if 0 ≤ e then ((2 ^ e.toNat : Nat) : ℚ) else 1 / ((2 ^ (-e).toNat : Nat) : ℚ)

/-- Rounding to the nearest integer, a tie going to the even one. -/
def roundHalfEven (y : ℚ) : Int :=
  let f := Rat.floor y
  let r := y - f
  if r < 1 / 2 then f else if 1 / 2 < r then f + 1 else if f % 2 = 0 then f else f + 1

/-- Rounding to the nearest binary floating-point number with `prec` significant bits and
least normal exponent `emin`, a tie going to the even significand (the default rounding of
IEEE 754); below `2 ^ emin` the spacing is that of the subnormal numbers. -/
def roundTo (prec : Nat) (emin : Int) (x : ℚ) : ℚ :=
  if x = 0 then 0
  else
    let u := pow2 (max (ratExponent x) emin - ((prec : Int) - 1))
    (roundHalfEven (x / u) : ℚ) * u

/-- Rounding to `float`. -/
def fl32 (x : ℚ) : ℚ := roundTo 24 (-126) x

/-- Rounding to `double`. -/
def fl64 (x : ℚ) : ℚ := roundTo 53 (-1022) x

/-- The test `position[j] < minPos[j] || position[j] > maxPos[j]` failing for every
`j < dim`: the position lies in the closed box. -/
def insideBox (dim : Nat) (pos minPos maxPos : Vec) : Bool :=
  (List.range dim).all fun j =>
    !(decide (pos.getD j 0 < minPos.getD j 0) || decide (pos.getD j 0 > maxPos.getD j 0))

/-- The position of the proxy `i`. -/
def positionOf (objs : List SpaceProxyObject) (i : Nat) : Vec :=
  match objs[i]? with
  | none => []
  | some p => p.mSpaceObject.mPosition

/-- Bounds of child number `childNr` of a cell: on axis `d` the upper half when bit `d` of
`childNr` is set, the lower half otherwise. The midpoint is
`mCenterPos[dim] = (pNode->mMinPos[dim] + pNode->mMaxPos[dim]) * 0.5`: the sum of two
`float` is rounded to `float`, the product with the `double` literal is a `double`, and
the store to the `float` vector rounds again. -/
def childBounds (dim : Nat) (minPos maxPos : Vec) (childNr : Nat) : Vec × Vec :=
  let center := fun d =>
    fl32 (fl64 (fl32 (minPos.getD d 0 + maxPos.getD d 0) * (1 / 2)))
  ((List.range dim).map fun d =>
      if childNr.testBit d then center d else minPos.getD d 0,
   (List.range dim).map fun d =>
      if childNr.testBit d then maxPos.getD d 0 else center d)

/-- The test that decides whether a node gets children: more than one object, depth limit
not reached, object count limit exceeded. -/
def subdivides (tree : NTree) (node : NTreeNode) : Bool :=
  decide (node.mObjects.length > 1)
    && (decide (tree.mMaxDepth = -1) || decide (toUInt tree.mMaxDepth > node.mLevel))
    && (decide (tree.mMinObjectCount = -1)
        || decide (tree.mMinObjectCount < (node.mObjects.length : Int)))

/-- Writing a node of the store. -/
def NTree.setNode (tree : NTree) (i : Nat) (node : NTreeNode) : NTree :=
  { tree with nodes := tree.nodes.set i node }

/-- `NTreeVisitor::buildTree(NTree&, NTreeNode*)`. -/
def NTreeVisitor.buildTreeNode (mDim : Nat) (objs : List SpaceProxyObject) :
    Nat → NTree → Nat → Except Fault NTree
  | 0, _, _ => .error .outOfFuel
  | fuel + 1, tree, pNode =>
    match tree.nodes[pNode]? with
    | none => .error .undefinedBehaviour
    | some node =>
      let childrenCount := 2 ^ mDim
      if subdivides tree node then
        let first := tree.nodes.length
        let children : List NTreeNode := (List.range childrenCount).map fun childNr =>
          let b := childBounds mDim node.mMinPos node.mMaxPos childNr
          { mParent := some pNode
            mChildren := List.replicate childrenCount none
            mLastCheckedObject := none
            mLevel := node.mLevel + 1
            mMinPos := b.1
            mMaxPos := b.2
            mObjects := node.mObjects.filter fun i => insideBox mDim (positionOf objs i) b.1 b.2 }
        let node' := { node with
          mChildren := (List.range childrenCount).map fun childNr => some (first + childNr) }
        let tree' : NTree := { tree with nodes := (tree.nodes.set pNode node') ++ children }
        (List.range childrenCount).foldlM
          (fun t i => NTreeVisitor.buildTreeNode mDim objs fuel t (first + i)) tree'
      else
        .ok (tree.setNode pNode { node with mChildren := List.replicate childrenCount none })

/-- `NTreeVisitor::buildTree(NTree&, std::vector<SpaceProxyObject*>&)`. -/
def NTreeVisitor.buildTree (mDim : Nat) (objs : List SpaceProxyObject) (fuel : Nat)
    (tree : NTree) (pObjects : List Nat) : Except Fault NTree :=
  let root := tree.nodes.length
  let rootNode : NTreeNode :=
    { mParent := none
      mChildren := List.replicate (2 ^ mDim) none
      mLastCheckedObject := none
      mLevel := 0
      mMinPos := tree.mMinPos
      mMaxPos := tree.mMaxPos
      mObjects := pObjects }
  NTreeVisitor.buildTreeNode mDim objs fuel
    { tree with mRootNode := some root, nodes := tree.nodes ++ [rootNode] } root

/-- The visible flag of the proxy `i`. -/
def visibleOf (objs : List SpaceProxyObject) (i : Nat) : Bool :=
  match objs[i]? with
  | none => false
  | some p => p.mNeighborGroup.mVisible

/-- `NTreeVisitor::updateTree(NTree&, NTreeNode*)`. Nodes released by `clearTree` stay in
the store, unreachable. -/
def NTreeVisitor.updateTreeNode (mDim : Nat) (objs : List SpaceProxyObject) :
    Nat → NTree → Nat → Except Fault NTree
  | 0, _, _ => .error .outOfFuel
  | fuel + 1, tree, pNode =>
    match tree.nodes[pNode]? with
    | none => .error .undefinedBehaviour
    | some node =>
      let childrenCount := 2 ^ mDim
      if subdivides tree node then
        match (List.range childrenCount).foldlM
          (fun (t : NTree) childNr =>
            match node.mChildren.getD childNr none with
            | none => (.error .undefinedBehaviour : Except Fault NTree)
            | some c =>
              match t.nodes[c]? with
              | none => .error .undefinedBehaviour
              | some child =>
                .ok (t.setNode c { child with
                  mLastCheckedObject := none
                  mObjects := node.mObjects.filter fun i =>
                    visibleOf objs i &&
                      insideBox mDim (positionOf objs i) child.mMinPos child.mMaxPos }))
          tree with
        | .error e => .error e
        | .ok tree1 =>
          (List.range childrenCount).foldlM
            (fun (t : NTree) i =>
              match node.mChildren.getD i none with
              | none => (.error .undefinedBehaviour : Except Fault NTree)
              | some c =>
                match t.nodes[c]? with
                | none => .error .undefinedBehaviour
                | some child =>
                  if child.mChildren.getD i none = none then
                    NTreeVisitor.buildTreeNode mDim objs fuel t c
                  else NTreeVisitor.updateTreeNode mDim objs fuel t c)
            tree1
      else if node.mChildren.any (fun c => c.isNone) then .error .undefinedBehaviour
      else .ok (tree.setNode pNode { node with mChildren := List.replicate childrenCount none })

/-- `NTreeVisitor::updateTree(NTree&, std::vector<SpaceProxyObject*>&)`. -/
def NTreeVisitor.updateTree (mDim : Nat) (objs : List SpaceProxyObject) (fuel : Nat)
    (tree : NTree) (pObjects : List Nat) : Except Fault NTree :=
  match tree.mRootNode with
  | none => NTreeVisitor.buildTree mDim objs fuel tree pObjects
  | some root =>
    match tree.nodes[root]? with
    | none => .error .undefinedBehaviour
    | some node =>
      let tree1 := tree.setNode root { node with mLastCheckedObject := none, mObjects := pObjects }
      if node.mChildren.getD 0 none = none then NTreeVisitor.buildTreeNode mDim objs fuel tree1 root
      else NTreeVisitor.updateTreeNode mDim objs fuel tree1 root

/-- The loop of the leaf case of `calcNeighbors(NTreeNode*, SpaceProxyObject*)`: every object
of the node other than the source is passed to `addNeighbor`. -/
def offerNodeObjects (sqrtF : ℚ → ℚ) (alg : NeighborGroupAlg) (objs : List SpaceProxyObject)
    (src : Nat) (srcObject : SpaceObject) :
    List SpaceNeighborRelation → List Nat → Except Fault (List SpaceNeighborRelation)
  | rels, [] => .ok rels
  | rels, i :: rest =>
    if src ≠ i then
      match objs[i]? with
      | none => .error .undefinedBehaviour
      | some p =>
        match alg.createNeighbor sqrtF rels srcObject p.mSpaceObject with
        | .error e => .error e
        | .ok (_, rels') => offerNodeObjects sqrtF alg objs src srcObject rels' rest
    else offerNodeObjects sqrtF alg objs src srcObject rels rest

/-- `NTreeVisitor::calcNeighbors(NTreeNode*, SpaceProxyObject*)` for the source proxy `src`
with admission policy `alg`; `qMin`, `qMax` is the query box held in the visitor's `mMinPos`,
`mMaxPos`. The state is the tree (for the `mLastCheckedObject` marks) and the relation
vector of the source. -/
def NTreeVisitor.calcNeighborsObject (sqrtF : ℚ → ℚ) (mDim : Nat)
    (objs : List SpaceProxyObject) (alg : NeighborGroupAlg) (src : Nat)
    (srcObject : SpaceObject) (qMin qMax : Vec) :
    Nat → NTree × List SpaceNeighborRelation → Nat →
      Except Fault (NTree × List SpaceNeighborRelation)
  | 0, _, _ => .error .outOfFuel
  | fuel + 1, (tree, rels), pNode =>
    match tree.nodes[pNode]? with
    | none => .error .undefinedBehaviour
    | some node =>
      if node.mLastCheckedObject = some src then .ok (tree, rels)
      else
        let tree1 := tree.setNode pNode { node with mLastCheckedObject := some src }
        if alg.full rels then .ok (tree1, rels)
        else if (List.range mDim).any (fun i =>
            decide (qMax.getD i 0 < node.mMinPos.getD i 0) ||
              decide (qMin.getD i 0 > node.mMaxPos.getD i 0)) then .ok (tree1, rels)
        else
          let leaf : Except Fault (List SpaceNeighborRelation) :=
            if node.mChildren.getD 0 none = none then
              offerNodeObjects sqrtF alg objs src srcObject rels node.mObjects
            else .ok rels
          match leaf with
          | .error e => .error e
          | .ok rels1 =>
            let down : Except Fault (NTree × List SpaceNeighborRelation) :=
              if node.mChildren.getD 0 none ≠ none then
                (List.range (2 ^ mDim)).foldlM
                  (fun (s : NTree × List SpaceNeighborRelation) i =>
                    match node.mChildren.getD i none with
                    | none => (.error .undefinedBehaviour :
                        Except Fault (NTree × List SpaceNeighborRelation))
                    | some c =>
                      match s.1.nodes[c]? with
                      | none => .error .undefinedBehaviour
                      | some child =>
                        if child.mLastCheckedObject ≠ some src then
                          NTreeVisitor.calcNeighborsObject sqrtF mDim objs alg src srcObject
                            qMin qMax fuel s c
                        else .ok s)
                  (tree1, rels1)
              else .ok (tree1, rels1)
            match down with
            | .error e => .error e
            | .ok s2 =>
              match node.mParent with
              | none => .ok s2
              | some parent =>
                match s2.1.nodes[parent]? with
                | none => .error .undefinedBehaviour
                | some parentNode =>
                  if parentNode.mLastCheckedObject ≠ some src then
                    if (List.range mDim).all (fun i =>
                        !(decide (qMin.getD i 0 < node.mMinPos.getD i 0) ||
                          decide (qMax.getD i 0 > node.mMaxPos.getD i 0))) then .ok s2
                    else
                      NTreeVisitor.calcNeighborsObject sqrtF mDim objs alg src srcObject
                        qMin qMax fuel s2 parent
                  else .ok s2

/-- The first child (in index order) whose closed cell contains the position, as computed by
the distribution loop of `calcNeighbors(NTreeNode*, std::vector<SpaceProxyObject*>&)`;
`none` when a child pointer is null or dangling before a match is found. -/
def firstContainingChild (mDim : Nat) (tree : NTree) (node : NTreeNode) (pos : Vec) :
    List Nat → Except Fault (Option Nat)
  | [] => .ok none
  | j :: rest =>
    match node.mChildren.getD j none with
    | none => .error .undefinedBehaviour
    | some c =>
      match tree.nodes[c]? with
      | none => .error .undefinedBehaviour
      | some child =>
        if insideBox mDim pos child.mMinPos child.mMaxPos then .ok (some j)
        else firstContainingChild mDim tree node pos rest

/-- The distribution of the source proxies among the children: `childNodeObjects[j]` for
every child `j`. -/
def distributeObjects (mDim : Nat) (objs : List SpaceProxyObject) (tree : NTree)
    (node : NTreeNode) : List Nat → Except Fault (List (List Nat))
  | [] => .ok (List.replicate (2 ^ mDim) [])
  | i :: rest =>
    match firstContainingChild mDim tree node (positionOf objs i) (List.range (2 ^ mDim)) with
    | .error e => .error e
    | .ok found =>
      match distributeObjects mDim objs tree node rest with
      | .error e => .error e
      | .ok groups =>
        match found with
        | none => .ok groups
        | some j => .ok (groups.set j (i :: groups.getD j []))

/-- The body of the leaf case of `calcNeighbors(NTreeNode*, std::vector<SpaceProxyObject*>&)`
for one source proxy: query box, `removeNeighbors`, search. -/
def NTreeVisitor.calcNeighborsLeafObject (sqrtF : ℚ → ℚ) (mDim : Nat) (fuel : Nat)
    (pNode : Nat) (s : NTree × List SpaceProxyObject) (i : Nat) :
    Except Fault (NTree × List SpaceProxyObject) :=
  match s.2[i]? with
  | none => .error .undefinedBehaviour
  | some object =>
    match object.mNeighborGroup.mNeighborGroupAlg with
    | none => .error .exception
    | some alg =>
      let objectPos := object.mSpaceObject.mPosition
      let neighborRadius := alg.mNeighborRadius
      let qMin : Vec := (List.range mDim).map fun d =>
        if neighborRadius ≥ 0 then objectPos.getD d 0 - neighborRadius else -FLT_MAX
      let qMax : Vec := (List.range mDim).map fun d =>
        if neighborRadius ≥ 0 then objectPos.getD d 0 + neighborRadius else FLT_MAX
      match NTreeVisitor.calcNeighborsObject sqrtF mDim s.2 alg i object.mSpaceObject
          qMin qMax fuel (s.1, []) pNode with
      | .error e => .error e
      | .ok (tree', rels') =>
        .ok (tree', s.2.set i { object with
          mNeighborGroup := { object.mNeighborGroup with mNeighborRelations := rels' } })

/-- `NTreeVisitor::calcNeighbors(NTreeNode*, std::vector<SpaceProxyObject*>&)`. -/
def NTreeVisitor.calcNeighborsNode (sqrtF : ℚ → ℚ) (mDim : Nat) (searchFuel : Nat) :
    Nat → NTree × List SpaceProxyObject → Nat → List Nat →
      Except Fault (NTree × List SpaceProxyObject)
  | 0, _, _, _ => .error .outOfFuel
  | fuel + 1, s, pNode, pObjects =>
    match s.1.nodes[pNode]? with
    | none => .error .undefinedBehaviour
    | some node =>
      if node.mChildren.getD 0 none = none then
        pObjects.foldlM (NTreeVisitor.calcNeighborsLeafObject sqrtF mDim searchFuel pNode) s
      else
        match distributeObjects mDim s.2 s.1 node pObjects with
        | .error e => .error e
        | .ok childNodeObjects =>
          (List.range (2 ^ mDim)).foldlM
            (fun (t : NTree × List SpaceProxyObject) i =>
              match node.mChildren.getD i none with
              | none => (.error .undefinedBehaviour :
                  Except Fault (NTree × List SpaceProxyObject))
              | some c =>
                NTreeVisitor.calcNeighborsNode sqrtF mDim searchFuel fuel t c
                  (childNodeObjects.getD i []))
            s

/-- `NTreeVisitor::calcNeighbors(NTree&, std::vector<SpaceProxyObject*>&)`. -/
def NTreeVisitor.calcNeighbors (sqrtF : ℚ → ℚ) (mDim : Nat) (fuel : Nat)
    (s : NTree × List SpaceProxyObject) (pObjects : List Nat) :
    Except Fault (NTree × List SpaceProxyObject) :=
  match s.1.mRootNode with
  | none => .ok s
  | some root => NTreeVisitor.calcNeighborsNode sqrtF mDim fuel fuel s root pObjects

/-- The dimension check at the head of `NTreeAlg::updateStructure` and
`NTreeAlg::updateNeighbors`. -/
def NTreeAlg.dimMismatch (alg : NTreeAlg) (objs : List SpaceProxyObject)
    (pObjects : List Nat) : Bool :=
  match pObjects with
  | [] => false
  | i :: _ =>
    match objs[i]? with
    | none => false
    | some p => decide (p.mSpaceObject.mDim ≠ alg.mMinPos.length)

/-- `NTreeAlg::updateStructure`. -/
def NTreeAlg.updateStructure (alg : NTreeAlg) (objs : List SpaceProxyObject) (fuel : Nat)
    (pObjects : List Nat) : Except Fault NTreeAlg :=
  if alg.dimMismatch objs pObjects then .error .exception
  else
    match NTreeVisitor.updateTree alg.mDim objs fuel alg.mTree pObjects with
    | .error e => .error e
    | .ok tree => .ok { alg with mTree := tree }

/-- `NTreeAlg::updateNeighbors`. -/
def NTreeAlg.updateNeighbors (sqrtF : ℚ → ℚ) (alg : NTreeAlg) (objs : List SpaceProxyObject)
    (fuel : Nat) (pObjects : List Nat) : Except Fault (NTreeAlg × List SpaceProxyObject) :=
  if alg.dimMismatch objs pObjects then .error .exception
  else
    match NTreeVisitor.calcNeighbors sqrtF alg.mDim fuel (alg.mTree, objs) pObjects with
    | .error e => .error e
    | .ok (tree, objs') => .ok ({ alg with mTree := tree }, objs')

/-- `NTreeAlg::resize` (with `SpaceAlg::resize`, `NTree::resize` and `clearTree`). -/
def NTreeAlg.resize (alg : NTreeAlg) (pMinPos pMaxPos : Vec) : Except Fault NTreeAlg :=
  if pMinPos.length ≠ alg.mMinPos.length then .error .exception
  else if pMaxPos.length ≠ alg.mMaxPos.length then .error .exception
  else if alg.mFixedSize then .error .exception
  else if (List.range alg.mMaxPos.length).any
      (fun d => decide (pMinPos.getD d 0 > pMaxPos.getD d 0)) then .error .exception
  else
    .ok { alg with
      mMinPos := pMinPos
      mMaxPos := pMaxPos
      mTree := { alg.mTree with mMinPos := pMinPos, mMaxPos := pMaxPos, mRootNode := none } }

/-- The classification loop of `Space::updateObjects` for a fixed-size algorithm: the visible
and the neighbor-capable proxies, in proxy order. -/
def classifyFixed (minPos maxPos : Vec) (objs : List SpaceProxyObject) :
    List Nat × List Nat :=
  let dim := minPos.length
  let within := (List.range objs.length).filter fun i =>
    insideBox dim (positionOf objs i) minPos maxPos
  (within.filter fun i => visibleOf objs i,
   within.filter fun i =>
    match objs[i]? with
    | none => false
    | some p =>
      p.canHaveNeighbors &&
        (match p.mNeighborGroup.mNeighborGroupAlg with
         | none => false
         | some a => decide (a.mMaxNeighborCount > 0)))

/-- The loop of `Space::updateObjects` for an algorithm that is not fixed-size: the running
bounds and the two vectors. -/
def classifyFree (minPos maxPos : Vec) (objs : List SpaceProxyObject) :
    Vec × Vec × List Nat × List Nat :=
  let dim := minPos.length
  let bounds := objs.foldl
    (fun (b : Vec × Vec) p =>
      ((List.range dim).map fun d =>
          if b.1.getD d 0 > p.mSpaceObject.mPosition.getD d 0 then
            p.mSpaceObject.mPosition.getD d 0 else b.1.getD d 0,
       (List.range dim).map fun d =>
          if b.2.getD d 0 < p.mSpaceObject.mPosition.getD d 0 then
            p.mSpaceObject.mPosition.getD d 0 else b.2.getD d 0))
    (minPos, maxPos)
  (bounds.1, bounds.2,
   (List.range objs.length).filter (fun i => visibleOf objs i),
   (List.range objs.length).filter fun i =>
    match objs[i]? with
    | none => false
    | some p => p.canHaveNeighbors)

/-- `Space::updateObjects`. -/
def Space.updateObjects (space : Space) : Except Fault Space :=
  let alg := space.mSpaceAlg
  if alg.mFixedSize then
    let c := classifyFixed alg.mMinPos alg.mMaxPos space.mObjects
    .ok { space with mVisibleObjects := c.1, mNeighborObjects := c.2 }
  else
    let c := classifyFree alg.mMinPos alg.mMaxPos space.mObjects
    if c.1 ≠ alg.mMinPos ∨ c.2.1 ≠ alg.mMaxPos then
      match alg.resize c.1 c.2.1 with
      | .error e => .error e
      | .ok alg' =>
        .ok { space with
          mSpaceAlg := alg', mVisibleObjects := c.2.2.1, mNeighborObjects := c.2.2.2 }
    else .ok { space with mVisibleObjects := c.2.2.1, mNeighborObjects := c.2.2.2 }

/-- `Space::update`: classification, structure phase, neighbor phase. -/
def Space.update (sqrtF : ℚ → ℚ) (fuel : Nat) (space : Space) : Except Fault Space :=
  match space.updateObjects with
  | .error e => .error e
  | .ok s1 =>
    match s1.mSpaceAlg.updateStructure s1.mObjects fuel s1.mVisibleObjects with
    | .error e => .error e
    | .ok alg1 =>
      match alg1.updateNeighbors sqrtF s1.mObjects fuel s1.mNeighborObjects with
      | .error e => .error e
      | .ok (alg2, objs2) => .ok { s1 with mSpaceAlg := alg2, mObjects := objs2 }

/-- The targets of the relations stored for the proxy `i`. -/
def neighborsOf (space : Space) (i : Nat) : List Nat :=
  match space.mObjects[i]? with
  | none => []
  | some p => p.mNeighborGroup.mNeighborRelations.map SpaceNeighborRelation.mNeighborObject

/-! ## Scenario data -/

/-- A one-dimensional bounded N-tree space over [0, 16] before its first update: the proxy
0 at position 1 with policy radius 16, cap 2, replace mode; the proxies 1 and 2 at the
positions 8 (the midpoint of the root cell) and 11, without a policy; all three visible. -/
def midpointSpace : Space :=
  { mSpaceAlg :=
      { mMinPos := [0], mMaxPos := [16], mFixedSize := true
        mTree := { mMaxDepth := 3, mMinObjectCount := -1, mMinPos := [0], mMaxPos := [16]
                   mRootNode := none, nodes := [] }
        mDim := 1 }
    mObjects :=
      [⟨⟨0, 1, [1]⟩, ⟨true, some ⟨16, 2, true, 1⟩, []⟩⟩,
       ⟨⟨1, 1, [8]⟩, ⟨true, none, []⟩⟩,
       ⟨⟨2, 1, [11]⟩, ⟨true, none, []⟩⟩]
    mVisibleObjects := []
    mNeighborObjects := [] }

/-- The spec scenario "cap and replace" placed in the plane: a bounded N-tree space over
[-1, 1] x [-1, 1] before its first update, the source proxy 0 at the origin with policy
radius 1, cap 2, replace mode, and the proxies 1 to 4 at (0.1, 0), (0.2, 0), (0.3, 0),
(0.4, 0) without a policy; all visible. -/
def scenarioPlaneSpace : Space :=
  { mSpaceAlg :=
      { mMinPos := [-1, -1], mMaxPos := [1, 1], mFixedSize := true
        mTree := { mMaxDepth := 3, mMinObjectCount := -1, mMinPos := [-1, -1]
                   mMaxPos := [1, 1], mRootNode := none, nodes := [] }
        mDim := 2 }
    mObjects :=
      [⟨⟨0, 2, [0, 0]⟩, ⟨true, some ⟨1, 2, true, 2⟩, []⟩⟩,
       ⟨⟨1, 2, [1 / 10, 0]⟩, ⟨true, none, []⟩⟩,
       ⟨⟨2, 2, [2 / 10, 0]⟩, ⟨true, none, []⟩⟩,
       ⟨⟨3, 2, [3 / 10, 0]⟩, ⟨true, none, []⟩⟩,
       ⟨⟨4, 2, [4 / 10, 0]⟩, ⟨true, none, []⟩⟩]
    mVisibleObjects := []
    mNeighborObjects := [] }

/-- The same scenario on the line: a bounded N-tree space over [0, 1], the source at 0, the
candidates at 0.1, 0.2, 0.3, 0.4. -/
def scenarioLineSpace : Space :=
  { mSpaceAlg :=
      { mMinPos := [0], mMaxPos := [1], mFixedSize := true
        mTree := { mMaxDepth := 3, mMinObjectCount := -1, mMinPos := [0], mMaxPos := [1]
                   mRootNode := none, nodes := [] }
        mDim := 1 }
    mObjects :=
      [⟨⟨0, 1, [0]⟩, ⟨true, some ⟨1, 2, true, 1⟩, []⟩⟩,
       ⟨⟨1, 1, [1 / 10]⟩, ⟨true, none, []⟩⟩,
       ⟨⟨2, 1, [2 / 10]⟩, ⟨true, none, []⟩⟩,
       ⟨⟨3, 1, [3 / 10]⟩, ⟨true, none, []⟩⟩,
       ⟨⟨4, 1, [4 / 10]⟩, ⟨true, none, []⟩⟩]
    mVisibleObjects := []
    mNeighborObjects := [] }

/-- A bounded one-dimensional N-tree space over [0, 1] before its first update: the proxy 0
at position 1/2 with policy radius 1, cap -1 (no limit), no replace mode; the proxy 1 at
position 3/4 without a policy; both visible. -/
def unboundedCapSpace : Space :=
  { mSpaceAlg :=
      { mMinPos := [0], mMaxPos := [1], mFixedSize := true
        mTree := { mMaxDepth := 3, mMinObjectCount := -1, mMinPos := [0], mMaxPos := [1]
                   mRootNode := none, nodes := [] }
        mDim := 1 }
    mObjects :=
      [⟨⟨0, 1, [1 / 2]⟩, ⟨true, some ⟨1, -1, false, 1⟩, []⟩⟩,
       ⟨⟨1, 1, [3 / 4]⟩, ⟨true, none, []⟩⟩]
    mVisibleObjects := []
    mNeighborObjects := [] }

/-- The space `unboundedCapSpace` with the proxy 0 made invisible and given the cap 1. -/
def invisibleSourceSpace : Space :=
  { unboundedCapSpace with
    mObjects :=
      [⟨⟨0, 1, [1 / 2]⟩, ⟨false, some ⟨1, 1, false, 1⟩, []⟩⟩,
       ⟨⟨1, 1, [3 / 4]⟩, ⟨true, none, []⟩⟩] }

/-- One round of the inner loop of the unbounded branch of `Space::updateObjects`: the running
bounds after looking at the position of one proxy. -/
def growBounds (dim : Nat) (b : Vec × Vec) (p : SpaceProxyObject) : Vec × Vec :=
  ((List.range dim).map fun d =>
      if b.1.getD d 0 > p.mSpaceObject.mPosition.getD d 0 then
        p.mSpaceObject.mPosition.getD d 0 else b.1.getD d 0,
   (List.range dim).map fun d =>
      if b.2.getD d 0 < p.mSpaceObject.mPosition.getD d 0 then
        p.mSpaceObject.mPosition.getD d 0 else b.2.getD d 0)

/-! ## PermanentNeighborsAlg -/

/-- A `PermanentNeighborsAlg`: the `SpaceAlg` header, to which the class adds no field. -/
structure PermanentNeighborsAlg where
  mMinPos : Vec
  mMaxPos : Vec
  mFixedSize : Bool
deriving DecidableEq, Repr

/-- A `Space` whose algorithm is a `PermanentNeighborsAlg`. -/
structure PermanentSpace where
  mSpaceAlg : PermanentNeighborsAlg
  mObjects : List SpaceProxyObject
  mVisibleObjects : List Nat
  mNeighborObjects : List Nat
deriving DecidableEq, Repr

/-- `SpaceAlg::resize`, which `PermanentNeighborsAlg` inherits. -/
def PermanentNeighborsAlg.resize (alg : PermanentNeighborsAlg) (pMinPos pMaxPos : Vec) :
    Except Fault PermanentNeighborsAlg :=
  if alg.mFixedSize then .error .exception
  else if alg.mMinPos.length ≠ pMinPos.length then .error .exception
  else if alg.mMaxPos.length ≠ pMaxPos.length then .error .exception
  else if (List.range alg.mMaxPos.length).any
      (fun d => decide (pMinPos.getD d 0 > pMaxPos.getD d 0)) then .error .exception
  else .ok { alg with mMinPos := pMinPos, mMaxPos := pMaxPos }

/-- The body of the inner loop of `PermanentNeighborsAlg::updateNeighbors` for the relation
`r` of the proxy of `object`. `heap` resolves an object pointer (an id) to the object it
points to. `direction` is an `Eigen::Vector3f`: assigning the difference of the two
positions to it requires both to have three rows. `setDirection` throws when the stored
direction has another number of rows than its argument. -/
def PermanentNeighborsAlg.updateRelation (sqrtF : ℚ → ℚ) (heap : Nat → Option SpaceObject)
    (object : SpaceObject) (r : SpaceNeighborRelation) : Except Fault SpaceNeighborRelation :=
  match heap r.mNeighborObject with
  | none => .error .undefinedBehaviour
  | some neighbor =>
    if neighbor.mPosition.length ≠ object.mPosition.length then .error .undefinedBehaviour
    else if object.mPosition.length ≠ 3 then .error .undefinedBehaviour
    else
      let direction : Vec := List.zipWith (fun a b => a - b) neighbor.mPosition object.mPosition
      let distance := distanceOf sqrtF direction
      if r.mDirection.length ≠ direction.length then .error .exception
      else .ok { r with mDirection := direction, mDistance := distance }

/-- The inner loop of `PermanentNeighborsAlg::updateNeighbors`: the relations of one proxy,
in their order. -/
def PermanentNeighborsAlg.updateRelations (sqrtF : ℚ → ℚ) (heap : Nat → Option SpaceObject)
    (object : SpaceObject) : List SpaceNeighborRelation →
      Except Fault (List SpaceNeighborRelation)
  | [] => .ok []
  | r :: rest =>
    match PermanentNeighborsAlg.updateRelation sqrtF heap object r with
    | .error e => .error e
    | .ok r' =>
      match PermanentNeighborsAlg.updateRelations sqrtF heap object rest with
      | .error e => .error e
      | .ok rest' => .ok (r' :: rest')

/-- `PermanentNeighborsAlg::updateNeighbors`. The local `Eigen::Vector3f direction(dim)` is
constructed with the dimension of the space, which a vector of fixed size three accepts
for `dim = 3` only. -/
def PermanentNeighborsAlg.updateNeighbors (sqrtF : ℚ → ℚ) (heap : Nat → Option SpaceObject)
    (alg : PermanentNeighborsAlg) (objs : List SpaceProxyObject) (pObjects : List Nat) :
    Except Fault (List SpaceProxyObject) :=
  if alg.mMinPos.length ≠ 3 then .error .undefinedBehaviour
  else
    pObjects.foldlM
      (fun (cur : List SpaceProxyObject) i =>
        match cur[i]? with
        | none => (.error .undefinedBehaviour : Except Fault (List SpaceProxyObject))
        | some object =>
          if object.canHaveNeighbors then
            match PermanentNeighborsAlg.updateRelations sqrtF heap object.mSpaceObject
                object.mNeighborGroup.mNeighborRelations with
            | .error e => .error e
            | .ok rels' =>
              .ok (cur.set i { object with
                mNeighborGroup := { object.mNeighborGroup with mNeighborRelations := rels' } })
          else .ok cur)
      objs

/-- `Space::updateObjects` for a space with a `PermanentNeighborsAlg`. -/
def PermanentSpace.updateObjects (space : PermanentSpace) : Except Fault PermanentSpace :=
  let alg := space.mSpaceAlg
  if alg.mFixedSize then
    let c := classifyFixed alg.mMinPos alg.mMaxPos space.mObjects
    .ok { space with mVisibleObjects := c.1, mNeighborObjects := c.2 }
  else
    let c := classifyFree alg.mMinPos alg.mMaxPos space.mObjects
    if c.1 ≠ alg.mMinPos ∨ c.2.1 ≠ alg.mMaxPos then
      match alg.resize c.1 c.2.1 with
      | .error e => .error e
      | .ok alg' =>
        .ok { space with
          mSpaceAlg := alg', mVisibleObjects := c.2.2.1, mNeighborObjects := c.2.2.2 }
    else .ok { space with mVisibleObjects := c.2.2.1, mNeighborObjects := c.2.2.2 }

/-- `Space::update` for a space with a `PermanentNeighborsAlg`: classification, the empty
`SpaceAlg::updateStructure`, neighbor phase. -/
def PermanentSpace.update (sqrtF : ℚ → ℚ) (heap : Nat → Option SpaceObject)
    (space : PermanentSpace) : Except Fault PermanentSpace :=
  match space.updateObjects with
  | .error e => .error e
  | .ok s1 =>
    match s1.mSpaceAlg.updateNeighbors sqrtF heap s1.mObjects s1.mNeighborObjects with
    | .error e => .error e
    | .ok objs2 => .ok { s1 with mObjects := objs2 }

/-- The objects of the proxies of a space, by id: the object store in which the relation
targets of the scenarios are looked up. -/
def heapOf (objs : List SpaceProxyObject) (id : Nat) : Option SpaceObject :=
  (objs.find? fun p => p.mSpaceObject.mId = id).map SpaceProxyObject.mSpaceObject

/-- The spec scenario "permanent neighbors": an unbounded three-dimensional space with
`PermanentNeighborsAlg`, A at (0,0,0) and B at (3,4,0), one authored relation A->B with
placeholder value, direction (1,0,0) and distance 1. The policy of A has no radius limit
and cap 4. -/
def permanentScenarioSpace : PermanentSpace :=
  { mSpaceAlg := { mMinPos := [0, 0, 0], mMaxPos := [0, 0, 0], mFixedSize := false }
    mObjects :=
      [⟨⟨0, 3, [0, 0, 0]⟩, ⟨true, some ⟨-1, 4, false, 3⟩, [⟨0, 1, [1, 0, 0], [1, 0, 0], 1⟩]⟩⟩,
       ⟨⟨1, 3, [3, 4, 0]⟩, ⟨true, none, []⟩⟩]
    mVisibleObjects := []
    mNeighborObjects := [] }

/-- The same scenario in the plane: A at (0,0), B at (3,4), one authored relation A->B with
placeholder direction (1,0) and distance 1. -/
def permanentPlaneSpace : PermanentSpace :=
  { mSpaceAlg := { mMinPos := [0, 0], mMaxPos := [0, 0], mFixedSize := false }
    mObjects :=
      [⟨⟨0, 2, [0, 0]⟩, ⟨true, some ⟨-1, 4, false, 2⟩, [⟨0, 1, [1, 0], [1, 0], 1⟩]⟩⟩,
       ⟨⟨1, 2, [3, 4]⟩, ⟨true, none, []⟩⟩]
    mVisibleObjects := []
    mNeighborObjects := [] }

/-- The space `scenarioLineSpace` with an unbounded algorithm whose current bounds are
[0, 1/4]. -/
def unboundedLineSpace : Space :=
  { scenarioLineSpace with
    mSpaceAlg :=
      { mMinPos := [0], mMaxPos := [1 / 4], mFixedSize := false
        mTree := { mMaxDepth := 3, mMinObjectCount := -1, mMinPos := [0], mMaxPos := [1 / 4]
                   mRootNode := none, nodes := [] }
        mDim := 1 } }

/-! ## Space::addObject and the addNeighbor entry points -/

/-- `Space::checkObject`: the object pointer is compared with the object pointers of the
proxies. -/
def checkObject (mObjects : List SpaceProxyObject) (pSpaceObject : SpaceObject) : Bool :=
  mObjects.any fun p => decide (p.mSpaceObject.mId = pSpaceObject.mId)

/-- The body of `Space::addObject` on the proxy vector `mObjects` of a space of dimension
`dim`, returning the outcome of the call together with the proxy vector and the neighbor
registry of the object after it. The registry (`Neighbors::mNeighborGroups`) is an
`IndexMap` of the base library; its `add` is the parameter `add`, which either returns the
registry with the new group stored or throws (`none`), the registry being as before. The
`NeighborGroup` constructor calls `setNeighborGroup`, which resizes the helper vector of the
policy to the dimension of the space. -/
def addObjectTo {R : Type} (add : R → Option R) (dim : Nat) (mObjects : List SpaceProxyObject)
    (registry : R) (pObject : SpaceObject) (pVisible : Bool)
    (pNeighborGroupAlg : Option NeighborGroupAlg) :
    Except Fault Unit × List SpaceProxyObject × R :=
  if pObject.mDim ≠ dim then (.error .exception, mObjects, registry)
  else if checkObject mObjects pObject then (.error .exception, mObjects, registry)
  else
    let neighborGroup : NeighborGroup :=
      { mVisible := pVisible
        mNeighborGroupAlg :=
          pNeighborGroupAlg.map fun a => { a with mNeighborDirectionRows := dim }
        mNeighborRelations := [] }
    match add registry with
    | none => (.error .exception, mObjects, registry)
    | some registry' => (.ok (), mObjects ++ [⟨pObject, neighborGroup⟩], registry')

/-- `Space::addObject` for a space with an `NTreeAlg`. -/
def Space.addObject {R : Type} (add : R → Option R) (space : Space) (registry : R)
    (pObject : SpaceObject) (pVisible : Bool) (pNeighborGroupAlg : Option NeighborGroupAlg) :
    Except Fault Unit × Space × R :=
  let r := addObjectTo add space.mSpaceAlg.mMinPos.length space.mObjects registry pObject
    pVisible pNeighborGroupAlg
  (r.1, { space with mObjects := r.2.1 }, r.2.2)

/-- `Space::addObject` for a space with a `PermanentNeighborsAlg`. -/
def PermanentSpace.addObject {R : Type} (add : R → Option R) (space : PermanentSpace)
    (registry : R) (pObject : SpaceObject) (pVisible : Bool)
    (pNeighborGroupAlg : Option NeighborGroupAlg) : Except Fault Unit × PermanentSpace × R :=
  let r := addObjectTo add space.mSpaceAlg.mMinPos.length space.mObjects registry pObject
    pVisible pNeighborGroupAlg
  (r.1, { space with mObjects := r.2.1 }, r.2.2)

/-- `SpaceProxyObject::addNeighbor(SpaceObject*)`. -/
def SpaceProxyObject.addNeighbor (sqrtF : ℚ → ℚ) (p : SpaceProxyObject)
    (pNeighborObject : SpaceObject) : Except Fault (Bool × SpaceProxyObject) :=
  match p.mNeighborGroup.mNeighborGroupAlg with
  | none => .error .exception
  | some alg =>
    match alg.createNeighbor sqrtF p.mNeighborGroup.mNeighborRelations p.mSpaceObject
        pNeighborObject with
    | .error e => .error e
    | .ok (b, rels) =>
      .ok (b, { p with mNeighborGroup := { p.mNeighborGroup with mNeighborRelations := rels } })

/-- `SpaceProxyObject::addNeighbor(SpaceObject*, float, const VectorXf&)`. -/
def SpaceProxyObject.addNeighborDistDir (p : SpaceProxyObject) (pNeighborObject : SpaceObject)
    (pDistance : ℚ) (pDirection : Vec) : Except Fault (Bool × SpaceProxyObject) :=
  match p.mNeighborGroup.mNeighborGroupAlg with
  | none => .error .exception
  | some alg =>
    match alg.createNeighborDistDir p.mNeighborGroup.mNeighborRelations p.mSpaceObject
        pNeighborObject pDistance pDirection with
    | .error e => .error e
    | .ok (b, rels) =>
      .ok (b, { p with mNeighborGroup := { p.mNeighborGroup with mNeighborRelations := rels } })

/-- `SpaceProxyObject::addNeighbor(SpaceObject*, const VectorXf&, const VectorXf&, float)`. -/
def SpaceProxyObject.addNeighborValueDirDist (p : SpaceProxyObject)
    (pNeighborObject : SpaceObject) (pValue pDirection : Vec) (pDistance : ℚ) :
    Except Fault (Bool × SpaceProxyObject) :=
  match p.mNeighborGroup.mNeighborGroupAlg with
  | none => .error .exception
  | some alg =>
    match alg.createNeighborValueDirDist p.mNeighborGroup.mNeighborRelations p.mSpaceObject
        pNeighborObject pValue pDirection pDistance with
    | .error e => .error e
    | .ok (b, rels) =>
      .ok (b, { p with mNeighborGroup := { p.mNeighborGroup with mNeighborRelations := rels } })

/-- No object has two proxies in the vector. -/
def DistinctObjects (mObjects : List SpaceProxyObject) : Prop :=
  (mObjects.map fun p => p.mSpaceObject.mId).Nodup

/-- Every proxy's object has the dimension `dim`. -/
def AllOfDim (dim : Nat) (mObjects : List SpaceProxyObject) : Prop :=
  ∀ p ∈ mObjects, p.mSpaceObject.mDim = dim

/-- What the neighbor phase of the permanent-neighbors algorithm does to the proxy `p` when
it yields `p'`: everything but the relation vector is kept, and the relation vector is
recomputed when the proxy is listed in `pObjects` and can have neighbors, kept otherwise. -/
def PermanentUpdated (sqrtF : ℚ → ℚ) (heap : Nat → Option SpaceObject) (pObjects : List Nat)
    (k : Nat) (p p' : SpaceProxyObject) : Prop :=
  p'.mSpaceObject = p.mSpaceObject ∧ p'.mNeighborGroup.mVisible = p.mNeighborGroup.mVisible ∧
    p'.mNeighborGroup.mNeighborGroupAlg = p.mNeighborGroup.mNeighborGroupAlg ∧
    ((k ∈ pObjects ∧ p.canHaveNeighbors = true →
        PermanentNeighborsAlg.updateRelations sqrtF heap p.mSpaceObject
          p.mNeighborGroup.mNeighborRelations = .ok p'.mNeighborGroup.mNeighborRelations) ∧
      (¬ (k ∈ pObjects ∧ p.canHaveNeighbors = true) →
        p'.mNeighborGroup.mNeighborRelations = p.mNeighborGroup.mNeighborRelations))

/-- A bounded three-dimensional space with `PermanentNeighborsAlg` over [0,1]^3: A at
(0,0,0), inside the bounds, B at (0,0,-1), outside; both with a policy without radius limit
and cap 4; the authored relations A->B and B->A both carry the placeholder direction (1,1,1)
and distance 7. -/
def boundedPermanentSpace : PermanentSpace :=
  { mSpaceAlg := { mMinPos := [0, 0, 0], mMaxPos := [1, 1, 1], mFixedSize := true }
    mObjects :=
      [⟨⟨0, 3, [0, 0, 0]⟩, ⟨true, some ⟨-1, 4, false, 3⟩, [⟨0, 1, [1, 1, 1], [1, 1, 1], 7⟩]⟩⟩,
       ⟨⟨1, 3, [0, 0, -1]⟩, ⟨true, some ⟨-1, 4, false, 3⟩, [⟨1, 0, [1, 1, 1], [1, 1, 1], 7⟩]⟩⟩]
    mVisibleObjects := []
    mNeighborObjects := [] }

/-- An unbounded three-dimensional space with `PermanentNeighborsAlg`: A at (0,0,0) with
the authored relations A->B and A->C, in this order, carrying the distances 1/2 and 2; B
is now at (1,0,0) and C at the position of A. -/
def movedPermanentSpace : PermanentSpace :=
  { mSpaceAlg := { mMinPos := [0, 0, 0], mMaxPos := [1, 0, 0], mFixedSize := false }
    mObjects :=
      [⟨⟨0, 3, [0, 0, 0]⟩, ⟨true, some ⟨-1, 4, false, 3⟩,
          [⟨0, 1, [1 / 2, 0, 0], [1 / 2, 0, 0], 1 / 2⟩, ⟨0, 2, [2, 0, 0], [2, 0, 0], 2⟩]⟩⟩,
       ⟨⟨1, 3, [1, 0, 0]⟩, ⟨true, none, []⟩⟩,
       ⟨⟨2, 3, [0, 0, 0]⟩, ⟨true, none, []⟩⟩]
    mVisibleObjects := []
    mNeighborObjects := [] }

/-- The space `boundedPermanentSpace` with an unbounded algorithm whose current bounds
contain both proxies. -/
def unboundedPairSpace : PermanentSpace :=
  { boundedPermanentSpace with
    mSpaceAlg := { mMinPos := [0, 0, -1], mMaxPos := [0, 0, 0], mFixedSize := false } }

/-- No relation of the vector has the object `owner` as its target. -/
def NoRelationTo (owner : Nat) (rels : List SpaceNeighborRelation) : Prop :=
  ∀ r ∈ rels, r.mNeighborObject ≠ owner

/-- No neighbor group of the proxy vector holds a relation whose target is the object that
owns the group. -/
def NoSelfRelation (mObjects : List SpaceProxyObject) : Prop :=
  ∀ p ∈ mObjects, NoRelationTo p.mSpaceObject.mId p.mNeighborGroup.mNeighborRelations

/-- The proxy without its relations: what the tree code and the classification read of
it. -/
def SpaceProxyObject.withoutRelations (p : SpaceProxyObject) : SpaceProxyObject :=
  { p with mNeighborGroup := { p.mNeighborGroup with mNeighborRelations := [] } }

/-- The hypotheses under which the neighbor phase of the N-tree establishes a property `Q`
of relation vectors. `objs0` is the proxy vector at the start of the phase; `I` is an
invariant of the tree that changes of the `mLastCheckedObject` marks preserve; `N` holds of
the nodes the search may reach and `T` of the proxies stored in them; `Q src` holds of the
empty vector and is preserved by the first entry point for the source `src` and a target
satisfying `T`; `Cov n k` says that the distribution of the source `k` at the inner node
`n` finds a child `c`, for which `Cov c k` holds again. -/
structure SearchInv (sqrtF : ℚ → ℚ) (mDim : Nat) (objs0 : List SpaceProxyObject)
    (I : NTree → Prop) (N : Nat → Prop) (T : Nat → Prop)
    (Q : Nat → List SpaceNeighborRelation → Prop) (Cov : Nat → Nat → Prop) : Prop where
  mark : ∀ (tree : NTree) (n : Nat) (node : NTreeNode) (m : Option Nat), I tree → N n →
    tree.nodes[n]? = some node → I (tree.setNode n { node with mLastCheckedObject := m })
  objects : ∀ (tree : NTree) (n : Nat) (node : NTreeNode) (i : Nat), I tree → N n →
    tree.nodes[n]? = some node → i ∈ node.mObjects → T i
  child : ∀ (tree : NTree) (n : Nat) (node : NTreeNode) (j c : Nat), I tree → N n →
    tree.nodes[n]? = some node → node.mChildren.getD j none = some c → N c
  parent : ∀ (tree : NTree) (n : Nat) (node : NTreeNode) (p : Nat), I tree → N n →
    tree.nodes[n]? = some node → node.mParent = some p → N p
  empty : ∀ src, Q src []
  step : ∀ (src : Nat) (p : SpaceProxyObject) (alg : NeighborGroupAlg)
    (rels : List SpaceNeighborRelation) (i : Nat) (q : SpaceProxyObject) (b : Bool)
    (rels' : List SpaceNeighborRelation),
    (objs0[src]?).map SpaceProxyObject.withoutRelations = some p.withoutRelations →
    p.mNeighborGroup.mNeighborGroupAlg = some alg →
    (objs0[i]?).map SpaceProxyObject.withoutRelations = some q.withoutRelations →
    src ≠ i → T i → Q src rels →
    alg.createNeighbor sqrtF rels p.mSpaceObject q.mSpaceObject = .ok (b, rels') →
    Q src rels'
  cover : ∀ (tree : NTree) (n : Nat) (node : NTreeNode) (k : Nat), I tree → N n →
    tree.nodes[n]? = some node → node.mChildren.getD 0 none ≠ none → Cov n k →
    ∃ j c, j < 2 ^ mDim ∧
      firstContainingChild mDim tree node (positionOf objs0 k) (List.range (2 ^ mDim))
        = .ok (some j) ∧
      node.mChildren.getD j none = some c ∧ Cov c k

/-- Between two proxy vectors only relation vectors differ, and every proxy of the second
either satisfies `Q` or is as in the first. -/
def Progress (Q : Nat → List SpaceNeighborRelation → Prop)
    (objs objs' : List SpaceProxyObject) : Prop :=
  objs'.map SpaceProxyObject.withoutRelations = objs.map SpaceProxyObject.withoutRelations ∧
    ∀ k p', objs'[k]? = some p' →
      Q k p'.mNeighborGroup.mNeighborRelations ∨ objs[k]? = some p'

/-- The relation vector of the proxy `k` satisfies `Q`. -/
def Done (Q : Nat → List SpaceNeighborRelation → Prop) (k : Nat)
    (objs : List SpaceProxyObject) : Prop :=
  ∀ p, objs[k]? = some p → Q k p.mNeighborGroup.mNeighborRelations

/-- The space after `Space::update`; the space itself when the update does not return. -/
def Space.updated (sqrtF : ℚ → ℚ) (fuel : Nat) (space : Space) : Space :=
  match space.update sqrtF fuel with
  | .ok s => s
  | .error _ => space

/-- The values of the square root that the scenarios on the line need: the square roots of
1/100, 1/25, 9/100 and 4/25. -/
def scenarioSqrt : ℚ → ℚ :=
  fun x => if x = 1 / 100 then 1 / 10 else if x = 1 / 25 then 1 / 5
    else if x = 9 / 100 then 3 / 10 else 2 / 5

/-- Invariant of the node store of an N-tree of dimension `mDim`, up to the nodes in `P`:
every node has `2 ^ mDim` child pointers, all null or none null; a child pointer leads to a
node whose parent pointer leads back, one level deeper, with the cell `childBounds` gives;
and the objects of the child of a node outside `P` are objects of that node. -/
structure NodesOK (mDim : Nat) (P : Nat → Prop) (tree : NTree) : Prop where
  length : ∀ (n : Nat) (node : NTreeNode), tree.nodes[n]? = some node → node.mChildren.length = 2 ^ mDim
  shape : ∀ (n : Nat) (node : NTreeNode), tree.nodes[n]? = some node → node.mChildren.getD 0 none ≠ none →
    ∀ j, j < 2 ^ mDim → node.mChildren.getD j none ≠ none
  link : ∀ (n : Nat) (node : NTreeNode) (j c : Nat), tree.nodes[n]? = some node → node.mChildren.getD j none = some c →
    ∃ child : NTreeNode, tree.nodes[c]? = some child ∧ child.mParent = some n ∧
      child.mLevel = node.mLevel + 1 ∧
      child.mMinPos = (childBounds mDim node.mMinPos node.mMaxPos j).1 ∧
      child.mMaxPos = (childBounds mDim node.mMinPos node.mMaxPos j).2
  objects : ∀ (n : Nat) (node : NTreeNode) (j c : Nat) (child : NTreeNode), ¬ P n → tree.nodes[n]? = some node →
    node.mChildren.getD j none = some c → tree.nodes[c]? = some child →
    ∀ i ∈ child.mObjects, i ∈ node.mObjects

/-- What the structure phase keeps when it leads from `tree` to `tree'`: the header of the
tree, and of every node that exists its parent pointer, level and cell, and its objects when
its level is at most `level`. -/
structure Stable (tree tree' : NTree) (level : Nat) : Prop where
  root : tree'.mRootNode = tree.mRootNode
  minPos : tree'.mMinPos = tree.mMinPos
  maxPos : tree'.mMaxPos = tree.mMaxPos
  nodes : ∀ (m : Nat) (node : NTreeNode), tree.nodes[m]? = some node →
    ∃ node' : NTreeNode, tree'.nodes[m]? = some node' ∧ node'.mParent = node.mParent ∧
      node'.mLevel = node.mLevel ∧ node'.mMinPos = node.mMinPos ∧
      node'.mMaxPos = node.mMaxPos ∧ (node.mLevel ≤ level → node'.mObjects = node.mObjects)

/-- Invariant of an N-tree between two updates: the node store is in order throughout, and
the root node, when there is one, has no parent and the bounds of the tree as its cell. -/
structure TreeOK (mDim : Nat) (tree : NTree) : Prop where
  nodes : NodesOK mDim (fun _ => False) tree
  root : ∀ r : Nat, tree.mRootNode = some r →
    ∃ node : NTreeNode, tree.nodes[r]? = some node ∧ node.mParent = none ∧
      node.mMinPos = tree.mMinPos ∧ node.mMaxPos = tree.mMaxPos

/-- The node without its `mLastCheckedObject` mark. -/
def NTreeNode.withoutMark (x : NTreeNode) : NTreeNode :=
  { x with mLastCheckedObject := none }

/-- The nodes reachable from the root of the tree through child pointers. -/
inductive Reach (tree : NTree) : Nat → Prop
  | root (r : Nat) : tree.mRootNode = some r → Reach tree r
  | child (n : Nat) (node : NTreeNode) (j c : Nat) : Reach tree n →
      tree.nodes[n]? = some node → node.mChildren.getD j none = some c → Reach tree c

/-- Every relation of the vector of the source `src` has as target the object of a proxy of
`V` other than the source. -/
def TargetsIn (objs : List SpaceProxyObject) (V : List Nat) (src : Nat)
    (rels : List SpaceNeighborRelation) : Prop :=
  ∀ r ∈ rels, ∃ (j : Nat) (q : SpaceProxyObject), j ∈ V ∧ j ≠ src ∧ objs[j]? = some q ∧
    q.mSpaceObject.mId = r.mNeighborObject

/-- The tree `tree` is the tree `T0` up to the `mLastCheckedObject` marks of the nodes
reachable from the root. -/
def SameTree (T0 tree : NTree) : Prop :=
  tree.nodes.map NTreeNode.withoutMark = T0.nodes.map NTreeNode.withoutMark ∧
    tree.mRootNode = T0.mRootNode ∧ tree.mMinPos = T0.mMinPos ∧ tree.mMaxPos = T0.mMaxPos ∧
    tree.mMaxDepth = T0.mMaxDepth ∧ tree.mMinObjectCount = T0.mMinObjectCount ∧
    ∀ m : Nat, ¬ Reach T0 m → tree.nodes[m]? = T0.nodes[m]?

/-- Invariant of a space with an N-tree between two updates: the tree is in order, its
bounds are those of the algorithm, and the visitor, `minPos` and `maxPos` have the dimension
of the space. -/
structure SpaceOK (space : Space) : Prop where
  tree : TreeOK space.mSpaceAlg.mDim space.mSpaceAlg.mTree
  minPos : space.mSpaceAlg.mTree.mMinPos = space.mSpaceAlg.mMinPos
  maxPos : space.mSpaceAlg.mTree.mMaxPos = space.mSpaceAlg.mMaxPos
  dim : space.mSpaceAlg.mDim = space.mSpaceAlg.mMinPos.length
  rows : space.mSpaceAlg.mMaxPos.length = space.mSpaceAlg.mMinPos.length

/-- The spec scenario "bounds": a bounded N-tree space over (0,0)-(1,1) before its first
update, with the visible proxies 0 at (0.5, 0.5) and 1 at (1.5, 0.5), both with a policy of
radius 5 and cap 8. -/
def boundsScenarioSpace : Space :=
  { mSpaceAlg :=
      { mMinPos := [0, 0], mMaxPos := [1, 1], mFixedSize := true
        mTree := { mMaxDepth := 3, mMinObjectCount := -1, mMinPos := [0, 0], mMaxPos := [1, 1]
                   mRootNode := none, nodes := [] }
        mDim := 2 }
    mObjects :=
      [⟨⟨0, 2, [1 / 2, 1 / 2]⟩, ⟨true, some ⟨5, 8, true, 2⟩, []⟩⟩,
       ⟨⟨1, 2, [3 / 2, 1 / 2]⟩, ⟨true, some ⟨5, 8, true, 2⟩, []⟩⟩]
    mVisibleObjects := []
    mNeighborObjects := [] }

/-- The nodes reachable from the node `n` through child pointers. -/
inductive Desc (tree : NTree) (n : Nat) : Nat → Prop
  | self : Desc tree n n
  | child (m : Nat) (node : NTreeNode) (j c : Nat) : Desc tree n m →
      tree.nodes[m]? = some node → node.mChildren.getD j none = some c → Desc tree n c

/-- The node `m` lies under the node `a`: following parent pointers from `m`, each to a node
one level higher, leads to `a`. -/
inductive Under (tree : NTree) (a : Nat) : Nat → Prop
  | self : Under tree a a
  | step (m p : Nat) (node pn : NTreeNode) : tree.nodes[m]? = some node →
      node.mParent = some p → tree.nodes[p]? = some pn → node.mLevel = pn.mLevel + 1 →
      Under tree a p → Under tree a m

/-- The node `m` is as the structure phase leaves a node it has visited, for the proxy vector
`objs`: no mark, a level below `B`, and either it subdivides and each child holds exactly
the visible objects of `m` inside the cell of the child, or it does not subdivide and has
no children. -/
def BuiltAt (mDim : Nat) (objs : List SpaceProxyObject) (B : Nat) (tree : NTree) (m : Nat) :
    Prop :=
  ∃ node : NTreeNode, tree.nodes[m]? = some node ∧ node.mLastCheckedObject = none ∧
    node.mLevel < B ∧
    ((subdivides tree node = true ∧
        ∀ j, j < 2 ^ mDim → ∃ (c : Nat) (child : NTreeNode),
          node.mChildren.getD j none = some c ∧ tree.nodes[c]? = some child ∧
          child.mObjects = node.mObjects.filter (fun i =>
            visibleOf objs i &&
              insideBox mDim (positionOf objs i) child.mMinPos child.mMaxPos)) ∨
      (subdivides tree node = false ∧ node.mChildren = List.replicate (2 ^ mDim) none))

/-- Two runs on proxy vectors that differ in relation vectors only, started at `A0` and
`B0`: at every index the two vectors agree, or neither has changed since the start. -/
def Lockstep (A0 B0 A B : List SpaceProxyObject) : Prop :=
  A.map SpaceProxyObject.withoutRelations = B.map SpaceProxyObject.withoutRelations ∧
    ∀ k : Nat, A[k]? = B[k]? ∨ (A[k]? = A0[k]? ∧ B[k]? = B0[k]?)

/-- What a call of `buildTree` or `updateTree` on the node `n`, at level `lev`, leading
from `tree` to `tree'`, has done: the store is in order and `Stable`, the limits of the tree
are kept, a node that does not lie under `n` is unchanged, `n` keeps its mark, and every
node reachable from `n` is `BuiltAt`. -/
structure Visited (mDim : Nat) (objs : List SpaceProxyObject) (B lev : Nat)
    (tree tree' : NTree) (n : Nat) : Prop where
  ok : NodesOK mDim (fun _ => True) tree'
  stable : Stable tree tree' lev
  depth : tree'.mMaxDepth = tree.mMaxDepth
  count : tree'.mMinObjectCount = tree.mMinObjectCount
  frame : ∀ (m : Nat) (x : NTreeNode), tree.nodes[m]? = some x → ¬ Under tree' n m →
    tree'.nodes[m]? = some x
  mark : ∀ x : NTreeNode, tree.nodes[n]? = some x →
    ∃ x' : NTreeNode, tree'.nodes[n]? = some x' ∧
      x'.mLastCheckedObject = x.mLastCheckedObject
  built : ∀ m : Nat, Desc tree' n m → BuiltAt mDim objs B tree' m

/-- The child number `childNr` that `buildTree(NTree&, NTreeNode*)` creates for the node
`pNode`. -/
def newChild (mDim : Nat) (objs : List SpaceProxyObject) (pNode : Nat) (node : NTreeNode)
    (childNr : Nat) : NTreeNode :=
  { mParent := some pNode
    mChildren := List.replicate (2 ^ mDim) none
    mLastCheckedObject := none
    mLevel := node.mLevel + 1
    mMinPos := (childBounds mDim node.mMinPos node.mMaxPos childNr).1
    mMaxPos := (childBounds mDim node.mMinPos node.mMaxPos childNr).2
    mObjects := node.mObjects.filter fun i =>
      insideBox mDim (positionOf objs i)
        (childBounds mDim node.mMinPos node.mMaxPos childNr).1
        (childBounds mDim node.mMinPos node.mMaxPos childNr).2 }

/-- The space after `Space::update` with a `PermanentNeighborsAlg`; the space itself when the
update does not return. -/
def PermanentSpace.updated (sqrtF : ℚ → ℚ) (heap : Nat → Option SpaceObject)
    (space : PermanentSpace) : PermanentSpace :=
  match space.update sqrtF heap with
  | .ok s => s
  | .error _ => space

/-- The values of the square root that the scenarios need: 5 for 25, and `scenarioSqrt`
elsewhere. -/
def sceneSqrt : ℚ → ℚ :=
  fun x => if x = 25 then 5 else scenarioSqrt x

/-! ## Space::removeObject -/

/-- The search loop of `Space::removeObject`: the index of the first proxy whose object
pointer is `pObject`, if there is one. -/
def findProxyIndex (mObjects : List SpaceProxyObject) (pObject : SpaceObject) : Option Nat :=
  let i := mObjects.findIdx fun p => decide (p.mSpaceObject.mId = pObject.mId)
  if i < mObjects.length then some i else none

/-- The body of `Space::removeObject` on the proxy vector `mObjects`, returning the outcome
of the call together with the proxy vector and the neighbor registry of the object after
it. The proxy is erased from the vector before `SpaceObject::removeNeighborGroup` is
called; the registry (`Neighbors::mNeighborGroups`) is an `IndexMap` of the base library,
its `remove` under the name of the space is the parameter `remove`, which either returns
the registry without the group or throws (`none`), the registry being as before. -/
def removeObjectFrom {R : Type} (remove : R → Option R) (mObjects : List SpaceProxyObject)
    (registry : R) (pObject : SpaceObject) : Except Fault Unit × List SpaceProxyObject × R :=
  match findProxyIndex mObjects pObject with
  | none => (.error .exception, mObjects, registry)
  | some proxyIndex =>
    let erased := mObjects.eraseIdx proxyIndex
    match remove registry with
    | none => (.error .exception, erased, registry)
    | some registry' => (.ok (), erased, registry')

/-- `Space::removeObject` for a space with an `NTreeAlg`. -/
def Space.removeObject {R : Type} (remove : R → Option R) (space : Space) (registry : R)
    (pObject : SpaceObject) : Except Fault Unit × Space × R :=
  let r := removeObjectFrom remove space.mObjects registry pObject
  (r.1, { space with mObjects := r.2.1 }, r.2.2)

/-- `Space::removeObject` for a space with a `PermanentNeighborsAlg`. -/
def PermanentSpace.removeObject {R : Type} (remove : R → Option R) (space : PermanentSpace)
    (registry : R) (pObject : SpaceObject) : Except Fault Unit × PermanentSpace × R :=
  let r := removeObjectFrom remove space.mObjects registry pObject
  (r.1, { space with mObjects := r.2.1 }, r.2.2)

/-- The registry of the scenarios: the names of the spaces in which the object has a
neighbor group; removing a name that is not stored throws. -/
def removeGroup (name : String) (registry : List String) : Option (List String) :=
  if name ∈ registry then some (registry.erase name) else none

/-! ## SpaceObject::setPosition and SpaceShape -/

/-- `SpaceObject::setPosition`. -/
def SpaceObject.setPosition (o : SpaceObject) (pPosition : Vec) : Except Fault SpaceObject :=
  if pPosition.length ≠ o.mDim then .error .exception
  else .ok { o with mPosition := pPosition }

/-- `SpaceObject::changePosition`; `mPosition += pPosition` requires both vectors to have
the same number of rows. -/
def SpaceObject.changePosition (o : SpaceObject) (pPosition : Vec) :
    Except Fault SpaceObject :=
  if pPosition.length ≠ o.mDim then .error .exception
  else if o.mPosition.length ≠ pPosition.length then .error .undefinedBehaviour
  else .ok { o with mPosition := List.zipWith (· + ·) o.mPosition pPosition }

/-- A `SpaceShape`: a `SpaceObject` that is also an `ofNode`. Of the node (a class of
openFrameworks) the position is kept: `ofNode::setPosition(x, y, z)` stores the position
and calls the virtual `onPositionChanged`, `ofNode::move(x, y, z)` does the same with the
sum of the stored position and (x, y, z). -/
structure SpaceShape where
  toSpaceObject : SpaceObject
  nodePosition : ℚ × ℚ × ℚ
  mTransformChanged : Bool
deriving DecidableEq, Repr

/-- A shape (`SpaceObject(3)`) whose node and position are at the origin. -/
def shapeAtOrigin (id : Nat) : SpaceShape :=
  { toSpaceObject := ⟨id, 3, [0, 0, 0]⟩, nodePosition := (0, 0, 0), mTransformChanged := true }

/-- `SpaceShape::onPositionChanged`: the node position is written to the rows 0, 1 and 2
of `mPosition`. -/
def SpaceShape.onPositionChanged (s : SpaceShape) : Except Fault SpaceShape :=
  if s.toSpaceObject.mPosition.length < 3 then .error .undefinedBehaviour
  else
    .ok { s with
      toSpaceObject :=
        { s.toSpaceObject with
          mPosition := ((s.toSpaceObject.mPosition.set 0 s.nodePosition.1).set 1
            s.nodePosition.2.1).set 2 s.nodePosition.2.2 }
      mTransformChanged := true }

/-- `SpaceShape::setPosition`: the rows 0, 1 and 2 of the argument are read (a read outside
the vector is undefined behaviour) and passed to `ofNode::setPosition`. -/
def SpaceShape.setPosition (s : SpaceShape) (pPosition : Vec) : Except Fault SpaceShape :=
  match pPosition[0]?, pPosition[1]?, pPosition[2]? with
  | some x, some y, some z =>
    match SpaceShape.onPositionChanged { s with nodePosition := (x, y, z) } with
    | .error e => .error e
    | .ok s1 => .ok { s1 with mTransformChanged := true }
  | _, _, _ => .error .undefinedBehaviour

/-- `SpaceShape::changePosition`: the rows 0, 1 and 2 of the argument are read and passed
to `ofNode::move`. -/
def SpaceShape.changePosition (s : SpaceShape) (pPosition : Vec) : Except Fault SpaceShape :=
  match pPosition[0]?, pPosition[1]?, pPosition[2]? with
  | some x, some y, some z =>
    match SpaceShape.onPositionChanged
        { s with nodePosition :=
            (s.nodePosition.1 + x, s.nodePosition.2.1 + y, s.nodePosition.2.2 + z) } with
    | .error e => .error e
    | .ok s1 => .ok { s1 with mTransformChanged := true }
  | _, _, _ => .error .undefinedBehaviour

/-! ## SpaceGrid -/

/-- A `SpaceGrid`. Of its `math::VectorField<float>` (a class of the ofxDabMath library) the
model keeps `size()`, the number of subdivisions on each axis, as `subdivisionCount`, and
`vectors()`, the stored vectors in flat order (the index on the first axis running
fastest), as `vectors`. -/
structure SpaceGrid where
  mGridDim : Nat
  mValueDim : Nat
  mMinPos : Vec
  mMaxPos : Vec
  subdivisionCount : List Nat
  vectors : List Vec
  mPositionScale : Vec
deriving DecidableEq, Repr

/-- Conversion of a `float` to `unsigned int`: the value is truncated; the behaviour is
undefined when the truncated value is not an `unsigned int`. -/
def floatToUnsigned (x : ℚ) : Except Fault Nat :=
  if x ≤ -1 ∨ 2 ^ 32 ≤ x then .error .undefinedBehaviour else .ok (Rat.floor x).toNat

/-- The loop of the constructor and of `setMinPos` and `setMaxPos`:
`mPositionScale[i] = (n_i - 1) / (mMaxPos[i] - mMinPos[i])`. -/
def positionScale (counts : List Nat) (minPos maxPos : Vec) : Vec :=
  (List.range counts.length).map fun i =>
    ((counts.getD i 0 : ℚ) - 1) / (maxPos.getD i 0 - minPos.getD i 0)

/-- Constructor `SpaceGrid(pValueDim, pSubdivisionCount, pMinPos, pMaxPos)`; `cells` are the
vectors the field holds after its construction. -/
def SpaceGrid.create (pValueDim : Nat) (pSubdivisionCount : List Nat) (pMinPos pMaxPos : Vec)
    (cells : List Vec) : Except Fault SpaceGrid :=
  if pMinPos.length ≠ pSubdivisionCount.length then .error .exception
  else if pMaxPos.length ≠ pSubdivisionCount.length then .error .exception
  else
    .ok { mGridDim := pSubdivisionCount.length
          mValueDim := pValueDim
          mMinPos := pMinPos
          mMaxPos := pMaxPos
          subdivisionCount := pSubdivisionCount
          vectors := cells
          mPositionScale := positionScale pSubdivisionCount pMinPos pMaxPos }

/-- The expression `( pPosition[i] - mMinPos[i] ) / ( mMaxPos[i] - mMinPos[i] ) *
static_cast< float >( subdivisionCount[i] )` of the index-vector forms of
`position2index`: the two differences, the quotient, the conversion of the count and the
product are `float` operations, each rounded to `float`. -/
def scaledPosition (lo hi : ℚ) (n : Nat) (p : ℚ) : ℚ :=
  fl32 (fl32 (fl32 (p - lo) / fl32 (hi - lo)) * fl32 (n : ℚ))

/-- One iteration of the loop of the index-vector forms of `position2index`, on an axis
with bounds `lo`, `hi` and `n` subdivisions. -/
def cellIndexOnAxis (lo hi : ℚ) (n : Nat) (p : ℚ) : Except Fault Nat :=
  if p ≤ lo then .ok 0
  else if p ≥ hi then .ok (toUInt ((n : Int) - 1))
  else floatToUnsigned (scaledPosition lo hi n p)

/-- `SpaceGrid::position2index(const VectorXf&)`, returning the index vector. -/
def SpaceGrid.position2index (g : SpaceGrid) (pPosition : Vec) : Except Fault (List Nat) :=
  if pPosition.length ≠ g.mGridDim then .error .exception
  else
    (List.range g.mGridDim).mapM fun i =>
      match pPosition[i]?, g.mMinPos[i]?, g.mMaxPos[i]?, g.subdivisionCount[i]? with
      | some p, some lo, some hi, some n => cellIndexOnAxis lo hi n p
      | _, _, _, _ => .error .undefinedBehaviour

/-- `SpaceGrid::position2index(const VectorXf&, dab::Array<unsigned int>&)`, which writes
the index vector to `pIndex`. -/
def SpaceGrid.position2indexInto (g : SpaceGrid) (pPosition : Vec) (pIndex : List Nat) :
    Except Fault (List Nat) :=
  if pPosition.length ≠ g.mGridDim then .error .exception
  else if pIndex.length ≠ g.mGridDim then .error .exception
  else
    (List.range g.mGridDim).mapM fun i =>
      match pPosition[i]?, g.mMinPos[i]?, g.mMaxPos[i]?, g.subdivisionCount[i]? with
      | some p, some lo, some hi, some n => cellIndexOnAxis lo hi n p
      | _, _, _, _ => .error .undefinedBehaviour

/-- One iteration of the loop of `index2position(const dab::Array<unsigned int>&)`:
`mMinPos[i] + ( static_cast<float>( pIndex[i] ) + 0.5 ) * ( mMaxPos[i] - mMinPos[i] ) /
( subdivisionCount[i] )`. The index is converted to `float` and the difference of the
bounds is a `float` operation; the sum with the `double` literal 0.5, the product, the
quotient and the sum with the lower bound are `double` operations; the store to the
`float` vector rounds to `float`. -/
def cellCentreOnAxis (lo hi : ℚ) (n : Nat) (k : Nat) : ℚ :=
  if k ≥ n then hi
  else
    fl32 (fl64 (lo + fl64 (fl64 (fl64 (fl32 (k : ℚ) + 1 / 2) * fl32 (hi - lo)) / (n : ℚ))))

/-- `SpaceGrid::index2position(const dab::Array<unsigned int>&)`. -/
def SpaceGrid.index2position (g : SpaceGrid) (pIndex : List Nat) : Except Fault Vec :=
  if pIndex.length ≠ g.mGridDim then .error .exception
  else
    (List.range g.mGridDim).mapM fun i =>
      match pIndex[i]?, g.mMinPos[i]?, g.mMaxPos[i]?, g.subdivisionCount[i]? with
      | some k, some lo, some hi, some n => .ok (cellCentreOnAxis lo hi n k)
      | _, _, _, _ => .error .undefinedBehaviour

/-- The index the specification gives for an axis: floor of the scaled position, clamped
to [0, n - 1]. -/
def clampedFloorIndex (lo hi : ℚ) (n : Nat) (p : ℚ) : Nat :=
  (max 0 (min ((n : Int) - 1) ⌊(p - lo) / (hi - lo) * n⌋)).toNat

/-- The grid is a box: bounds and subdivision counts have one entry per axis, on every axis
min < max, and there is at least one cell (the count being an `unsigned int`). -/
def SpaceGrid.IsBox (g : SpaceGrid) : Prop :=
  g.mMinPos.length = g.mGridDim ∧ g.mMaxPos.length = g.mGridDim ∧
    g.subdivisionCount.length = g.mGridDim ∧
    ∀ (i : Nat) (lo hi : ℚ) (n : Nat), g.mMinPos[i]? = some lo → g.mMaxPos[i]? = some hi →
      g.subdivisionCount[i]? = some n → lo < hi ∧ 1 ≤ n ∧ n < 2 ^ 32

/-- The grid of the spec scenario: 2x2 cells over (0,0)-(1,1) with values of length 2, the
cell (0,0) holding (5,0) and the cell (1,1) holding (0,7). -/
def scenarioGrid : SpaceGrid :=
  { mGridDim := 2, mValueDim := 2, mMinPos := [0, 0], mMaxPos := [1, 1]
    subdivisionCount := [2, 2]
    vectors := [[5, 0], [0, 0], [0, 0], [0, 7]]
    mPositionScale := positionScale [2, 2] [0, 0] [1, 1] }

/-! ## GridAlg -/

/-- Conversion of an integer to `unsigned int`. -/
def wrapUnsigned (x : Int) : Nat :=
  (x % 2 ^ 32).toNat

/-- `SpaceGrid::position2index(const VectorXf&, unsigned int&)`, the flat index. The
accumulator holds `pIndex` and `indexMul`. -/
def SpaceGrid.position2indexFlat (g : SpaceGrid) (pPosition : Vec) : Except Fault Nat :=
  if pPosition.length ≠ g.mGridDim then .error .exception
  else
    match (List.range g.mGridDim).foldlM
      (fun (acc : Nat × Nat) i =>
        match pPosition[i]?, g.mMinPos[i]?, g.mMaxPos[i]?, g.subdivisionCount[i]?,
            g.mPositionScale[i]? with
        | some p, some lo, some hi, some n, some scale =>
          if p ≥ hi then
            (.ok (wrapUnsigned (acc.1 + ((n : Int) - 1) * acc.2), wrapUnsigned (acc.2 * n)) :
              Except Fault (Nat × Nat))
          else if p > lo then
            match floatToUnsigned ((p - lo) * scale) with
            | .error e => .error e
            | .ok k => .ok (wrapUnsigned (acc.1 + k * acc.2), wrapUnsigned (acc.2 * n))
          else .ok (acc.1, wrapUnsigned (acc.2 * n))
        | _, _, _, _, _ => .error .undefinedBehaviour)
      (0, 1) with
    | .error e => .error e
    | .ok acc => .ok acc.1

/-- Modelled from the spec: `math::VectorField<float>` of the ofxDabMath library is a dense
field of fixed-length values. `get(index)` reads the vector stored at a flat index and
throws for an index outside the field. -/
def fieldGet (vectors : List Vec) (index : Nat) : Except Fault Vec :=
  match vectors[index]? with
  | none => .error .exception
  | some v => .ok v

/-- Modelled from the spec: `math::VectorField<float>` of the ofxDabMath library is a dense
field of fixed-length values. `set(index, value)` replaces the vector stored at a flat
index and throws for an index outside the field. -/
def fieldSet (vectors : List Vec) (index : Nat) (value : Vec) : Except Fault (List Vec) :=
  if index < vectors.length then .ok (vectors.set index value) else .error .exception

/-- Modelled from the spec: `math::VectorField<float>` of the ofxDabMath library is a dense
field of fixed-length values. `add(index, value)` adds `value` to the vector stored at a
flat index and throws for an index outside the field or a value of another length. -/
def fieldAdd (vectors : List Vec) (index : Nat) (value : Vec) : Except Fault (List Vec) :=
  match vectors[index]? with
  | none => .error .exception
  | some v =>
    if v.length ≠ value.length then .error .exception
    else .ok (vectors.set index (List.zipWith (· + ·) v value))

/-- `SpaceGrid::value(unsigned int)`. -/
def SpaceGrid.value (g : SpaceGrid) (pIndex : Nat) : Except Fault Vec :=
  fieldGet g.vectors pIndex

/-- `SpaceGrid::setValues(const VectorXf&)`: every cell is set to `pValue`. -/
def SpaceGrid.setValues (g : SpaceGrid) (pValue : Vec) : Except Fault SpaceGrid :=
  if pValue.length ≠ g.mValueDim then .error .exception
  else .ok { g with vectors := g.vectors.map fun _ => pValue }

/-- `GridAlg::GridUpdateMode`, the modes that write to the cell of a position. The modes
`AvgReplaceMode` and `AvgAddMode`, which write through the interpolation of the vector
field, are not part of the model. -/
inductive GridUpdateMode where
  | NoUpdateMode
  | NearestReplaceMode
  | NearestAddMode
deriving DecidableEq, Repr

/-- `GridAlg::GridNeighborMode`, the mode that reads the cell of a position. The other
five modes are not part of the model. -/
inductive GridNeighborMode where
  | CellLocationMode
deriving DecidableEq, Repr

/-- A `GridAlg`: the `SpaceAlg` header, the grid, the two modes and the space objects
created by the last neighbor phase. -/
structure GridAlg where
  mMinPos : Vec
  mMaxPos : Vec
  mFixedSize : Bool
  mGrid : SpaceGrid
  mNeighborMode : GridNeighborMode
  mUpdateMode : GridUpdateMode
  mTmpSpaceObjects : List SpaceObject
deriving DecidableEq, Repr

/-- A `Space` whose algorithm is a `GridAlg`. -/
structure GridSpace where
  mSpaceAlg : GridAlg
  mObjects : List SpaceProxyObject
  mVisibleObjects : List Nat
  mNeighborObjects : List Nat
deriving DecidableEq, Repr

/-- The object a relation target points to: one of the objects created by the last
neighbor phase of the algorithm, or an object of the store `heap`. -/
def GridAlg.target (alg : GridAlg) (heap : Nat → Option SpaceObject) (id : Nat) :
    Option SpaceObject :=
  match alg.mTmpSpaceObjects.find? fun o => decide (o.mId = id) with
  | some o => some o
  | none => heap id

/-- The two nested loops of the nearest-cell branches of `GridAlg::updateStructure`: for
every listed proxy that can have neighbors and every relation of it, the value of the
relation is written (`write` is `VectorField::set` or `VectorField::add`) to the cell of
the position of the relation target. -/
def GridAlg.writeBack (write : List Vec → Nat → Vec → Except Fault (List Vec))
    (heap : Nat → Option SpaceObject) (alg : GridAlg) (objs : List SpaceProxyObject)
    (pObjects : List Nat) : Except Fault GridAlg :=
  pObjects.foldlM
    (fun (a : GridAlg) objectNr =>
      match objs[objectNr]? with
      | none => (.error .undefinedBehaviour : Except Fault GridAlg)
      | some object =>
        if object.canHaveNeighbors = false then .ok a
        else
          object.mNeighborGroup.mNeighborRelations.foldlM
            (fun (a : GridAlg) neighborRel =>
              match a.target heap neighborRel.mNeighborObject with
              | none => (.error .undefinedBehaviour : Except Fault GridAlg)
              | some neighbor =>
                match a.mGrid.position2indexFlat neighbor.mPosition with
                | .error e => .error e
                | .ok gridIndex =>
                  match write a.mGrid.vectors gridIndex neighborRel.mValue with
                  | .error e => .error e
                  | .ok vectors => .ok { a with mGrid := { a.mGrid with vectors := vectors } })
            a)
    alg

/-- `GridAlg::updateStructure`. -/
def GridAlg.updateStructure (heap : Nat → Option SpaceObject) (alg : GridAlg)
    (objs : List SpaceProxyObject) (pObjects : List Nat) : Except Fault GridAlg :=
  match alg.mUpdateMode with
  | .NoUpdateMode => .ok alg
  | .NearestReplaceMode =>
    match alg.mGrid.setValues (List.replicate alg.mGrid.mGridDim 0) with
    | .error e => .error e
    | .ok grid => GridAlg.writeBack fieldSet heap { alg with mGrid := grid } objs pObjects
  | .NearestAddMode => GridAlg.writeBack fieldAdd heap alg objs pObjects

/-- The first loop of `GridAlg::updateNeighbors`: the relations of every listed proxy that
can have neighbors are removed. -/
def removeAllNeighbors (objs : List SpaceProxyObject) (pObjects : List Nat) :
    Except Fault (List SpaceProxyObject) :=
  pObjects.foldlM
    (fun (cur : List SpaceProxyObject) i =>
      match cur[i]? with
      | none => (.error .undefinedBehaviour : Except Fault (List SpaceProxyObject))
      | some p =>
        if p.canHaveNeighbors then
          .ok (cur.set i { p with mNeighborGroup := { p.mNeighborGroup with mNeighborRelations := [] } })
        else .ok cur)
    objs

/-- `GridAlg::updateNeighbors`. `sObjectCount` is the counter from which the
`SpaceObject` constructor takes the id of a new object; the proxy vector, the algorithm
(with the objects it created) and the counter after the call are returned. -/
def GridAlg.updateNeighbors (alg : GridAlg) (objs : List SpaceProxyObject) (sObjectCount : Nat)
    (pObjects : List Nat) : Except Fault (GridAlg × List SpaceProxyObject × Nat) :=
  let dim := alg.mMinPos.length
  match removeAllNeighbors objs pObjects with
  | .error e => .error e
  | .ok objs1 =>
    pObjects.foldlM
      (fun (st : GridAlg × List SpaceProxyObject × Nat) i =>
        match st.2.1[i]? with
        | none => (.error .undefinedBehaviour : Except Fault (GridAlg × List SpaceProxyObject × Nat))
        | some proxyObject =>
          let objectPosition := proxyObject.mSpaceObject.mPosition
          if proxyObject.mNeighborGroup.mNeighborGroupAlg.isNone then .error .exception
          else if proxyObject.canHaveNeighbors then
            if insideBox dim objectPosition alg.mMinPos alg.mMaxPos = false then .ok st
            else
              match st.1.mNeighborMode with
              | .CellLocationMode =>
                match st.1.mGrid.position2indexFlat objectPosition with
                | .error e => .error e
                | .ok gridIndex =>
                  match st.1.mGrid.value gridIndex with
                  | .error e => .error e
                  | .ok value =>
                    let direction : Vec := List.replicate st.1.mGrid.mGridDim 0
                    let spaceObject : SpaceObject :=
                      ⟨st.2.2, objectPosition.length, objectPosition⟩
                    match proxyObject.addNeighborValueDirDist spaceObject value direction 0 with
                    | .error e => .error e
                    | .ok (_, proxy') =>
                      .ok ({ st.1 with mTmpSpaceObjects := st.1.mTmpSpaceObjects ++ [spaceObject] },
                           st.2.1.set i proxy', st.2.2 + 1)
          else .ok st)
      ({ alg with mTmpSpaceObjects := [] }, objs1, sObjectCount)

/-- `SpaceAlg::resize`, which `GridAlg` inherits. -/
def GridAlg.resize (alg : GridAlg) (pMinPos pMaxPos : Vec) : Except Fault GridAlg :=
  if alg.mFixedSize then .error .exception
  else if alg.mMinPos.length ≠ pMinPos.length then .error .exception
  else if alg.mMaxPos.length ≠ pMaxPos.length then .error .exception
  else if (List.range alg.mMaxPos.length).any
      (fun d => decide (pMinPos.getD d 0 > pMaxPos.getD d 0)) then .error .exception
  else .ok { alg with mMinPos := pMinPos, mMaxPos := pMaxPos }

/-- `Space::updateObjects` for a space with a `GridAlg`. -/
def GridSpace.updateObjects (space : GridSpace) : Except Fault GridSpace :=
  let alg := space.mSpaceAlg
  if alg.mFixedSize then
    let c := classifyFixed alg.mMinPos alg.mMaxPos space.mObjects
    .ok { space with mVisibleObjects := c.1, mNeighborObjects := c.2 }
  else
    let c := classifyFree alg.mMinPos alg.mMaxPos space.mObjects
    if c.1 ≠ alg.mMinPos ∨ c.2.1 ≠ alg.mMaxPos then
      match alg.resize c.1 c.2.1 with
      | .error e => .error e
      | .ok alg' =>
        .ok { space with
          mSpaceAlg := alg', mVisibleObjects := c.2.2.1, mNeighborObjects := c.2.2.2 }
    else .ok { space with mVisibleObjects := c.2.2.1, mNeighborObjects := c.2.2.2 }

/-- `Space::update` for a space with a `GridAlg`: classification, structure phase,
neighbor phase. The space and the object counter after the call are returned. -/
def GridSpace.update (heap : Nat → Option SpaceObject) (space : GridSpace)
    (sObjectCount : Nat) : Except Fault (GridSpace × Nat) :=
  match space.updateObjects with
  | .error e => .error e
  | .ok s1 =>
    match s1.mSpaceAlg.updateStructure heap s1.mObjects s1.mVisibleObjects with
    | .error e => .error e
    | .ok alg1 =>
      match alg1.updateNeighbors s1.mObjects sObjectCount s1.mNeighborObjects with
      | .error e => .error e
      | .ok (alg2, objs2, count) => .ok ({ s1 with mSpaceAlg := alg2, mObjects := objs2 }, count)

/-- The spec scenario "grid CellLocation": the grid `scenarioGrid` with neighbor mode
CellLocation and update mode `mode`, and one visible proxy (object 0, policy without radius
limit and with cap 1) at `pos`. -/
def cellLocationSpace (mode : GridUpdateMode) (pos : Vec) : GridSpace :=
  { mSpaceAlg :=
      { mMinPos := [0, 0], mMaxPos := [1, 1], mFixedSize := true, mGrid := scenarioGrid
        mNeighborMode := .CellLocationMode, mUpdateMode := mode, mTmpSpaceObjects := [] }
    mObjects := [⟨⟨0, 2, pos⟩, ⟨true, some ⟨-1, 1, false, 2⟩, []⟩⟩]
    mVisibleObjects := []
    mNeighborObjects := [] }

/-! ## SpaceManager -/

/-- A space held by the manager, by the algorithm it has. -/
inductive ManagedSpace where
  | ntree (space : Space)
  | permanent (space : PermanentSpace)
  | grid (space : GridSpace)
deriving DecidableEq, Repr

/-- The call `mSpaces[i]->update()`: `Space::update` of a space of the manager, together
with the object counter after the call. -/
def ManagedSpace.update (sqrtF : ℚ → ℚ) (fuel : Nat) (heap : Nat → Option SpaceObject)
    (s : ManagedSpace) (sObjectCount : Nat) : Except Fault (ManagedSpace × Nat) :=
  match s with
  | .ntree space =>
    match space.update sqrtF fuel with
    | .error e => .error e
    | .ok s1 => .ok (.ntree s1, sObjectCount)
  | .permanent space =>
    match space.update sqrtF heap with
    | .error e => .error e
    | .ok s1 => .ok (.permanent s1, sObjectCount)
  | .grid space =>
    match space.update heap sObjectCount with
    | .error e => .error e
    | .ok (s1, count) => .ok (.grid s1, count)

/-- `SpaceManager::update`: the loop over the spaces in the order of their registration.
The body calls `update()` of the space inside a `try` block and once more after it. The
accumulator holds the spaces already updated and the object counter. -/
def SpaceManager.update (sqrtF : ℚ → ℚ) (fuel : Nat) (heap : Nat → Option SpaceObject)
    (mSpaces : List ManagedSpace) (sObjectCount : Nat) :
    Except Fault (List ManagedSpace × Nat) :=
  mSpaces.foldlM
    (fun (st : List ManagedSpace × Nat) s =>
      match s.update sqrtF fuel heap st.2 with
      | .error e => (.error e : Except Fault (List ManagedSpace × Nat))
      | .ok (s1, count1) =>
        match s1.update sqrtF fuel heap count1 with
        | .error e => .error e
        | .ok (s2, count2) => .ok (st.1 ++ [s2], count2))
    ([], sObjectCount)

/-- What the specification says of the update of all spaces: one `Space::update` on each
registered space, in the order of registration. -/
def updateEachOnce (sqrtF : ℚ → ℚ) (fuel : Nat) (heap : Nat → Option SpaceObject)
    (mSpaces : List ManagedSpace) (sObjectCount : Nat) :
    Except Fault (List ManagedSpace × Nat) :=
  mSpaces.foldlM
    (fun (st : List ManagedSpace × Nat) s =>
      match s.update sqrtF fuel heap st.2 with
      | .error e => (.error e : Except Fault (List ManagedSpace × Nat))
      | .ok (s1, count1) => .ok (st.1 ++ [s1], count1))
    ([], sObjectCount)

/-- The grid contents and the values of the relations of the proxies of a grid space. -/
def ManagedSpace.gridState : ManagedSpace → List Vec × List (List Vec)
  | .grid space =>
    (space.mSpaceAlg.mGrid.vectors,
     space.mObjects.map fun p => p.mNeighborGroup.mNeighborRelations.map fun r => r.mValue)
  | _ => ([], [])

/-- The spaces for which a second update is known to change nothing: a space with an
N-tree that satisfies the invariant of the tree, and a space with permanent neighbors. -/
def ManagedSpace.Settled : ManagedSpace → Prop
  | .ntree space => SpaceOK space
  | .permanent _ => True
  | .grid _ => False

/-- The node `n` of the tree carries the mark of the source `src`. -/
def MarkedBy (src : Nat) (tree : NTree) (n : Nat) : Prop :=
  ∃ node : NTreeNode, tree.nodes[n]? = some node ∧ node.mLastCheckedObject = some src

/-- A function that does not fall below the square root: the larger of its argument
and 1. -/
def coarseSqrt (x : ℚ) : ℚ := max x 1

/-- The space `midpointSpace` with a policy of the source that never fills: radius 16, cap 8,
replace mode off. The proxies 1 and 2 at the positions 8 (the midpoint of the root cell)
and 11 lie in the query box [-15, 17] of the source at 1. -/
def roomyMidpointSpace : Space :=
  { midpointSpace with
    mObjects :=
      [⟨⟨0, 1, [1]⟩, ⟨true, some ⟨16, 8, false, 1⟩, []⟩⟩,
       ⟨⟨1, 1, [8]⟩, ⟨true, none, []⟩⟩,
       ⟨⟨2, 1, [11]⟩, ⟨true, none, []⟩⟩] }

/-- The cell, the objects and the children of every node of a tree, in the order of the
node store. -/
def NTree.layout (tree : NTree) : List (Vec × Vec × List Nat × List (Option Nat)) :=
  tree.nodes.map fun n => (n.mMinPos, n.mMaxPos, n.mObjects, n.mChildren)

/-- The relation vector `rels` is one that `createNeighbor` calls for the source object
`srcObject` build up from the empty vector. -/
inductive Rebuilt (sqrtF : ℚ → ℚ) (srcObject : SpaceObject) :
    List SpaceNeighborRelation → Prop
  | empty : Rebuilt sqrtF srcObject []
  | offer (alg : NeighborGroupAlg) (rels : List SpaceNeighborRelation) (q : SpaceObject)
      (b : Bool) (rels' : List SpaceNeighborRelation) : Rebuilt sqrtF srcObject rels →
      alg.createNeighbor sqrtF rels srcObject q = .ok (b, rels') →
      Rebuilt sqrtF srcObject rels'

/-- The relation vector of the proxy `src` of `objs0` has been built up from the empty
vector by `createNeighbor` calls for the object of that proxy. -/
def RebuiltFor (sqrtF : ℚ → ℚ) (objs0 : List SpaceProxyObject) (src : Nat)
    (rels : List SpaceNeighborRelation) : Prop :=
  ∀ p : SpaceProxyObject, objs0[src]? = some p → Rebuilt sqrtF p.mSpaceObject rels

/-- A bounded one-dimensional N-tree space over [0, 1] before an update: the proxy 0 at
position 1/2 and the proxy 1 at position 2, outside the bounds, both visible and with a
policy of radius 4 and cap 2, each holding one relation to the other from an earlier state
of the space (distance 7); and the visible proxy 2 at position 7/10 without a policy. -/
def staleOutsideSpace : Space :=
  { mSpaceAlg :=
      { mMinPos := [0], mMaxPos := [1], mFixedSize := true
        mTree := { mMaxDepth := 3, mMinObjectCount := -1, mMinPos := [0], mMaxPos := [1]
                   mRootNode := none, nodes := [] }
        mDim := 1 }
    mObjects :=
      [⟨⟨0, 1, [1 / 2]⟩, ⟨true, some ⟨4, 2, false, 1⟩, [⟨0, 1, [7], [7], 7⟩]⟩⟩,
       ⟨⟨1, 1, [2]⟩, ⟨true, some ⟨4, 2, false, 1⟩, [⟨1, 0, [-7], [-7], 7⟩]⟩⟩,
       ⟨⟨2, 1, [7 / 10]⟩, ⟨true, none, []⟩⟩]
    mVisibleObjects := []
    mNeighborObjects := [] }

/-- The flat index of an index vector, the first axis varying fastest: the sum over the
axes of `index_i` times the product of the subdivision counts of the axes before `i`. -/
def linearIndex (counts : List Nat) (index : List Nat) : Nat :=
  ((List.range index.length).map fun i =>
    index.getD i 0 * ((counts.take i).foldl (· * ·) 1)).sum

/-! ## The cache of SpaceShape -/

/-- A `glm::vec3`. -/
abbrev Vec3 := ℚ × ℚ × ℚ

/-- What a `SpaceShape` asks of its `geom::Geometry` (a class of the ofxDabGeom library):
the corners `minPos()` and `maxPos()` of its bounding box. -/
structure Geometry where
  minPos : Vec3
  maxPos : Vec3
deriving DecidableEq, Repr

/-- The matrix functions `SpaceShape` calls, which belong to libraries outside the
repository: `inverse` is `glm::inverse` and `mul` is `math::VectorMath::vec3Mat4Mul`, for
a type `M` of 4x4 matrices. -/
structure MatrixOps (M : Type) where
  inverse : M → M
  mul : M → Vec3 → Vec3

/-- A call that recomputes a part of the cache: `updateMatrix` or `updateAABB`. -/
inductive CacheEvent where
  | updateMatrix
  | updateAABB
deriving DecidableEq, Repr

/-- The fields of a `SpaceShape` that its lazy cache concerns. `nodeMatrix` is the matrix
`ofNode::getGlobalTransformMatrix()` returns for the node; a `geom::Cuboid` is the pair of
corners it has been set to. `calls` is not a field of the class: it records the calls of
`updateMatrix` and `updateAABB` in the order they are entered. -/
structure ShapeCache (M : Type) where
  mGeometry : Option Geometry
  nodeMatrix : M
  mObjectAABB : Vec3 × Vec3
  mWorldAABB : Vec3 × Vec3
  mGeometryChanged : Bool
  mTransformChanged : Bool
  mObject2WorldTransformMatrix : M
  mWorld2ObjectTransformMatrix : M
  calls : List CacheEvent

/-- `SpaceShape::updateMatrix`. -/
def ShapeCache.updateMatrix {M : Type} (ops : MatrixOps M) (s : ShapeCache M) : ShapeCache M :=
  { s with
    mObject2WorldTransformMatrix := s.nodeMatrix
    mWorld2ObjectTransformMatrix := ops.inverse s.nodeMatrix
    calls := s.calls ++ [.updateMatrix] }

mutual
/-- `SpaceShape::update`. -/
def ShapeCache.update {M : Type} (ops : MatrixOps M) :
    Nat → ShapeCache M → Except Fault (ShapeCache M)
  | 0, _ => .error .outOfFuel
  | fuel + 1, s =>
    if s.mTransformChanged = true then
      ShapeCache.updateAABB ops fuel
        (ShapeCache.updateMatrix ops { s with mTransformChanged := false })
    else if s.mGeometryChanged = true then
      ShapeCache.updateAABB ops fuel { s with mGeometryChanged := false }
    else .ok s
/-- `SpaceShape::updateAABB`; a null `mGeometry` is dereferenced. The two calls of
`object2world` in the argument list of `mWorldAABB.set` are made in the order written. -/
def ShapeCache.updateAABB {M : Type} (ops : MatrixOps M) :
    Nat → ShapeCache M → Except Fault (ShapeCache M)
  | 0, _ => .error .outOfFuel
  | fuel + 1, s =>
    match s.mGeometry with
    | none => .error .undefinedBehaviour
    | some geometry =>
      let s1 := { s with
        mObjectAABB := (geometry.minPos, geometry.maxPos)
        calls := s.calls ++ [.updateAABB] }
      match ShapeCache.object2world ops fuel s1 geometry.minPos with
      | .error e => .error e
      | .ok (worldMin, s2) =>
        match ShapeCache.object2world ops fuel s2 geometry.maxPos with
        | .error e => .error e
        | .ok (worldMax, s3) => .ok { s3 with mWorldAABB := (worldMin, worldMax) }
/-- `SpaceShape::object2world(const glm::vec3&)`. -/
def ShapeCache.object2world {M : Type} (ops : MatrixOps M) :
    Nat → ShapeCache M → Vec3 → Except Fault (Vec3 × ShapeCache M)
  | 0, _, _ => .error .outOfFuel
  | fuel + 1, s, pObjectPos =>
    if s.mTransformChanged = true ∨ s.mGeometryChanged = true then
      match ShapeCache.update ops fuel s with
      | .error e => .error e
      | .ok s1 => .ok (ops.mul s1.mObject2WorldTransformMatrix pObjectPos, s1)
    else .ok (ops.mul s.mObject2WorldTransformMatrix pObjectPos, s)
end

/-- The test at the head of every reading member of `SpaceShape`:
`if(mTransformChanged == true || mGeometryChanged == true) update();`. -/
def ShapeCache.refresh {M : Type} (ops : MatrixOps M) (fuel : Nat) (s : ShapeCache M) :
    Except Fault (ShapeCache M) :=
  if s.mTransformChanged = true ∨ s.mGeometryChanged = true then ShapeCache.update ops fuel s
  else .ok s

/-- `SpaceShape::AABB`. -/
def ShapeCache.AABB {M : Type} (ops : MatrixOps M) (fuel : Nat) (s : ShapeCache M) :
    Except Fault ((Vec3 × Vec3) × ShapeCache M) :=
  match s.refresh ops fuel with
  | .error e => .error e
  | .ok s1 => .ok (s1.mWorldAABB, s1)

/-- `SpaceShape::ocAABB`. -/
def ShapeCache.ocAABB {M : Type} (ops : MatrixOps M) (fuel : Nat) (s : ShapeCache M) :
    Except Fault ((Vec3 × Vec3) × ShapeCache M) :=
  match s.refresh ops fuel with
  | .error e => .error e
  | .ok s1 => .ok (s1.mObjectAABB, s1)

/-- `SpaceShape::world2object(const glm::vec3&)`. -/
def ShapeCache.world2object {M : Type} (ops : MatrixOps M) (fuel : Nat) (s : ShapeCache M)
    (pWorldPos : Vec3) : Except Fault (Vec3 × ShapeCache M) :=
  match s.refresh ops fuel with
  | .error e => .error e
  | .ok s1 => .ok (ops.mul s1.mWorld2ObjectTransformMatrix pWorldPos, s1)

/-- `SpaceShape::closestPoint`; `closest` is `geom::Geometry::closestPoint` of the
geometry of the shape. -/
def ShapeCache.closestPoint {M : Type} (ops : MatrixOps M) (closest : Geometry → Vec3 → Vec3)
    (fuel : Nat) (s : ShapeCache M) (pRefPoint : Vec3) : Except Fault (Vec3 × ShapeCache M) :=
  match s.refresh ops fuel with
  | .error e => .error e
  | .ok s1 =>
    match s1.world2object ops fuel pRefPoint with
    | .error e => .error e
    | .ok (refPosObject, s2) =>
      match s2.mGeometry with
      | none => .error .undefinedBehaviour
      | some geometry =>
        ShapeCache.object2world ops fuel s2 (closest geometry refPosObject)

/-- `SpaceShape::info` and the conversion to `std::string`, as far as the cache goes: the
matrices and the boxes that are printed. -/
def ShapeCache.info {M : Type} (ops : MatrixOps M) (fuel : Nat) (s : ShapeCache M) :
    Except Fault ((M × M × (Vec3 × Vec3) × (Vec3 × Vec3)) × ShapeCache M) :=
  match s.refresh ops fuel with
  | .error e => .error e
  | .ok s1 =>
    .ok ((s1.mObject2WorldTransformMatrix, s1.mWorld2ObjectTransformMatrix, s1.mObjectAABB,
      s1.mWorldAABB), s1)

/-- Constructor `SpaceShape(std::shared_ptr<geom::Geometry>)`: both flags are set; `node`
is the transform of the new node and `blank` the state of the members the constructor does
not name. -/
def ShapeCache.create {M : Type} (pGeometry : Geometry) (node : M) (blank : ShapeCache M) :
    ShapeCache M :=
  { blank with
    mGeometry := some pGeometry, nodeMatrix := node
    mGeometryChanged := true, mTransformChanged := true, calls := [] }

/-- `SpaceShape::setGeometry`. -/
def ShapeCache.setGeometry {M : Type} (s : ShapeCache M) (pGeometry : Geometry) :
    ShapeCache M :=
  { s with mGeometry := some pGeometry }

/-- `SpaceShape::setGeometryChanged`. -/
def ShapeCache.setGeometryChanged {M : Type} (s : ShapeCache M) : ShapeCache M :=
  { s with mGeometryChanged := true }

/-- `SpaceShape::setTransformChanged`. -/
def ShapeCache.setTransformChanged {M : Type} (s : ShapeCache M) : ShapeCache M :=
  { s with mTransformChanged := true }

/-- `SpaceShape::setOrientation`: `ofNode::setOrientation` gives the node the transform
`node` and calls `onOrientationChanged`; then the flag is set. -/
def ShapeCache.setOrientation {M : Type} (s : ShapeCache M) (node : M) : ShapeCache M :=
  { s with nodeMatrix := node, mTransformChanged := true }

/-- `SpaceShape::setScale`: `ofNode::setScale` gives the node the transform `node` and
calls `onScaleChanged`; then the flag is set. -/
def ShapeCache.setScale {M : Type} (s : ShapeCache M) (node : M) : ShapeCache M :=
  { s with nodeMatrix := node, mTransformChanged := true }

/-- The cache side of `SpaceShape::setPosition` and `changePosition` for a vector with the
rows 0, 1 and 2: `ofNode::setPosition` (or `move`) gives the node the transform `node` and
calls `onPositionChanged`; then the flag is set. -/
def ShapeCache.movePosition {M : Type} (s : ShapeCache M) (node : M) : ShapeCache M :=
  { s with nodeMatrix := node, mTransformChanged := true }

/-- The state a read leaves behind, as the specification of the cache gives it, for a shape
whose geometry is `g`: with a flag set, the matrices are taken from the node when the
transform flag is set, both boxes are those of `g`, and both flags are clear; with no flag
set nothing changes. The calls recorded are `updateMatrix` when the transform flag is set
and `updateAABB`, entered a second time (from `object2world`) when both flags are set. -/
def ShapeCache.refreshed {M : Type} (ops : MatrixOps M) (s : ShapeCache M) (g : Geometry) :
    ShapeCache M :=
  if s.mTransformChanged = true ∨ s.mGeometryChanged = true then
    let o2w := if s.mTransformChanged = true then s.nodeMatrix
      else s.mObject2WorldTransformMatrix
    { s with
      mTransformChanged := false
      mGeometryChanged := false
      mObject2WorldTransformMatrix := o2w
      mWorld2ObjectTransformMatrix :=
        if s.mTransformChanged = true then ops.inverse s.nodeMatrix
        else s.mWorld2ObjectTransformMatrix
      mObjectAABB := (g.minPos, g.maxPos)
      mWorldAABB := (ops.mul o2w g.minPos, ops.mul o2w g.maxPos)
      calls := s.calls ++ (if s.mTransformChanged = true then [.updateMatrix] else [])
        ++ [.updateAABB]
        ++ (if s.mTransformChanged = true ∧ s.mGeometryChanged = true then [.updateAABB]
            else []) }
  else s

/-- Matrices that are translations: the matrix is the offset, its inverse the opposite
offset. -/
def translationOps : MatrixOps Vec3 :=
  { inverse := fun m => (-m.1, -m.2.1, -m.2.2)
    mul := fun m p => (p.1 + m.1, p.2.1 + m.2.1, p.2.2 + m.2.2) }

/-- The unit cube from the origin to (1,1,1). -/
def unitCube : Geometry := { minPos := (0, 0, 0), maxPos := (1, 1, 1) }

/-- A shape just constructed with the unit cube, its node translated by (2,0,0); the members
the constructor does not name are zero. -/
def cubeShape : ShapeCache Vec3 :=
  ShapeCache.create unitCube (2, 0, 0)
    { mGeometry := none, nodeMatrix := (0, 0, 0), mObjectAABB := ((0, 0, 0), (0, 0, 0))
      mWorldAABB := ((0, 0, 0), (0, 0, 0)), mGeometryChanged := false
      mTransformChanged := false, mObject2WorldTransformMatrix := (0, 0, 0)
      mWorld2ObjectTransformMatrix := (0, 0, 0), calls := [] }

/-- The cube from the origin to (5,5,5). -/
def bigCube : Geometry := { minPos := (0, 0, 0), maxPos := (5, 5, 5) }

/-- What a reader sees of a shape after the calls `AABB()`, `setGeometry(pGeometry)`,
`AABB()`, in that order: the geometry-changed flag after `setGeometry` and the box the
second `AABB()` returns. With `flagged` the call `setGeometryChanged()` is made after
`setGeometry`. -/
def boxAfterSetGeometry {M : Type} (ops : MatrixOps M) (fuel : Nat) (s : ShapeCache M)
    (pGeometry : Geometry) (flagged : Bool) : Except Fault (Bool × (Vec3 × Vec3)) :=
  match s.AABB ops fuel with
  | .error e => .error e
  | .ok (_, s1) =>
    let s2 := s1.setGeometry pGeometry
    let s3 := if flagged then s2.setGeometryChanged else s2
    match s3.AABB ops fuel with
    | .error e => .error e
    | .ok (box, _) => .ok (s2.mGeometryChanged, box)

/-! ## GridAlg: the neighbor modes AvgRegion, GridLocation and PeakSearch -/

/-- The neighbor modes of `GridAlg::GridNeighborMode` that scan several cells and are part
of the model; `AvgLocationMode` and `CentroidSearchMode` are not. -/
inductive GridSearchMode where
  | AvgRegionMode
  | GridLocationMode
  | PeakSearchMode
deriving DecidableEq, Repr

/-- The difference of two `Eigen::VectorXf`, defined for vectors with the same number of
rows. -/
def vecSub (a b : Vec) : Except Fault Vec :=
  if a.length ≠ b.length then .error .undefinedBehaviour else .ok (List.zipWith (· - ·) a b)

/-- The sum of two `Eigen::VectorXf`, defined for vectors with the same number of rows. -/
def vecAdd (a b : Vec) : Except Fault Vec :=
  if a.length ≠ b.length then .error .undefinedBehaviour else .ok (List.zipWith (· + ·) a b)

/-- `SpaceGrid::index2position(const dab::Array<float>&)`. -/
def SpaceGrid.index2positionFloat (g : SpaceGrid) (pIndex : Vec) : Except Fault Vec :=
  if pIndex.length ≠ g.mGridDim then .error .exception
  else
    (List.range g.mGridDim).mapM fun i =>
      match pIndex[i]?, g.mMinPos[i]?, g.mMaxPos[i]?, (g.subdivisionCount[i]? : Option Nat) with
      | some k, some lo, some hi, some n =>
        .ok (if k ≥ (n : ℚ) then hi else lo + (k + 1 / 2) * (hi - lo) / (n : ℚ))
      | _, _, _, _ => .error .undefinedBehaviour

/-- Modelled from the spec: `math::VectorField<float>` of the ofxDabMath library is a dense
field of fixed-length values. `get(indexVector)` reads the vector stored at an index vector
(the index on the first axis running fastest) and throws for an index vector with another
number of entries or with an entry outside the field. -/
def fieldGetAt (counts : List Nat) (vectors : List Vec) (index : List Nat) : Except Fault Vec :=
  if index.length ≠ counts.length then .error .exception
  else if (List.range counts.length).any (fun i => decide (index.getD i 0 ≥ counts.getD i 0))
  then .error .exception
  else fieldGet vectors (linearIndex counts index)

/-- `SpaceGrid::gridValue(const dab::Array<unsigned int>&)`. -/
def SpaceGrid.gridValueAt (g : SpaceGrid) (pGridPosition : List Nat) : Except Fault Vec :=
  fieldGetAt g.subdivisionCount g.vectors pGridPosition

/-- Modelled from the spec: `math::VectorField<float>` of the ofxDabMath library is a dense
field of fixed-length values. `indexOffset()` holds for every axis the distance in flat
order between two neighbors on that axis: 1, n_0, n_0 * n_1, and so on. -/
def fieldIndexOffset (counts : List Nat) : List Nat :=
  (List.range counts.length).map fun i => (counts.take i).foldl (· * ·) 1

/-- Modelled from the spec: `math::VectorField<float>` of the ofxDabMath library is a dense
field of fixed-length values. `calcIndex(indexVector)` is the flat index of an index
vector; it throws for an index vector with another number of entries or with an entry
outside the field. -/
def fieldFlatIndex (counts : List Nat) (index : List Int) : Except Fault Int :=
  if index.length ≠ counts.length then .error .exception
  else if (List.range counts.length).any
      (fun i => decide (index.getD i 0 < 0 ∨ index.getD i 0 ≥ (counts.getD i 0 : Int)))
  then .error .exception
  else .ok (linearIndex counts (index.map Int.toNat) : Int)

/-- Modelled from the spec: `math::VectorField<float>` of the ofxDabMath library is a dense
field of fixed-length values. `calcIndex(flatIndex)` is the index vector of a flat index;
it throws for a flat index outside the field. -/
def fieldIndexVector (counts : List Nat) (index : Nat) : Except Fault (List Nat) :=
  if index ≥ counts.foldl (· * ·) 1 then .error .exception
  else
    .ok ((List.range counts.length).map fun i =>
      index / ((counts.take i).foldl (· * ·) 1) % counts.getD i 1)

/-- The running sums of the scan of `AvgRegionMode`: `value`, `valueCount`,
`totalSumValue` and `totalPosValue`. -/
structure RegionSums where
  value : Vec
  valueCount : Nat
  totalSumValue : ℚ
  totalPosValue : Vec
deriving DecidableEq, Repr

/-- The body of the innermost loop of `AvgRegionMode` for the cell with the index position
`indexPos` and the flat index `index`. The branch for three axes adds the cell to `value`
(`accumulate`); in the branch for two axes that statement is commented out. -/
def regionCell (vectors : List Vec) (gridDim : Nat) (accumulate : Bool) (sums : RegionSums)
    (indexPos : Vec) (index : Nat) : Except Fault RegionSums :=
  match vectors[index]? with
  | none => .error .undefinedBehaviour
  | some cell =>
    match (if accumulate then vecAdd sums.value cell else .ok sums.value) with
    | .error e => .error e
    | .ok value =>
      let sumValue := cell.sum
      match (List.range gridDim).mapM
          (fun d =>
            match sums.totalPosValue[d]?, indexPos[d]? with
            | some t, some x => (.ok (t + x * sumValue) : Except Fault ℚ)
            | _, _ => .error .undefinedBehaviour) with
      | .error e => .error e
      | .ok totalPosValue =>
        .ok { value := value
              valueCount := sums.valueCount + 1
              totalSumValue := sums.totalSumValue + sumValue
              totalPosValue := totalPosValue }

/-- The loops of `AvgRegionMode` over the cells between `startIndexPos` and `endIndexPos`:
for three axes `z`, `y` and `x` run up to the end index inclusive; for two axes `y` and
`x` stop before the end index. -/
def regionScan (vectors : List Vec) (gridDim : Nat) (gridElementCount : List Nat)
    (startIndexPos endIndexPos : List Nat) (sums : RegionSums) : Except Fault RegionSums :=
  if gridElementCount.length = 3 then
    (List.range' (startIndexPos.getD 2 0) (endIndexPos.getD 2 0 + 1 - startIndexPos.getD 2 0)).foldlM
      (fun sums (z : Nat) =>
        (List.range' (startIndexPos.getD 1 0)
            (endIndexPos.getD 1 0 + 1 - startIndexPos.getD 1 0)).foldlM
          (fun sums (y : Nat) =>
            (List.range' (startIndexPos.getD 0 0)
                (endIndexPos.getD 0 0 + 1 - startIndexPos.getD 0 0)).foldlM
              (fun sums (x : Nat) =>
                regionCell vectors gridDim true sums [(x : ℚ), (y : ℚ), (z : ℚ)]
                  (wrapUnsigned (x + y * gridElementCount.getD 0 0
                    + z * gridElementCount.getD 0 0 * gridElementCount.getD 1 0)))
              sums)
          sums)
      sums
  else if gridElementCount.length = 2 then
    (List.range' (startIndexPos.getD 1 0) (endIndexPos.getD 1 0 - startIndexPos.getD 1 0)).foldlM
      (fun sums (y : Nat) =>
        (List.range' (startIndexPos.getD 0 0)
            (endIndexPos.getD 0 0 - startIndexPos.getD 0 0)).foldlM
          (fun sums (x : Nat) =>
            regionCell vectors gridDim false sums [(x : ℚ), (y : ℚ)]
              (wrapUnsigned (x + y * gridElementCount.getD 0 0)))
          sums)
      sums
  else .error .exception

/-- What a branch of the loop body of `GridAlg::updateNeighbors` returns for one proxy: the
proxy, the space objects created, the object counter and the content of the local
`value`. -/
abbrev BranchResult := SpaceProxyObject × List SpaceObject × Nat × Vec

/-- The branch `AvgRegionMode` of the loop body of `GridAlg::updateNeighbors` for one proxy.
`value` is the content of the local `value` of `updateNeighbors`, which is declared before
the loop over the proxies and not assigned in this branch before the scan. -/
def GridAlg.avgRegion (sqrtF : ℚ → ℚ) (alg : GridAlg) (proxyObject : SpaceProxyObject)
    (neighborRadius : ℚ) (sObjectCount : Nat) (value : Vec) : Except Fault BranchResult :=
  let dim := alg.mMinPos.length
  let objectPosition := proxyObject.mSpaceObject.mPosition
  let neighborRadiusVec : Vec := List.replicate dim neighborRadius
  match vecSub objectPosition neighborRadiusVec, vecAdd objectPosition neighborRadiusVec with
  | .error e, _ => .error e
  | _, .error e => .error e
  | .ok lower, .ok upper =>
    match alg.mGrid.position2index lower, alg.mGrid.position2index upper with
    | .error e, _ => .error e
    | _, .error e => .error e
    | .ok startIndexPos, .ok endIndexPos =>
      let gridDim := alg.mGrid.mGridDim
      match regionScan alg.mGrid.vectors gridDim alg.mGrid.subdivisionCount startIndexPos
          endIndexPos
          { value := value, valueCount := 0, totalSumValue := 0
            totalPosValue := List.replicate gridDim 0 } with
      | .error e => .error e
      | .ok sums =>
        if sums.totalSumValue > 0 then
          let totalPosValue := sums.totalPosValue.map fun t => t / sums.totalSumValue
          let value := sums.value.map fun v => v / (sums.valueCount : ℚ)
          match alg.mGrid.index2positionFloat totalPosValue with
          | .error e => .error e
          | .ok resultPosition =>
            let spaceObject : SpaceObject :=
              ⟨sObjectCount, resultPosition.length, resultPosition⟩
            match vecSub resultPosition objectPosition with
            | .error e => .error e
            | .ok direction =>
              match proxyObject.addNeighborValueDirDist spaceObject value direction
                  (distanceOf sqrtF direction) with
              | .error e => .error e
              | .ok (_, proxy') => .ok (proxy', [spaceObject], sObjectCount + 1, value)
        else .ok (proxyObject, [], sObjectCount, sums.value)

/-- The loop over the corners of the branch `GridLocationMode`, from corner `j` on. -/
def gridLocationCorners (sqrtF : ℚ → ℚ) (alg : GridAlg) (dim : Nat)
    (objectGridPosition grid2worldPosScale objectWorldPosition : Vec) :
    List Nat → BranchResult → Except Fault BranchResult
  | [], r => .ok r
  | j :: rest, (proxyObject, created, sObjectCount, _) =>
    match (List.range dim).mapM
        (fun z =>
          match objectGridPosition[z]?, grid2worldPosScale[z]?, alg.mMinPos[z]? with
          | some g, some scale, some lo =>
            match floatToUnsigned (if j.testBit z then (⌈g⌉ : ℚ) else (⌊g⌋ : ℚ)) with
            | .error e => (.error e : Except Fault (Nat × ℚ))
            | .ok k => .ok (k, (k : ℚ) * scale + lo)
          | _, _, _ => .error .undefinedBehaviour) with
    | .error e => .error e
    | .ok corner =>
      let gridGridPosition := corner.map Prod.fst
      let gridWorldPosition := corner.map Prod.snd
      let spaceObject : SpaceObject :=
        ⟨sObjectCount, gridWorldPosition.length, gridWorldPosition⟩
      match alg.mGrid.gridValueAt gridGridPosition with
      | .error e => .error e
      | .ok value =>
        match vecSub gridWorldPosition objectWorldPosition with
        | .error e => .error e
        | .ok direction =>
          match proxyObject.addNeighborValueDirDist spaceObject value direction
              (distanceOf sqrtF direction) with
          | .error e => .error e
          | .ok (_, proxy') =>
            gridLocationCorners sqrtF alg dim objectGridPosition grid2worldPosScale
              objectWorldPosition rest
              (proxy', created ++ [spaceObject], sObjectCount + 1, value)

/-- The branch `GridLocationMode` of the loop body of `GridAlg::updateNeighbors` for one
proxy. `(objectWorldPosition - mMinPos) * world2gridPosScale` is a product of two
`Eigen::VectorXf`, that is a matrix product of two columns: it is defined when the columns
have one row, and then it is the product of the two entries. -/
def GridAlg.gridLocation (sqrtF : ℚ → ℚ) (alg : GridAlg) (proxyObject : SpaceProxyObject)
    (sObjectCount : Nat) (value : Vec) : Except Fault BranchResult :=
  let dim := alg.mMinPos.length
  let objectWorldPosition := proxyObject.mSpaceObject.mPosition
  match (List.range dim).mapM
      (fun i =>
        match alg.mGrid.subdivisionCount[i]?, alg.mMaxPos[i]?, alg.mMinPos[i]? with
        | some n, some hi, some lo => (.ok ((n : ℚ) / (hi - lo)) : Except Fault ℚ)
        | _, _, _ => .error .undefinedBehaviour) with
  | .error e => .error e
  | .ok world2gridPosScale =>
    let grid2worldPosScale := world2gridPosScale.map fun s => 1 / s
    match vecSub objectWorldPosition alg.mMinPos with
    | .error e => .error e
    | .ok offset =>
      if dim ≠ 1 then .error .undefinedBehaviour
      else
        let objectGridPosition := List.zipWith (· * ·) offset world2gridPosScale
        gridLocationCorners sqrtF alg dim objectGridPosition grid2worldPosScale
          objectWorldPosition (List.range (2 ^ dim)) (proxyObject, [], sObjectCount, value)

/-- The candidates kept by the scan of `PeakSearchMode`: `neighborAbsIndices`,
`neighborGridValues` and `smallestNeighborIndex`. -/
structure PeakSlots where
  neighborAbsIndices : List Nat
  neighborGridValues : List ℚ
  smallestNeighborIndex : Nat
deriving DecidableEq, Repr

/-- The search for the new smallest kept value: the first index whose value is below
`FLT_MAX` and below every value before it. -/
def smallestSlot (values : List ℚ) : Nat :=
  ((List.range values.length).foldl
    (fun (acc : ℚ × Nat) i =>
      if acc.1 > values.getD i 0 then (values.getD i 0, i) else acc)
    (FLT_MAX, 0)).2

/-- The body of the loop over the first axis of `PeakSearchMode` for the cell with the flat
index `absIndex`. -/
def peakCell (sqrtF : ℚ → ℚ) (fieldVectors : List Vec) (slots : PeakSlots) (absIndex : Int) :
    Except Fault PeakSlots :=
  if absIndex < 0 then .error .undefinedBehaviour
  else
    match fieldVectors[absIndex.toNat]? with
    | none => .error .undefinedBehaviour
    | some valueVec =>
      match slots.neighborGridValues[slots.smallestNeighborIndex]? with
      | none => .error .undefinedBehaviour
      | some smallest =>
        if distanceOf sqrtF valueVec ≥ smallest then
          let values := slots.neighborGridValues.set slots.smallestNeighborIndex
            (distanceOf sqrtF valueVec)
          .ok { neighborAbsIndices :=
                  slots.neighborAbsIndices.set slots.smallestNeighborIndex absIndex.toNat
                neighborGridValues := values
                smallestNeighborIndex := smallestSlot values }
        else .ok slots

/-- The loop "successive dimensions" of `PeakSearchMode`, from axis `d` on:
`for(d; curRelIndex[d] > searchEndPos[d]; ++d)`. -/
def peakCarry (indexOffset : List Nat) (searchStartPos searchEndPos : List Int) :
    Nat → Nat → List Int → Int → Except Fault (List Int × Int)
  | 0, _, _, _ => .error .outOfFuel
  | fuel + 1, d, curRelIndex, absIndex =>
    match curRelIndex[d]?, searchEndPos[d]? with
    | some c, some e =>
      if c > e then
        match searchStartPos[d]?, curRelIndex[d + 1]?, indexOffset[d]?, indexOffset[d + 1]? with
        | some s, some next, some off, some offNext =>
          peakCarry indexOffset searchStartPos searchEndPos fuel (d + 1)
            ((curRelIndex.set d s).set (d + 1) (next + 1))
            (absIndex - (off : Int) * (e - s + 1) + (offNext : Int))
        | _, _, _, _ => .error .undefinedBehaviour
      else .ok (curRelIndex, absIndex)
    | _, _ => .error .undefinedBehaviour

/-- The loop `while( absIndex < absEndIndex )` of `PeakSearchMode`. -/
def peakScan (sqrtF : ℚ → ℚ) (fieldVectors : List Vec) (indexOffset : List Nat)
    (searchStartPos searchEndPos : List Int) (absEndIndex : Int) :
    Nat → List Int → Int → PeakSlots → Except Fault PeakSlots
  | 0, _, _, _ => .error .outOfFuel
  | fuel + 1, curRelIndex, absIndex, slots =>
    if absIndex < absEndIndex then
      match searchStartPos[0]?, searchEndPos[0]? with
      | some s, some e =>
        match (List.range (e + 1 - s).toNat).foldlM
            (fun (acc : Int × PeakSlots) _ =>
              match peakCell sqrtF fieldVectors acc.2 acc.1 with
              | .error err => (.error err : Except Fault (Int × PeakSlots))
              | .ok slots' => .ok (acc.1 + 1, slots'))
            (absIndex, slots) with
        | .error err => .error err
        | .ok (absIndex1, slots1) =>
          if absIndex1 ≥ absEndIndex then .ok slots1
          else
            match peakCarry indexOffset searchStartPos searchEndPos (searchStartPos.length + 1) 0
                (curRelIndex.set 0 (max s (e + 1))) absIndex1 with
            | .error err => .error err
            | .ok (curRelIndex1, absIndex2) =>
              peakScan sqrtF fieldVectors indexOffset searchStartPos searchEndPos absEndIndex
                fuel curRelIndex1 absIndex2 slots1
      | _, _ => .error .undefinedBehaviour
    else .ok slots

/-- One pass of the bubble sort of `PeakSearchMode` over the pairs (value, index): adjacent
pairs are swapped when the left value is smaller. The result is the list after the pass
and the flag `sorted`. -/
def bubblePass (pairs : List (ℚ × Nat)) : List (ℚ × Nat) × Bool :=
  match pairs with
  | [] => ([], true)
  | first :: rest =>
    let r := rest.foldl
      (fun (acc : List (ℚ × Nat) × (ℚ × Nat) × Bool) b =>
        if acc.2.1.1 < b.1 then (acc.1 ++ [b], acc.2.1, false)
        else (acc.1 ++ [acc.2.1], b, acc.2.2))
      ([], first, true)
    (r.1 ++ [r.2.1], r.2.2)

/-- The loop `while( sorted == false )` of `PeakSearchMode`. -/
def bubbleSort : Nat → List (ℚ × Nat) → Except Fault (List (ℚ × Nat))
  | 0, _ => .error .outOfFuel
  | fuel + 1, pairs =>
    let r := bubblePass pairs
    if r.2 then .ok r.1 else bubbleSort fuel r.1

/-- The last loop of `PeakSearchMode`: every kept flat index becomes a relation to a new
space object at the centre of the cell. -/
def peakEmit (sqrtF : ℚ → ℚ) (alg : GridAlg) (objectPosition : Vec) :
    List Nat → BranchResult → Except Fault BranchResult
  | [], r => .ok r
  | absIndex :: rest, (proxyObject, created, sObjectCount, _) =>
    match fieldIndexVector alg.mGrid.subdivisionCount absIndex with
    | .error e => .error e
    | .ok cellIndex =>
      match alg.mGrid.index2position cellIndex with
      | .error e => .error e
      | .ok cellPosition =>
        match alg.mGrid.gridValueAt cellIndex with
        | .error e => .error e
        | .ok value =>
          match vecSub cellPosition objectPosition with
          | .error e => .error e
          | .ok direction =>
            let spaceObject : SpaceObject :=
              ⟨sObjectCount, cellPosition.length, cellPosition⟩
            match proxyObject.addNeighborValueDirDist spaceObject value direction
                (distanceOf sqrtF direction) with
            | .error e => .error e
            | .ok (_, proxy') =>
              peakEmit sqrtF alg objectPosition rest
                (proxy', created ++ [spaceObject], sObjectCount + 1, value)

/-- The search box of `PeakSearchMode` on the axis `i`: `searchStartPos[i]` and
`searchEndPos[i]`. -/
def peakRange (objectGridPos : Nat) (cellSearchRange : Int) (subdivisionCount : Nat) :
    Int × Int :=
  let searchStartPos : Int := (objectGridPos : Int) - cellSearchRange
  let searchEndPos : Int := (objectGridPos : Int) + cellSearchRange
  (if searchStartPos < 0 then 0 else searchStartPos,
   if toUInt searchEndPos ≥ subdivisionCount then (subdivisionCount : Int) - 1
   else searchEndPos)

/-- The branch `PeakSearchMode` of the loop body of `GridAlg::updateNeighbors` for one
proxy; `fuel` bounds the rounds of the two `while` loops. -/
def GridAlg.peakSearch (sqrtF : ℚ → ℚ) (fuel : Nat) (alg : GridAlg)
    (proxyObject : SpaceProxyObject) (maxNeighborCount : Int) (neighborRadius : ℚ)
    (sObjectCount : Nat) (value : Vec) : Except Fault BranchResult :=
  let dim := alg.mMinPos.length
  let objectPosition := proxyObject.mSpaceObject.mPosition
  let subdivisionCount := alg.mGrid.subdivisionCount
  match alg.mGrid.position2indexInto objectPosition (List.replicate dim 0) with
  | .error e => .error e
  | .ok objectGridPos =>
    match (List.range dim).mapM
        (fun i =>
          match alg.mMaxPos[i]?, alg.mMinPos[i]?, subdivisionCount[i]?, objectGridPos[i]? with
          | some hi, some lo, some n, some k =>
            let cellSize := (hi - lo) / (n : ℚ)
            (.ok (peakRange k ⌈(neighborRadius - 1 / 2 * cellSize) / cellSize⌉ n) :
              Except Fault (Int × Int))
          | _, _, _, _ => .error .undefinedBehaviour) with
    | .error e => .error e
    | .ok ranges =>
      let searchStartPos := ranges.map Prod.fst
      let searchEndPos := ranges.map Prod.snd
      let searchPosCount : Int := ranges.foldl (fun acc r => acc * (r.2 - r.1)) 1
      let neighborCount : Int :=
        if maxNeighborCount > searchPosCount then searchPosCount else maxNeighborCount
      if neighborCount < 0 then .error .exception
      else
        match fieldFlatIndex subdivisionCount searchStartPos,
            fieldFlatIndex subdivisionCount searchEndPos with
        | .error e, _ => .error e
        | _, .error e => .error e
        | .ok absStartIndex, .ok absEndIndex =>
          match peakScan sqrtF alg.mGrid.vectors (fieldIndexOffset subdivisionCount)
              searchStartPos searchEndPos absEndIndex fuel searchStartPos absStartIndex
              { neighborAbsIndices := List.replicate neighborCount.toNat 0
                neighborGridValues := List.replicate neighborCount.toNat 0
                smallestNeighborIndex := 0 } with
          | .error e => .error e
          | .ok slots =>
            match bubbleSort fuel (List.zip slots.neighborGridValues slots.neighborAbsIndices) with
            | .error e => .error e
            | .ok sorted =>
              peakEmit sqrtF alg objectPosition (sorted.map Prod.snd)
                (proxyObject, [], sObjectCount, value)

/-- `GridAlg::updateNeighbors` for an algorithm in one of the modes of `GridSearchMode`
(the mode is an argument; the field `mNeighborMode` of the model holds the mode
CellLocation only). `value0` is the content of the local `value`, which the source leaves
uninitialised, at the start. The algorithm, the proxy vector, the object counter and the
content of `value` after the call are returned. -/
def GridAlg.searchNeighbors (sqrtF : ℚ → ℚ) (fuel : Nat) (mode : GridSearchMode)
    (value0 : Vec) (alg : GridAlg) (objs : List SpaceProxyObject) (sObjectCount : Nat)
    (pObjects : List Nat) : Except Fault (GridAlg × List SpaceProxyObject × Nat × Vec) :=
  let dim := alg.mMinPos.length
  match removeAllNeighbors objs pObjects with
  | .error e => .error e
  | .ok objs1 =>
    pObjects.foldlM
      (fun (st : GridAlg × List SpaceProxyObject × Nat × Vec) i =>
        match st.2.1[i]? with
        | none =>
          (.error .undefinedBehaviour : Except Fault (GridAlg × List SpaceProxyObject × Nat × Vec))
        | some proxyObject =>
          match proxyObject.mNeighborGroup.mNeighborGroupAlg with
          | none => .error .exception
          | some policy =>
            if proxyObject.canHaveNeighbors then
              if insideBox dim proxyObject.mSpaceObject.mPosition alg.mMinPos alg.mMaxPos = false
              then .ok st
              else
                match (match mode with
                    | .AvgRegionMode =>
                      st.1.avgRegion sqrtF proxyObject policy.mNeighborRadius st.2.2.1 st.2.2.2
                    | .GridLocationMode =>
                      st.1.gridLocation sqrtF proxyObject st.2.2.1 st.2.2.2
                    | .PeakSearchMode =>
                      st.1.peakSearch sqrtF fuel proxyObject policy.mMaxNeighborCount
                        policy.mNeighborRadius st.2.2.1 st.2.2.2) with
                | .error e => .error e
                | .ok (proxy', created, count, value) =>
                  .ok ({ st.1 with mTmpSpaceObjects := st.1.mTmpSpaceObjects ++ created },
                       st.2.1.set i proxy', count, value)
            else .ok st)
      ({ alg with mTmpSpaceObjects := [] }, objs1, sObjectCount, value0)

/-- `Space::update` for a space whose `GridAlg` is in one of the modes of `GridSearchMode`:
classification, structure phase, neighbor phase. The space, the object counter and the
content of the local `value` of the neighbor phase after the call are returned. -/
def GridSpace.searchUpdate (sqrtF : ℚ → ℚ) (fuel : Nat) (mode : GridSearchMode) (value0 : Vec)
    (heap : Nat → Option SpaceObject) (space : GridSpace) (sObjectCount : Nat) :
    Except Fault (GridSpace × Nat × Vec) :=
  match space.updateObjects with
  | .error e => .error e
  | .ok s1 =>
    match s1.mSpaceAlg.updateStructure heap s1.mObjects s1.mVisibleObjects with
    | .error e => .error e
    | .ok alg1 =>
      match alg1.searchNeighbors sqrtF fuel mode value0 s1.mObjects sObjectCount
          s1.mNeighborObjects with
      | .error e => .error e
      | .ok (alg2, objs2, count, value) =>
        .ok ({ s1 with mSpaceAlg := alg2, mObjects := objs2 }, count, value)

/-- The relation vectors of the proxies and the positions of the space objects created by
the neighbor phase, in the order of their creation. -/
def GridSpace.outcome (r : GridSpace × Nat × Vec) :
    List (List SpaceNeighborRelation) × List Vec :=
  (r.1.mObjects.map fun p => p.mNeighborGroup.mNeighborRelations,
   r.1.mSpaceAlg.mTmpSpaceObjects.map fun o => o.mPosition)

/-- The values of the square root that the grid scenarios need: the roots of 0, 1, 4, 25,
49, 1/25, 9/100, 1/16 and 1/144; 3/8 stands for the root of every other number (the
direction norms 1/8 and 2/9 of the 3x3 scenario have no rational root). -/
def gridSqrt : ℚ → ℚ :=
  fun x => if x = 0 then 0 else if x = 1 then 1 else if x = 4 then 2 else if x = 25 then 5
    else if x = 49 then 7 else if x = 1 / 25 then 1 / 5 else if x = 9 / 100 then 3 / 10
    else if x = 1 / 16 then 1 / 4 else if x = 1 / 144 then 1 / 12 else 3 / 8

/-- A bounded space over [0, 1] with a grid of two cells holding (5) and (7), update mode
NoUpdate, and one visible proxy (object 0, policy without radius limit, cap 2) at `pos`. -/
def lineGridSpace (pos : Vec) : GridSpace :=
  { mSpaceAlg :=
      { mMinPos := [0], mMaxPos := [1], mFixedSize := true
        mGrid := { mGridDim := 1, mValueDim := 1, mMinPos := [0], mMaxPos := [1]
                   subdivisionCount := [2], vectors := [[5], [7]]
                   mPositionScale := positionScale [2] [0] [1] }
        mNeighborMode := .CellLocationMode, mUpdateMode := .NoUpdateMode
        mTmpSpaceObjects := [] }
    mObjects := [⟨⟨0, 1, pos⟩, ⟨true, some ⟨-1, 2, false, 1⟩, []⟩⟩]
    mVisibleObjects := []
    mNeighborObjects := [] }

/-- A bounded space over (0,0)-(1,1) with a grid of `counts` cells holding `vectors`
(values of length 2), update mode NoUpdate, and visible proxies with the policy `policy` at
the positions `positions` (objects 0, 1, ...). -/
def planeGridSpace (counts : List Nat) (vectors : List Vec) (policy : NeighborGroupAlg)
    (positions : List Vec) : GridSpace :=
  { mSpaceAlg :=
      { mMinPos := [0, 0], mMaxPos := [1, 1], mFixedSize := true
        mGrid := { mGridDim := 2, mValueDim := 2, mMinPos := [0, 0], mMaxPos := [1, 1]
                   subdivisionCount := counts, vectors := vectors
                   mPositionScale := positionScale counts [0, 0] [1, 1] }
        mNeighborMode := .CellLocationMode, mUpdateMode := .NoUpdateMode
        mTmpSpaceObjects := [] }
    mObjects := (List.range positions.length).map fun i =>
      ⟨⟨i, 2, positions.getD i []⟩, ⟨true, some policy, []⟩⟩
    mVisibleObjects := []
    mNeighborObjects := [] }

/-- A bounded space over (0,0,0)-(1,1,1) with a grid of 2x1x1 cells holding (2) and (4),
update mode NoUpdate, and visible proxies with a policy of radius 2 and cap 1 at the
positions `positions` (objects 0, 1, ...). -/
def cubeGridSpace (positions : List Vec) : GridSpace :=
  { mSpaceAlg :=
      { mMinPos := [0, 0, 0], mMaxPos := [1, 1, 1], mFixedSize := true
        mGrid := { mGridDim := 3, mValueDim := 1, mMinPos := [0, 0, 0], mMaxPos := [1, 1, 1]
                   subdivisionCount := [2, 1, 1], vectors := [[2], [4]]
                   mPositionScale := positionScale [2, 1, 1] [0, 0, 0] [1, 1, 1] }
        mNeighborMode := .CellLocationMode, mUpdateMode := .NoUpdateMode
        mTmpSpaceObjects := [] }
    mObjects := (List.range positions.length).map fun i =>
      ⟨⟨i, 3, positions.getD i []⟩, ⟨true, some ⟨2, 1, false, 3⟩, []⟩⟩
    mVisibleObjects := []
    mNeighborObjects := [] }

/-- One round of the loop of the flat form of `position2index`, on the axis `i`; `acc` holds
`pIndex` and `indexMul`. -/
def flatStep (g : SpaceGrid) (pPosition : Vec) (acc : Nat × Nat) (i : Nat) :
    Except Fault (Nat × Nat) :=
  match pPosition[i]?, g.mMinPos[i]?, g.mMaxPos[i]?, g.subdivisionCount[i]?,
      g.mPositionScale[i]? with
  | some p, some lo, some hi, some n, some scale =>
    if p ≥ hi then
      (.ok (wrapUnsigned (acc.1 + ((n : Int) - 1) * acc.2), wrapUnsigned (acc.2 * n)) :
        Except Fault (Nat × Nat))
    else if p > lo then
      match floatToUnsigned ((p - lo) * scale) with
      | .error e => .error e
      | .ok k => .ok (wrapUnsigned (acc.1 + k * acc.2), wrapUnsigned (acc.2 * n))
    else .ok (acc.1, wrapUnsigned (acc.2 * n))
  | _, _, _, _, _ => .error .undefinedBehaviour

/-- The write a relation stands for in the nearest-cell write-back: the flat index that
`position2index(position, flatIndex)` gives for the position of the relation target, and
the value of the relation. -/
def GridAlg.writeOf (heap : Nat → Option SpaceObject) (alg : GridAlg)
    (rel : SpaceNeighborRelation) : Option (Nat × Vec) :=
  match alg.target heap rel.mNeighborObject with
  | none => none
  | some neighbor =>
    match alg.mGrid.position2indexFlat neighbor.mPosition with
    | .ok k => some (k, rel.mValue)
    | .error _ => none

/-- The writes of a write-back over the proxies `pObjects`, in the order in which they are
made: for every listed proxy that can have neighbors, in the order of the list, one write
for every relation of the proxy, in the order of the relation vector. -/
def GridAlg.writesOf (heap : Nat → Option SpaceObject) (alg : GridAlg)
    (objs : List SpaceProxyObject) (pObjects : List Nat) : List (Nat × Vec) :=
  (pObjects.map fun i =>
    match objs[i]? with
    | none => []
    | some object =>
      if object.canHaveNeighbors then
        object.mNeighborGroup.mNeighborRelations.filterMap (alg.writeOf heap)
      else []).flatten

/-- The child pointers of every node of the store are all null or none null: a node with a
child pointer that is not null has a first child pointer that is not null. -/
def UniformChildren (tree : NTree) : Prop :=
  ∀ node ∈ tree.nodes, ∀ j : Nat, node.mChildren.getD j none ≠ none →
    node.mChildren.getD 0 none ≠ none

/-- What is compared of two trees: of a node its level, its cell, its objects and, in the
order of the child pointers, its children; a node without children has the empty list. -/
inductive TreeView where
  | node (mLevel : Nat) (mMinPos mMaxPos : Vec) (mObjects : List Nat)
      (children : List TreeView)

/-- The view of the node `n` of the store and of the nodes below it. As in the source, a
node whose first child pointer is null counts as having no children. -/
def NTree.viewAt (tree : NTree) : Nat → Nat → Option TreeView
  | 0, _ => none
  | fuel + 1, n =>
    match tree.nodes[n]? with
    | none => none
    | some node =>
      match node.mChildren.getD 0 none with
      | none => some (.node node.mLevel node.mMinPos node.mMaxPos node.mObjects [])
      | some _ =>
        match (List.range node.mChildren.length).mapM (fun j =>
            match node.mChildren.getD j none with
            | none => none
            | some c => NTree.viewAt tree fuel c) with
        | none => none
        | some views =>
          some (.node node.mLevel node.mMinPos node.mMaxPos node.mObjects views)

/-- The view of the tree from its root node. -/
def NTree.view (tree : NTree) (fuel : Nat) : Option TreeView :=
  match tree.mRootNode with
  | none => none
  | some r => tree.viewAt fuel r

/-- The view of the tree that subdividing makes of a cell at level `level` with the objects
`objects`, for the limits `maxDepth` and `minObjectCount`: the test of the source decides
whether the cell is divided, and each of the `2 ^ mDim` children has the cell `childBounds`
gives and the objects of its parent inside that cell. -/
def builtView (mDim : Nat) (objs : List SpaceProxyObject) (maxDepth minObjectCount : Int) :
    Nat → Nat → Vec → Vec → List Nat → Option TreeView
  | 0, _, _, _, _ => none
  | fuel + 1, level, minPos, maxPos, objects =>
    if subdivides ⟨maxDepth, minObjectCount, [], [], none, []⟩
        ⟨none, [], none, level, minPos, maxPos, objects⟩ then
      match (List.range (2 ^ mDim)).mapM (fun j =>
          builtView mDim objs maxDepth minObjectCount fuel (level + 1)
            (childBounds mDim minPos maxPos j).1 (childBounds mDim minPos maxPos j).2
            (objects.filter fun i =>
              insideBox mDim (positionOf objs i) (childBounds mDim minPos maxPos j).1
                (childBounds mDim minPos maxPos j).2)) with
      | none => none
      | some views => some (.node level minPos maxPos objects views)
    else some (.node level minPos maxPos objects [])

/-- The trees that the structure phase produces: a tree without nodes, as it is after its
construction or `clearTree`, and every tree that
`updateTree(NTree&, std::vector<SpaceProxyObject*>&)` returns on a tree so produced. -/
inductive Produced (mDim : Nat) : NTree → Prop
  | cleared (tree : NTree) : tree.mRootNode = none → tree.nodes = [] → Produced mDim tree
  | updated (objs : List SpaceProxyObject) (fuel : Nat) (tree : NTree) (V : List Nat)
      (tree' : NTree) : Produced mDim tree →
      NTreeVisitor.updateTree mDim objs fuel tree V = .ok tree' → Produced mDim tree'

/-- The tree of `midpointSpace` after a structure phase over its three proxies, at the
positions 1, 8 and 11. -/
def grownTree : NTree :=
  match NTreeVisitor.updateTree 1 midpointSpace.mObjects 5 midpointSpace.mSpaceAlg.mTree
      [0, 1, 2] with
  | .ok t => t
  | .error _ => midpointSpace.mSpaceAlg.mTree

/-- The proxies of `midpointSpace` after the objects have moved to the positions 13, 14
and 15. -/
def movedObjects : List SpaceProxyObject :=
  [⟨⟨0, 1, [13]⟩, ⟨true, some ⟨16, 2, true, 1⟩, []⟩⟩,
   ⟨⟨1, 1, [14]⟩, ⟨true, none, []⟩⟩,
   ⟨⟨2, 1, [15]⟩, ⟨true, none, []⟩⟩]

theorem toSizeT_of_nonneg {c : Int} (h : 0 ≤ c) : (toSizeT c : Int) = c := by
  unfold toSizeT
  rw [if_pos h]
  exact Int.toNat_of_nonneg h

theorem sortedByDistance_iff (rels : List SpaceNeighborRelation) :
    SortedByDistance rels ↔ rels.Pairwise (fun a b => a.mDistance ≤ b.mDistance) := by
  unfold SortedByDistance distances List.Sorted
  rw [List.pairwise_map]

theorem scanBackward_spec (rels : List SpaceNeighborRelation) (d : ℚ) :
    ∀ i k, scanBackward rels d i (i + 1) = .ok k →
      1 ≤ k ∧ k ≤ i + 1 ∧ (∃ r, rels[k - 1]? = some r ∧ r.mDistance ≤ d) ∧
        ∀ j r, k ≤ j → j ≤ i → rels[j]? = some r → d < r.mDistance := by
  intro i
  induction i with
  | zero =>
    intro k h
    unfold scanBackward at h
    cases hr : rels[0]? with
    | none => simp [hr] at h
    | some r =>
      simp only [hr] at h
      by_cases hd : r.mDistance > d
      · simp [hd] at h
      · simp only [hd, if_false, Except.ok.injEq] at h
        subst h
        refine ⟨le_refl _, le_refl _, ⟨r, by simpa using hr, not_lt.mp hd⟩, ?_⟩
        intro j r' h1 h2
        omega
  | succ i ih =>
    intro k h
    unfold scanBackward at h
    cases hr : rels[i + 1]? with
    | none => simp [hr] at h
    | some r =>
      simp only [hr] at h
      by_cases hd : r.mDistance > d
      · simp only [hd, if_true] at h
        obtain ⟨h1, h2, h3, h4⟩ := ih k h
        refine ⟨h1, by omega, h3, ?_⟩
        intro j r' hj1 hj2 hj3
        by_cases hj : j = i + 1
        · subst hj
          rw [hr] at hj3
          cases hj3
          exact hd
        · exact h4 j r' hj1 (by omega) hj3
      · simp only [hd, if_false, Except.ok.injEq] at h
        subst h
        refine ⟨by omega, le_refl _, ⟨r, by simpa using hr, not_lt.mp hd⟩, ?_⟩
        intro j r' h1 h2
        omega

theorem scanBackward_total (rels : List SpaceNeighborRelation) (d : ℚ)
    (h0 : ∃ f, rels[0]? = some f ∧ f.mDistance ≤ d) :
    ∀ i, i < rels.length → ∃ k, scanBackward rels d i (i + 1) = .ok k := by
  intro i
  induction i with
  | zero =>
    intro _
    obtain ⟨f, hf, hfd⟩ := h0
    unfold scanBackward
    simp [hf, not_lt.mpr hfd]
  | succ i ih =>
    intro hi
    unfold scanBackward
    have : rels[i + 1]? = some rels[i + 1] := List.getElem?_eq_getElem hi
    rw [this]
    simp only
    by_cases hd : rels[i + 1].mDistance > d
    · simp only [hd, if_true]
      exact ih (by omega)
    · simp [hd]

theorem insertionIndex_total (rels : List SpaceNeighborRelation) (d : ℚ) (hne : rels ≠ []) :
    ∃ idx, insertionIndex rels d = .ok idx := by
  cases rels with
  | nil => exact absurd rfl hne
  | cons f t =>
    unfold insertionIndex
    simp only [List.head?_cons]
    by_cases hf : f.mDistance ≥ d
    · exact ⟨0, by simp [hf]⟩
    · simp only [hf, if_false]
      have h := scanBackward_total (f :: t) d ⟨f, by simp, le_of_lt (not_le.mp hf)⟩ t.length
        (by simp)
      simpa using h

theorem insertionIndex_spec (rels : List SpaceNeighborRelation) (d : ℚ) (idx : Nat)
    (h : insertionIndex rels d = .ok idx) :
    idx ≤ rels.length ∧
      ((idx = 0 ∧ ∃ f, rels.head? = some f ∧ d ≤ f.mDistance) ∨
        (1 ≤ idx ∧ (∃ r, rels[idx - 1]? = some r ∧ r.mDistance ≤ d) ∧
          ∀ j r, idx ≤ j → rels[j]? = some r → d < r.mDistance)) := by
  cases rels with
  | nil => simp [insertionIndex] at h
  | cons f t =>
    unfold insertionIndex at h
    simp only [List.head?_cons] at h
    by_cases hf : f.mDistance ≥ d
    · simp only [hf, if_true, Except.ok.injEq] at h
      subst h
      exact ⟨Nat.zero_le _, Or.inl ⟨rfl, f, rfl, hf⟩⟩
    · simp only [hf, if_false] at h
      have hlen : (f :: t).length - 1 = t.length := by simp
      rw [hlen] at h
      have hl : (f :: t).length = t.length + 1 := by simp
      rw [hl] at h
      obtain ⟨h1, h2, h3, h4⟩ := scanBackward_spec (f :: t) d t.length idx h
      refine ⟨by simpa using h2, Or.inr ⟨h1, h3, ?_⟩⟩
      intro j r hj hr
      have hjl : j < (f :: t).length := by
        by_contra hc
        rw [List.getElem?_eq_none (by omega)] at hr
        cases hr
      exact h4 j r hj (by simp at hjl; omega) hr

theorem insertionIndex_front (rels : List SpaceNeighborRelation) (d : ℚ)
    (f : SpaceNeighborRelation) (hf : rels.head? = some f) (hd : d ≤ f.mDistance) :
    insertionIndex rels d = .ok 0 := by
  unfold insertionIndex
  simp [hf, hd]

theorem insertionIndex_back (rels : List SpaceNeighborRelation) (d : ℚ)
    (f b : SpaceNeighborRelation) (hf : rels.head? = some f) (hb : rels.getLast? = some b)
    (hfd : f.mDistance < d) (hbd : b.mDistance ≤ d) :
    insertionIndex rels d = .ok rels.length := by
  unfold insertionIndex
  simp only [hf, ge_iff_le, not_le.mpr hfd, if_false]
  have hne : rels ≠ [] := by
    intro h
    simp [h] at hf
  have hlen : 0 < rels.length := List.length_pos.mpr hne
  have hget : rels[rels.length - 1]? = some b := by
    rw [← hb, List.getLast?_eq_getElem?]
  cases hn : rels.length - 1 with
  | zero =>
    unfold scanBackward
    rw [hn] at hget
    simp [hget, not_lt.mpr hbd]
  | succ i =>
    unfold scanBackward
    rw [hn] at hget
    simp [hget, not_lt.mpr hbd]

/-- What the insertion index gives on a sorted vector: everything before it is at most `d`,
everything from it on is at least `d`. -/
theorem insertionIndex_sorted (rels : List SpaceNeighborRelation) (d : ℚ) (idx : Nat)
    (hs : rels.Pairwise (fun a b => a.mDistance ≤ b.mDistance))
    (h : insertionIndex rels d = .ok idx) :
    (∀ a ∈ rels.take idx, a.mDistance ≤ d) ∧ (∀ b ∈ rels.drop idx, d ≤ b.mDistance) := by
  obtain ⟨hle, hcase⟩ := insertionIndex_spec rels d idx h
  rcases hcase with ⟨h0, f, hf, hfd⟩ | ⟨h1, ⟨r, hr, hrd⟩, hafter⟩
  · subst h0
    refine ⟨by simp, ?_⟩
    intro b hb
    simp only [List.drop_zero] at hb
    cases rels with
    | nil => cases hb
    | cons x t =>
      simp only [List.head?_cons, Option.some.injEq] at hf
      subst hf
      rcases List.mem_cons.mp hb with hbx | hbt
      · subst hbx
        exact hfd
      · exact le_trans hfd (List.rel_of_pairwise_cons hs hbt)
  · constructor
    · intro a ha
      obtain ⟨j, hj, hja⟩ := List.mem_take_iff_getElem.mp ha
      have hjl : j < rels.length := by omega
      have hj' : j < idx := by omega
      have hil : idx - 1 < rels.length := by omega
      have hr' : rels[idx - 1] = r := by
        have := List.getElem?_eq_getElem hil
        rw [this] at hr
        exact Option.some.inj hr
      subst hja
      by_cases hje : j = idx - 1
      · subst hje
        rw [hr']
        exact hrd
      · have := List.pairwise_iff_getElem.mp hs j (idx - 1) hjl hil (by omega)
        rw [hr'] at this
        exact le_trans this hrd
    · intro b hb
      obtain ⟨j, hj, hjb⟩ := List.mem_drop_iff_getElem.mp hb
      have : rels[idx + j]? = some b := by
        rw [List.getElem?_eq_getElem (by omega), hjb]
      exact le_of_lt (hafter (idx + j) b (by omega) this)

theorem insertAt_sorted (rels : List SpaceNeighborRelation) (r : SpaceNeighborRelation)
    (idx : Nat) (hs : rels.Pairwise (fun a b => a.mDistance ≤ b.mDistance))
    (h : insertionIndex rels r.mDistance = .ok idx) :
    (insertAt rels idx r).Pairwise (fun a b => a.mDistance ≤ b.mDistance) := by
  obtain ⟨hbefore, hafter⟩ := insertionIndex_sorted rels r.mDistance idx hs h
  unfold insertAt
  rw [List.pairwise_append]
  refine ⟨hs.sublist (List.take_sublist _ _), ?_, ?_⟩
  · rw [List.pairwise_cons]
    exact ⟨hafter, hs.sublist (List.drop_sublist _ _)⟩
  · intro a ha b hb
    rcases List.mem_cons.mp hb with hbr | hbd
    · subst hbr
      exact hbefore a ha
    · exact le_trans (hbefore a ha) (hafter b hbd)

theorem insertAt_length (rels : List SpaceNeighborRelation) (r : SpaceNeighborRelation)
    (idx : Nat) : (insertAt rels idx r).length = rels.length + 1 := by
  unfold insertAt
  simp only [List.length_append, List.length_take, List.length_cons, List.length_drop]
  omega

theorem insertAt_perm (rels : List SpaceNeighborRelation) (r : SpaceNeighborRelation)
    (idx : Nat) : (insertAt rels idx r).Perm (r :: rels) := by
  unfold insertAt
  have h := @List.perm_middle _ r (rels.take idx) (rels.drop idx)
  rw [List.take_append_drop] at h
  exact h

/-- The outcome of the shared insertion: it always returns, and the new vector is the old
one with the relation inserted at the insertion index, without its last element when
`exceeds` holds; the result is `false` exactly when the element removed is the new one. -/
theorem insertRelation_spec (exceeds : Bool) (rels : List SpaceNeighborRelation)
    (r : SpaceNeighborRelation) :
    ∃ idx, idx ≤ rels.length ∧ (rels ≠ [] → insertionIndex rels r.mDistance = .ok idx) ∧
      (rels = [] → idx = 0) ∧
      insertRelation exceeds rels r =
        .ok (if rels ≠ [] ∧ exceeds = true then
              (decide (idx ≠ rels.length), (insertAt rels idx r).dropLast)
            else (true, insertAt rels idx r)) := by
  by_cases hne : rels = []
  · subst hne
    refine ⟨0, le_refl _, fun h => absurd rfl h, fun _ => rfl, ?_⟩
    simp [insertRelation, insertAt]
  · obtain ⟨idx, hidx⟩ := insertionIndex_total rels r.mDistance hne
    have hle := (insertionIndex_spec rels r.mDistance idx hidx).1
    refine ⟨idx, hle, fun _ => hidx, fun h => absurd h hne, ?_⟩
    have hlen : rels.length ≠ 0 := fun h => hne (List.length_eq_zero.mp h)
    unfold insertRelation
    simp only [hlen, if_false, hidx]
    cases exceeds with
    | false => simp
    | true =>
      by_cases hi : idx = rels.length
      · simp [hi, hne]
      · simp [hi, hne]

theorem insertAt_length_dropLast (rels : List SpaceNeighborRelation)
    (r : SpaceNeighborRelation) : (insertAt rels rels.length r).dropLast = rels := by
  unfold insertAt
  simp

theorem insertRelation_outcome (exceeds : Bool) (rels : List SpaceNeighborRelation)
    (r : SpaceNeighborRelation) (b : Bool) (l' : List SpaceNeighborRelation)
    (h : insertRelation exceeds rels r = .ok (b, l')) :
    InsertOutcome (exceeds = true) rels r b l' := by
  obtain ⟨idx, hle, hidx, h0, heq⟩ := insertRelation_spec exceeds rels r
  rw [heq] at h
  by_cases hc : rels ≠ [] ∧ exceeds = true
  · rw [if_pos hc] at h
    simp only [Except.ok.injEq, Prod.mk.injEq] at h
    obtain ⟨hb, hl⟩ := h
    by_cases hi : idx = rels.length
    · left
      subst hi
      rw [insertAt_length_dropLast] at hl
      refine ⟨?_, hl.symm⟩
      rw [← hb]
      simp
    · right
      refine ⟨?_, idx, hle, hidx, h0, Or.inr ⟨hc.1, hc.2, hi, hl.symm⟩⟩
      rw [← hb]
      simp [hi]
  · rw [if_neg hc] at h
    simp only [Except.ok.injEq, Prod.mk.injEq] at h
    obtain ⟨hb, hl⟩ := h
    right
    refine ⟨hb.symm, idx, hle, hidx, h0, Or.inl ⟨hl.symm, ?_⟩⟩
    by_cases hne : rels = []
    · exact Or.inl hne
    · exact Or.inr (fun he => hc ⟨hne, he⟩)

theorem InsertOutcome.sorted {exceeds : Prop} {rels : List SpaceNeighborRelation}
    {r : SpaceNeighborRelation} {b : Bool} {l' : List SpaceNeighborRelation}
    (h : InsertOutcome exceeds rels r b l') (hs : SortedByDistance rels) :
    SortedByDistance l' := by
  rw [sortedByDistance_iff] at hs ⊢
  rcases h with ⟨_, hl⟩ | ⟨_, idx, _, hidx, h0, hl⟩
  · rw [hl]
    exact hs
  · have hins : (insertAt rels idx r).Pairwise (fun a b => a.mDistance ≤ b.mDistance) := by
      by_cases hne : rels = []
      · subst hne
        simp [insertAt]
      · exact insertAt_sorted rels r idx hs (hidx hne)
    rcases hl with ⟨hl, _⟩ | ⟨_, _, _, hl⟩
    · rw [hl]
      exact hins
    · rw [hl]
      exact hins.sublist (List.dropLast_sublist _)

theorem InsertOutcome.length_le {exceeds : Prop} {rels : List SpaceNeighborRelation}
    {r : SpaceNeighborRelation} {b : Bool} {l' : List SpaceNeighborRelation}
    (h : InsertOutcome exceeds rels r b l') (cap : Nat) (hcap : rels.length ≤ cap)
    (h1 : 1 ≤ cap) (hex : ¬ exceeds → rels.length + 1 ≤ cap) : l'.length ≤ cap := by
  rcases h with ⟨_, hl⟩ | ⟨_, idx, _, _, _, hl⟩
  · rw [hl]
    exact hcap
  · rcases hl with ⟨hl, hc⟩ | ⟨_, _, _, hl⟩
    · rw [hl, insertAt_length]
      rcases hc with hc | hc
      · subst hc
        simpa using h1
      · exact hex hc
    · rw [hl, List.length_dropLast, insertAt_length]
      simpa using hcap

theorem InsertOutcome.mem {exceeds : Prop} {rels : List SpaceNeighborRelation}
    {r : SpaceNeighborRelation} {b : Bool} {l' : List SpaceNeighborRelation}
    (h : InsertOutcome exceeds rels r b l') :
    ∀ x ∈ l', x ∈ rels ∨ (b = true ∧ x = r) := by
  intro x hx
  rcases h with ⟨_, hl⟩ | ⟨hb, idx, _, _, _, hl⟩
  · rw [hl] at hx
    exact Or.inl hx
  · have hmem : ∀ y ∈ insertAt rels idx r, y ∈ rels ∨ (b = true ∧ y = r) := by
      intro y hy
      have := (insertAt_perm rels r idx).mem_iff.mp hy
      rcases List.mem_cons.mp this with h1 | h1
      · exact Or.inr ⟨hb, h1⟩
      · exact Or.inl h1
    rcases hl with ⟨hl, _⟩ | ⟨_, _, _, hl⟩
    · rw [hl] at hx
      exact hmem x hx
    · rw [hl] at hx
      exact hmem x (List.mem_of_mem_dropLast hx)

theorem InsertOutcome.congr {e1 e2 : Prop} {rels : List SpaceNeighborRelation}
    {r : SpaceNeighborRelation} {b : Bool} {l' : List SpaceNeighborRelation}
    (h : InsertOutcome e1 rels r b l') (he : e1 ↔ e2) : InsertOutcome e2 rels r b l' := by
  unfold InsertOutcome at h ⊢
  rw [← he]
  exact h

theorem InsertOutcome.rejected (exceeds : Prop) (rels : List SpaceNeighborRelation)
    (r : SpaceNeighborRelation) : InsertOutcome exceeds rels r false rels :=
  Or.inl ⟨rfl, rfl⟩

/-- Every outcome returned by the second and third entry point after construction. -/
theorem admitConstructed_outcome (alg : NeighborGroupAlg) (rels : List SpaceNeighborRelation)
    (r : SpaceNeighborRelation) (b : Bool) (l' : List SpaceNeighborRelation)
    (h : admitConstructed alg rels r = .ok (b, l')) :
    InsertOutcome (alg.mMaxNeighborCount ≠ -1 ∧ rels.length + 1 > toSizeT alg.mMaxNeighborCount)
        rels r b l' ∧
      (b = true → ¬ (alg.mNeighborRadius ≥ 0 ∧ alg.mNeighborRadius < r.mDistance)) := by
  unfold admitConstructed at h
  by_cases hrad : alg.mNeighborRadius ≥ 0 ∧ alg.mNeighborRadius < r.mDistance
  · rw [if_pos hrad] at h
    simp only [Except.ok.injEq, Prod.mk.injEq] at h
    obtain ⟨hb, hl⟩ := h
    subst hb
    subst hl
    exact ⟨InsertOutcome.rejected _ _ _, by simp⟩
  · rw [if_neg hrad] at h
    refine ⟨?_, fun _ => hrad⟩
    have hins : ∀ b l', insertRelation
        (decide (alg.mMaxNeighborCount ≠ -1 ∧ rels.length + 1 > toSizeT alg.mMaxNeighborCount))
        rels r = .ok (b, l') →
        InsertOutcome
          (alg.mMaxNeighborCount ≠ -1 ∧ rels.length + 1 > toSizeT alg.mMaxNeighborCount)
          rels r b l' := by
      intro b l' hh
      exact (insertRelation_outcome _ rels r b l' hh).congr decide_eq_true_iff
    simp only at h
    by_cases hfull : alg.mMaxNeighborCount ≠ -1 ∧ rels.length ≥ toSizeT alg.mMaxNeighborCount
    · rw [if_pos hfull] at h
      by_cases hrep : alg.mReplaceNeighborMode = false
      · rw [if_pos hrep] at h
        simp only [Except.ok.injEq, Prod.mk.injEq] at h
        obtain ⟨hb, hl⟩ := h
        subst hb
        subst hl
        exact InsertOutcome.rejected _ _ _
      · rw [if_neg hrep] at h
        cases hlast : rels.getLast? with
        | none => simp [hlast] at h
        | some x =>
          simp only [hlast] at h
          by_cases hx : x.mDistance < r.mDistance
          · rw [if_pos hx] at h
            simp only [Except.ok.injEq, Prod.mk.injEq] at h
            obtain ⟨hb, hl⟩ := h
            subst hb
            subst hl
            exact InsertOutcome.rejected _ _ _
          · rw [if_neg hx] at h
            exact hins b l' h
    · rw [if_neg hfull] at h
      exact hins b l' h

/-- Every outcome returned by the first entry point. -/
theorem createNeighbor_outcome (sqrtF : ℚ → ℚ) (alg : NeighborGroupAlg)
    (rels : List SpaceNeighborRelation) (o1 o2 : SpaceObject) (b : Bool)
    (l' : List SpaceNeighborRelation)
    (h : alg.createNeighbor sqrtF rels o1 o2 = .ok (b, l')) :
    InsertOutcome
        (alg.mMaxNeighborCount ≠ -1 ∧ (rels.length : Int) + 1 > alg.mMaxNeighborCount) rels
        ⟨o1.mId, o2.mId,
          directionOf alg.mNeighborDirectionRows o1.mPosition o2.mPosition,
          directionOf alg.mNeighborDirectionRows o1.mPosition o2.mPosition,
          distanceOf sqrtF (directionOf alg.mNeighborDirectionRows o1.mPosition o2.mPosition)⟩
        b l' ∧
      (b = true → ¬ (alg.mNeighborRadius ≥ 0 ∧ alg.mNeighborRadius <
        distanceOf sqrtF (directionOf alg.mNeighborDirectionRows o1.mPosition o2.mPosition))) := by
  unfold NeighborGroupAlg.createNeighbor at h
  have hrej : ∀ {e : Prop} {r : SpaceNeighborRelation} {P : Prop},
      (Except.ok (false, rels) : Except Fault (Bool × List SpaceNeighborRelation))
        = .ok (b, l') → InsertOutcome e rels r b l' ∧ (b = true → P) := by
    intro e r P hh
    simp only [Except.ok.injEq, Prod.mk.injEq] at hh
    obtain ⟨hb, hl⟩ := hh
    subst hb
    subst hl
    exact ⟨InsertOutcome.rejected _ _ _, by simp⟩
  by_cases h0 : alg.mMaxNeighborCount = 0
  · rw [if_pos h0] at h
    exact hrej h
  · rw [if_neg h0] at h
    simp only at h
    by_cases hfull : alg.mMaxNeighborCount > 0 ∧ alg.mMaxNeighborCount ≤ (rels.length : Int)
        ∧ alg.mReplaceNeighborMode = false
    · rw [if_pos hfull] at h
      exact hrej h
    · rw [if_neg hfull] at h
      by_cases hpos : o1.mPosition.length < alg.mNeighborDirectionRows ∨
          o2.mPosition.length < alg.mNeighborDirectionRows
      · rw [if_pos hpos] at h
        cases h
      · rw [if_neg hpos] at h
        by_cases hrad : alg.mNeighborRadius ≥ 0 ∧ alg.mNeighborRadius <
            distanceOf sqrtF (directionOf alg.mNeighborDirectionRows o1.mPosition o2.mPosition)
        · rw [if_pos hrad] at h
          exact hrej h
        · rw [if_neg hrad] at h
          refine ⟨?_, fun _ => hrad⟩
          have hcon : ∀ b l',
              (match SpaceNeighborRelation.create o1 o2
                  (distanceOf sqrtF
                    (directionOf alg.mNeighborDirectionRows o1.mPosition o2.mPosition))
                  (directionOf alg.mNeighborDirectionRows o1.mPosition o2.mPosition) with
                | .error e => (.error e : Except Fault (Bool × List SpaceNeighborRelation))
                | .ok r =>
                  insertRelation
                    (decide (alg.mMaxNeighborCount ≠ -1 ∧
                      (rels.length : Int) + 1 > alg.mMaxNeighborCount))
                    rels r) = .ok (b, l') →
              InsertOutcome
                (alg.mMaxNeighborCount ≠ -1 ∧ (rels.length : Int) + 1 > alg.mMaxNeighborCount)
                rels
                ⟨o1.mId, o2.mId,
                  directionOf alg.mNeighborDirectionRows o1.mPosition o2.mPosition,
                  directionOf alg.mNeighborDirectionRows o1.mPosition o2.mPosition,
                  distanceOf sqrtF
                    (directionOf alg.mNeighborDirectionRows o1.mPosition o2.mPosition)⟩
                b l' := by
            intro b l' hh
            unfold SpaceNeighborRelation.create at hh
            split_ifs at hh
            exact (insertRelation_outcome _ rels _ b l' hh).congr decide_eq_true_iff
          by_cases hrep : alg.mMaxNeighborCount ≤ (rels.length : Int) ∧
              alg.mReplaceNeighborMode = true
          · rw [if_pos hrep] at h
            cases hlast : rels.getLast? with
            | none => simp [hlast] at h
            | some x =>
              simp only [hlast] at h
              by_cases hx : x.mDistance < distanceOf sqrtF
                  (directionOf alg.mNeighborDirectionRows o1.mPosition o2.mPosition)
              · rw [if_pos hx] at h
                exact (hrej (P := True) h).1
              · rw [if_neg hx] at h
                exact hcon b l' h
          · rw [if_neg hrep] at h
            exact hcon b l' h

theorem createNeighborDistDir_outcome (alg : NeighborGroupAlg)
    (rels : List SpaceNeighborRelation) (o1 o2 : SpaceObject) (d : ℚ) (dir : Vec) (b : Bool)
    (l' : List SpaceNeighborRelation)
    (h : alg.createNeighborDistDir rels o1 o2 d dir = .ok (b, l')) :
    InsertOutcome (alg.mMaxNeighborCount ≠ -1 ∧ rels.length + 1 > toSizeT alg.mMaxNeighborCount)
        rels ⟨o1.mId, o2.mId, dir, dir, d⟩ b l' ∧
      (b = true → ¬ (alg.mNeighborRadius ≥ 0 ∧ alg.mNeighborRadius < d)) := by
  unfold NeighborGroupAlg.createNeighborDistDir at h
  by_cases h0 : alg.mMaxNeighborCount = 0
  · rw [if_pos h0] at h
    simp only [Except.ok.injEq, Prod.mk.injEq] at h
    obtain ⟨hb, hl⟩ := h
    subst hb
    subst hl
    exact ⟨InsertOutcome.rejected _ _ _, by simp⟩
  · rw [if_neg h0] at h
    unfold SpaceNeighborRelation.create at h
    split_ifs at h
    exact admitConstructed_outcome alg rels _ b l' h

theorem createNeighborValueDirDist_outcome (alg : NeighborGroupAlg)
    (rels : List SpaceNeighborRelation) (o1 o2 : SpaceObject) (value dir : Vec) (d : ℚ)
    (b : Bool) (l' : List SpaceNeighborRelation)
    (h : alg.createNeighborValueDirDist rels o1 o2 value dir d = .ok (b, l')) :
    InsertOutcome (alg.mMaxNeighborCount ≠ -1 ∧ rels.length + 1 > toSizeT alg.mMaxNeighborCount)
        rels ⟨o1.mId, o2.mId, value, dir, d⟩ b l' ∧
      (b = true → ¬ (alg.mNeighborRadius ≥ 0 ∧ alg.mNeighborRadius < d)) := by
  unfold NeighborGroupAlg.createNeighborValueDirDist at h
  by_cases h0 : alg.mMaxNeighborCount = 0
  · rw [if_pos h0] at h
    simp only [Except.ok.injEq, Prod.mk.injEq] at h
    obtain ⟨hb, hl⟩ := h
    subst hb
    subst hl
    exact ⟨InsertOutcome.rejected _ _ _, by simp⟩
  · rw [if_neg h0] at h
    unfold SpaceNeighborRelation.createValue at h
    split_ifs at h
    exact admitConstructed_outcome alg rels _ b l' h

theorem create_ok {o1 o2 : SpaceObject} {d : ℚ} {dir : Vec} {r : SpaceNeighborRelation}
    (h : SpaceNeighborRelation.create o1 o2 d dir = .ok r) :
    r = ⟨o1.mId, o2.mId, dir, dir, d⟩ := by
  unfold SpaceNeighborRelation.create at h
  split_ifs at h
  simp only [Except.ok.injEq] at h
  exact h.symm

theorem createValue_ok {o1 o2 : SpaceObject} {d : ℚ} {value dir : Vec}
    {r : SpaceNeighborRelation}
    (h : SpaceNeighborRelation.createValue o1 o2 value dir d = .ok r) :
    r = ⟨o1.mId, o2.mId, value, dir, d⟩ := by
  unfold SpaceNeighborRelation.createValue at h
  split_ifs at h
  simp only [Except.ok.injEq] at h
  exact h.symm

theorem admitConstructed_radius (alg : NeighborGroupAlg) (rels : List SpaceNeighborRelation)
    (r : SpaceNeighborRelation) (hr : 0 ≤ alg.mNeighborRadius)
    (hd : alg.mNeighborRadius < r.mDistance) :
    admitConstructed alg rels r = .ok (false, rels) := by
  unfold admitConstructed
  rw [if_pos ⟨hr, hd⟩]

theorem createNeighbor_radius (sqrtF : ℚ → ℚ) (alg : NeighborGroupAlg)
    (rels : List SpaceNeighborRelation) (o1 o2 : SpaceObject)
    (h1 : alg.mNeighborDirectionRows ≤ o1.mPosition.length)
    (h2 : alg.mNeighborDirectionRows ≤ o2.mPosition.length)
    (hr : 0 ≤ alg.mNeighborRadius)
    (hd : alg.mNeighborRadius <
      distanceOf sqrtF (directionOf alg.mNeighborDirectionRows o1.mPosition o2.mPosition)) :
    alg.createNeighbor sqrtF rels o1 o2 = .ok (false, rels) := by
  unfold NeighborGroupAlg.createNeighbor
  by_cases h0 : alg.mMaxNeighborCount = 0
  · rw [if_pos h0]
  · rw [if_neg h0]
    simp only
    by_cases hfull : alg.mMaxNeighborCount > 0 ∧ alg.mMaxNeighborCount ≤ (rels.length : Int)
        ∧ alg.mReplaceNeighborMode = false
    · rw [if_pos hfull]
    · rw [if_neg hfull, if_neg (by omega), if_pos ⟨hr, hd⟩]

theorem createNeighborDistDir_radius (alg : NeighborGroupAlg)
    (rels : List SpaceNeighborRelation) (o1 o2 : SpaceObject) (d : ℚ) (dir : Vec)
    (hc : ∃ r, SpaceNeighborRelation.create o1 o2 d dir = .ok r)
    (hr : 0 ≤ alg.mNeighborRadius) (hd : alg.mNeighborRadius < d) :
    alg.createNeighborDistDir rels o1 o2 d dir = .ok (false, rels) := by
  obtain ⟨r, hcr⟩ := hc
  have hrd := create_ok hcr
  unfold NeighborGroupAlg.createNeighborDistDir
  by_cases h0 : alg.mMaxNeighborCount = 0
  · rw [if_pos h0]
  · rw [if_neg h0, hcr]
    exact admitConstructed_radius alg rels r hr (by rw [hrd]; exact hd)

theorem createNeighborValueDirDist_radius (alg : NeighborGroupAlg)
    (rels : List SpaceNeighborRelation) (o1 o2 : SpaceObject) (value dir : Vec) (d : ℚ)
    (hc : ∃ r, SpaceNeighborRelation.createValue o1 o2 value dir d = .ok r)
    (hr : 0 ≤ alg.mNeighborRadius) (hd : alg.mNeighborRadius < d) :
    alg.createNeighborValueDirDist rels o1 o2 value dir d = .ok (false, rels) := by
  obtain ⟨r, hcr⟩ := hc
  have hrd := createValue_ok hcr
  unfold NeighborGroupAlg.createNeighborValueDirDist
  by_cases h0 : alg.mMaxNeighborCount = 0
  · rw [if_pos h0]
  · rw [if_neg h0, hcr]
    exact admitConstructed_radius alg rels r hr (by rw [hrd]; exact hd)

theorem InsertOutcome.within_radius {exceeds : Prop} {rels : List SpaceNeighborRelation}
    {r : SpaceNeighborRelation} {b : Bool} {l' : List SpaceNeighborRelation} {radius : ℚ}
    (h : InsertOutcome exceeds rels r b l') (hr : 0 ≤ radius)
    (hadm : b = true → ¬ (radius ≥ 0 ∧ radius < r.mDistance))
    (hold : ∀ x ∈ rels, x.mDistance ≤ radius) : ∀ x ∈ l', x.mDistance ≤ radius := by
  intro x hx
  rcases h.mem x hx with hm | ⟨hb, hxr⟩
  · exact hold x hm
  · subst hxr
    have := hadm hb
    by_contra hc
    exact this ⟨hr, not_le.mp hc⟩

theorem insertAt_dropLast (rels : List SpaceNeighborRelation) (r : SpaceNeighborRelation)
    (idx : Nat) (h : idx < rels.length) :
    (insertAt rels idx r).dropLast = insertAt rels.dropLast idx r := by
  unfold insertAt
  have hne : rels.drop idx ≠ [] := by
    intro hc
    have := congrArg List.length hc
    simp at this
    omega
  rw [List.dropLast_append_cons, List.dropLast_cons_of_ne_nil hne]
  rw [List.dropLast_eq_take, List.dropLast_eq_take, List.take_take, List.drop_take,
    List.length_drop]
  have h1 : min idx (rels.length - 1) = idx := by omega
  have h2 : rels.length - idx - 1 = rels.length - 1 - idx := by omega
  rw [h1, h2]

theorem InsertOutcome.shape {exceeds : Prop} {rels : List SpaceNeighborRelation}
    {r : SpaceNeighborRelation} {b : Bool} {l' : List SpaceNeighborRelation}
    (h : InsertOutcome exceeds rels r b l') :
    (b = false → l' = rels) ∧ (b = true → InsertedInto rels r l') := by
  rcases h with ⟨hb, hl⟩ | ⟨hb, idx, hle, _, _, hl⟩
  · exact ⟨fun _ => hl, fun h => by rw [hb] at h; cases h⟩
  · have hnf : b = false → l' = rels := by
      intro h
      rw [hb] at h
      cases h
    refine ⟨hnf, fun _ => ⟨idx, ?_⟩⟩
    rcases hl with ⟨hl, _⟩ | ⟨hne, _, hi, hl⟩
    · exact Or.inl ⟨hle, hl⟩
    · have hlt : idx < rels.length := lt_of_le_of_ne hle hi
      have hlen : idx ≤ rels.dropLast.length := by
        rw [List.length_dropLast]
        omega
      exact Or.inr ⟨hne, hlen, by rw [hl, insertAt_dropLast rels r idx hlt]⟩

theorem take_orderedInsert_take (d : ℚ) :
    ∀ (k : Nat) (S : List ℚ),
      ((S.take k).orderedInsert (· ≤ ·) d).take k = (S.orderedInsert (· ≤ ·) d).take k := by
  intro k S
  induction S generalizing k with
  | nil => simp
  | cons x S ih =>
    cases k with
    | zero => simp
    | succ k =>
      rw [List.take_succ_cons]
      by_cases hx : d ≤ x
      · simp only [List.orderedInsert, hx, if_true, List.take_succ_cons]
        congr 1
        cases k with
        | zero => simp
        | succ k =>
          rw [List.take_succ_cons, List.take_succ_cons, List.take_take]
          simp
      · simp only [List.orderedInsert, hx, if_false, List.take_succ_cons]
        rw [ih k]

theorem orderedInsert_of_forall_lt (d : ℚ) :
    ∀ (D : List ℚ), (∀ x ∈ D, x < d) → D.orderedInsert (· ≤ ·) d = D ++ [d] := by
  intro D
  induction D with
  | nil => intro _; rfl
  | cons x D ih =>
    intro h
    have hx : ¬ d ≤ x := not_le.mpr (h x (List.mem_cons_self _ _))
    simp only [List.orderedInsert, hx, if_false, List.cons_append]
    rw [ih (fun y hy => h y (List.mem_cons_of_mem _ hy))]

theorem insertionSort_eq_of_perm {l₁ l₂ : List ℚ} (h : l₁.Perm l₂) :
    l₁.insertionSort (· ≤ ·) = l₂.insertionSort (· ≤ ·) :=
  List.eq_of_perm_of_sorted
    (((List.perm_insertionSort _ l₁).trans h).trans (List.perm_insertionSort _ l₂).symm)
    (List.sorted_insertionSort _ l₁) (List.sorted_insertionSort _ l₂)

/-- On a sorted vector the insertion of `createNeighbor` is an ordered insertion of the
distance. -/
theorem distances_insertAt (rels : List SpaceNeighborRelation) (r : SpaceNeighborRelation)
    (idx : Nat) (hs : SortedByDistance rels)
    (hidx : rels ≠ [] → insertionIndex rels r.mDistance = .ok idx) :
    distances (insertAt rels idx r) = (distances rels).orderedInsert (· ≤ ·) r.mDistance := by
  have hsorted : SortedByDistance (insertAt rels idx r) := by
    rw [sortedByDistance_iff] at hs ⊢
    by_cases hne : rels = []
    · subst hne
      simp [insertAt]
    · exact insertAt_sorted rels r idx hs (hidx hne)
  have hperm : (distances (insertAt rels idx r)).Perm
      ((distances rels).orderedInsert (· ≤ ·) r.mDistance) := by
    have h1 : (distances (insertAt rels idx r)).Perm (r.mDistance :: distances rels) := by
      unfold distances
      exact (insertAt_perm rels r idx).map _
    exact h1.trans (List.perm_orderedInsert _ _ _).symm
  exact List.eq_of_perm_of_sorted hperm hsorted (List.Sorted.orderedInsert _ _ hs)

theorem toSizeT_natCast (k : Nat) : toSizeT (k : Int) = k := by
  unfold toSizeT
  simp

theorem distances_length (rels : List SpaceNeighborRelation) :
    (distances rels).length = rels.length := by
  unfold distances
  simp

theorem le_getLast_of_sorted (rels : List SpaceNeighborRelation) (x : SpaceNeighborRelation)
    (hs : SortedByDistance rels) (hx : rels.getLast? = some x) :
    ∀ y ∈ rels, y.mDistance ≤ x.mDistance := by
  rw [sortedByDistance_iff] at hs
  intro y hy
  have hne : rels ≠ [] := List.ne_nil_of_mem hy
  have hlen : 0 < rels.length := List.length_pos.mpr hne
  rw [List.getLast?_eq_getElem?, List.getElem?_eq_getElem (by omega)] at hx
  have hx' : rels[rels.length - 1] = x := Option.some.inj hx
  obtain ⟨j, hj, hjy⟩ := List.mem_iff_getElem.mp hy
  subst hjy
  by_cases hje : j = rels.length - 1
  · subst hje
    rw [hx']
  · have := List.pairwise_iff_getElem.mp hs j (rels.length - 1) hj (by omega) (by omega)
    rw [hx'] at this
    exact this

/-- One admission step of the second and third entry point on a sorted vector of length at
most `k`, for cap `k >= 1` and replace mode: it returns, and the stored distances become
the first `k` of the ordered insertion of the candidate distance when that distance is
admissible and stay as they are otherwise. -/
theorem admitConstructed_step (alg : NeighborGroupAlg) (k : Nat) (hk : 1 ≤ k)
    (hcap : alg.mMaxNeighborCount = k) (hrep : alg.mReplaceNeighborMode = true)
    (rels : List SpaceNeighborRelation) (r : SpaceNeighborRelation)
    (hs : SortedByDistance rels) (hlen : rels.length ≤ k) :
    ∃ b l', admitConstructed alg rels r = .ok (b, l') ∧ SortedByDistance l' ∧
      l'.length ≤ k ∧
      distances l' = if admissible alg.mNeighborRadius r.mDistance = true then
          ((distances rels).orderedInsert (· ≤ ·) r.mDistance).take k
        else distances rels := by
  have hsz : toSizeT alg.mMaxNeighborCount = k := by rw [hcap]; exact toSizeT_natCast k
  have hne1 : alg.mMaxNeighborCount ≠ -1 := by rw [hcap]; omega
  unfold admitConstructed
  by_cases hrad : alg.mNeighborRadius ≥ 0 ∧ alg.mNeighborRadius < r.mDistance
  · rw [if_pos hrad]
    refine ⟨false, rels, rfl, hs, hlen, ?_⟩
    have : admissible alg.mNeighborRadius r.mDistance = false := by
      unfold admissible
      simp [hrad.1, hrad.2]
    rw [this]
    simp
  · rw [if_neg hrad]
    have hadm : admissible alg.mNeighborRadius r.mDistance = true := by
      unfold admissible
      rw [not_and_or] at hrad
      rcases hrad with h | h
      · simp [h]
      · simp [h]
    rw [if_pos hadm]
    simp only
    obtain ⟨idx, hle, hidx, h0, heq⟩ := insertRelation_spec
      (decide (alg.mMaxNeighborCount ≠ -1 ∧ rels.length + 1 > toSizeT alg.mMaxNeighborCount))
      rels r
    have hdist := distances_insertAt rels r idx hs hidx
    have hsorted : SortedByDistance (insertAt rels idx r) := by
      unfold SortedByDistance
      rw [hdist]
      exact List.Sorted.orderedInsert _ _ hs
    by_cases hfull : alg.mMaxNeighborCount ≠ -1 ∧ rels.length ≥ toSizeT alg.mMaxNeighborCount
    · rw [if_pos hfull, if_neg (by simp [hrep])]
      have hn : rels.length = k := by
        have := hfull.2
        rw [hsz] at this
        omega
      have hne : rels ≠ [] := by
        intro hc
        rw [hc] at hn
        simp at hn
        omega
      cases hlast : rels.getLast? with
      | none => exact absurd (List.getLast?_eq_none_iff.mp hlast) hne
      | some x =>
        simp only
        by_cases hx : x.mDistance < r.mDistance
        · rw [if_pos hx]
          refine ⟨false, rels, rfl, hs, hlen, ?_⟩
          have hall : ∀ y ∈ distances rels, y < r.mDistance := by
            intro y hy
            unfold distances at hy
            obtain ⟨z, hz, hzy⟩ := List.mem_map.mp hy
            rw [← hzy]
            exact lt_of_le_of_lt (le_getLast_of_sorted rels x hs hlast z hz) hx
          rw [orderedInsert_of_forall_lt _ _ hall]
          rw [List.take_append_of_le_length (by rw [distances_length]; omega)]
          rw [List.take_of_length_le (by rw [distances_length]; omega)]
        · rw [if_neg hx, heq]
          have hex : (decide (alg.mMaxNeighborCount ≠ -1 ∧
              rels.length + 1 > toSizeT alg.mMaxNeighborCount)) = true := by
            rw [hsz]
            simp [hne1]
            omega
          rw [if_pos ⟨hne, hex⟩]
          refine ⟨_, _, rfl, ?_, ?_, ?_⟩
          · rw [sortedByDistance_iff] at hsorted ⊢
            exact hsorted.sublist (List.dropLast_sublist _)
          · rw [List.length_dropLast, insertAt_length]
            omega
          · have : distances (insertAt rels idx r).dropLast
                = (distances (insertAt rels idx r)).dropLast := by
              unfold distances
              rw [List.dropLast_eq_take, List.dropLast_eq_take, List.map_take, List.length_map]
            rw [this, hdist, List.dropLast_eq_take, List.orderedInsert_length,
              distances_length, hn]
            simp
    · rw [if_neg hfull, heq]
      have hn : rels.length < k := by
        rw [hsz] at hfull
        by_contra hc
        exact hfull ⟨hne1, by omega⟩
      have hex : ¬ (rels ≠ [] ∧ (decide (alg.mMaxNeighborCount ≠ -1 ∧
          rels.length + 1 > toSizeT alg.mMaxNeighborCount)) = true) := by
        rw [hsz]
        simp
        intro _ _
        omega
      rw [if_neg hex]
      refine ⟨_, _, rfl, hsorted, ?_, ?_⟩
      · rw [insertAt_length]
        omega
      · rw [hdist, List.take_of_length_le]
        rw [List.orderedInsert_length, distances_length]
        omega

theorem offerAll_nearest {C : Type}
    (step : List SpaceNeighborRelation → C → Except Fault (Bool × List SpaceNeighborRelation))
    (dist : C → ℚ) (good : C → Prop) (k : Nat) (radius : ℚ)
    (hstep : ∀ rels c, good c → SortedByDistance rels → rels.length ≤ k →
      ∃ b l', step rels c = .ok (b, l') ∧ SortedByDistance l' ∧ l'.length ≤ k ∧
        distances l' = if admissible radius (dist c) = true then
            ((distances rels).orderedInsert (· ≤ ·) (dist c)).take k
          else distances rels) :
    ∀ (cands : List C) (rels : List SpaceNeighborRelation) (P : List ℚ),
      (∀ c ∈ cands, good c) → SortedByDistance rels → rels.length ≤ k →
      distances rels = (P.insertionSort (· ≤ ·)).take k →
      ∃ l, offerAll step rels cands = .ok l ∧
        distances l = ((((cands.map dist).filter (admissible radius)).reverse ++ P).insertionSort
          (· ≤ ·)).take k := by
  intro cands
  induction cands with
  | nil =>
    intro rels P _ _ _ hP
    exact ⟨rels, rfl, by simpa using hP⟩
  | cons c cs ih =>
    intro rels P hgood hs hlen hP
    obtain ⟨b, l', hst, hs', hlen', hd⟩ :=
      hstep rels c (hgood c (List.mem_cons_self _ _)) hs hlen
    have hgood' : ∀ c' ∈ cs, good c' := fun c' hc' => hgood c' (List.mem_cons_of_mem _ hc')
    unfold offerAll
    rw [hst]
    simp only
    by_cases hadm : admissible radius (dist c) = true
    · rw [if_pos hadm] at hd
      have hP' : distances l' = ((dist c :: P).insertionSort (· ≤ ·)).take k := by
        rw [hd, hP, take_orderedInsert_take]
        rfl
      obtain ⟨l, hl, hdl⟩ := ih l' (dist c :: P) hgood' hs' hlen' hP'
      refine ⟨l, hl, ?_⟩
      rw [hdl]
      simp [List.filter_cons, hadm]
    · rw [if_neg hadm] at hd
      obtain ⟨l, hl, hdl⟩ := ih l' P hgood' hs' hlen' (hd.trans hP)
      refine ⟨l, hl, ?_⟩
      rw [hdl]
      simp [List.filter_cons, hadm]

theorem offerAll_nearest_from_empty {C : Type}
    (step : List SpaceNeighborRelation → C → Except Fault (Bool × List SpaceNeighborRelation))
    (dist : C → ℚ) (good : C → Prop) (k : Nat) (radius : ℚ)
    (hstep : ∀ rels c, good c → SortedByDistance rels → rels.length ≤ k →
      ∃ b l', step rels c = .ok (b, l') ∧ SortedByDistance l' ∧ l'.length ≤ k ∧
        distances l' = if admissible radius (dist c) = true then
            ((distances rels).orderedInsert (· ≤ ·) (dist c)).take k
          else distances rels)
    (cands : List C) (hgood : ∀ c ∈ cands, good c) :
    ∃ l, offerAll step [] cands = .ok l ∧
      distances l = nearestDistances k radius (cands.map dist) := by
  obtain ⟨l, hl, hd⟩ := offerAll_nearest step dist good k radius hstep cands [] [] hgood
    (by unfold SortedByDistance distances; simp) (by simp) (by simp [distances])
  refine ⟨l, hl, ?_⟩
  rw [hd]
  unfold nearestDistances
  rw [List.append_nil, insertionSort_eq_of_perm (List.reverse_perm _)]

/-- For cap >= 0 the first entry point does what the second does with the distance and
direction computed from the positions. -/
theorem createNeighbor_eq_createNeighborDistDir (sqrtF : ℚ → ℚ) (alg : NeighborGroupAlg)
    (rels : List SpaceNeighborRelation) (o1 o2 : SpaceObject)
    (hcap : 0 ≤ alg.mMaxNeighborCount)
    (h1 : alg.mNeighborDirectionRows ≤ o1.mPosition.length)
    (h2 : alg.mNeighborDirectionRows ≤ o2.mPosition.length)
    (hc : ∃ r, SpaceNeighborRelation.create o1 o2
      (distanceOf sqrtF (directionOf alg.mNeighborDirectionRows o1.mPosition o2.mPosition))
      (directionOf alg.mNeighborDirectionRows o1.mPosition o2.mPosition) = .ok r) :
    alg.createNeighbor sqrtF rels o1 o2 =
      alg.createNeighborDistDir rels o1 o2
        (distanceOf sqrtF (directionOf alg.mNeighborDirectionRows o1.mPosition o2.mPosition))
        (directionOf alg.mNeighborDirectionRows o1.mPosition o2.mPosition) := by
  obtain ⟨r, hr⟩ := hc
  have hrd := create_ok hr
  have hsz : (toSizeT alg.mMaxNeighborCount : Int) = alg.mMaxNeighborCount :=
    toSizeT_of_nonneg hcap
  have hne1 : alg.mMaxNeighborCount ≠ -1 := by omega
  unfold NeighborGroupAlg.createNeighbor NeighborGroupAlg.createNeighborDistDir
  by_cases h0 : alg.mMaxNeighborCount = 0
  · rw [if_pos h0, if_pos h0]
  · rw [if_neg h0, if_neg h0]
    simp only [hr]
    unfold admitConstructed
    have hrdist : r.mDistance = distanceOf sqrtF
        (directionOf alg.mNeighborDirectionRows o1.mPosition o2.mPosition) := by rw [hrd]
    rw [hrdist]
    have hdec : decide (alg.mMaxNeighborCount ≠ -1 ∧
          (rels.length : Int) + 1 > alg.mMaxNeighborCount) =
        decide (alg.mMaxNeighborCount ≠ -1 ∧
          rels.length + 1 > toSizeT alg.mMaxNeighborCount) := by
      apply decide_eq_decide.mpr
      constructor
      · rintro ⟨ha, hb⟩
        exact ⟨ha, by omega⟩
      · rintro ⟨ha, hb⟩
        exact ⟨ha, by omega⟩
    rw [hdec]
    by_cases hfull : alg.mMaxNeighborCount > 0 ∧ alg.mMaxNeighborCount ≤ (rels.length : Int)
        ∧ alg.mReplaceNeighborMode = false
    · rw [if_pos hfull]
      by_cases hrad : alg.mNeighborRadius ≥ 0 ∧ alg.mNeighborRadius <
          distanceOf sqrtF (directionOf alg.mNeighborDirectionRows o1.mPosition o2.mPosition)
      · rw [if_pos hrad]
      · rw [if_neg hrad, if_pos ⟨hne1, by omega⟩, if_pos hfull.2.2]
    · rw [if_neg hfull, if_neg (by omega)]
      by_cases hrad : alg.mNeighborRadius ≥ 0 ∧ alg.mNeighborRadius <
          distanceOf sqrtF (directionOf alg.mNeighborDirectionRows o1.mPosition o2.mPosition)
      · rw [if_pos hrad, if_pos hrad]
      · rw [if_neg hrad, if_neg hrad]
        by_cases hrep : alg.mMaxNeighborCount ≤ (rels.length : Int) ∧
            alg.mReplaceNeighborMode = true
        · rw [if_pos hrep, if_pos ⟨hne1, by omega⟩, if_neg (by simp [hrep.2])]
        · rw [if_neg hrep]
          have hnf : ¬ (alg.mMaxNeighborCount ≠ -1 ∧
              rels.length ≥ toSizeT alg.mMaxNeighborCount) := by
            rintro ⟨_, hb⟩
            have hle : alg.mMaxNeighborCount ≤ (rels.length : Int) := by omega
            cases hm : alg.mReplaceNeighborMode with
            | true => exact hrep ⟨hle, hm⟩
            | false => exact hfull ⟨by omega, hle, hm⟩
          rw [if_neg hnf]

theorem createNeighborDistDir_step (alg : NeighborGroupAlg) (k : Nat) (hk : 1 ≤ k)
    (hcap : alg.mMaxNeighborCount = k) (hrep : alg.mReplaceNeighborMode = true)
    (rels : List SpaceNeighborRelation) (o1 o2 : SpaceObject) (d : ℚ) (dir : Vec)
    (hc : ∃ r, SpaceNeighborRelation.create o1 o2 d dir = .ok r)
    (hs : SortedByDistance rels) (hlen : rels.length ≤ k) :
    ∃ b l', alg.createNeighborDistDir rels o1 o2 d dir = .ok (b, l') ∧ SortedByDistance l' ∧
      l'.length ≤ k ∧
      distances l' = if admissible alg.mNeighborRadius d = true then
          ((distances rels).orderedInsert (· ≤ ·) d).take k
        else distances rels := by
  obtain ⟨r, hr⟩ := hc
  have hrd : r.mDistance = d := by rw [create_ok hr]
  have h0 : alg.mMaxNeighborCount ≠ 0 := by rw [hcap]; omega
  unfold NeighborGroupAlg.createNeighborDistDir
  rw [if_neg h0, hr]
  simp only
  rw [← hrd]
  exact admitConstructed_step alg k hk hcap hrep rels r hs hlen

theorem createNeighborValueDirDist_step (alg : NeighborGroupAlg) (k : Nat) (hk : 1 ≤ k)
    (hcap : alg.mMaxNeighborCount = k) (hrep : alg.mReplaceNeighborMode = true)
    (rels : List SpaceNeighborRelation) (o1 o2 : SpaceObject) (value dir : Vec) (d : ℚ)
    (hc : ∃ r, SpaceNeighborRelation.createValue o1 o2 value dir d = .ok r)
    (hs : SortedByDistance rels) (hlen : rels.length ≤ k) :
    ∃ b l', alg.createNeighborValueDirDist rels o1 o2 value dir d = .ok (b, l') ∧
      SortedByDistance l' ∧ l'.length ≤ k ∧
      distances l' = if admissible alg.mNeighborRadius d = true then
          ((distances rels).orderedInsert (· ≤ ·) d).take k
        else distances rels := by
  obtain ⟨r, hr⟩ := hc
  have hrd : r.mDistance = d := by rw [createValue_ok hr]
  have h0 : alg.mMaxNeighborCount ≠ 0 := by rw [hcap]; omega
  unfold NeighborGroupAlg.createNeighborValueDirDist
  rw [if_neg h0, hr]
  simp only
  rw [← hrd]
  exact admitConstructed_step alg k hk hcap hrep rels r hs hlen

theorem nearestDistances_perm (k : Nat) (radius : ℚ) {ds ds' : List ℚ} (h : ds.Perm ds') :
    nearestDistances k radius ds = nearestDistances k radius ds' := by
  unfold nearestDistances
  rw [insertionSort_eq_of_perm (h.filter _)]

theorem admitConstructed_full (alg : NeighborGroupAlg) (rels : List SpaceNeighborRelation)
    (r : SpaceNeighborRelation) (hfull : alg.full rels = true) :
    admitConstructed alg rels r = .ok (false, rels) := by
  unfold NeighborGroupAlg.full at hfull
  simp only [Bool.and_eq_true, decide_eq_true_eq, beq_iff_eq] at hfull
  obtain ⟨⟨hc, hrep⟩, hn⟩ := hfull
  unfold admitConstructed
  by_cases hrad : alg.mNeighborRadius ≥ 0 ∧ alg.mNeighborRadius < r.mDistance
  · rw [if_pos hrad]
  · rw [if_neg hrad]
    simp only
    rw [if_pos ⟨by omega, hn⟩, if_pos hrep]

theorem createNeighbor_full (sqrtF : ℚ → ℚ) (alg : NeighborGroupAlg)
    (rels : List SpaceNeighborRelation) (o1 o2 : SpaceObject) (hfull : alg.full rels = true) :
    alg.createNeighbor sqrtF rels o1 o2 = .ok (false, rels) := by
  unfold NeighborGroupAlg.full at hfull
  simp only [Bool.and_eq_true, decide_eq_true_eq, beq_iff_eq] at hfull
  obtain ⟨⟨hc, hrep⟩, hn⟩ := hfull
  have hsz : (toSizeT alg.mMaxNeighborCount : Int) = alg.mMaxNeighborCount :=
    toSizeT_of_nonneg (by omega)
  unfold NeighborGroupAlg.createNeighbor
  by_cases h0 : alg.mMaxNeighborCount = 0
  · rw [if_pos h0]
  · rw [if_neg h0]
    simp only
    rw [if_pos ⟨by omega, by omega, hrep⟩]

theorem admitConstructed_full_replace (alg : NeighborGroupAlg) (k : Nat) (hk : 1 ≤ k)
    (hcap : alg.mMaxNeighborCount = k) (hrep : alg.mReplaceNeighborMode = true)
    (rels : List SpaceNeighborRelation) (r f b : SpaceNeighborRelation)
    (hlen : rels.length = k) (hf : rels.head? = some f) (hb : rels.getLast? = some b)
    (hd : b.mDistance < r.mDistance ∨ (b.mDistance = r.mDistance ∧ f.mDistance < r.mDistance)) :
    admitConstructed alg rels r = .ok (false, rels) := by
  have hsz : toSizeT alg.mMaxNeighborCount = k := by rw [hcap]; exact toSizeT_natCast k
  have hne1 : alg.mMaxNeighborCount ≠ -1 := by rw [hcap]; omega
  unfold admitConstructed
  by_cases hrad : alg.mNeighborRadius ≥ 0 ∧ alg.mNeighborRadius < r.mDistance
  · rw [if_pos hrad]
  · rw [if_neg hrad]
    simp only
    rw [if_pos ⟨hne1, by rw [hsz]; omega⟩, if_neg (by simp [hrep]), hb]
    simp only
    rcases hd with hd | ⟨hbd, hfd⟩
    · rw [if_pos hd]
    · rw [if_neg (by rw [hbd]; exact lt_irrefl _)]
      unfold insertRelation
      rw [if_neg (by omega), insertionIndex_back rels r.mDistance f b hf hb hfd (le_of_eq hbd)]
      simp only
      have hex : decide (alg.mMaxNeighborCount ≠ -1 ∧
          rels.length + 1 > toSizeT alg.mMaxNeighborCount) = true := by
        rw [hsz]
        simp [hne1]
        omega
      rw [hex]
      simp [insertAt_length_dropLast]

theorem insertRelation_returns (exceeds : Bool) (rels : List SpaceNeighborRelation)
    (r : SpaceNeighborRelation) : ∃ b l', insertRelation exceeds rels r = .ok (b, l') := by
  obtain ⟨idx, _, _, _, heq⟩ := insertRelation_spec exceeds rels r
  exact ⟨_, _, heq⟩

theorem admitConstructed_returns (alg : NeighborGroupAlg) (rels : List SpaceNeighborRelation)
    (r : SpaceNeighborRelation) (hcap : -1 ≤ alg.mMaxNeighborCount)
    (h0 : alg.mMaxNeighborCount ≠ 0) : ∃ b l', admitConstructed alg rels r = .ok (b, l') := by
  unfold admitConstructed
  by_cases hrad : alg.mNeighborRadius ≥ 0 ∧ alg.mNeighborRadius < r.mDistance
  · rw [if_pos hrad]
    exact ⟨_, _, rfl⟩
  · rw [if_neg hrad]
    simp only
    by_cases hfull : alg.mMaxNeighborCount ≠ -1 ∧ rels.length ≥ toSizeT alg.mMaxNeighborCount
    · rw [if_pos hfull]
      by_cases hrep : alg.mReplaceNeighborMode = false
      · rw [if_pos hrep]
        exact ⟨_, _, rfl⟩
      · rw [if_neg hrep]
        have hsz : (toSizeT alg.mMaxNeighborCount : Int) = alg.mMaxNeighborCount :=
          toSizeT_of_nonneg (by have := hfull.1; omega)
        have hne : rels ≠ [] := by
          intro hc
          have h2 := hfull.2
          rw [hc] at h2
          simp at h2
          omega
        cases hlast : rels.getLast? with
        | none => exact absurd (List.getLast?_eq_none_iff.mp hlast) hne
        | some x =>
          simp only
          by_cases hx : x.mDistance < r.mDistance
          · rw [if_pos hx]
            exact ⟨_, _, rfl⟩
          · rw [if_neg hx]
            exact insertRelation_returns _ rels r
    · rw [if_neg hfull]
      exact insertRelation_returns _ rels r

theorem createNeighborDistDir_returns (alg : NeighborGroupAlg)
    (rels : List SpaceNeighborRelation) (o1 o2 : SpaceObject) (d : ℚ) (dir : Vec)
    (hcap : -1 ≤ alg.mMaxNeighborCount)
    (hc : ∃ r, SpaceNeighborRelation.create o1 o2 d dir = .ok r) :
    ∃ b l', alg.createNeighborDistDir rels o1 o2 d dir = .ok (b, l') := by
  obtain ⟨r, hr⟩ := hc
  unfold NeighborGroupAlg.createNeighborDistDir
  by_cases h0 : alg.mMaxNeighborCount = 0
  · rw [if_pos h0]
    exact ⟨_, _, rfl⟩
  · rw [if_neg h0, hr]
    exact admitConstructed_returns alg rels r hcap h0

theorem createNeighborValueDirDist_returns (alg : NeighborGroupAlg)
    (rels : List SpaceNeighborRelation) (o1 o2 : SpaceObject) (value dir : Vec) (d : ℚ)
    (hcap : -1 ≤ alg.mMaxNeighborCount)
    (hc : ∃ r, SpaceNeighborRelation.createValue o1 o2 value dir d = .ok r) :
    ∃ b l', alg.createNeighborValueDirDist rels o1 o2 value dir d = .ok (b, l') := by
  obtain ⟨r, hr⟩ := hc
  unfold NeighborGroupAlg.createNeighborValueDirDist
  by_cases h0 : alg.mMaxNeighborCount = 0
  · rw [if_pos h0]
    exact ⟨_, _, rfl⟩
  · rw [if_neg h0, hr]
    exact admitConstructed_returns alg rels r hcap h0

theorem createNeighbor_returns (sqrtF : ℚ → ℚ) (alg : NeighborGroupAlg)
    (rels : List SpaceNeighborRelation) (o1 o2 : SpaceObject)
    (h1 : alg.mNeighborDirectionRows ≤ o1.mPosition.length)
    (h2 : alg.mNeighborDirectionRows ≤ o2.mPosition.length)
    (hc : ∃ r, SpaceNeighborRelation.create o1 o2
      (distanceOf sqrtF (directionOf alg.mNeighborDirectionRows o1.mPosition o2.mPosition))
      (directionOf alg.mNeighborDirectionRows o1.mPosition o2.mPosition) = .ok r)
    (hdef : 0 ≤ alg.mMaxNeighborCount ∨ alg.mReplaceNeighborMode = false ∨ rels ≠ []) :
    ∃ b l', alg.createNeighbor sqrtF rels o1 o2 = .ok (b, l') := by
  obtain ⟨r, hr⟩ := hc
  unfold NeighborGroupAlg.createNeighbor
  by_cases h0 : alg.mMaxNeighborCount = 0
  · rw [if_pos h0]
    exact ⟨_, _, rfl⟩
  · rw [if_neg h0]
    simp only [hr]
    by_cases hfull : alg.mMaxNeighborCount > 0 ∧ alg.mMaxNeighborCount ≤ (rels.length : Int)
        ∧ alg.mReplaceNeighborMode = false
    · rw [if_pos hfull]
      exact ⟨_, _, rfl⟩
    · rw [if_neg hfull, if_neg (by omega)]
      by_cases hrad : alg.mNeighborRadius ≥ 0 ∧ alg.mNeighborRadius <
          distanceOf sqrtF (directionOf alg.mNeighborDirectionRows o1.mPosition o2.mPosition)
      · rw [if_pos hrad]
        exact ⟨_, _, rfl⟩
      · rw [if_neg hrad]
        by_cases hrep : alg.mMaxNeighborCount ≤ (rels.length : Int) ∧
            alg.mReplaceNeighborMode = true
        · rw [if_pos hrep]
          have hne : rels ≠ [] := by
            rcases hdef with hd | hd | hd
            · intro hc
              have := hrep.1
              rw [hc] at this
              simp at this
              omega
            · rw [hrep.2] at hd
              cases hd
            · exact hd
          cases hlast : rels.getLast? with
          | none => exact absurd (List.getLast?_eq_none_iff.mp hlast) hne
          | some x =>
            simp only
            by_cases hx : x.mDistance < distanceOf sqrtF
                (directionOf alg.mNeighborDirectionRows o1.mPosition o2.mPosition)
            · rw [if_pos hx]
              exact ⟨_, _, rfl⟩
            · rw [if_neg hx]
              exact insertRelation_returns _ rels r
        · rw [if_neg hrep]
          exact insertRelation_returns _ rels r

theorem create_cases (o1 o2 : SpaceObject) (d : ℚ) (dir : Vec) :
    (∃ r, SpaceNeighborRelation.create o1 o2 d dir = .ok r) ∨
      SpaceNeighborRelation.create o1 o2 d dir = .error .exception := by
  unfold SpaceNeighborRelation.create
  split_ifs
  · exact Or.inr rfl
  · exact Or.inr rfl
  · exact Or.inr rfl
  · exact Or.inl ⟨_, rfl⟩

theorem createValue_cases (o1 o2 : SpaceObject) (value dir : Vec) (d : ℚ) :
    (∃ r, SpaceNeighborRelation.createValue o1 o2 value dir d = .ok r) ∨
      SpaceNeighborRelation.createValue o1 o2 value dir d = .error .exception := by
  unfold SpaceNeighborRelation.createValue
  split_ifs
  · exact Or.inr rfl
  · exact Or.inr rfl
  · exact Or.inr rfl
  · exact Or.inl ⟨_, rfl⟩

theorem createNeighborDistDir_of_throw (alg : NeighborGroupAlg)
    (rels : List SpaceNeighborRelation) (o1 o2 : SpaceObject) (d : ℚ) (dir : Vec)
    (h : SpaceNeighborRelation.create o1 o2 d dir = .error .exception) :
    alg.createNeighborDistDir rels o1 o2 d dir = .ok (false, rels) ∨
      alg.createNeighborDistDir rels o1 o2 d dir = .error .exception := by
  unfold NeighborGroupAlg.createNeighborDistDir
  by_cases h0 : alg.mMaxNeighborCount = 0
  · rw [if_pos h0]
    exact Or.inl rfl
  · rw [if_neg h0, h]
    exact Or.inr rfl

theorem createNeighborValueDirDist_of_throw (alg : NeighborGroupAlg)
    (rels : List SpaceNeighborRelation) (o1 o2 : SpaceObject) (value dir : Vec) (d : ℚ)
    (h : SpaceNeighborRelation.createValue o1 o2 value dir d = .error .exception) :
    alg.createNeighborValueDirDist rels o1 o2 value dir d = .ok (false, rels) ∨
      alg.createNeighborValueDirDist rels o1 o2 value dir d = .error .exception := by
  unfold NeighborGroupAlg.createNeighborValueDirDist
  by_cases h0 : alg.mMaxNeighborCount = 0
  · rw [if_pos h0]
    exact Or.inl rfl
  · rw [if_neg h0, h]
    exact Or.inr rfl

theorem createNeighbor_radius_any (sqrtF : ℚ → ℚ) (alg : NeighborGroupAlg)
    (rels : List SpaceNeighborRelation) (o1 o2 : SpaceObject)
    (hr : 0 ≤ alg.mNeighborRadius)
    (hd : alg.mNeighborRadius <
      distanceOf sqrtF (directionOf alg.mNeighborDirectionRows o1.mPosition o2.mPosition)) :
    alg.createNeighbor sqrtF rels o1 o2 = .ok (false, rels) ∨
      alg.createNeighbor sqrtF rels o1 o2 = .error .undefinedBehaviour := by
  by_cases hpos : o1.mPosition.length < alg.mNeighborDirectionRows ∨
      o2.mPosition.length < alg.mNeighborDirectionRows
  · unfold NeighborGroupAlg.createNeighbor
    by_cases h0 : alg.mMaxNeighborCount = 0
    · rw [if_pos h0]
      exact Or.inl rfl
    · rw [if_neg h0]
      simp only
      by_cases hfull : alg.mMaxNeighborCount > 0 ∧ alg.mMaxNeighborCount ≤ (rels.length : Int)
          ∧ alg.mReplaceNeighborMode = false
      · rw [if_pos hfull]
        exact Or.inl rfl
      · rw [if_neg hfull, if_pos hpos]
        exact Or.inr rfl
  · exact Or.inl (createNeighbor_radius sqrtF alg rels o1 o2 (by omega) (by omega) hr hd)

theorem mem_classifyFixed_visible (minPos maxPos : Vec) (objs : List SpaceProxyObject)
    (i : Nat) :
    i ∈ (classifyFixed minPos maxPos objs).1 ↔
      ∃ p, objs[i]? = some p ∧ p.mNeighborGroup.mVisible = true ∧
        insideBox minPos.length p.mSpaceObject.mPosition minPos maxPos = true := by
  simp only [classifyFixed, List.mem_filter, List.mem_range, visibleOf, positionOf]
  constructor
  · rintro ⟨⟨hi, hin⟩, hv⟩
    rw [List.getElem?_eq_getElem hi] at hin hv ⊢
    exact ⟨_, rfl, hv, hin⟩
  · rintro ⟨p, hp, hv, hin⟩
    have hi : i < objs.length := by
      by_contra h
      rw [List.getElem?_eq_none (by omega)] at hp
      cases hp
    rw [hp]
    exact ⟨⟨hi, hin⟩, hv⟩

theorem mem_classifyFixed_neighbor (minPos maxPos : Vec) (objs : List SpaceProxyObject)
    (i : Nat) :
    i ∈ (classifyFixed minPos maxPos objs).2 ↔
      ∃ p a, objs[i]? = some p ∧ p.mNeighborGroup.mNeighborGroupAlg = some a ∧
        a.mMaxNeighborCount > 0 ∧
        insideBox minPos.length p.mSpaceObject.mPosition minPos maxPos = true := by
  simp only [classifyFixed, List.mem_filter, List.mem_range, positionOf]
  constructor
  · rintro ⟨⟨hi, hin⟩, hv⟩
    rw [List.getElem?_eq_getElem hi] at hin hv ⊢
    simp only [SpaceProxyObject.canHaveNeighbors, NeighborGroup.canHaveNeighbors] at hv
    cases ha : (objs[i]).mNeighborGroup.mNeighborGroupAlg with
    | none => rw [ha] at hv; simp at hv
    | some a =>
      rw [ha] at hv
      simp at hv
      exact ⟨_, a, rfl, ha, hv.2, hin⟩
  · rintro ⟨p, a, hp, ha, hc, hin⟩
    have hi : i < objs.length := by
      by_contra h
      rw [List.getElem?_eq_none (by omega)] at hp
      cases hp
    rw [hp]
    refine ⟨⟨hi, hin⟩, ?_⟩
    simp only [SpaceProxyObject.canHaveNeighbors, NeighborGroup.canHaveNeighbors, ha]
    simp
    exact ⟨by omega, hc⟩

theorem classifyFixed_sublist (minPos maxPos : Vec) (objs : List SpaceProxyObject) :
    ((classifyFixed minPos maxPos objs).1).Sublist (List.range objs.length) ∧
      ((classifyFixed minPos maxPos objs).2).Sublist (List.range objs.length) := by
  simp only [classifyFixed]
  exact ⟨(List.filter_sublist _).trans (List.filter_sublist _),
    (List.filter_sublist _).trans (List.filter_sublist _)⟩

theorem getD_map_range (dim : Nat) (f : Nat → ℚ) (d : Nat) (hd : d < dim) :
    ((List.range dim).map f).getD d 0 = f d := by
  rw [List.getD_eq_getElem?_getD, List.getElem?_map, List.getElem?_range hd]
  rfl

theorem classifyFree_bounds_eq (minPos maxPos : Vec) (objs : List SpaceProxyObject) :
    (classifyFree minPos maxPos objs).1 =
        (objs.foldl (growBounds minPos.length) (minPos, maxPos)).1 ∧
      (classifyFree minPos maxPos objs).2.1 =
        (objs.foldl (growBounds minPos.length) (minPos, maxPos)).2 :=
  ⟨rfl, rfl⟩

theorem foldl_growBounds (dim : Nat) (objs : List SpaceProxyObject) (b : Vec × Vec) :
    ∀ d, d < dim →
      (objs.foldl (growBounds dim) b).1.getD d 0 ≤ b.1.getD d 0 ∧
      b.2.getD d 0 ≤ (objs.foldl (growBounds dim) b).2.getD d 0 ∧
      ∀ p ∈ objs,
        (objs.foldl (growBounds dim) b).1.getD d 0 ≤ p.mSpaceObject.mPosition.getD d 0 ∧
        p.mSpaceObject.mPosition.getD d 0 ≤ (objs.foldl (growBounds dim) b).2.getD d 0 := by
  induction objs generalizing b with
  | nil => intro d _; simp
  | cons q rest ih =>
    intro d hd
    simp only [List.foldl_cons]
    obtain ⟨h1, h2, h3⟩ := ih (growBounds dim b q) d hd
    have e1 : (growBounds dim b q).1.getD d 0 =
        if b.1.getD d 0 > q.mSpaceObject.mPosition.getD d 0 then
          q.mSpaceObject.mPosition.getD d 0 else b.1.getD d 0 := getD_map_range dim _ d hd
    have e2 : (growBounds dim b q).2.getD d 0 =
        if b.2.getD d 0 < q.mSpaceObject.mPosition.getD d 0 then
          q.mSpaceObject.mPosition.getD d 0 else b.2.getD d 0 := getD_map_range dim _ d hd
    rw [e1] at h1
    rw [e2] at h2
    refine ⟨?_, ?_, ?_⟩
    · refine le_trans h1 ?_
      split_ifs with h
      · exact le_of_lt h
      · exact le_refl _
    · refine le_trans ?_ h2
      split_ifs with h
      · exact le_of_lt h
      · exact le_refl _
    · intro p hp
      rcases List.mem_cons.1 hp with rfl | hp
      · constructor
        · refine le_trans h1 ?_
          split_ifs with h
          · exact le_refl _
          · exact not_lt.1 h
        · refine le_trans ?_ h2
          split_ifs with h
          · exact le_refl _
          · exact not_lt.1 h
      · exact h3 p hp

theorem foldl_growBounds_length (dim : Nat) (objs : List SpaceProxyObject) (b : Vec × Vec)
    (h1 : b.1.length = dim) (h2 : b.2.length = dim) :
    (objs.foldl (growBounds dim) b).1.length = dim ∧
      (objs.foldl (growBounds dim) b).2.length = dim := by
  induction objs generalizing b with
  | nil => exact ⟨h1, h2⟩
  | cons q rest ih =>
    simp only [List.foldl_cons]
    exact ih _ (by simp [growBounds]) (by simp [growBounds])

theorem mem_classifyFree_visible (minPos maxPos : Vec) (objs : List SpaceProxyObject)
    (i : Nat) :
    i ∈ (classifyFree minPos maxPos objs).2.2.1 ↔
      ∃ p, objs[i]? = some p ∧ p.mNeighborGroup.mVisible = true := by
  simp only [classifyFree, List.mem_filter, List.mem_range, visibleOf]
  constructor
  · rintro ⟨hi, hv⟩
    rw [List.getElem?_eq_getElem hi] at hv ⊢
    exact ⟨_, rfl, hv⟩
  · rintro ⟨p, hp, hv⟩
    have hi : i < objs.length := by
      by_contra h
      rw [List.getElem?_eq_none (by omega)] at hp
      cases hp
    rw [hp]
    exact ⟨hi, hv⟩

theorem mem_classifyFree_neighbor (minPos maxPos : Vec) (objs : List SpaceProxyObject)
    (i : Nat) :
    i ∈ (classifyFree minPos maxPos objs).2.2.2 ↔
      ∃ p a, objs[i]? = some p ∧ p.mNeighborGroup.mNeighborGroupAlg = some a ∧
        a.mMaxNeighborCount ≠ 0 := by
  simp only [classifyFree, List.mem_filter, List.mem_range]
  constructor
  · rintro ⟨hi, hv⟩
    rw [List.getElem?_eq_getElem hi] at hv ⊢
    simp only [SpaceProxyObject.canHaveNeighbors, NeighborGroup.canHaveNeighbors] at hv
    cases ha : (objs[i]).mNeighborGroup.mNeighborGroupAlg with
    | none => rw [ha] at hv; simp at hv
    | some a =>
      rw [ha] at hv
      simp at hv
      exact ⟨_, a, rfl, ha, hv⟩
  · rintro ⟨p, a, hp, ha, hc⟩
    have hi : i < objs.length := by
      by_contra h
      rw [List.getElem?_eq_none (by omega)] at hp
      cases hp
    rw [hp]
    refine ⟨hi, ?_⟩
    simp only [SpaceProxyObject.canHaveNeighbors, NeighborGroup.canHaveNeighbors, ha]
    simp
    exact hc

theorem classifyFree_sublist (minPos maxPos : Vec) (objs : List SpaceProxyObject) :
    ((classifyFree minPos maxPos objs).2.2.1).Sublist (List.range objs.length) ∧
      ((classifyFree minPos maxPos objs).2.2.2).Sublist (List.range objs.length) := by
  simp only [classifyFree]
  exact ⟨List.filter_sublist _, List.filter_sublist _⟩

/-- The computed bounds never fail the `min > max` test of `SpaceAlg::resize` when they differ
from the current ones. -/
theorem classifyFree_resize_test (minPos maxPos : Vec) (objs : List SpaceProxyObject)
    (hlen : maxPos.length = minPos.length)
    (hne : (classifyFree minPos maxPos objs).1 ≠ minPos ∨
      (classifyFree minPos maxPos objs).2.1 ≠ maxPos) :
    (List.range maxPos.length).any (fun d =>
      decide ((classifyFree minPos maxPos objs).1.getD d 0 >
        (classifyFree minPos maxPos objs).2.1.getD d 0)) = false := by
  rw [(classifyFree_bounds_eq minPos maxPos objs).1, (classifyFree_bounds_eq minPos maxPos objs).2]
    at hne ⊢
  cases objs with
  | nil => simp at hne
  | cons q rest =>
    rw [List.any_eq_false]
    intro d hd
    have hd' : d < minPos.length := by rw [← hlen]; exact List.mem_range.1 hd
    obtain ⟨-, -, h3⟩ := foldl_growBounds minPos.length (q :: rest) (minPos, maxPos) d hd'
    have := h3 q (List.mem_cons_self _ _)
    simp only [gt_iff_lt, decide_eq_true_eq, not_lt]
    exact le_trans this.1 this.2

theorem classifyFree_lengths (minPos maxPos : Vec) (objs : List SpaceProxyObject)
    (hlen : maxPos.length = minPos.length) :
    (classifyFree minPos maxPos objs).1.length = minPos.length ∧
      (classifyFree minPos maxPos objs).2.1.length = maxPos.length := by
  rw [(classifyFree_bounds_eq minPos maxPos objs).1, (classifyFree_bounds_eq minPos maxPos objs).2]
  have := foldl_growBounds_length minPos.length objs (minPos, maxPos) rfl hlen
  exact ⟨this.1, this.2.trans hlen.symm⟩

theorem Space.updateObjects_free (space : Space) (hfree : space.mSpaceAlg.mFixedSize = false)
    (hlen : space.mSpaceAlg.mMaxPos.length = space.mSpaceAlg.mMinPos.length) :
    ∃ s, space.updateObjects = .ok s ∧ s.mObjects = space.mObjects ∧
      s.mVisibleObjects =
        (classifyFree space.mSpaceAlg.mMinPos space.mSpaceAlg.mMaxPos space.mObjects).2.2.1 ∧
      s.mNeighborObjects =
        (classifyFree space.mSpaceAlg.mMinPos space.mSpaceAlg.mMaxPos space.mObjects).2.2.2 ∧
      s.mSpaceAlg.mMinPos =
        (classifyFree space.mSpaceAlg.mMinPos space.mSpaceAlg.mMaxPos space.mObjects).1 ∧
      s.mSpaceAlg.mMaxPos =
        (classifyFree space.mSpaceAlg.mMinPos space.mSpaceAlg.mMaxPos space.mObjects).2.1 ∧
      (((classifyFree space.mSpaceAlg.mMinPos space.mSpaceAlg.mMaxPos space.mObjects).1
            = space.mSpaceAlg.mMinPos ∧
          (classifyFree space.mSpaceAlg.mMinPos space.mSpaceAlg.mMaxPos space.mObjects).2.1
            = space.mSpaceAlg.mMaxPos) → s.mSpaceAlg = space.mSpaceAlg) ∧
      (¬ ((classifyFree space.mSpaceAlg.mMinPos space.mSpaceAlg.mMaxPos space.mObjects).1
            = space.mSpaceAlg.mMinPos ∧
          (classifyFree space.mSpaceAlg.mMinPos space.mSpaceAlg.mMaxPos space.mObjects).2.1
            = space.mSpaceAlg.mMaxPos) →
        space.mSpaceAlg.resize
          (classifyFree space.mSpaceAlg.mMinPos space.mSpaceAlg.mMaxPos space.mObjects).1
          (classifyFree space.mSpaceAlg.mMinPos space.mSpaceAlg.mMaxPos space.mObjects).2.1
          = .ok s.mSpaceAlg) := by
  obtain ⟨l1, l2⟩ := classifyFree_lengths space.mSpaceAlg.mMinPos space.mSpaceAlg.mMaxPos
    space.mObjects hlen
  unfold Space.updateObjects
  simp only [hfree, Bool.false_eq_true, if_false]
  by_cases hne : (classifyFree space.mSpaceAlg.mMinPos space.mSpaceAlg.mMaxPos space.mObjects).1
      ≠ space.mSpaceAlg.mMinPos ∨
      (classifyFree space.mSpaceAlg.mMinPos space.mSpaceAlg.mMaxPos space.mObjects).2.1
      ≠ space.mSpaceAlg.mMaxPos
  · have ht := classifyFree_resize_test _ _ space.mObjects hlen hne
    have hr : space.mSpaceAlg.resize
        (classifyFree space.mSpaceAlg.mMinPos space.mSpaceAlg.mMaxPos space.mObjects).1
        (classifyFree space.mSpaceAlg.mMinPos space.mSpaceAlg.mMaxPos space.mObjects).2.1
        = .ok { space.mSpaceAlg with
            mMinPos := (classifyFree space.mSpaceAlg.mMinPos space.mSpaceAlg.mMaxPos
              space.mObjects).1
            mMaxPos := (classifyFree space.mSpaceAlg.mMinPos space.mSpaceAlg.mMaxPos
              space.mObjects).2.1
            mTree := { space.mSpaceAlg.mTree with
              mMinPos := (classifyFree space.mSpaceAlg.mMinPos space.mSpaceAlg.mMaxPos
                space.mObjects).1
              mMaxPos := (classifyFree space.mSpaceAlg.mMinPos space.mSpaceAlg.mMaxPos
                space.mObjects).2.1
              mRootNode := none } } := by
      unfold NTreeAlg.resize
      simp only [l1, l2, ne_eq, not_true_eq_false, if_false, hfree, Bool.false_eq_true, ht]
    rw [if_pos hne, hr]
    refine ⟨_, rfl, rfl, rfl, rfl, rfl, rfl, ?_, fun _ => rfl⟩
    intro h
    exact absurd h (by tauto)
  · rw [if_neg hne]
    have hne' := not_or.1 hne
    have e1 := not_not.1 hne'.1
    have e2 := not_not.1 hne'.2
    refine ⟨_, rfl, rfl, rfl, rfl, e1.symm, e2.symm, fun _ => rfl, fun h => absurd ⟨e1, e2⟩ h⟩

theorem PermanentSpace.updateObjects_free_permanent (space : PermanentSpace)
    (hfree : space.mSpaceAlg.mFixedSize = false)
    (hlen : space.mSpaceAlg.mMaxPos.length = space.mSpaceAlg.mMinPos.length) :
    ∃ s, space.updateObjects = .ok s ∧ s.mObjects = space.mObjects ∧
      s.mVisibleObjects =
        (classifyFree space.mSpaceAlg.mMinPos space.mSpaceAlg.mMaxPos space.mObjects).2.2.1 ∧
      s.mNeighborObjects =
        (classifyFree space.mSpaceAlg.mMinPos space.mSpaceAlg.mMaxPos space.mObjects).2.2.2 ∧
      s.mSpaceAlg.mMinPos =
        (classifyFree space.mSpaceAlg.mMinPos space.mSpaceAlg.mMaxPos space.mObjects).1 ∧
      s.mSpaceAlg.mMaxPos =
        (classifyFree space.mSpaceAlg.mMinPos space.mSpaceAlg.mMaxPos space.mObjects).2.1 ∧
      (((classifyFree space.mSpaceAlg.mMinPos space.mSpaceAlg.mMaxPos space.mObjects).1
            = space.mSpaceAlg.mMinPos ∧
          (classifyFree space.mSpaceAlg.mMinPos space.mSpaceAlg.mMaxPos space.mObjects).2.1
            = space.mSpaceAlg.mMaxPos) → s.mSpaceAlg = space.mSpaceAlg) ∧
      (¬ ((classifyFree space.mSpaceAlg.mMinPos space.mSpaceAlg.mMaxPos space.mObjects).1
            = space.mSpaceAlg.mMinPos ∧
          (classifyFree space.mSpaceAlg.mMinPos space.mSpaceAlg.mMaxPos space.mObjects).2.1
            = space.mSpaceAlg.mMaxPos) →
        space.mSpaceAlg.resize
          (classifyFree space.mSpaceAlg.mMinPos space.mSpaceAlg.mMaxPos space.mObjects).1
          (classifyFree space.mSpaceAlg.mMinPos space.mSpaceAlg.mMaxPos space.mObjects).2.1
          = .ok s.mSpaceAlg) := by
  obtain ⟨l1, l2⟩ := classifyFree_lengths space.mSpaceAlg.mMinPos space.mSpaceAlg.mMaxPos
    space.mObjects hlen
  unfold PermanentSpace.updateObjects
  simp only [hfree, Bool.false_eq_true, if_false]
  by_cases hne : (classifyFree space.mSpaceAlg.mMinPos space.mSpaceAlg.mMaxPos space.mObjects).1
      ≠ space.mSpaceAlg.mMinPos ∨
      (classifyFree space.mSpaceAlg.mMinPos space.mSpaceAlg.mMaxPos space.mObjects).2.1
      ≠ space.mSpaceAlg.mMaxPos
  · have ht := classifyFree_resize_test _ _ space.mObjects hlen hne
    have hr : space.mSpaceAlg.resize
        (classifyFree space.mSpaceAlg.mMinPos space.mSpaceAlg.mMaxPos space.mObjects).1
        (classifyFree space.mSpaceAlg.mMinPos space.mSpaceAlg.mMaxPos space.mObjects).2.1
        = .ok { space.mSpaceAlg with
            mMinPos := (classifyFree space.mSpaceAlg.mMinPos space.mSpaceAlg.mMaxPos
              space.mObjects).1
            mMaxPos := (classifyFree space.mSpaceAlg.mMinPos space.mSpaceAlg.mMaxPos
              space.mObjects).2.1 } := by
      unfold PermanentNeighborsAlg.resize
      simp only [l1, l2, ne_eq, not_true_eq_false, if_false, hfree, Bool.false_eq_true, ht]
    rw [if_pos hne, hr]
    refine ⟨_, rfl, rfl, rfl, rfl, rfl, rfl, ?_, fun _ => rfl⟩
    intro h
    exact absurd h (by tauto)
  · rw [if_neg hne]
    have hne' := not_or.1 hne
    have e1 := not_not.1 hne'.1
    have e2 := not_not.1 hne'.2
    refine ⟨_, rfl, rfl, rfl, rfl, e1.symm, e2.symm, fun _ => rfl, fun h => absurd ⟨e1, e2⟩ h⟩

theorem classifyFree_contains (minPos maxPos : Vec) (objs : List SpaceProxyObject) (d : Nat)
    (hd : d < minPos.length) :
    (classifyFree minPos maxPos objs).1.getD d 0 ≤ minPos.getD d 0 ∧
      maxPos.getD d 0 ≤ (classifyFree minPos maxPos objs).2.1.getD d 0 ∧
      ∀ p ∈ objs,
        (classifyFree minPos maxPos objs).1.getD d 0 ≤ p.mSpaceObject.mPosition.getD d 0 ∧
        p.mSpaceObject.mPosition.getD d 0 ≤ (classifyFree minPos maxPos objs).2.1.getD d 0 := by
  rw [(classifyFree_bounds_eq minPos maxPos objs).1, (classifyFree_bounds_eq minPos maxPos objs).2]
  exact foldl_growBounds minPos.length objs (minPos, maxPos) d hd

theorem checkObject_iff (mObjects : List SpaceProxyObject) (o : SpaceObject) :
    checkObject mObjects o = true ↔ o.mId ∈ mObjects.map fun p => p.mSpaceObject.mId := by
  simp only [checkObject, List.any_eq_true, decide_eq_true_eq, List.mem_map]

theorem addObjectTo_spec {R : Type} (add : R → Option R) (dim : Nat)
    (mObjects : List SpaceProxyObject) (registry : R) (pObject : SpaceObject)
    (pVisible : Bool) (pAlg : Option NeighborGroupAlg) :
    (pObject.mDim ≠ dim →
      (addObjectTo add dim mObjects registry pObject pVisible pAlg).1 = .error .exception) ∧
    (checkObject mObjects pObject = true →
      (addObjectTo add dim mObjects registry pObject pVisible pAlg).1 = .error .exception) ∧
    ((addObjectTo add dim mObjects registry pObject pVisible pAlg).1 ≠ .ok () →
      (addObjectTo add dim mObjects registry pObject pVisible pAlg).2 = (mObjects, registry)) ∧
    ((addObjectTo add dim mObjects registry pObject pVisible pAlg).1 = .ok () →
      pObject.mDim = dim ∧ checkObject mObjects pObject = false ∧
      add registry = some (addObjectTo add dim mObjects registry pObject pVisible pAlg).2.2 ∧
      (addObjectTo add dim mObjects registry pObject pVisible pAlg).2.1 =
        mObjects ++ [⟨pObject, ⟨pVisible,
          pAlg.map fun a => { a with mNeighborDirectionRows := dim }, []⟩⟩]) := by
  unfold addObjectTo
  by_cases h1 : pObject.mDim ≠ dim
  · simp [h1]
  · by_cases h2 : checkObject mObjects pObject = true
    · simp [h1, h2]
    · cases h3 : add registry with
      | none => simp [h1, h2, h3]
      | some r => simp [h1, h2, h3]; exact not_not.1 h1

theorem addObjectTo_invariants {R : Type} (add : R → Option R) (dim : Nat)
    (mObjects : List SpaceProxyObject) (registry : R) (pObject : SpaceObject)
    (pVisible : Bool) (pAlg : Option NeighborGroupAlg)
    (hd : DistinctObjects mObjects) (ha : AllOfDim dim mObjects) :
    DistinctObjects (addObjectTo add dim mObjects registry pObject pVisible pAlg).2.1 ∧
      AllOfDim dim (addObjectTo add dim mObjects registry pObject pVisible pAlg).2.1 := by
  by_cases hok : (addObjectTo add dim mObjects registry pObject pVisible pAlg).1 = .ok ()
  · obtain ⟨h1, h2, -, h4⟩ :=
      (addObjectTo_spec add dim mObjects registry pObject pVisible pAlg).2.2.2 hok
    rw [h4]
    constructor
    · unfold DistinctObjects at hd ⊢
      rw [List.map_append, List.map_singleton]
      refine List.Nodup.append hd (List.nodup_singleton _) ?_
      intro x hx hx'
      rw [List.mem_singleton] at hx'
      subst hx'
      have := (checkObject_iff mObjects pObject).2 hx
      rw [h2] at this
      cases this
    · intro p hp
      rcases List.mem_append.1 hp with hp | hp
      · exact ha p hp
      · rw [List.mem_singleton] at hp
        subst hp
        exact h1
  · have := (addObjectTo_spec add dim mObjects registry pObject pVisible pAlg).2.2.1 hok
    rw [this]
    exact ⟨hd, ha⟩

theorem updateRelation_ok {sqrtF : ℚ → ℚ} {heap : Nat → Option SpaceObject}
    {object : SpaceObject} {r r' : SpaceNeighborRelation}
    (h : PermanentNeighborsAlg.updateRelation sqrtF heap object r = .ok r') :
    ∃ neighbor, heap r.mNeighborObject = some neighbor ∧
      neighbor.mPosition.length = 3 ∧ object.mPosition.length = 3 ∧
      r' = { r with
        mDirection := List.zipWith (fun a b => a - b) neighbor.mPosition object.mPosition
        mDistance := distanceOf sqrtF
          (List.zipWith (fun a b => a - b) neighbor.mPosition object.mPosition) } := by
  unfold PermanentNeighborsAlg.updateRelation at h
  cases hn : heap r.mNeighborObject with
  | none => rw [hn] at h; cases h
  | some neighbor =>
    rw [hn] at h
    simp only at h
    split_ifs at h with h1 h2 h3
    cases h
    exact ⟨neighbor, rfl, by rw [not_not.1 h1, not_not.1 h2], not_not.1 h2, rfl⟩

theorem updateRelation_idem {sqrtF : ℚ → ℚ} {heap : Nat → Option SpaceObject}
    {object : SpaceObject} {r r' : SpaceNeighborRelation}
    (h : PermanentNeighborsAlg.updateRelation sqrtF heap object r = .ok r') :
    PermanentNeighborsAlg.updateRelation sqrtF heap object r' = .ok r' := by
  obtain ⟨neighbor, hn, l1, l2, rfl⟩ := updateRelation_ok h
  unfold PermanentNeighborsAlg.updateRelation
  simp only [hn, l1, l2, ne_eq, not_true_eq_false, if_false]

theorem updateRelations_forall₂ {sqrtF : ℚ → ℚ} {heap : Nat → Option SpaceObject}
    {object : SpaceObject} :
    ∀ {rels rels' : List SpaceNeighborRelation},
      PermanentNeighborsAlg.updateRelations sqrtF heap object rels = .ok rels' ↔
      List.Forall₂
        (fun r r' => PermanentNeighborsAlg.updateRelation sqrtF heap object r = .ok r')
        rels rels' := by
  intro rels
  induction rels with
  | nil =>
    intro rels'
    simp only [PermanentNeighborsAlg.updateRelations, List.forall₂_nil_left_iff]
    constructor
    · intro h; cases h; rfl
    · intro h; rw [h]
  | cons r rest ih =>
    intro rels'
    simp only [PermanentNeighborsAlg.updateRelations]
    constructor
    · intro h
      cases h1 : PermanentNeighborsAlg.updateRelation sqrtF heap object r with
      | error e => rw [h1] at h; cases h
      | ok r1 =>
        rw [h1] at h
        cases h2 : PermanentNeighborsAlg.updateRelations sqrtF heap object rest with
        | error e => rw [h2] at h; cases h
        | ok rest1 =>
          rw [h2] at h
          cases h
          exact List.Forall₂.cons h1 (ih.1 h2)
    · intro h
      cases h with
      | cons h1 h2 =>
        rw [h1, ih.2 h2]

theorem updateRelations_idem {sqrtF : ℚ → ℚ} {heap : Nat → Option SpaceObject}
    {object : SpaceObject} {rels rels' : List SpaceNeighborRelation}
    (h : PermanentNeighborsAlg.updateRelations sqrtF heap object rels = .ok rels') :
    PermanentNeighborsAlg.updateRelations sqrtF heap object rels' = .ok rels' := by
  rw [updateRelations_forall₂] at h ⊢
  induction h with
  | nil => exact List.Forall₂.nil
  | cons h1 _ ih => exact List.Forall₂.cons (updateRelation_idem h1) ih

theorem permanent_fold_spec (sqrtF : ℚ → ℚ) (heap : Nat → Option SpaceObject) :
    ∀ (pObjects : List Nat) (cur res : List SpaceProxyObject),
      pObjects.foldlM
        (fun (cur : List SpaceProxyObject) i =>
          match cur[i]? with
          | none => (.error .undefinedBehaviour : Except Fault (List SpaceProxyObject))
          | some object =>
            if object.canHaveNeighbors then
              match PermanentNeighborsAlg.updateRelations sqrtF heap object.mSpaceObject
                  object.mNeighborGroup.mNeighborRelations with
              | .error e => .error e
              | .ok rels' =>
                .ok (cur.set i { object with
                  mNeighborGroup :=
                    { object.mNeighborGroup with mNeighborRelations := rels' } })
            else .ok cur)
        cur = .ok res →
      res.length = cur.length ∧
      ∀ k p, cur[k]? = some p →
        ∃ p', res[k]? = some p' ∧ PermanentUpdated sqrtF heap pObjects k p p' := by
  intro pObjects
  induction pObjects with
  | nil =>
    intro cur res h
    simp only [List.foldlM_nil] at h
    cases h
    refine ⟨rfl, fun k p hk => ⟨p, hk, rfl, rfl, rfl, ?_, fun _ => rfl⟩⟩
    rintro ⟨h, -⟩
    cases h
  | cons i rest ih =>
    intro cur res h
    simp only [List.foldlM_cons] at h
    cases hi : cur[i]? with
    | none => rw [hi] at h; cases h
    | some object =>
      rw [hi] at h
      simp only at h
      by_cases hc : object.canHaveNeighbors = true
      · rw [if_pos hc] at h
        cases hu : PermanentNeighborsAlg.updateRelations sqrtF heap object.mSpaceObject
            object.mNeighborGroup.mNeighborRelations with
        | error e => rw [hu] at h; cases h
        | ok rels' =>
          rw [hu] at h
          obtain ⟨hlen, hks⟩ := ih _ res h
          refine ⟨by rw [hlen, List.length_set], ?_⟩
          intro k p hk
          by_cases hki : k = i
          · subst hki
            rw [hi] at hk
            cases hk
            have hlt : k < cur.length := by
              by_contra hcon
              rw [List.getElem?_eq_none (by omega)] at hi
              cases hi
            obtain ⟨p', hp', h1, h2, h3, h4, h5⟩ := hks k _
              (by rw [List.getElem?_set_self hlt])
            refine ⟨p', hp', h1, h2, h3, fun _ => ?_, fun hn => absurd ⟨List.mem_cons_self _ _, hc⟩ hn⟩
            by_cases hkr : k ∈ rest
            · have := h4 ⟨hkr, hc⟩
              simp only at this
              rw [updateRelations_idem hu] at this
              cases this
              exact hu
            · have := h5 (fun hh => hkr hh.1)
              simp only at this
              rw [this]
              exact hu
          · obtain ⟨p', hp', h1, h2, h3, h4, h5⟩ := hks k p
              (by rw [List.getElem?_set_ne (Ne.symm hki)]; exact hk)
            refine ⟨p', hp', h1, h2, h3, fun hh => h4 ⟨?_, hh.2⟩, fun hn => h5 fun hh => hn ⟨List.mem_cons_of_mem _ hh.1, hh.2⟩⟩
            rcases List.mem_cons.1 hh.1 with e | e
            · exact absurd e hki
            · exact e
      · rw [if_neg hc] at h
        obtain ⟨hlen, hks⟩ := ih _ res h
        refine ⟨hlen, ?_⟩
        intro k p hk
        obtain ⟨p', hp', h1, h2, h3, h4, h5⟩ := hks k p hk
        refine ⟨p', hp', h1, h2, h3, fun hh => h4 ⟨?_, hh.2⟩, fun hn => h5 fun hh => hn ⟨List.mem_cons_of_mem _ hh.1, hh.2⟩⟩
        rcases List.mem_cons.1 hh.1 with e | e
        · subst e
          rw [hi] at hk
          cases hk
          exact absurd hh.2 hc
        · exact e

theorem PermanentSpace.updateObjects_objects_permanent {space s1 : PermanentSpace}
    (h : space.updateObjects = .ok s1) : s1.mObjects = space.mObjects := by
  unfold PermanentSpace.updateObjects at h
  simp only at h
  split_ifs at h with h1 h2
  · cases h; rfl
  · cases hr : space.mSpaceAlg.resize
        (classifyFree space.mSpaceAlg.mMinPos space.mSpaceAlg.mMaxPos space.mObjects).1
        (classifyFree space.mSpaceAlg.mMinPos space.mSpaceAlg.mMaxPos space.mObjects).2.1 with
    | error e => rw [hr] at h; cases h
    | ok alg' => rw [hr] at h; cases h; rfl
  · cases h; rfl

theorem PermanentSpace.update_spec {sqrtF : ℚ → ℚ} {heap : Nat → Option SpaceObject}
    {space s' : PermanentSpace} (h : space.update sqrtF heap = .ok s') :
    ∃ s1, space.updateObjects = .ok s1 ∧ s1.mSpaceAlg.mMinPos.length = 3 ∧
      s'.mSpaceAlg = s1.mSpaceAlg ∧ s'.mVisibleObjects = s1.mVisibleObjects ∧
      s'.mNeighborObjects = s1.mNeighborObjects ∧
      s'.mObjects.length = space.mObjects.length ∧
      ∀ k p, space.mObjects[k]? = some p →
        ∃ p', s'.mObjects[k]? = some p' ∧
          PermanentUpdated sqrtF heap s1.mNeighborObjects k p p' := by
  unfold PermanentSpace.update at h
  cases h1 : space.updateObjects with
  | error e => rw [h1] at h; cases h
  | ok s1 =>
    rw [h1] at h
    simp only at h
    cases h2 : s1.mSpaceAlg.updateNeighbors sqrtF heap s1.mObjects s1.mNeighborObjects with
    | error e => rw [h2] at h; cases h
    | ok objs2 =>
      rw [h2] at h
      cases h
      unfold PermanentNeighborsAlg.updateNeighbors at h2
      split_ifs at h2 with h3
      have ho := PermanentSpace.updateObjects_objects_permanent h1
      obtain ⟨hl, hk⟩ := permanent_fold_spec sqrtF heap _ _ _ h2
      rw [ho] at hl hk
      exact ⟨s1, rfl, not_not.1 h3, rfl, rfl, rfl, hl, hk⟩

theorem forall₂_mem_right {α β : Type} {R : α → β → Prop} {l : List α} {l' : List β}
    (h : List.Forall₂ R l l') {b : β} (hb : b ∈ l') : ∃ a ∈ l, R a b := by
  induction h with
  | nil => cases hb
  | cons h1 _ ih =>
    rcases List.mem_cons.1 hb with rfl | hb
    · exact ⟨_, List.mem_cons_self _ _, h1⟩
    · obtain ⟨a, ha, hr⟩ := ih hb
      exact ⟨a, List.mem_cons_of_mem _ ha, hr⟩

theorem PermanentSpace.updateObjects_dim {space s1 : PermanentSpace}
    (h : space.updateObjects = .ok s1) :
    s1.mSpaceAlg.mMinPos.length = space.mSpaceAlg.mMinPos.length := by
  unfold PermanentSpace.updateObjects at h
  simp only at h
  split_ifs at h with h1 h2
  · cases h; rfl
  · cases hr : space.mSpaceAlg.resize
        (classifyFree space.mSpaceAlg.mMinPos space.mSpaceAlg.mMaxPos space.mObjects).1
        (classifyFree space.mSpaceAlg.mMinPos space.mSpaceAlg.mMaxPos space.mObjects).2.1 with
    | error e => rw [hr] at h; cases h
    | ok alg' =>
      rw [hr] at h
      cases h
      unfold PermanentNeighborsAlg.resize at hr
      split_ifs at hr with h3 h4 h5
      cases hr
      exact (not_not.1 h3).symm
  · cases h; rfl

theorem PermanentSpace.updateObjects_neighbor {space s1 : PermanentSpace}
    (h : space.updateObjects = .ok s1) {i : Nat} (hi : i ∈ s1.mNeighborObjects) :
    ∃ p, space.mObjects[i]? = some p ∧ p.canHaveNeighbors = true := by
  have key : ∀ p a, space.mObjects[i]? = some p →
      p.mNeighborGroup.mNeighborGroupAlg = some a → a.mMaxNeighborCount ≠ 0 →
      ∃ p, space.mObjects[i]? = some p ∧ p.canHaveNeighbors = true := by
    intro p a hp ha hc
    refine ⟨p, hp, ?_⟩
    simp [SpaceProxyObject.canHaveNeighbors, NeighborGroup.canHaveNeighbors, ha, hc]
  unfold PermanentSpace.updateObjects at h
  simp only at h
  split_ifs at h with h1 h2
  · cases h
    obtain ⟨p, a, hp, ha, hc, -⟩ := (mem_classifyFixed_neighbor space.mSpaceAlg.mMinPos
      space.mSpaceAlg.mMaxPos _ i).1 hi
    exact key p a hp ha (by omega)
  · cases hr : space.mSpaceAlg.resize
        (classifyFree space.mSpaceAlg.mMinPos space.mSpaceAlg.mMaxPos space.mObjects).1
        (classifyFree space.mSpaceAlg.mMinPos space.mSpaceAlg.mMaxPos space.mObjects).2.1 with
    | error e => rw [hr] at h; cases h
    | ok alg' =>
      rw [hr] at h
      cases h
      obtain ⟨p, a, hp, ha, hc⟩ := (mem_classifyFree_neighbor space.mSpaceAlg.mMinPos
        space.mSpaceAlg.mMaxPos _ i).1 hi
      exact key p a hp ha hc
  · cases h
    obtain ⟨p, a, hp, ha, hc⟩ := (mem_classifyFree_neighbor space.mSpaceAlg.mMinPos
      space.mSpaceAlg.mMaxPos _ i).1 hi
    exact key p a hp ha hc

/-- After an update of a space with permanent neighbors that returns, the relation vector
of every neighbor-capable proxy is the old one with every relation recomputed. -/
theorem PermanentSpace.update_recomputed {sqrtF : ℚ → ℚ} {heap : Nat → Option SpaceObject}
    {space s' : PermanentSpace} (h : space.update sqrtF heap = .ok s') {i : Nat}
    (hi : i ∈ s'.mNeighborObjects) :
    ∃ p0 p, space.mObjects[i]? = some p0 ∧ s'.mObjects[i]? = some p ∧
      p.mSpaceObject = p0.mSpaceObject ∧
      List.Forall₂
        (fun r0 r => PermanentNeighborsAlg.updateRelation sqrtF heap p0.mSpaceObject r0 = .ok r)
        p0.mNeighborGroup.mNeighborRelations p.mNeighborGroup.mNeighborRelations := by
  obtain ⟨s1, h1, -, -, -, hn, -, hk⟩ := PermanentSpace.update_spec h
  rw [hn] at hi
  obtain ⟨p0, hp0, hc⟩ := PermanentSpace.updateObjects_neighbor h1 hi
  obtain ⟨p, hp, he, -, -, hu, -⟩ := hk i p0 hp0
  exact ⟨p0, p, hp0, hp, he, updateRelations_forall₂.1 (hu ⟨hi, hc⟩)⟩

theorem distanceOf_neg (sqrtF : ℚ → ℚ) (l : Vec) :
    distanceOf sqrtF (l.map fun x => -x) = distanceOf sqrtF l := by
  unfold distanceOf
  congr 1
  generalize (0 : ℚ) = acc
  induction l generalizing acc with
  | nil => rfl
  | cons x rest ih =>
    simp only [List.map_cons, List.foldl_cons]
    rw [ih]
    congr 1
    ring

theorem zipWith_sub_neg (a b : Vec) :
    List.zipWith (fun x y => x - y) a b = (List.zipWith (fun x y => x - y) b a).map fun x => -x := by
  induction a generalizing b with
  | nil => cases b <;> rfl
  | cons x rest ih =>
    cases b with
    | nil => rfl
    | cons y rest' =>
      simp only [List.zipWith_cons_cons, List.map_cons]
      rw [ih rest']
      congr 1
      ring

theorem create_self {o1 o2 : SpaceObject} (h : o1.mId = o2.mId) (d : ℚ) (dir : Vec) :
    SpaceNeighborRelation.create o1 o2 d dir = .error .exception := by
  unfold SpaceNeighborRelation.create
  rw [if_pos h]

theorem createValue_self {o1 o2 : SpaceObject} (h : o1.mId = o2.mId) (value dir : Vec)
    (d : ℚ) : SpaceNeighborRelation.createValue o1 o2 value dir d = .error .exception := by
  unfold SpaceNeighborRelation.createValue
  rw [if_pos h]

/-- The first entry point never admits the source itself: a call with target = source
returns false with the vector unchanged, or does not return. -/
theorem createNeighbor_self (sqrtF : ℚ → ℚ) (alg : NeighborGroupAlg)
    (rels : List SpaceNeighborRelation) {o1 o2 : SpaceObject} (h : o1.mId = o2.mId)
    {b : Bool} {l' : List SpaceNeighborRelation}
    (hc : alg.createNeighbor sqrtF rels o1 o2 = .ok (b, l')) : b = false ∧ l' = rels := by
  unfold NeighborGroupAlg.createNeighbor at hc
  simp only [create_self h] at hc
  have hok : ∀ {x : Except Fault (Bool × List SpaceNeighborRelation)},
      x = .ok (false, rels) → x = .ok (b, l') → b = false ∧ l' = rels := by
    intro x h1 h2
    rw [h1] at h2
    simp only [Except.ok.injEq, Prod.mk.injEq] at h2
    exact ⟨h2.1.symm, h2.2.symm⟩
  split_ifs at hc with h1 h2 h3 h4 h5
  · exact hok rfl hc
  · exact hok rfl hc
  · exact hok rfl hc
  · cases hg : rels.getLast? with
    | none => rw [hg] at hc; cases hc
    | some x =>
      rw [hg] at hc
      simp only at hc
      split_ifs at hc
      exact hok rfl hc

theorem createNeighborDistDir_self (alg : NeighborGroupAlg)
    (rels : List SpaceNeighborRelation) {o1 o2 : SpaceObject} (h : o1.mId = o2.mId)
    (d : ℚ) (dir : Vec) {b : Bool} {l' : List SpaceNeighborRelation}
    (hc : alg.createNeighborDistDir rels o1 o2 d dir = .ok (b, l')) :
    b = false ∧ l' = rels := by
  unfold NeighborGroupAlg.createNeighborDistDir at hc
  simp only [create_self h] at hc
  split_ifs at hc
  simp only [Except.ok.injEq, Prod.mk.injEq] at hc
  exact ⟨hc.1.symm, hc.2.symm⟩

theorem createNeighborValueDirDist_self (alg : NeighborGroupAlg)
    (rels : List SpaceNeighborRelation) {o1 o2 : SpaceObject} (h : o1.mId = o2.mId)
    (value dir : Vec) (d : ℚ) {b : Bool} {l' : List SpaceNeighborRelation}
    (hc : alg.createNeighborValueDirDist rels o1 o2 value dir d = .ok (b, l')) :
    b = false ∧ l' = rels := by
  unfold NeighborGroupAlg.createNeighborValueDirDist at hc
  simp only [createValue_self h] at hc
  split_ifs at hc
  simp only [Except.ok.injEq, Prod.mk.injEq] at hc
  exact ⟨hc.1.symm, hc.2.symm⟩

theorem InsertOutcome.noRelationTo {exceeds : Prop} {rels : List SpaceNeighborRelation}
    {r : SpaceNeighborRelation} {b : Bool} {l' : List SpaceNeighborRelation} {owner : Nat}
    (h : InsertOutcome exceeds rels r b l') (hs : NoRelationTo owner rels)
    (hr : b = true → r.mNeighborObject ≠ owner) : NoRelationTo owner l' := by
  intro x hx
  rcases h.mem x hx with h1 | ⟨hb, rfl⟩
  · exact hs x h1
  · exact hr hb

theorem createNeighbor_noRelationTo (sqrtF : ℚ → ℚ) (alg : NeighborGroupAlg)
    (rels : List SpaceNeighborRelation) (o1 o2 : SpaceObject) {b : Bool}
    {l' : List SpaceNeighborRelation}
    (hc : alg.createNeighbor sqrtF rels o1 o2 = .ok (b, l'))
    (hs : NoRelationTo o1.mId rels) : NoRelationTo o1.mId l' := by
  by_cases h : o1.mId = o2.mId
  · rw [(createNeighbor_self sqrtF alg rels h hc).2]
    exact hs
  · exact (createNeighbor_outcome sqrtF alg rels o1 o2 b l' hc).1.noRelationTo hs
      (fun _ => Ne.symm h)

theorem createNeighborDistDir_noRelationTo (alg : NeighborGroupAlg)
    (rels : List SpaceNeighborRelation) (o1 o2 : SpaceObject) (d : ℚ) (dir : Vec) {b : Bool}
    {l' : List SpaceNeighborRelation}
    (hc : alg.createNeighborDistDir rels o1 o2 d dir = .ok (b, l'))
    (hs : NoRelationTo o1.mId rels) : NoRelationTo o1.mId l' := by
  by_cases h : o1.mId = o2.mId
  · rw [(createNeighborDistDir_self alg rels h d dir hc).2]
    exact hs
  · exact (createNeighborDistDir_outcome alg rels o1 o2 d dir b l' hc).1.noRelationTo hs
      (fun _ => Ne.symm h)

theorem createNeighborValueDirDist_noRelationTo (alg : NeighborGroupAlg)
    (rels : List SpaceNeighborRelation) (o1 o2 : SpaceObject) (value dir : Vec) (d : ℚ)
    {b : Bool} {l' : List SpaceNeighborRelation}
    (hc : alg.createNeighborValueDirDist rels o1 o2 value dir d = .ok (b, l'))
    (hs : NoRelationTo o1.mId rels) : NoRelationTo o1.mId l' := by
  by_cases h : o1.mId = o2.mId
  · rw [(createNeighborValueDirDist_self alg rels h value dir d hc).2]
    exact hs
  · exact (createNeighborValueDirDist_outcome alg rels o1 o2 value dir d b l' hc).1.noRelationTo
      hs (fun _ => Ne.symm h)

theorem foldlM_except_inv {σ α : Type} (P : σ → Prop) (f : σ → α → Except Fault σ) :
    ∀ (l : List α) (s s' : σ),
      (∀ s a s', a ∈ l → P s → f s a = .ok s' → P s') → P s → l.foldlM f s = .ok s' →
      P s' := by
  intro l
  induction l with
  | nil =>
    intro s s' _ hs h
    simp only [List.foldlM_nil] at h
    cases h
    exact hs
  | cons a rest ih =>
    intro s s' hf hs h
    simp only [List.foldlM_cons] at h
    cases h1 : f s a with
    | error e => rw [h1] at h; cases h
    | ok s1 =>
      rw [h1] at h
      exact ih s1 s' (fun s a s' ha => hf s a s' (List.mem_cons_of_mem _ ha))
        (hf s a s1 (List.mem_cons_self _ _) hs h1) h

theorem withoutRelations_getElem? {objs objs0 : List SpaceProxyObject}
    (h : objs.map SpaceProxyObject.withoutRelations
      = objs0.map SpaceProxyObject.withoutRelations) (i : Nat) :
    (objs0[i]?).map SpaceProxyObject.withoutRelations
      = (objs[i]?).map SpaceProxyObject.withoutRelations := by
  rw [← List.getElem?_map, ← List.getElem?_map, h]

theorem positionOf_congr {objs objs0 : List SpaceProxyObject}
    (h : objs.map SpaceProxyObject.withoutRelations
      = objs0.map SpaceProxyObject.withoutRelations) (i : Nat) :
    positionOf objs i = positionOf objs0 i := by
  have := withoutRelations_getElem? h i
  unfold positionOf
  cases h1 : objs[i]? with
  | none =>
    rw [h1] at this
    cases h2 : objs0[i]? with
    | none => rfl
    | some q => rw [h2] at this; cases this
  | some p =>
    rw [h1] at this
    cases h2 : objs0[i]? with
    | none => rw [h2] at this; cases this
    | some q =>
      rw [h2] at this
      simp only [Option.map_some', Option.some.injEq] at this
      have := congrArg SpaceProxyObject.mSpaceObject this
      simp only [SpaceProxyObject.withoutRelations] at this
      simp only [this]

theorem offerNodeObjects_inv {sqrtF : ℚ → ℚ} {mDim : Nat} {objs0 : List SpaceProxyObject}
    {I : NTree → Prop} {N T : Nat → Prop} {Q : Nat → List SpaceNeighborRelation → Prop}
    {Cov : Nat → Nat → Prop} (K : SearchInv sqrtF mDim objs0 I N T Q Cov)
    {objs : List SpaceProxyObject}
    (hobjs : objs.map SpaceProxyObject.withoutRelations
      = objs0.map SpaceProxyObject.withoutRelations)
    {src : Nat} {p : SpaceProxyObject} {alg : NeighborGroupAlg}
    (hp : objs[src]? = some p) (ha : p.mNeighborGroup.mNeighborGroupAlg = some alg) :
    ∀ (l : List Nat) (rels rels' : List SpaceNeighborRelation),
      (∀ i ∈ l, T i) → Q src rels →
      offerNodeObjects sqrtF alg objs src p.mSpaceObject rels l = .ok rels' → Q src rels' := by
  intro l
  induction l with
  | nil =>
    intro rels rels' _ hq h
    simp only [offerNodeObjects] at h
    cases h
    exact hq
  | cons i rest ih =>
    intro rels rels' hT hq h
    simp only [offerNodeObjects] at h
    by_cases hsi : src ≠ i
    · rw [if_pos hsi] at h
      cases hi : objs[i]? with
      | none => rw [hi] at h; cases h
      | some q =>
        rw [hi] at h
        simp only at h
        cases hc : alg.createNeighbor sqrtF rels p.mSpaceObject q.mSpaceObject with
        | error e => rw [hc] at h; cases h
        | ok r =>
          rw [hc] at h
          obtain ⟨b, rels1⟩ := r
          simp only at h
          refine ih rels1 rels' (fun i hi => hT i (List.mem_cons_of_mem _ hi)) ?_ h
          refine K.step src p alg rels i q b rels1 ?_ ha ?_ hsi (hT i (List.mem_cons_self _ _))
            hq hc
          · rw [withoutRelations_getElem? hobjs, hp]; rfl
          · rw [withoutRelations_getElem? hobjs, hi]; rfl
    · rw [if_neg hsi] at h
      exact ih rels rels' (fun i hi => hT i (List.mem_cons_of_mem _ hi)) hq h

theorem calcNeighborsObject_inv {sqrtF : ℚ → ℚ} {mDim : Nat} {objs0 : List SpaceProxyObject}
    {I : NTree → Prop} {N T : Nat → Prop} {Q : Nat → List SpaceNeighborRelation → Prop}
    {Cov : Nat → Nat → Prop} (K : SearchInv sqrtF mDim objs0 I N T Q Cov)
    {objs : List SpaceProxyObject}
    (hobjs : objs.map SpaceProxyObject.withoutRelations
      = objs0.map SpaceProxyObject.withoutRelations)
    {src : Nat} {p : SpaceProxyObject} {alg : NeighborGroupAlg}
    (hp : objs[src]? = some p) (ha : p.mNeighborGroup.mNeighborGroupAlg = some alg)
    (qMin qMax : Vec) :
    ∀ (fuel : Nat) (tree : NTree) (rels : List SpaceNeighborRelation) (n : Nat)
      (tree' : NTree) (rels' : List SpaceNeighborRelation),
      I tree → N n → Q src rels →
      NTreeVisitor.calcNeighborsObject sqrtF mDim objs alg src p.mSpaceObject qMin qMax fuel
        (tree, rels) n = .ok (tree', rels') →
      I tree' ∧ Q src rels' := by
  intro fuel
  induction fuel with
  | zero =>
    intro tree rels n tree' rels' _ _ _ h
    simp only [NTreeVisitor.calcNeighborsObject] at h
    cases h
  | succ fuel ih =>
    intro tree rels n tree' rels' hI hN hQ h
    simp only [NTreeVisitor.calcNeighborsObject] at h
    cases hn : tree.nodes[n]? with
    | none => rw [hn] at h; cases h
    | some node =>
      rw [hn] at h
      simp only at h
      have hI1 := K.mark tree n node (some src) hI hN hn
      have hfin : ∀ {t : NTree} {r : List SpaceNeighborRelation},
          I t → Q src r →
          (Except.ok (t, r) : Except Fault (NTree × List SpaceNeighborRelation))
            = .ok (tree', rels') → I tree' ∧ Q src rels' := by
        intro t r h1 h2 h3
        simp only [Except.ok.injEq, Prod.mk.injEq] at h3
        rw [← h3.1, ← h3.2]
        exact ⟨h1, h2⟩
      by_cases h1 : node.mLastCheckedObject = some src
      · rw [if_pos h1] at h
        exact hfin hI hQ h
      rw [if_neg h1] at h
      by_cases h2 : alg.full rels = true
      · rw [if_pos h2] at h
        exact hfin hI1 hQ h
      rw [if_neg h2] at h
      by_cases h3 : ((List.range mDim).any fun i =>
          decide (qMax.getD i 0 < node.mMinPos.getD i 0) ||
            decide (qMin.getD i 0 > node.mMaxPos.getD i 0)) = true
      · rw [if_pos h3] at h
        exact hfin hI1 hQ h
      rw [if_neg h3] at h
      · -- the leaf loop
        generalize hleaf : (if node.mChildren.getD 0 none = none then
            offerNodeObjects sqrtF alg objs src p.mSpaceObject rels node.mObjects
          else Except.ok rels) = leaf at h
        cases leaf with
        | error e => cases h
        | ok rels1 =>
          simp only at h
          have hQ1 : Q src rels1 := by
            by_cases hc : node.mChildren.getD 0 none = none
            · rw [if_pos hc] at hleaf
              exact offerNodeObjects_inv K hobjs hp ha node.mObjects rels rels1
                (fun i hi => K.objects tree n node i hI hN hn hi) hQ hleaf
            · rw [if_neg hc] at hleaf
              cases hleaf
              exact hQ
          generalize hdown : (if node.mChildren.getD 0 none ≠ none then
              (List.range (2 ^ mDim)).foldlM
                (fun (s : NTree × List SpaceNeighborRelation) i =>
                  match node.mChildren.getD i none with
                  | none => (.error .undefinedBehaviour :
                      Except Fault (NTree × List SpaceNeighborRelation))
                  | some c =>
                    match s.1.nodes[c]? with
                    | none => .error .undefinedBehaviour
                    | some child =>
                      if child.mLastCheckedObject ≠ some src then
                        NTreeVisitor.calcNeighborsObject sqrtF mDim objs alg src p.mSpaceObject
                          qMin qMax fuel s c
                      else .ok s)
                (tree.setNode n { node with mLastCheckedObject := some src }, rels1)
            else Except.ok (tree.setNode n { node with mLastCheckedObject := some src }, rels1))
            = down at h
          cases down with
          | error e => cases h
          | ok s2 =>
            simp only at h
            have hP2 : I s2.1 ∧ Q src s2.2 := by
              by_cases hc : node.mChildren.getD 0 none ≠ none
              · rw [if_pos hc] at hdown
                refine foldlM_except_inv (fun s => I s.1 ∧ Q src s.2) _ _ _ s2 ?_
                  ⟨hI1, hQ1⟩ hdown
                intro s i s' _ hs hstep
                cases hci : node.mChildren.getD i none with
                | none => rw [hci] at hstep; cases hstep
                | some c =>
                  rw [hci] at hstep
                  simp only at hstep
                  cases hcn : s.1.nodes[c]? with
                  | none => rw [hcn] at hstep; cases hstep
                  | some child =>
                    rw [hcn] at hstep
                    simp only at hstep
                    split_ifs at hstep with hm
                    · obtain ⟨t, r⟩ := s
                      obtain ⟨t', r'⟩ := s'
                      exact ih t r c t' r' hs.1 (K.child tree n node i c hI hN hn hci) hs.2 hstep
                    · cases hstep
                      exact hs
              · rw [if_neg hc] at hdown
                cases hdown
                exact ⟨hI1, hQ1⟩
            cases hpar : node.mParent with
            | none =>
              rw [hpar] at h
              simp only at h
              obtain ⟨t2, r2⟩ := s2
              exact hfin hP2.1 hP2.2 h
            | some parent =>
              rw [hpar] at h
              simp only at h
              cases hpn : s2.1.nodes[parent]? with
              | none => rw [hpn] at h; cases h
              | some parentNode =>
                rw [hpn] at h
                simp only at h
                obtain ⟨t2, r2⟩ := s2
                split_ifs at h with h5 h6
                · exact hfin hP2.1 hP2.2 h
                · exact ih t2 r2 parent tree' rels' hP2.1
                    (K.parent tree n node parent hI hN hn hpar) hP2.2 h
                · exact hfin hP2.1 hP2.2 h

theorem Progress.progress_refl (Q : Nat → List SpaceNeighborRelation → Prop)
    (objs : List SpaceProxyObject) : Progress Q objs objs :=
  ⟨rfl, fun _ _ h => Or.inr h⟩

theorem Progress.progress_trans {Q : Nat → List SpaceNeighborRelation → Prop}
    {a b c : List SpaceProxyObject} (h1 : Progress Q a b) (h2 : Progress Q b c) :
    Progress Q a c := by
  refine ⟨h2.1.trans h1.1, fun k p' hk => ?_⟩
  rcases h2.2 k p' hk with h | h
  · exact Or.inl h
  · exact h1.2 k p' h

theorem Done.progress {Q : Nat → List SpaceNeighborRelation → Prop} {k : Nat}
    {b c : List SpaceProxyObject} (h1 : Done Q k b) (h2 : Progress Q b c) : Done Q k c := by
  intro p hp
  rcases h2.2 k p hp with h | h
  · exact h
  · exact h1 p h

theorem map_withoutRelations_set (objs : List SpaceProxyObject) (i : Nat)
    (obj : SpaceProxyObject) (rels : List SpaceNeighborRelation) (h : objs[i]? = some obj) :
    (objs.set i { obj with
        mNeighborGroup := { obj.mNeighborGroup with mNeighborRelations := rels } }).map
      SpaceProxyObject.withoutRelations = objs.map SpaceProxyObject.withoutRelations := by
  apply List.ext_getElem?
  intro k
  rw [List.getElem?_map, List.getElem?_map]
  by_cases hk : i = k
  · subst hk
    have hlt : i < objs.length := by
      by_contra hcon
      rw [List.getElem?_eq_none (by omega)] at h
      cases h
    rw [List.getElem?_set_self hlt, h]
    rfl
  · rw [List.getElem?_set_ne hk]

theorem Progress.set {Q : Nat → List SpaceNeighborRelation → Prop}
    (objs : List SpaceProxyObject) (i : Nat) (obj : SpaceProxyObject)
    (rels : List SpaceNeighborRelation) (h : objs[i]? = some obj) (hq : Q i rels) :
    Progress Q objs (objs.set i { obj with
      mNeighborGroup := { obj.mNeighborGroup with mNeighborRelations := rels } }) ∧
    Done Q i (objs.set i { obj with
      mNeighborGroup := { obj.mNeighborGroup with mNeighborRelations := rels } }) := by
  have hlt : i < objs.length := by
    by_contra hcon
    rw [List.getElem?_eq_none (by omega)] at h
    cases h
  refine ⟨⟨map_withoutRelations_set objs i obj rels h, fun k p' hk => ?_⟩, fun p hp => ?_⟩
  · by_cases hki : i = k
    · subst hki
      rw [List.getElem?_set_self hlt] at hk
      cases hk
      exact Or.inl hq
    · rw [List.getElem?_set_ne hki] at hk
      exact Or.inr hk
  · rw [List.getElem?_set_self hlt] at hp
    cases hp
    exact hq

theorem calcNeighborsLeafObject_inv {sqrtF : ℚ → ℚ} {mDim : Nat}
    {objs0 : List SpaceProxyObject}
    {I : NTree → Prop} {N T : Nat → Prop} {Q : Nat → List SpaceNeighborRelation → Prop}
    {Cov : Nat → Nat → Prop} (K : SearchInv sqrtF mDim objs0 I N T Q Cov)
    {fuel pNode : Nat} {s s' : NTree × List SpaceProxyObject} {i : Nat}
    (hI : I s.1) (hN : N pNode)
    (hobjs : s.2.map SpaceProxyObject.withoutRelations
      = objs0.map SpaceProxyObject.withoutRelations)
    (h : NTreeVisitor.calcNeighborsLeafObject sqrtF mDim fuel pNode s i = .ok s') :
    I s'.1 ∧ Progress Q s.2 s'.2 ∧ Done Q i s'.2 := by
  unfold NTreeVisitor.calcNeighborsLeafObject at h
  cases hi : s.2[i]? with
  | none => rw [hi] at h; cases h
  | some object =>
    rw [hi] at h
    simp only at h
    cases ha : object.mNeighborGroup.mNeighborGroupAlg with
    | none => rw [ha] at h; cases h
    | some alg =>
      rw [ha] at h
      simp only at h
      generalize hq1 : ((List.range mDim).map fun d =>
        if alg.mNeighborRadius ≥ 0 then object.mSpaceObject.mPosition.getD d 0
          - alg.mNeighborRadius else -FLT_MAX) = qMin at h
      generalize hq2 : ((List.range mDim).map fun d =>
        if alg.mNeighborRadius ≥ 0 then object.mSpaceObject.mPosition.getD d 0
          + alg.mNeighborRadius else FLT_MAX) = qMax at h
      cases hc : NTreeVisitor.calcNeighborsObject sqrtF mDim s.2 alg i object.mSpaceObject
          qMin qMax fuel (s.1, []) pNode with
      | error e => rw [hc] at h; cases h
      | ok r =>
        rw [hc] at h
        obtain ⟨tree', rels'⟩ := r
        simp only at h
        cases h
        obtain ⟨h1, h2⟩ := calcNeighborsObject_inv K hobjs hi ha qMin qMax fuel s.1 [] pNode
          tree' rels' hI hN (K.empty i) hc
        have key := Progress.set s.2 i object rels' hi h2
        simp only [ha] at key
        exact ⟨h1, key.1, key.2⟩

theorem calcNeighborsLeaf_fold_inv {sqrtF : ℚ → ℚ} {mDim : Nat}
    {objs0 : List SpaceProxyObject}
    {I : NTree → Prop} {N T : Nat → Prop} {Q : Nat → List SpaceNeighborRelation → Prop}
    {Cov : Nat → Nat → Prop} (K : SearchInv sqrtF mDim objs0 I N T Q Cov)
    {fuel pNode : Nat} (hN : N pNode) :
    ∀ (l : List Nat) (s s' : NTree × List SpaceProxyObject), I s.1 →
      s.2.map SpaceProxyObject.withoutRelations
        = objs0.map SpaceProxyObject.withoutRelations →
      l.foldlM (NTreeVisitor.calcNeighborsLeafObject sqrtF mDim fuel pNode) s = .ok s' →
      I s'.1 ∧ Progress Q s.2 s'.2 ∧ ∀ k ∈ l, Done Q k s'.2 := by
  intro l
  induction l with
  | nil =>
    intro s s' hI _ h
    simp only [List.foldlM_nil] at h
    cases h
    exact ⟨hI, Progress.progress_refl Q _, fun k hk => by cases hk⟩
  | cons i rest ih =>
    intro s s' hI hobjs h
    simp only [List.foldlM_cons] at h
    cases h1 : NTreeVisitor.calcNeighborsLeafObject sqrtF mDim fuel pNode s i with
    | error e => rw [h1] at h; cases h
    | ok s1 =>
      rw [h1] at h
      obtain ⟨hI1, hP1, hD1⟩ := calcNeighborsLeafObject_inv K hI hN hobjs h1
      obtain ⟨hI2, hP2, hD2⟩ := ih s1 s' hI1 (hP1.1.trans hobjs) h
      refine ⟨hI2, hP1.progress_trans hP2, fun k hk => ?_⟩
      rcases List.mem_cons.1 hk with rfl | hk
      · exact hD1.progress hP2
      · exact hD2 k hk

theorem getD_set_list {α : Type} (l : List α) (i j : Nat) (x d : α) (hi : i < l.length) :
    (l.set i x).getD j d = if i = j then x else l.getD j d := by
  rw [List.getD_eq_getElem?_getD, List.getD_eq_getElem?_getD]
  by_cases h : i = j
  · subst h
    rw [if_pos rfl, List.getElem?_set_self hi]
    rfl
  · rw [if_neg h, List.getElem?_set_ne h]

theorem distributeObjects_spec (mDim : Nat) (objs : List SpaceProxyObject) (tree : NTree)
    (node : NTreeNode) :
    ∀ (l : List Nat) (groups : List (List Nat)),
      distributeObjects mDim objs tree node l = .ok groups →
      groups.length = 2 ^ mDim ∧
      (∀ j k, k ∈ groups.getD j [] → k ∈ l ∧
        firstContainingChild mDim tree node (positionOf objs k) (List.range (2 ^ mDim))
          = .ok (some j)) ∧
      (∀ k ∈ l, ∀ j, j < 2 ^ mDim →
        firstContainingChild mDim tree node (positionOf objs k) (List.range (2 ^ mDim))
          = .ok (some j) → k ∈ groups.getD j []) := by
  intro l
  induction l with
  | nil =>
    intro groups h
    simp only [distributeObjects] at h
    cases h
    refine ⟨List.length_replicate _ _, ?_, fun k hk => by cases hk⟩
    intro j k hk
    rw [List.getD_eq_getElem?_getD] at hk
    by_cases hj : j < 2 ^ mDim
    · rw [List.getElem?_replicate_of_lt hj] at hk
      cases hk
    · rw [List.getElem?_eq_none (by rw [List.length_replicate]; omega)] at hk
      cases hk
  | cons i rest ih =>
    intro groups h
    simp only [distributeObjects] at h
    cases hf : firstContainingChild mDim tree node (positionOf objs i)
        (List.range (2 ^ mDim)) with
    | error e => rw [hf] at h; cases h
    | ok found =>
      rw [hf] at h
      simp only at h
      cases hr : distributeObjects mDim objs tree node rest with
      | error e => rw [hr] at h; cases h
      | ok groups1 =>
        rw [hr] at h
        simp only at h
        obtain ⟨hlen, hsound, hcompl⟩ := ih groups1 hr
        cases found with
        | none =>
          simp only [Except.ok.injEq] at h
          subst h
          refine ⟨hlen, fun j k hk => ⟨List.mem_cons_of_mem _ (hsound j k hk).1,
            (hsound j k hk).2⟩, ?_⟩
          intro k hk j hj hfk
          rcases List.mem_cons.1 hk with rfl | hk
          · rw [hf] at hfk
            cases hfk
          · exact hcompl k hk j hj hfk
        | some j0 =>
          simp only [Except.ok.injEq] at h
          subst h
          by_cases hj0 : j0 < groups1.length
          · refine ⟨by rw [List.length_set]; exact hlen, ?_, ?_⟩
            · intro j k hk
              rw [getD_set_list _ _ _ _ _ hj0] at hk
              split_ifs at hk with hjj
              · subst hjj
                rcases List.mem_cons.1 hk with rfl | hk
                · exact ⟨List.mem_cons_self _ _, hf⟩
                · exact ⟨List.mem_cons_of_mem _ (hsound j0 k hk).1, (hsound j0 k hk).2⟩
              · exact ⟨List.mem_cons_of_mem _ (hsound j k hk).1, (hsound j k hk).2⟩
            · intro k hk j hj hfk
              rw [getD_set_list _ _ _ _ _ hj0]
              split_ifs with hjj
              · subst hjj
                rcases List.mem_cons.1 hk with rfl | hk
                · exact List.mem_cons_self _ _
                · exact List.mem_cons_of_mem _ (hcompl k hk j0 hj hfk)
              · rcases List.mem_cons.1 hk with rfl | hk
                · rw [hf] at hfk
                  simp only [Except.ok.injEq, Option.some.injEq] at hfk
                  exact absurd hfk hjj
                · exact hcompl k hk j hj hfk
          · rw [List.set_eq_of_length_le (by omega)]
            refine ⟨hlen, fun j k hk => ⟨List.mem_cons_of_mem _ (hsound j k hk).1,
              (hsound j k hk).2⟩, ?_⟩
            intro k hk j hj hfk
            rcases List.mem_cons.1 hk with rfl | hk
            · rw [hf] at hfk
              simp only [Except.ok.injEq, Option.some.injEq] at hfk
              subst hfk
              exact absurd (hlen ▸ hj) hj0
            · exact hcompl k hk j hj hfk

theorem calcNeighborsNode_inv {sqrtF : ℚ → ℚ} {mDim : Nat} {objs0 : List SpaceProxyObject}
    {I : NTree → Prop} {N T : Nat → Prop} {Q : Nat → List SpaceNeighborRelation → Prop}
    {Cov : Nat → Nat → Prop} (K : SearchInv sqrtF mDim objs0 I N T Q Cov)
    (searchFuel : Nat) :
    ∀ (fuel : Nat) (s : NTree × List SpaceProxyObject) (n : Nat) (pObjects : List Nat)
      (s' : NTree × List SpaceProxyObject),
      I s.1 → N n →
      s.2.map SpaceProxyObject.withoutRelations
        = objs0.map SpaceProxyObject.withoutRelations →
      NTreeVisitor.calcNeighborsNode sqrtF mDim searchFuel fuel s n pObjects = .ok s' →
      I s'.1 ∧ Progress Q s.2 s'.2 ∧
        ∀ k ∈ pObjects, Cov n k → Done Q k s'.2 := by
  intro fuel
  induction fuel with
  | zero =>
    intro s n pObjects s' _ _ _ h
    simp only [NTreeVisitor.calcNeighborsNode] at h
    cases h
  | succ fuel ih =>
    intro s n pObjects s' hI hN hobjs h
    simp only [NTreeVisitor.calcNeighborsNode] at h
    cases hn : s.1.nodes[n]? with
    | none => rw [hn] at h; cases h
    | some node =>
      rw [hn] at h
      simp only at h
      by_cases hleaf : node.mChildren.getD 0 none = none
      · rw [if_pos hleaf] at h
        obtain ⟨h1, h2, h3⟩ := calcNeighborsLeaf_fold_inv K hN pObjects s s' hI hobjs h
        exact ⟨h1, h2, fun k hk _ => h3 k hk⟩
      · rw [if_neg hleaf] at h
        cases hd : distributeObjects mDim s.2 s.1 node pObjects with
        | error e => rw [hd] at h; cases h
        | ok groups =>
          rw [hd] at h
          simp only at h
          obtain ⟨-, -, hcompl⟩ := distributeObjects_spec mDim s.2 s.1 node pObjects groups hd
          have hfold : ∀ (L : List Nat) (t t' : NTree × List SpaceProxyObject), I t.1 →
              t.2.map SpaceProxyObject.withoutRelations
                = objs0.map SpaceProxyObject.withoutRelations →
              L.foldlM
                (fun (t : NTree × List SpaceProxyObject) i =>
                  match node.mChildren.getD i none with
                  | none => (.error .undefinedBehaviour :
                      Except Fault (NTree × List SpaceProxyObject))
                  | some c =>
                    NTreeVisitor.calcNeighborsNode sqrtF mDim searchFuel fuel t c
                      (groups.getD i []))
                t = .ok t' →
              I t'.1 ∧ Progress Q t.2 t'.2 ∧
                ∀ j ∈ L, ∀ c, node.mChildren.getD j none = some c →
                  ∀ k ∈ groups.getD j [], Cov c k → Done Q k t'.2 := by
            intro L
            induction L with
            | nil =>
              intro t t' hIt _ hf
              simp only [List.foldlM_nil] at hf
              cases hf
              exact ⟨hIt, Progress.progress_refl Q _, fun j hj => by cases hj⟩
            | cons j rest ihL =>
              intro t t' hIt hot hf
              simp only [List.foldlM_cons] at hf
              cases hcj : node.mChildren.getD j none with
              | none => rw [hcj] at hf; cases hf
              | some c =>
                rw [hcj] at hf
                simp only at hf
                cases hstep : NTreeVisitor.calcNeighborsNode sqrtF mDim searchFuel fuel t c
                    (groups.getD j []) with
                | error e => rw [hstep] at hf; cases hf
                | ok t1 =>
                  rw [hstep] at hf
                  obtain ⟨hI1, hP1, hD1⟩ := ih t c (groups.getD j []) t1 hIt
                    (K.child s.1 n node j c hI hN hn hcj) hot hstep
                  obtain ⟨hI2, hP2, hD2⟩ := ihL t1 t' hI1 (hP1.1.trans hot) hf
                  refine ⟨hI2, hP1.progress_trans hP2, ?_⟩
                  intro j' hj' c' hc' k hk hcov
                  rcases List.mem_cons.1 hj' with rfl | hj'
                  · rw [hcj] at hc'
                    cases hc'
                    exact (hD1 k hk hcov).progress hP2
                  · exact hD2 j' hj' c' hc' k hk hcov
          obtain ⟨h1, h2, h3⟩ := hfold (List.range (2 ^ mDim)) s s' hI hobjs h
          refine ⟨h1, h2, ?_⟩
          intro k hk hcov
          obtain ⟨j, c, hj, hfc, hcj, hcovc⟩ := K.cover s.1 n node k hI hN hn hleaf hcov
          rw [← positionOf_congr hobjs k] at hfc
          exact h3 j (List.mem_range.2 hj) c hcj k (hcompl k hk j hj hfc) hcovc

theorem Space.updateObjects_objects {space s1 : Space}
    (h : space.updateObjects = .ok s1) : s1.mObjects = space.mObjects := by
  unfold Space.updateObjects at h
  simp only at h
  split_ifs at h with h1 h2
  · cases h; rfl
  · cases hr : space.mSpaceAlg.resize
        (classifyFree space.mSpaceAlg.mMinPos space.mSpaceAlg.mMaxPos space.mObjects).1
        (classifyFree space.mSpaceAlg.mMinPos space.mSpaceAlg.mMaxPos space.mObjects).2.1 with
    | error e => rw [hr] at h; cases h
    | ok alg' => rw [hr] at h; cases h; rfl
  · cases h; rfl

/-- The three phases of `Space::update`. -/
theorem Space.update_phases {sqrtF : ℚ → ℚ} {fuel : Nat} {space s' : Space}
    (h : space.update sqrtF fuel = .ok s') :
    ∃ s1 alg1, space.updateObjects = .ok s1 ∧
      s1.mSpaceAlg.updateStructure s1.mObjects fuel s1.mVisibleObjects = .ok alg1 ∧
      alg1.updateNeighbors sqrtF s1.mObjects fuel s1.mNeighborObjects
        = .ok (s'.mSpaceAlg, s'.mObjects) ∧
      s'.mVisibleObjects = s1.mVisibleObjects ∧ s'.mNeighborObjects = s1.mNeighborObjects := by
  unfold Space.update at h
  cases h1 : space.updateObjects with
  | error e => rw [h1] at h; cases h
  | ok s1 =>
    rw [h1] at h
    simp only at h
    cases h2 : s1.mSpaceAlg.updateStructure s1.mObjects fuel s1.mVisibleObjects with
    | error e => rw [h2] at h; cases h
    | ok alg1 =>
      rw [h2] at h
      simp only at h
      cases h3 : alg1.updateNeighbors sqrtF s1.mObjects fuel s1.mNeighborObjects with
      | error e => rw [h3] at h; cases h
      | ok r =>
        rw [h3] at h
        obtain ⟨alg2, objs2⟩ := r
        simp only at h
        cases h
        exact ⟨s1, alg1, rfl, h2, h3, rfl, rfl⟩

theorem NTreeAlg.updateNeighbors_inv {sqrtF : ℚ → ℚ} {objs : List SpaceProxyObject}
    {alg alg' : NTreeAlg} {I : NTree → Prop} {N T : Nat → Prop}
    {Q : Nat → List SpaceNeighborRelation → Prop} {Cov : Nat → Nat → Prop}
    (K : SearchInv sqrtF alg.mDim objs I N T Q Cov) {fuel : Nat} {pObjects : List Nat}
    {objs' : List SpaceProxyObject}
    (h : alg.updateNeighbors sqrtF objs fuel pObjects = .ok (alg', objs'))
    (hI : I alg.mTree) (hN : ∀ root, alg.mTree.mRootNode = some root → N root) :
    I alg'.mTree ∧ Progress Q objs objs' ∧
      ∀ root, alg.mTree.mRootNode = some root → ∀ k ∈ pObjects, Cov root k →
        Done Q k objs' := by
  unfold NTreeAlg.updateNeighbors at h
  split_ifs at h with hdim
  cases hc : NTreeVisitor.calcNeighbors sqrtF alg.mDim fuel (alg.mTree, objs) pObjects with
  | error e => rw [hc] at h; cases h
  | ok r =>
    rw [hc] at h
    obtain ⟨tree, objs1⟩ := r
    simp only [Except.ok.injEq, Prod.mk.injEq] at h
    obtain ⟨h1, h2⟩ := h
    subst h1
    subst h2
    unfold NTreeVisitor.calcNeighbors at hc
    cases hroot : alg.mTree.mRootNode with
    | none =>
      rw [hroot] at hc
      simp only [Except.ok.injEq, Prod.mk.injEq] at hc
      rw [← hc.1, ← hc.2]
      exact ⟨hI, Progress.progress_refl Q _, fun root hr => by cases hr⟩
    | some root =>
      rw [hroot] at hc
      simp only at hc
      obtain ⟨h1, h2, h3⟩ := calcNeighborsNode_inv K fuel fuel (alg.mTree, objs) root pObjects
        (tree, objs1) hI (hN root hroot) rfl hc
      refine ⟨h1, h2, ?_⟩
      intro root' hr
      cases hr
      exact h3

/-- The invariant of the neighbor phase that asks nothing of the tree. -/
theorem SearchInv.ofStep (sqrtF : ℚ → ℚ) (mDim : Nat) (objs0 : List SpaceProxyObject)
    (Q : Nat → List SpaceNeighborRelation → Prop) (hempty : ∀ src, Q src [])
    (hstep : ∀ (src : Nat) (p : SpaceProxyObject) (alg : NeighborGroupAlg)
      (rels : List SpaceNeighborRelation) (q : SpaceProxyObject) (b : Bool)
      (rels' : List SpaceNeighborRelation),
      (objs0[src]?).map SpaceProxyObject.withoutRelations = some p.withoutRelations →
      Q src rels →
      alg.createNeighbor sqrtF rels p.mSpaceObject q.mSpaceObject = .ok (b, rels') →
      Q src rels') :
    SearchInv sqrtF mDim objs0 (fun _ => True) (fun _ => True) (fun _ => True) Q
      (fun _ _ => False) :=
  { mark := fun _ _ _ _ _ _ _ => trivial
    objects := fun _ _ _ _ _ _ _ _ => trivial
    child := fun _ _ _ _ _ _ _ _ _ => trivial
    parent := fun _ _ _ _ _ _ _ _ => trivial
    empty := hempty
    step := fun src p alg rels _ q b rels' hp _ _ _ _ hq hc => hstep src p alg rels q b rels' hp hq hc
    cover := fun _ _ _ _ _ _ _ _ h => h.elim }

/-- `Space::update` of a space with an N-tree changes relation vectors only, and every
relation vector it changes satisfies a property `Q` that holds of the empty vector and that
the first entry point preserves. -/
theorem Space.update_progress {sqrtF : ℚ → ℚ} {fuel : Nat} {space s' : Space}
    (h : space.update sqrtF fuel = .ok s')
    (Q : Nat → List SpaceNeighborRelation → Prop) (hempty : ∀ src, Q src [])
    (hstep : ∀ (src : Nat) (p : SpaceProxyObject) (alg : NeighborGroupAlg)
      (rels : List SpaceNeighborRelation) (q : SpaceProxyObject) (b : Bool)
      (rels' : List SpaceNeighborRelation),
      (space.mObjects[src]?).map SpaceProxyObject.withoutRelations = some p.withoutRelations →
      Q src rels →
      alg.createNeighbor sqrtF rels p.mSpaceObject q.mSpaceObject = .ok (b, rels') →
      Q src rels') :
    Progress Q space.mObjects s'.mObjects := by
  obtain ⟨s1, alg1, h1, -, h3, -, -⟩ := Space.update_phases h
  have ho := Space.updateObjects_objects h1
  rw [ho] at h3
  exact (NTreeAlg.updateNeighbors_inv
    (SearchInv.ofStep sqrtF alg1.mDim space.mObjects Q hempty hstep) h3 trivial
    (fun _ _ => trivial)).2.1

theorem withoutRelations_eq {p q : SpaceProxyObject}
    (h : p.withoutRelations = q.withoutRelations) :
    p.mSpaceObject = q.mSpaceObject ∧
      p.mNeighborGroup.mVisible = q.mNeighborGroup.mVisible ∧
      p.mNeighborGroup.mNeighborGroupAlg = q.mNeighborGroup.mNeighborGroupAlg := by
  have h1 := congrArg SpaceProxyObject.mSpaceObject h
  have h2 := congrArg (fun x => x.mNeighborGroup.mVisible) h
  have h3 := congrArg (fun x => x.mNeighborGroup.mNeighborGroupAlg) h
  exact ⟨h1, h2, h3⟩

theorem Space.update_sorted {sqrtF : ℚ → ℚ} {fuel : Nat} {space s' : Space}
    (h : space.update sqrtF fuel = .ok s')
    (hs : ∀ p ∈ space.mObjects, SortedByDistance p.mNeighborGroup.mNeighborRelations) :
    ∀ p ∈ s'.mObjects, SortedByDistance p.mNeighborGroup.mNeighborRelations := by
  have hP := Space.update_progress h (fun _ rels => SortedByDistance rels)
    (fun _ => by simp [SortedByDistance, distances])
    (fun _ p alg rels q b rels' _ hq hc =>
      (createNeighbor_outcome sqrtF alg rels p.mSpaceObject q.mSpaceObject b rels' hc).1.sorted hq)
  intro p hp
  obtain ⟨k, hk⟩ := List.mem_iff_getElem?.1 hp
  rcases hP.2 k p hk with h1 | h1
  · exact h1
  · exact hs p (List.getElem?_mem h1)

theorem Space.update_noSelfRelation {sqrtF : ℚ → ℚ} {fuel : Nat} {space s' : Space}
    (h : space.update sqrtF fuel = .ok s') (hs : NoSelfRelation space.mObjects) :
    NoSelfRelation s'.mObjects := by
  have hP := Space.update_progress h
    (fun src rels => ∀ p0, space.mObjects[src]? = some p0 →
      NoRelationTo p0.mSpaceObject.mId rels)
    (fun _ _ _ r hr => by cases hr)
    (fun src p alg rels q b rels' hp hq hc => by
      intro p0 hp0
      rw [hp0] at hp
      simp only [Option.map_some', Option.some.injEq] at hp
      have he : p0.mSpaceObject = p.mSpaceObject := (withoutRelations_eq hp).1
      rw [he]
      exact createNeighbor_noRelationTo sqrtF alg rels p.mSpaceObject q.mSpaceObject hc
        (he ▸ hq p0 hp0))
  intro p hp
  obtain ⟨k, hk⟩ := List.mem_iff_getElem?.1 hp
  rcases hP.2 k p hk with h1 | h1
  · have := withoutRelations_getElem? hP.1 k
    rw [hk] at this
    cases hk0 : space.mObjects[k]? with
    | none => rw [hk0] at this; cases this
    | some p0 =>
      rw [hk0] at this
      simp only [Option.map_some', Option.some.injEq] at this
      have he : p0.mSpaceObject = p.mSpaceObject := (withoutRelations_eq this).1
      rw [← he]
      exact h1 p0 hk0
  · exact hs p (List.getElem?_mem h1)

theorem PermanentSpace.update_noSelfRelation_permanent {sqrtF : ℚ → ℚ}
    {heap : Nat → Option SpaceObject} {space s' : PermanentSpace}
    (h : space.update sqrtF heap = .ok s') (hs : NoSelfRelation space.mObjects) :
    NoSelfRelation s'.mObjects := by
  obtain ⟨s1, -, -, -, -, -, hlen, hk⟩ := PermanentSpace.update_spec h
  intro p' hp'
  obtain ⟨k, hk'⟩ := List.mem_iff_getElem?.1 hp'
  have hlt : k < space.mObjects.length := by
    rw [← hlen]
    by_contra hcon
    rw [List.getElem?_eq_none (by omega)] at hk'
    cases hk'
  obtain ⟨p'', hp'', he, -, -, hu, hn⟩ := hk k _ (List.getElem?_eq_getElem hlt)
  rw [hk'] at hp''
  cases hp''
  have hs0 := hs _ (List.getElem_mem hlt)
  rw [he]
  by_cases hc : k ∈ s1.mNeighborObjects ∧ (space.mObjects[k]).canHaveNeighbors = true
  · intro r hr
    obtain ⟨r0, hr0, hur⟩ := forall₂_mem_right (updateRelations_forall₂.1 (hu hc)) hr
    obtain ⟨-, -, -, -, rfl⟩ := updateRelation_ok hur
    exact hs0 r0 hr0
  · rw [hn hc]
    exact hs0

theorem addObjectTo_noSelfRelation {R : Type} (add : R → Option R) (dim : Nat)
    (mObjects : List SpaceProxyObject) (registry : R) (pObject : SpaceObject)
    (pVisible : Bool) (pAlg : Option NeighborGroupAlg) (hs : NoSelfRelation mObjects) :
    NoSelfRelation (addObjectTo add dim mObjects registry pObject pVisible pAlg).2.1 := by
  by_cases hok : (addObjectTo add dim mObjects registry pObject pVisible pAlg).1 = .ok ()
  · obtain ⟨-, -, -, h4⟩ :=
      (addObjectTo_spec add dim mObjects registry pObject pVisible pAlg).2.2.2 hok
    rw [h4]
    intro p hp
    rcases List.mem_append.1 hp with hp | hp
    · exact hs p hp
    · rw [List.mem_singleton] at hp
      subst hp
      intro r hr
      cases hr
  · rw [(addObjectTo_spec add dim mObjects registry pObject pVisible pAlg).2.2.1 hok]
    exact hs

theorem NodesOK.mono {mDim : Nat} {P P' : Nat → Prop} {tree : NTree}
    (h : NodesOK mDim P tree) (hp : ∀ n, P n → P' n) : NodesOK mDim P' tree :=
  { length := h.length
    shape := h.shape
    link := h.link
    objects := fun n node j c child hn => h.objects n node j c child (fun hh => hn (hp n hh)) }

theorem Stable.stable_refl (tree : NTree) (level : Nat) : Stable tree tree level :=
  { root := rfl, minPos := rfl, maxPos := rfl
    nodes := fun _ node h => ⟨node, h, rfl, rfl, rfl, rfl, fun _ => rfl⟩ }

theorem Stable.stable_trans {t1 t2 t3 : NTree} {l1 l2 : Nat} (h1 : Stable t1 t2 l1)
    (h2 : Stable t2 t3 l2) (hl : l1 ≤ l2) : Stable t1 t3 l1 :=
  { root := h2.root.trans h1.root
    minPos := h2.minPos.trans h1.minPos
    maxPos := h2.maxPos.trans h1.maxPos
    nodes := by
      intro m node hm
      obtain ⟨n2, hn2, a1, a2, a3, a4, a5⟩ := h1.nodes m node hm
      obtain ⟨n3, hn3, b1, b2, b3, b4, b5⟩ := h2.nodes m n2 hn2
      refine ⟨n3, hn3, b1.trans a1, b2.trans a2, b3.trans a3, b4.trans a4, fun hle => ?_⟩
      rw [b5 (by rw [a2]; omega), a5 hle] }

theorem getD_replicate_none (k j : Nat) :
    (List.replicate k (none : Option Nat)).getD j none = none := by
  rw [List.getD_eq_getElem?_getD]
  by_cases h : j < k
  · rw [List.getElem?_replicate_of_lt h]; rfl
  · rw [List.getElem?_eq_none (by rw [List.length_replicate]; omega)]; rfl

theorem getD_map_some_range (k first j : Nat) :
    ((List.range k).map fun childNr => some (first + childNr)).getD j none
      = if j < k then some (first + j) else none := by
  rw [List.getD_eq_getElem?_getD]
  by_cases h : j < k
  · rw [if_pos h, List.getElem?_map, List.getElem?_range h]; rfl
  · rw [if_neg h, List.getElem?_eq_none (by simp; omega)]; rfl

/-- Writing a node that differs from the old one in its child pointers only, all of them
null afterwards: the store stays in order. -/
theorem NodesOK.setLeaf {mDim : Nat} {P : Nat → Prop} {tree : NTree} {n : Nat}
    {node : NTreeNode} (h : NodesOK mDim (fun m => P m ∨ m = n) tree)
    (hn : tree.nodes[n]? = some node) :
    NodesOK mDim P
      (tree.setNode n { node with mChildren := List.replicate (2 ^ mDim) none }) := by
  have hlt : n < tree.nodes.length := by
    by_contra hcon
    rw [List.getElem?_eq_none (by omega)] at hn
    cases hn
  have hget : ∀ (m : Nat) (x : NTreeNode),
      (tree.setNode n { node with mChildren := List.replicate (2 ^ mDim) none }).nodes[m]?
        = some x →
      (m = n ∧ x = { node with mChildren := List.replicate (2 ^ mDim) none }) ∨
        (m ≠ n ∧ tree.nodes[m]? = some x) := by
    intro m x hx
    simp only [NTree.setNode] at hx
    by_cases hm : n = m
    · subst hm
      rw [List.getElem?_set_self hlt] at hx
      cases hx
      exact Or.inl ⟨rfl, rfl⟩
    · rw [List.getElem?_set_ne hm] at hx
      exact Or.inr ⟨Ne.symm hm, hx⟩
  have hchild : ∀ (c : Nat) (child : NTreeNode), tree.nodes[c]? = some child →
      ∃ child' : NTreeNode, (tree.setNode n
          { node with mChildren := List.replicate (2 ^ mDim) none }).nodes[c]? = some child' ∧
        child'.mParent = child.mParent ∧ child'.mLevel = child.mLevel ∧
        child'.mMinPos = child.mMinPos ∧ child'.mMaxPos = child.mMaxPos ∧
        child'.mObjects = child.mObjects := by
    intro c child hc
    simp only [NTree.setNode]
    by_cases hm : n = c
    · subst hm
      rw [hn] at hc
      cases hc
      rw [List.getElem?_set_self hlt]
      exact ⟨_, rfl, rfl, rfl, rfl, rfl, rfl⟩
    · rw [List.getElem?_set_ne hm]
      exact ⟨child, hc, rfl, rfl, rfl, rfl, rfl⟩
  refine ⟨?_, ?_, ?_, ?_⟩
  · intro m x hx
    rcases hget m x hx with ⟨-, rfl⟩ | ⟨-, h1⟩
    · exact List.length_replicate _ _
    · exact h.length m x h1
  · intro m x hx h0
    rcases hget m x hx with ⟨-, rfl⟩ | ⟨-, h1⟩
    · exact absurd (getD_replicate_none _ _) h0
    · exact h.shape m x h1 h0
  · intro m x j c hx hj
    rcases hget m x hx with ⟨-, rfl⟩ | ⟨-, h1⟩
    · rw [getD_replicate_none] at hj
      cases hj
    · obtain ⟨child, hc, a1, a2, a3, a4⟩ := h.link m x j c h1 hj
      obtain ⟨child', hc', b1, b2, b3, b4, -⟩ := hchild c child hc
      exact ⟨child', hc', b1.trans a1, b2.trans a2, b3.trans a3, b4.trans a4⟩
  · intro m x j c child' hP hx hj hc'
    rcases hget m x hx with ⟨-, rfl⟩ | ⟨hmn, h1⟩
    · rw [getD_replicate_none] at hj
      cases hj
    · obtain ⟨child, hc, -⟩ := h.link m x j c h1 hj
      obtain ⟨child'', hc'', -, -, -, -, b5⟩ := hchild c child hc
      rw [hc'] at hc''
      cases hc''
      rw [b5]
      exact h.objects m x j c child (fun hh => hh.elim hP hmn) h1 hj hc

theorem getElem?_lt_length {α : Type} {l : List α} {i : Nat} {x : α} (h : l[i]? = some x) :
    i < l.length := by
  by_contra hcon
  rw [List.getElem?_eq_none (by omega)] at h
  cases h

/-- Giving the node `n` fresh children, appended to the store: the store stays in order. -/
theorem NodesOK.subdivide {mDim : Nat} {P : Nat → Prop} {tree : NTree} {n : Nat}
    {node : NTreeNode} (children : List NTreeNode)
    (h : NodesOK mDim (fun m => P m ∨ m = n) tree) (hn : tree.nodes[n]? = some node)
    (hlen : children.length = 2 ^ mDim)
    (hch : ∀ (j : Nat) (ch : NTreeNode), children[j]? = some ch →
      ch.mParent = some n ∧ ch.mChildren = List.replicate (2 ^ mDim) none ∧
      ch.mLevel = node.mLevel + 1 ∧
      ch.mMinPos = (childBounds mDim node.mMinPos node.mMaxPos j).1 ∧
      ch.mMaxPos = (childBounds mDim node.mMinPos node.mMaxPos j).2 ∧
      ∀ i ∈ ch.mObjects, i ∈ node.mObjects) :
    NodesOK mDim P
        { tree with nodes := (tree.nodes.set n { node with
            mChildren := (List.range (2 ^ mDim)).map fun childNr =>
              some (tree.nodes.length + childNr) }) ++ children } ∧
      Stable tree
        { tree with nodes := (tree.nodes.set n { node with
            mChildren := (List.range (2 ^ mDim)).map fun childNr =>
              some (tree.nodes.length + childNr) }) ++ children } node.mLevel := by
  have hlt : n < tree.nodes.length := getElem?_lt_length hn
  have hget : ∀ (m : Nat) (x : NTreeNode),
      ((tree.nodes.set n { node with
            mChildren := (List.range (2 ^ mDim)).map fun childNr =>
              some (tree.nodes.length + childNr) }) ++ children)[m]? = some x →
      (m = n ∧ x = { node with
            mChildren := (List.range (2 ^ mDim)).map fun childNr =>
              some (tree.nodes.length + childNr) }) ∨
        (m ≠ n ∧ tree.nodes[m]? = some x) ∨
        (tree.nodes.length ≤ m ∧ children[m - tree.nodes.length]? = some x) := by
    intro m x hx
    by_cases hm : m < tree.nodes.length
    · rw [List.getElem?_append_left (by rw [List.length_set]; exact hm)] at hx
      by_cases hmn : n = m
      · subst hmn
        rw [List.getElem?_set_self hlt] at hx
        cases hx
        exact Or.inl ⟨rfl, rfl⟩
      · rw [List.getElem?_set_ne hmn] at hx
        exact Or.inr (Or.inl ⟨Ne.symm hmn, hx⟩)
    · rw [List.getElem?_append_right (by rw [List.length_set]; omega), List.length_set] at hx
      exact Or.inr (Or.inr ⟨by omega, hx⟩)
  have hold : ∀ (c : Nat) (child : NTreeNode), tree.nodes[c]? = some child →
      ∃ child' : NTreeNode, ((tree.nodes.set n { node with
            mChildren := (List.range (2 ^ mDim)).map fun childNr =>
              some (tree.nodes.length + childNr) }) ++ children)[c]? = some child' ∧
        child'.mParent = child.mParent ∧ child'.mLevel = child.mLevel ∧
        child'.mMinPos = child.mMinPos ∧ child'.mMaxPos = child.mMaxPos ∧
        child'.mObjects = child.mObjects := by
    intro c child hc
    have hcl := getElem?_lt_length hc
    rw [List.getElem?_append_left (by rw [List.length_set]; exact hcl)]
    by_cases hm : n = c
    · subst hm
      rw [hn] at hc
      cases hc
      rw [List.getElem?_set_self hlt]
      exact ⟨_, rfl, rfl, rfl, rfl, rfl, rfl⟩
    · rw [List.getElem?_set_ne hm]
      exact ⟨child, hc, rfl, rfl, rfl, rfl, rfl⟩
  have hnew : ∀ (j : Nat) (ch : NTreeNode), children[j]? = some ch →
      ((tree.nodes.set n { node with
            mChildren := (List.range (2 ^ mDim)).map fun childNr =>
              some (tree.nodes.length + childNr) }) ++ children)[tree.nodes.length + j]?
        = some ch := by
    intro j ch hj
    rw [List.getElem?_append_right (by rw [List.length_set]; omega), List.length_set]
    rw [Nat.add_sub_cancel_left]
    exact hj
  refine ⟨⟨?_, ?_, ?_, ?_⟩, ⟨rfl, rfl, rfl, ?_⟩⟩
  · intro m x hx
    rcases hget m x hx with ⟨-, rfl⟩ | ⟨-, h1⟩ | ⟨-, h1⟩
    · simp
    · exact h.length m x h1
    · rw [(hch _ x h1).2.1]
      exact List.length_replicate _ _
  · intro m x hx h0 j hj
    rcases hget m x hx with ⟨-, rfl⟩ | ⟨-, h1⟩ | ⟨-, h1⟩
    · simp only
      rw [getD_map_some_range, if_pos hj]
      simp
    · exact h.shape m x h1 h0 j hj
    · rw [(hch _ x h1).2.1, getD_replicate_none] at h0
      exact absurd rfl h0
  · intro m x j c hx hj
    rcases hget m x hx with ⟨rfl, rfl⟩ | ⟨-, h1⟩ | ⟨-, h1⟩
    · simp only at hj
      rw [getD_map_some_range] at hj
      split_ifs at hj with hjlt
      simp only [Option.some.injEq] at hj
      subst hj
      have hjc : j < children.length := by rw [hlen]; exact hjlt
      obtain ⟨a1, -, a3, a4, a5, -⟩ := hch j _ (List.getElem?_eq_getElem hjc)
      exact ⟨children[j], hnew j _ (List.getElem?_eq_getElem hjc), a1, a3, a4, a5⟩
    · obtain ⟨child, hc, a1, a2, a3, a4⟩ := h.link m x j c h1 hj
      obtain ⟨child', hc', b1, b2, b3, b4, -⟩ := hold c child hc
      exact ⟨child', hc', b1.trans a1, b2.trans a2, b3.trans a3, b4.trans a4⟩
    · rw [(hch _ x h1).2.1, getD_replicate_none] at hj
      cases hj
  · intro m x j c child' hP hx hj hc'
    rcases hget m x hx with ⟨rfl, rfl⟩ | ⟨hmn, h1⟩ | ⟨-, h1⟩
    · simp only at hj
      rw [getD_map_some_range] at hj
      split_ifs at hj with hjlt
      simp only [Option.some.injEq] at hj
      subst hj
      have hjc : j < children.length := by rw [hlen]; exact hjlt
      rw [hnew j _ (List.getElem?_eq_getElem hjc)] at hc'
      cases hc'
      exact (hch j _ (List.getElem?_eq_getElem hjc)).2.2.2.2.2
    · obtain ⟨child, hc, -⟩ := h.link m x j c h1 hj
      obtain ⟨child'', hc'', -, -, -, -, b5⟩ := hold c child hc
      rw [hc'] at hc''
      cases hc''
      rw [b5]
      exact h.objects m x j c child (fun hh => hh.elim hP hmn) h1 hj hc
    · rw [(hch _ x h1).2.1, getD_replicate_none] at hj
      cases hj
  · intro m x hx
    obtain ⟨x', hx', b1, b2, b3, b4, b5⟩ := hold m x hx
    exact ⟨x', hx', b1, b2, b3, b4, fun _ => b5⟩

theorem buildTreeNode_ok (mDim : Nat) (objs : List SpaceProxyObject) :
    ∀ (fuel : Nat) (P : Nat → Prop) (tree : NTree) (n : Nat) (node : NTreeNode)
      (tree' : NTree),
      NTreeVisitor.buildTreeNode mDim objs fuel tree n = .ok tree' →
      tree.nodes[n]? = some node → NodesOK mDim (fun m => P m ∨ m = n) tree →
      NodesOK mDim P tree' ∧ Stable tree tree' node.mLevel := by
  intro fuel
  induction fuel with
  | zero =>
    intro P tree n node tree' h
    simp only [NTreeVisitor.buildTreeNode] at h
    cases h
  | succ fuel ih =>
    intro P tree n node tree' h hn hok
    simp only [NTreeVisitor.buildTreeNode] at h
    rw [hn] at h
    simp only at h
    have hlt : n < tree.nodes.length := getElem?_lt_length hn
    by_cases hsub : subdivides tree node = true
    · rw [if_pos hsub] at h
      obtain ⟨h1, h2⟩ := NodesOK.subdivide
        ((List.range (2 ^ mDim)).map fun childNr =>
          ({ mParent := some n
             mChildren := List.replicate (2 ^ mDim) none
             mLastCheckedObject := none
             mLevel := node.mLevel + 1
             mMinPos := (childBounds mDim node.mMinPos node.mMaxPos childNr).1
             mMaxPos := (childBounds mDim node.mMinPos node.mMaxPos childNr).2
             mObjects := node.mObjects.filter fun i =>
               insideBox mDim (positionOf objs i)
                 (childBounds mDim node.mMinPos node.mMaxPos childNr).1
                 (childBounds mDim node.mMinPos node.mMaxPos childNr).2 } : NTreeNode))
        hok hn (by simp)
        (by
          intro j ch hj
          rw [List.getElem?_map] at hj
          have hjl : j < 2 ^ mDim := by
            by_contra hcon
            rw [List.getElem?_eq_none (by simp; omega)] at hj
            cases hj
          rw [List.getElem?_range hjl] at hj
          simp only [Option.map_some', Option.some.injEq] at hj
          subst hj
          exact ⟨rfl, rfl, rfl, rfl, rfl, fun i hi => (List.mem_filter.1 hi).1⟩)
      have hinv := foldlM_except_inv
        (fun t => NodesOK mDim P t ∧
          Stable
            { tree with nodes := (tree.nodes.set n { node with
                mChildren := (List.range (2 ^ mDim)).map fun childNr =>
                  some (tree.nodes.length + childNr) }) ++
              ((List.range (2 ^ mDim)).map fun childNr =>
                ({ mParent := some n
                   mChildren := List.replicate (2 ^ mDim) none
                   mLastCheckedObject := none
                   mLevel := node.mLevel + 1
                   mMinPos := (childBounds mDim node.mMinPos node.mMaxPos childNr).1
                   mMaxPos := (childBounds mDim node.mMinPos node.mMaxPos childNr).2
                   mObjects := node.mObjects.filter fun i =>
                     insideBox mDim (positionOf objs i)
                       (childBounds mDim node.mMinPos node.mMaxPos childNr).1
                       (childBounds mDim node.mMinPos node.mMaxPos childNr).2 } :
                  NTreeNode)) }
            t (node.mLevel + 1))
        _ _ _ tree' ?_ ⟨h1, Stable.stable_refl _ _⟩ h
      · exact ⟨hinv.1, h2.stable_trans hinv.2 (Nat.le_succ _)⟩
      · intro t i t' hi ht hstep
        have hil : i < 2 ^ mDim := List.mem_range.1 hi
        obtain ⟨ch, hch, -, hlev, -⟩ := ht.2.nodes (tree.nodes.length + i)
          { mParent := some n
            mChildren := List.replicate (2 ^ mDim) none
            mLastCheckedObject := none
            mLevel := node.mLevel + 1
            mMinPos := (childBounds mDim node.mMinPos node.mMaxPos i).1
            mMaxPos := (childBounds mDim node.mMinPos node.mMaxPos i).2
            mObjects := node.mObjects.filter fun k =>
              insideBox mDim (positionOf objs k)
                (childBounds mDim node.mMinPos node.mMaxPos i).1
                (childBounds mDim node.mMinPos node.mMaxPos i).2 }
          (by
            simp only
            rw [List.getElem?_append_right (by rw [List.length_set]; omega), List.length_set,
              Nat.add_sub_cancel_left, List.getElem?_map, List.getElem?_range hil]
            rfl)
        obtain ⟨a1, a2⟩ := ih P t (tree.nodes.length + i) ch t' hstep hch
          (ht.1.mono fun m hm => Or.inl hm)
        refine ⟨a1, ht.2.stable_trans a2 ?_⟩
        rw [hlev]
    · rw [if_neg hsub] at h
      simp only [Except.ok.injEq] at h
      subst h
      refine ⟨NodesOK.setLeaf hok hn, ⟨rfl, rfl, rfl, ?_⟩⟩
      intro m x hx
      simp only [NTree.setNode]
      by_cases hm : n = m
      · subst hm
        rw [hn] at hx
        cases hx
        rw [List.getElem?_set_self hlt]
        exact ⟨_, rfl, rfl, rfl, rfl, rfl, fun _ => rfl⟩
      · rw [List.getElem?_set_ne hm]
        exact ⟨x, hx, rfl, rfl, rfl, rfl, fun _ => rfl⟩

/-- Writing the objects and the mark of a node that is in `P` and is the child of no node
outside `P`: the store stays in order. -/
theorem NodesOK.setObjects {mDim : Nat} {P : Nat → Prop} {tree : NTree} {c : Nat}
    {child : NTreeNode} (X : List Nat) (m0 : Option Nat) (h : NodesOK mDim P tree)
    (hc : tree.nodes[c]? = some child) (hPc : P c)
    (hpar : ∀ (m : Nat) (node : NTreeNode) (j : Nat), ¬ P m → tree.nodes[m]? = some node →
      node.mChildren.getD j none ≠ some c) :
    NodesOK mDim P
        (tree.setNode c { child with mLastCheckedObject := m0, mObjects := X }) ∧
      ∀ (m : Nat) (x : NTreeNode), tree.nodes[m]? = some x →
        ∃ x' : NTreeNode,
          (tree.setNode c { child with mLastCheckedObject := m0, mObjects := X }).nodes[m]?
            = some x' ∧
          x'.mParent = x.mParent ∧ x'.mLevel = x.mLevel ∧ x'.mMinPos = x.mMinPos ∧
          x'.mMaxPos = x.mMaxPos ∧ x'.mChildren = x.mChildren ∧
          (m ≠ c → x' = x) ∧ (m = c → x'.mObjects = X) := by
  have hlt : c < tree.nodes.length := getElem?_lt_length hc
  have hget : ∀ (m : Nat) (x : NTreeNode),
      (tree.setNode c { child with mLastCheckedObject := m0, mObjects := X }).nodes[m]?
        = some x →
      (m = c ∧ x = { child with mLastCheckedObject := m0, mObjects := X }) ∨
        (m ≠ c ∧ tree.nodes[m]? = some x) := by
    intro m x hx
    simp only [NTree.setNode] at hx
    by_cases hm : c = m
    · subst hm
      rw [List.getElem?_set_self hlt] at hx
      cases hx
      exact Or.inl ⟨rfl, rfl⟩
    · rw [List.getElem?_set_ne hm] at hx
      exact Or.inr ⟨Ne.symm hm, hx⟩
  have hold : ∀ (m : Nat) (x : NTreeNode), tree.nodes[m]? = some x →
      ∃ x' : NTreeNode,
        (tree.setNode c { child with mLastCheckedObject := m0, mObjects := X }).nodes[m]?
          = some x' ∧
        x'.mParent = x.mParent ∧ x'.mLevel = x.mLevel ∧ x'.mMinPos = x.mMinPos ∧
        x'.mMaxPos = x.mMaxPos ∧ x'.mChildren = x.mChildren ∧
        (m ≠ c → x' = x) ∧ (m = c → x'.mObjects = X) := by
    intro m x hx
    simp only [NTree.setNode]
    by_cases hm : c = m
    · subst hm
      rw [hc] at hx
      cases hx
      rw [List.getElem?_set_self hlt]
      exact ⟨_, rfl, rfl, rfl, rfl, rfl, rfl, fun hne => absurd rfl hne, fun _ => rfl⟩
    · rw [List.getElem?_set_ne hm]
      exact ⟨x, hx, rfl, rfl, rfl, rfl, rfl, fun _ => rfl, fun he => absurd he.symm hm⟩
  refine ⟨⟨?_, ?_, ?_, ?_⟩, hold⟩
  · intro m x hx
    rcases hget m x hx with ⟨rfl, rfl⟩ | ⟨-, h1⟩
    · exact h.length m child hc
    · exact h.length m x h1
  · intro m x hx h0
    rcases hget m x hx with ⟨rfl, rfl⟩ | ⟨-, h1⟩
    · exact h.shape m child hc h0
    · exact h.shape m x h1 h0
  · intro m x j d hx hj
    have key : ∀ y : NTreeNode, tree.nodes[m]? = some y → y.mChildren = x.mChildren →
        y.mLevel = x.mLevel → y.mMinPos = x.mMinPos → y.mMaxPos = x.mMaxPos →
        ∃ ch : NTreeNode,
          (tree.setNode c { child with mLastCheckedObject := m0, mObjects := X }).nodes[d]?
            = some ch ∧
          ch.mParent = some m ∧ ch.mLevel = x.mLevel + 1 ∧
          ch.mMinPos = (childBounds mDim x.mMinPos x.mMaxPos j).1 ∧
          ch.mMaxPos = (childBounds mDim x.mMinPos x.mMaxPos j).2 := by
      intro y hy e1 e2 e3 e4
      obtain ⟨ch, hch, a1, a2, a3, a4⟩ := h.link m y j d hy (by rw [e1]; exact hj)
      obtain ⟨ch', hch', b1, b2, b3, b4, -⟩ := hold d ch hch
      exact ⟨ch', hch', b1.trans a1, by rw [b2, a2, e2], by rw [b3, a3, e3, e4],
        by rw [b4, a4, e3, e4]⟩
    rcases hget m x hx with ⟨rfl, rfl⟩ | ⟨-, h1⟩
    · exact key child hc rfl rfl rfl rfl
    · exact key x h1 rfl rfl rfl rfl
  · intro m x j d ch' hP hx hj hd
    rcases hget m x hx with ⟨rfl, -⟩ | ⟨hmc, h1⟩
    · exact absurd hPc hP
    · have hdc : d ≠ c := by
        intro he
        subst he
        exact hpar m x j hP h1 hj
      rcases hget d ch' hd with ⟨he, -⟩ | ⟨-, h2⟩
      · exact absurd he hdc
      · exact h.objects m x j d ch' hP h1 hj h2

/-- The first loop of `updateTree(NTree&, NTreeNode*)` on the node `n`: the objects of the
children are replaced by objects of `n`; nothing else changes. -/
theorem resetChildren_ok (mDim : Nat) (objs : List SpaceProxyObject) {P : Nat → Prop}
    {tree : NTree} {n : Nat} {node : NTreeNode} :
    ∀ (L : List Nat) (t t1 : NTree),
      NodesOK mDim (fun m => P m ∨ m = n ∨ ∃ j, node.mChildren.getD j none = some m) t →
      Stable tree t node.mLevel → t.nodes[n]? = some node →
      L.foldlM
        (fun (t : NTree) childNr =>
          match node.mChildren.getD childNr none with
          | none => (.error .undefinedBehaviour : Except Fault NTree)
          | some c =>
            match t.nodes[c]? with
            | none => .error .undefinedBehaviour
            | some child =>
              .ok (t.setNode c { child with
                mLastCheckedObject := none
                mObjects := node.mObjects.filter fun i =>
                  visibleOf objs i &&
                    insideBox mDim (positionOf objs i) child.mMinPos child.mMaxPos }))
        t = .ok t1 →
      NodesOK mDim (fun m => P m ∨ m = n ∨ ∃ j, node.mChildren.getD j none = some m) t1 ∧
        Stable tree t1 node.mLevel ∧ t1.nodes[n]? = some node ∧
        (∀ (c : Nat), (∀ child : NTreeNode, t.nodes[c]? = some child →
            ∀ i ∈ child.mObjects, i ∈ node.mObjects) →
          ∀ child : NTreeNode, t1.nodes[c]? = some child →
            ∀ i ∈ child.mObjects, i ∈ node.mObjects) ∧
        (∀ j ∈ L, ∀ (c : Nat), node.mChildren.getD j none = some c →
          ∀ child : NTreeNode, t1.nodes[c]? = some child →
            ∀ i ∈ child.mObjects, i ∈ node.mObjects) := by
  intro L
  induction L with
  | nil =>
    intro t t1 hok hst hn h
    simp only [List.foldlM_nil] at h
    cases h
    exact ⟨hok, hst, hn, fun c hc => hc, fun j hj => by cases hj⟩
  | cons j rest ih =>
    intro t t1 hok hst hn h
    simp only [List.foldlM_cons] at h
    cases hcj : node.mChildren.getD j none with
    | none => rw [hcj] at h; cases h
    | some c =>
      rw [hcj] at h
      simp only at h
      cases hch : t.nodes[c]? with
      | none => rw [hch] at h; cases h
      | some child =>
        rw [hch] at h
        simp only at h
        obtain ⟨child', hch', hpar', hlev', -, -⟩ := hok.link n node j c hn hcj
        rw [hch] at hch'
        cases hch'
        have hcn : c ≠ n := by
          intro he
          subst he
          rw [hn] at hch
          cases hch
          omega
        obtain ⟨a1, a2⟩ := NodesOK.setObjects
          (node.mObjects.filter fun i =>
            visibleOf objs i &&
              insideBox mDim (positionOf objs i) child.mMinPos child.mMaxPos)
          none hok hch (Or.inr (Or.inr ⟨j, hcj⟩))
          (by
            intro m x j' hP hx hj'
            obtain ⟨ch2, hch2, hp2, -⟩ := hok.link m x j' c hx hj'
            rw [hch] at hch2
            cases hch2
            rw [hpar'] at hp2
            simp only [Option.some.injEq] at hp2
            exact hP (Or.inr (Or.inl hp2.symm)))
        have hst' : Stable tree
            (t.setNode c { child with
              mLastCheckedObject := none
              mObjects := node.mObjects.filter fun i =>
                visibleOf objs i &&
                  insideBox mDim (positionOf objs i) child.mMinPos child.mMaxPos })
            node.mLevel := by
          refine hst.stable_trans ⟨rfl, rfl, rfl, ?_⟩ (le_refl _)
          intro m x hx
          obtain ⟨x', hx', b1, b2, b3, b4, -, b6, -⟩ := a2 m x hx
          refine ⟨x', hx', b1, b2, b3, b4, fun hle => ?_⟩
          by_cases hmc : m = c
          · subst hmc
            rw [hch] at hx
            cases hx
            omega
          · rw [b6 hmc]
        have hn' : (t.setNode c { child with
              mLastCheckedObject := none
              mObjects := node.mObjects.filter fun i =>
                visibleOf objs i &&
                  insideBox mDim (positionOf objs i) child.mMinPos child.mMaxPos }).nodes[n]?
            = some node := by
          obtain ⟨x', hx', -, -, -, -, -, b6, -⟩ := a2 n node hn
          rw [hx', b6 (Ne.symm hcn)]
        obtain ⟨r1, r2, r3, r4, r5⟩ := ih _ t1 a1 hst' hn' h
        have hsub : ∀ d : Nat, (d = c ∨ ∀ child0 : NTreeNode, t.nodes[d]? = some child0 →
              ∀ i ∈ child0.mObjects, i ∈ node.mObjects) →
            ∀ x : NTreeNode, (t.setNode c { child with
              mLastCheckedObject := none
              mObjects := node.mObjects.filter fun i =>
                visibleOf objs i &&
                  insideBox mDim (positionOf objs i) child.mMinPos child.mMaxPos }).nodes[d]?
              = some x → ∀ i ∈ x.mObjects, i ∈ node.mObjects := by
          intro d hd x hx i hi
          by_cases hdc : d = c
          · subst hdc
            obtain ⟨x', hx', -, -, -, -, -, -, b7⟩ := a2 d child hch
            rw [hx] at hx'
            cases hx'
            rw [b7 rfl] at hi
            exact (List.mem_filter.1 hi).1
          · rcases hd with hd | hd
            · exact absurd hd hdc
            · simp only [NTree.setNode] at hx
              rw [List.getElem?_set_ne (Ne.symm hdc)] at hx
              exact hd x hx i hi
        refine ⟨r1, r2, r3, fun d hd => r4 d (hsub d (Or.inr hd)), ?_⟩
        intro j' hj' c' hc'
        rcases List.mem_cons.1 hj' with rfl | hj'
        · rw [hcj] at hc'
          cases hc'
          exact r4 c (hsub c (Or.inl rfl))
        · exact r5 j' hj' c' hc'

theorem getD_some_lt {l : List (Option Nat)} {j c : Nat} (h : l.getD j none = some c) :
    j < l.length := by
  by_contra hcon
  rw [List.getD_eq_getElem?_getD, List.getElem?_eq_none (by omega)] at h
  cases h

theorem updateTreeNode_ok (mDim : Nat) (objs : List SpaceProxyObject) :
    ∀ (fuel : Nat) (P : Nat → Prop) (tree : NTree) (n : Nat) (node : NTreeNode)
      (tree' : NTree),
      NTreeVisitor.updateTreeNode mDim objs fuel tree n = .ok tree' →
      tree.nodes[n]? = some node → NodesOK mDim (fun m => P m ∨ m = n) tree →
      NodesOK mDim P tree' ∧ Stable tree tree' node.mLevel := by
  intro fuel
  induction fuel with
  | zero =>
    intro P tree n node tree' h
    simp only [NTreeVisitor.updateTreeNode] at h
    cases h
  | succ fuel ih =>
    intro P tree n node tree' h hn hok
    simp only [NTreeVisitor.updateTreeNode] at h
    rw [hn] at h
    simp only at h
    have hlt : n < tree.nodes.length := getElem?_lt_length hn
    by_cases hsub : subdivides tree node = true
    · rw [if_pos hsub] at h
      generalize hf1 : (List.range (2 ^ mDim)).foldlM
        (fun (t : NTree) childNr =>
          match node.mChildren.getD childNr none with
          | none => (.error .undefinedBehaviour : Except Fault NTree)
          | some c =>
            match t.nodes[c]? with
            | none => .error .undefinedBehaviour
            | some child =>
              .ok (t.setNode c { child with
                mLastCheckedObject := none
                mObjects := node.mObjects.filter fun i =>
                  visibleOf objs i &&
                    insideBox mDim (positionOf objs i) child.mMinPos child.mMaxPos }))
        tree = r1 at h
      cases r1 with
      | error e => cases h
      | ok tree1 =>
        simp only at h
        obtain ⟨a1, a2, a3, -, a5⟩ := resetChildren_ok mDim objs (P := P)
          (List.range (2 ^ mDim)) tree tree1
          (hok.mono fun m hm => hm.elim Or.inl fun e => Or.inr (Or.inl e))
          (Stable.stable_refl _ _) hn hf1
        have hlenc : node.mChildren.length = 2 ^ mDim := hok.length n node hn
        have hpend : NodesOK mDim
            (fun m => P m ∨ ∃ j ∈ List.range (2 ^ mDim), node.mChildren.getD j none = some m)
            tree1 := by
          refine ⟨a1.length, a1.shape, a1.link, ?_⟩
          intro m x j c child hP hx hj hc
          by_cases hmn : m = n
          · subst hmn
            rw [a3] at hx
            cases hx
            have hjl : j < 2 ^ mDim := by rw [← hlenc]; exact getD_some_lt hj
            exact a5 j (List.mem_range.2 hjl) c hj child hc
          · refine a1.objects m x j c child ?_ hx hj hc
            rintro (h1 | h1 | ⟨j', hj'⟩)
            · exact hP (Or.inl h1)
            · exact hmn h1
            · have hjl : j' < 2 ^ mDim := by rw [← hlenc]; exact getD_some_lt hj'
              exact hP (Or.inr ⟨j', List.mem_range.2 hjl, hj'⟩)
        have hlev1 : ∀ (j c : Nat), node.mChildren.getD j none = some c →
            ∃ child1 : NTreeNode, tree1.nodes[c]? = some child1 ∧
              child1.mLevel = node.mLevel + 1 := by
          intro j c hj
          obtain ⟨child1, h1, -, h3, -⟩ := a1.link n node j c a3 hj
          exact ⟨child1, h1, h3⟩
        have hfold : ∀ (L : List Nat) (t t' : NTree),
            NodesOK mDim (fun m => P m ∨ ∃ j ∈ L, node.mChildren.getD j none = some m) t →
            Stable tree1 t (node.mLevel + 1) →
            L.foldlM
              (fun (t : NTree) i =>
                match node.mChildren.getD i none with
                | none => (.error .undefinedBehaviour : Except Fault NTree)
                | some c =>
                  match t.nodes[c]? with
                  | none => .error .undefinedBehaviour
                  | some child =>
                    if child.mChildren.getD i none = none then
                      NTreeVisitor.buildTreeNode mDim objs fuel t c
                    else NTreeVisitor.updateTreeNode mDim objs fuel t c)
              t = .ok t' →
            NodesOK mDim P t' ∧ Stable tree1 t' (node.mLevel + 1) := by
          intro L
          induction L with
          | nil =>
            intro t t' h1 h2 hf
            simp only [List.foldlM_nil] at hf
            cases hf
            refine ⟨h1.mono ?_, h2⟩
            rintro m (hm | ⟨j, hj, -⟩)
            · exact hm
            · cases hj
          | cons j rest ihL =>
            intro t t' h1 h2 hf
            simp only [List.foldlM_cons] at hf
            cases hcj : node.mChildren.getD j none with
            | none => rw [hcj] at hf; cases hf
            | some c =>
              rw [hcj] at hf
              simp only at hf
              cases hch : t.nodes[c]? with
              | none => rw [hch] at hf; cases hf
              | some child =>
                rw [hch] at hf
                simp only at hf
                obtain ⟨child1, hc1, hl1⟩ := hlev1 j c hcj
                obtain ⟨child2, hc2, -, hl2, -⟩ := h2.nodes c child1 hc1
                rw [hch] at hc2
                cases hc2
                have hpre : NodesOK mDim
                    (fun m => (P m ∨ ∃ j ∈ rest, node.mChildren.getD j none = some m) ∨ m = c)
                    t := by
                  refine h1.mono ?_
                  rintro m (hm | ⟨j', hj', hjc⟩)
                  · exact Or.inl (Or.inl hm)
                  · rcases List.mem_cons.1 hj' with rfl | hj'
                    · rw [hcj] at hjc
                      cases hjc
                      exact Or.inr rfl
                    · exact Or.inl (Or.inr ⟨j', hj', hjc⟩)
                generalize hstep : (if child.mChildren.getD j none = none then
                      NTreeVisitor.buildTreeNode mDim objs fuel t c
                    else NTreeVisitor.updateTreeNode mDim objs fuel t c) = r at hf
                cases r with
                | error e => cases hf
                | ok t1 =>
                  have hres : NodesOK mDim
                      (fun m => P m ∨ ∃ j ∈ rest, node.mChildren.getD j none = some m) t1 ∧
                      Stable t t1 child.mLevel := by
                    by_cases hb : child.mChildren.getD j none = none
                    · rw [if_pos hb] at hstep
                      exact buildTreeNode_ok mDim objs fuel _ t c child t1 hstep hch hpre
                    · rw [if_neg hb] at hstep
                      exact ih _ t c child t1 hstep hch hpre
                  refine ihL t1 t' hres.1 (h2.stable_trans hres.2 ?_) hf
                  rw [hl2, hl1]
        obtain ⟨b1, b2⟩ := hfold (List.range (2 ^ mDim)) tree1 tree' hpend (Stable.stable_refl _ _) h
        exact ⟨b1, a2.stable_trans b2 (Nat.le_succ _)⟩
    · rw [if_neg hsub] at h
      split_ifs at h with hany
      simp only [Except.ok.injEq] at h
      subst h
      refine ⟨NodesOK.setLeaf hok hn, ⟨rfl, rfl, rfl, ?_⟩⟩
      intro m x hx
      simp only [NTree.setNode]
      by_cases hm : n = m
      · subst hm
        rw [hn] at hx
        cases hx
        rw [List.getElem?_set_self hlt]
        exact ⟨_, rfl, rfl, rfl, rfl, rfl, fun _ => rfl⟩
      · rw [List.getElem?_set_ne hm]
        exact ⟨x, hx, rfl, rfl, rfl, rfl, fun _ => rfl⟩

/-- Appending a node without children to the store keeps it in order. -/
theorem NodesOK.append {mDim : Nat} {P : Nat → Prop} {tree : NTree} (x : NTreeNode)
    (h : NodesOK mDim P tree) (hx : x.mChildren = List.replicate (2 ^ mDim) none) :
    NodesOK mDim P { tree with mRootNode := some tree.nodes.length, nodes := tree.nodes ++ [x] } := by
  have hget : ∀ (m : Nat) (y : NTreeNode), (tree.nodes ++ [x])[m]? = some y →
      tree.nodes[m]? = some y ∨ y = x := by
    intro m y hy
    by_cases hm : m < tree.nodes.length
    · rw [List.getElem?_append_left hm] at hy
      exact Or.inl hy
    · rw [List.getElem?_append_right (by omega)] at hy
      have := List.getElem?_mem hy
      rw [List.mem_singleton] at this
      exact Or.inr this
  have hold : ∀ (m : Nat) (y : NTreeNode), tree.nodes[m]? = some y →
      (tree.nodes ++ [x])[m]? = some y := by
    intro m y hy
    rw [List.getElem?_append_left (getElem?_lt_length hy)]
    exact hy
  refine ⟨?_, ?_, ?_, ?_⟩
  · intro m y hy
    rcases hget m y hy with h1 | rfl
    · exact h.length m y h1
    · rw [hx]; exact List.length_replicate _ _
  · intro m y hy h0
    rcases hget m y hy with h1 | rfl
    · exact h.shape m y h1 h0
    · rw [hx, getD_replicate_none] at h0
      exact absurd rfl h0
  · intro m y j c hy hj
    rcases hget m y hy with h1 | rfl
    · obtain ⟨child, hc, a⟩ := h.link m y j c h1 hj
      exact ⟨child, hold c child hc, a⟩
    · rw [hx, getD_replicate_none] at hj
      cases hj
  · intro m y j c child hP hy hj hc
    rcases hget m y hy with h1 | rfl
    · obtain ⟨child0, hc0, -⟩ := h.link m y j c h1 hj
      have := hold c child0 hc0
      simp only at hc
      rw [this] at hc
      cases hc
      exact h.objects m y j c child hP h1 hj hc0
    · rw [hx, getD_replicate_none] at hj
      cases hj

theorem updateTree_ok (mDim : Nat) (objs : List SpaceProxyObject) (fuel : Nat)
    (tree tree' : NTree) (pObjects : List Nat)
    (h : NTreeVisitor.updateTree mDim objs fuel tree pObjects = .ok tree')
    (hok : TreeOK mDim tree) :
    TreeOK mDim tree' ∧ tree'.mMinPos = tree.mMinPos ∧ tree'.mMaxPos = tree.mMaxPos ∧
      ∃ (r : Nat) (node : NTreeNode), tree'.mRootNode = some r ∧
        tree'.nodes[r]? = some node ∧ node.mObjects = pObjects := by
  unfold NTreeVisitor.updateTree at h
  cases hr : tree.mRootNode with
  | none =>
    rw [hr] at h
    simp only [NTreeVisitor.buildTree] at h
    have hn0 : ∀ x : NTreeNode,
        ({ tree with mRootNode := some tree.nodes.length, nodes := tree.nodes ++ [x] } :
          NTree).nodes[tree.nodes.length]? = some x := by
      intro x
      simp
    obtain ⟨a1, a2⟩ := buildTreeNode_ok mDim objs fuel (fun _ => False) _ _ _ tree' h (hn0 _)
      ((NodesOK.append _ hok.nodes rfl).mono fun m hm => Or.inl hm)
    obtain ⟨node', hn', b1, -, b3, b4, b5⟩ := a2.nodes _ _ (hn0 _)
    refine ⟨⟨a1, ?_⟩, a2.minPos, a2.maxPos, tree.nodes.length, node', a2.root, hn',
      b5 (le_refl _)⟩
    intro r hr'
    rw [a2.root] at hr'
    simp only [Option.some.injEq] at hr'
    subst hr'
    exact ⟨node', hn', b1, by rw [b3, a2.minPos], by rw [b4, a2.maxPos]⟩
  | some r =>
    rw [hr] at h
    simp only at h
    obtain ⟨node, hn, hpar, hmin, hmax⟩ := hok.root r hr
    rw [hn] at h
    simp only at h
    obtain ⟨c1, c2⟩ := NodesOK.setObjects pObjects none
      (@NodesOK.mono _ _ (fun m => False ∨ m = r) _ hok.nodes fun m hm => Or.inl hm) hn
      (Or.inr rfl)
      (by
        intro m x j hP hx hj
        obtain ⟨ch, hch, hp, -⟩ := hok.nodes.link m x j r hx hj
        rw [hn] at hch
        cases hch
        rw [hpar] at hp
        cases hp)
    obtain ⟨node1, hn1, d1, d2, d3, d4, -, -, d7⟩ := c2 r node hn
    have hres : NodesOK mDim (fun _ => False) tree' ∧
        Stable (tree.setNode r { node with mLastCheckedObject := none, mObjects := pObjects })
          tree' node1.mLevel := by
      by_cases hb : node.mChildren.getD 0 none = none
      · rw [if_pos hb] at h
        exact buildTreeNode_ok mDim objs fuel _ _ r node1 tree' h hn1 c1
      · rw [if_neg hb] at h
        exact updateTreeNode_ok mDim objs fuel _ _ r node1 tree' h hn1 c1
    obtain ⟨a1, a2⟩ := hres
    obtain ⟨node', hn', b1, -, b3, b4, b5⟩ := a2.nodes _ _ hn1
    have e1 : tree'.mMinPos = tree.mMinPos := a2.minPos
    have e2 : tree'.mMaxPos = tree.mMaxPos := a2.maxPos
    have e3 : tree'.mRootNode = some r := by rw [a2.root]; exact hr
    refine ⟨⟨a1, ?_⟩, e1, e2, r, node', e3, hn', by rw [b5 (le_refl _), d7 rfl]⟩
    intro r' hr'
    rw [e3] at hr'
    simp only [Option.some.injEq] at hr'
    subst hr'
    exact ⟨node', hn', by rw [b1, d1, hpar], by rw [b3, d3, hmin, e1], by rw [b4, d4, hmax, e2]⟩

theorem exists_testBit (D : Nat) (b : Nat → Bool) :
    ∃ j, j < 2 ^ D ∧ ∀ d, d < D → j.testBit d = b d := by
  induction D with
  | zero => exact ⟨0, by simp, fun d hd => by omega⟩
  | succ D ih =>
    obtain ⟨j, hj, hb⟩ := ih
    by_cases hD : b D = true
    · refine ⟨2 ^ D + j, by rw [pow_succ]; omega, ?_⟩
      intro d hd
      by_cases hdD : d = D
      · subst hdD
        rw [Nat.testBit_two_pow_add_eq, Nat.testBit_lt_two_pow hj, hD]
        rfl
      · rw [Nat.testBit_two_pow_add_gt (by omega)]
        exact hb d (by omega)
    · refine ⟨j, by rw [pow_succ]; omega, ?_⟩
      intro d hd
      by_cases hdD : d = D
      · subst hdD
        rw [Nat.testBit_lt_two_pow hj]
        simp only [Bool.not_eq_true] at hD
        exact hD.symm
      · exact hb d (by omega)

theorem insideBox_iff (dim : Nat) (pos minPos maxPos : Vec) :
    insideBox dim pos minPos maxPos = true ↔
      ∀ d, d < dim → minPos.getD d 0 ≤ pos.getD d 0 ∧ pos.getD d 0 ≤ maxPos.getD d 0 := by
  simp only [insideBox, List.all_eq_true, List.mem_range, Bool.not_eq_true',
    Bool.or_eq_false_iff, decide_eq_false_iff_not, not_lt, gt_iff_lt]

/-- A position in a cell lies in the cell of one of its `2 ^ dim` children. -/
theorem insideBox_child (dim : Nat) (pos minPos maxPos : Vec)
    (h : insideBox dim pos minPos maxPos = true) :
    ∃ j, j < 2 ^ dim ∧
      insideBox dim pos (childBounds dim minPos maxPos j).1
        (childBounds dim minPos maxPos j).2 = true := by
  rw [insideBox_iff] at h
  obtain ⟨j, hj, hb⟩ := exists_testBit dim
    (fun d => decide (pos.getD d 0 >
      fl32 (fl64 (fl32 (minPos.getD d 0 + maxPos.getD d 0) * (1 / 2)))))
  refine ⟨j, hj, ?_⟩
  rw [insideBox_iff]
  intro d hd
  simp only [childBounds]
  rw [getD_map_range dim _ d hd, getD_map_range dim _ d hd, hb d hd]
  by_cases hc : pos.getD d 0 >
      fl32 (fl64 (fl32 (minPos.getD d 0 + maxPos.getD d 0) * (1 / 2)))
  · simp only [hc, decide_True, if_true]
    exact ⟨le_of_lt hc, (h d hd).2⟩
  · simp only [hc, decide_False, Bool.false_eq_true, if_false]
    exact ⟨(h d hd).1, not_lt.1 hc⟩

theorem withoutMark_getElem? {tree T0 : NTree}
    (h : tree.nodes.map NTreeNode.withoutMark = T0.nodes.map NTreeNode.withoutMark) (n : Nat) :
    (tree.nodes[n]?).map NTreeNode.withoutMark = (T0.nodes[n]?).map NTreeNode.withoutMark := by
  rw [← List.getElem?_map, ← List.getElem?_map, h]

theorem withoutMark_eq {x y : NTreeNode} (h : x.withoutMark = y.withoutMark) :
    x.mParent = y.mParent ∧ x.mChildren = y.mChildren ∧ x.mLevel = y.mLevel ∧
      x.mMinPos = y.mMinPos ∧ x.mMaxPos = y.mMaxPos ∧ x.mObjects = y.mObjects := by
  have h1 := congrArg (fun z => z.mParent) h
  have h2 := congrArg (fun z => z.mChildren) h
  have h3 := congrArg (fun z => z.mLevel) h
  have h4 := congrArg (fun z => z.mMinPos) h
  have h5 := congrArg (fun z => z.mMaxPos) h
  have h6 := congrArg (fun z => z.mObjects) h
  exact ⟨h1, h2, h3, h4, h5, h6⟩

theorem withoutMark_of {tree T0 : NTree}
    (h : tree.nodes.map NTreeNode.withoutMark = T0.nodes.map NTreeNode.withoutMark)
    {n : Nat} {node : NTreeNode} (hn : tree.nodes[n]? = some node) :
    ∃ node0 : NTreeNode, T0.nodes[n]? = some node0 ∧
      node0.withoutMark = node.withoutMark := by
  have := withoutMark_getElem? h n
  rw [hn] at this
  cases h0 : T0.nodes[n]? with
  | none => rw [h0] at this; cases this
  | some node0 =>
    rw [h0] at this
    simp only [Option.map_some', Option.some.injEq] at this
    exact ⟨node0, rfl, this.symm⟩

theorem withoutMark_to {tree T0 : NTree}
    (h : tree.nodes.map NTreeNode.withoutMark = T0.nodes.map NTreeNode.withoutMark)
    {n : Nat} {node0 : NTreeNode} (hn : T0.nodes[n]? = some node0) :
    ∃ node : NTreeNode, tree.nodes[n]? = some node ∧
      node.withoutMark = node0.withoutMark := by
  have := withoutMark_getElem? h n
  rw [hn] at this
  cases h0 : tree.nodes[n]? with
  | none => rw [h0] at this; cases this
  | some node =>
    rw [h0] at this
    simp only [Option.map_some', Option.some.injEq] at this
    exact ⟨node, rfl, this⟩

theorem map_withoutMark_setNode (tree : NTree) (n : Nat) (node : NTreeNode)
    (m : Option Nat) (h : tree.nodes[n]? = some node) :
    (tree.setNode n { node with mLastCheckedObject := m }).nodes.map NTreeNode.withoutMark
      = tree.nodes.map NTreeNode.withoutMark := by
  simp only [NTree.setNode]
  apply List.ext_getElem?
  intro k
  rw [List.getElem?_map, List.getElem?_map]
  by_cases hk : n = k
  · subst hk
    rw [List.getElem?_set_self (getElem?_lt_length h), h]
    rfl
  · rw [List.getElem?_set_ne hk]

theorem Reach.objects {mDim : Nat} {T0 : NTree} {V : List Nat} (hok : TreeOK mDim T0)
    (hroot : ∀ (r : Nat) (node : NTreeNode), T0.mRootNode = some r →
      T0.nodes[r]? = some node → ∀ i ∈ node.mObjects, i ∈ V)
    {n : Nat} (hr : Reach T0 n) :
    ∀ node : NTreeNode, T0.nodes[n]? = some node → ∀ i ∈ node.mObjects, i ∈ V := by
  induction hr with
  | root r h => exact fun node hn => hroot r node h hn
  | child m x j c _ hx hj ih =>
    intro node hn i hi
    exact ih x hx i (hok.nodes.objects m x j c node (fun hf => hf) hx hj hn i hi)

theorem Reach.parent {mDim : Nat} {T0 : NTree} (hok : TreeOK mDim T0) {n : Nat}
    (hr : Reach T0 n) {node : NTreeNode} (hn : T0.nodes[n]? = some node) {p : Nat}
    (hp : node.mParent = some p) : Reach T0 p := by
  cases hr
  case root h =>
    obtain ⟨node', hn', hpar, -⟩ := hok.root n h
    rw [hn] at hn'
    cases hn'
    rw [hpar] at hp
    cases hp
  case child m x j hm hx hj =>
    obtain ⟨ch, hch, hpar, -⟩ := hok.nodes.link m x j n hx hj
    rw [hn] at hch
    cases hch
    rw [hpar] at hp
    cases hp
    exact hm

theorem firstContainingChild_spec (mDim : Nat) (tree : NTree) (node : NTreeNode)
    (pos : Vec) :
    ∀ L : List Nat,
      (∀ j ∈ L, ∃ (c : Nat) (child : NTreeNode), node.mChildren.getD j none = some c ∧
        tree.nodes[c]? = some child) →
      (∃ j ∈ L, ∃ (c : Nat) (child : NTreeNode), node.mChildren.getD j none = some c ∧
        tree.nodes[c]? = some child ∧
        insideBox mDim pos child.mMinPos child.mMaxPos = true) →
      ∃ j ∈ L, firstContainingChild mDim tree node pos L = .ok (some j) ∧
        ∃ (c : Nat) (child : NTreeNode), node.mChildren.getD j none = some c ∧
          tree.nodes[c]? = some child ∧
          insideBox mDim pos child.mMinPos child.mMaxPos = true := by
  intro L
  induction L with
  | nil =>
    rintro - ⟨j, hj, -⟩
    cases hj
  | cons j rest ih =>
    intro hall hex
    obtain ⟨c, child, hc, hch⟩ := hall j (List.mem_cons_self _ _)
    simp only [firstContainingChild, hc, hch]
    by_cases hin : insideBox mDim pos child.mMinPos child.mMaxPos = true
    · rw [if_pos hin]
      exact ⟨j, List.mem_cons_self _ _, rfl, c, child, hc, hch, hin⟩
    · rw [if_neg hin]
      have hex' : ∃ j ∈ rest, ∃ (c : Nat) (child : NTreeNode),
          node.mChildren.getD j none = some c ∧ tree.nodes[c]? = some child ∧
          insideBox mDim pos child.mMinPos child.mMaxPos = true := by
        obtain ⟨j', hj', c', child', h1, h2, h3⟩ := hex
        rcases List.mem_cons.1 hj' with rfl | hj'
        · rw [hc] at h1
          cases h1
          rw [hch] at h2
          cases h2
          exact absurd h3 hin
        · exact ⟨j', hj', c', child', h1, h2, h3⟩
      obtain ⟨j', hj', h1, h2⟩ := ih (fun j hj => hall j (List.mem_cons_of_mem _ hj)) hex'
      exact ⟨j', List.mem_cons_of_mem _ hj', h1, h2⟩

/-- The invariant of the neighbor phase over a tree in order whose root holds proxies of
`V` only: the search stays among the nodes reachable from the root, every target it offers
is a proxy of `V`, and a source inside the cell of a node is passed down to a leaf. -/
theorem SearchInv.ofTree (sqrtF : ℚ → ℚ) (mDim : Nat) (objs0 : List SpaceProxyObject)
    (T0 : NTree) (V : List Nat) (hok : TreeOK mDim T0)
    (hroot : ∀ (r : Nat) (node : NTreeNode), T0.mRootNode = some r →
      T0.nodes[r]? = some node → ∀ i ∈ node.mObjects, i ∈ V) :
    SearchInv sqrtF mDim objs0
      (SameTree T0) (Reach T0) (fun i => i ∈ V) (TargetsIn objs0 V)
      (fun n k => ∃ node : NTreeNode, T0.nodes[n]? = some node ∧
        insideBox mDim (positionOf objs0 k) node.mMinPos node.mMaxPos = true) := by
  refine ⟨?_, ?_, ?_, ?_, ?_, ?_, ?_⟩
  · intro tree n node m hI hN hn
    obtain ⟨h1, h2, h3, h4, h5, h6, h7⟩ := hI
    refine ⟨?_, h2, h3, h4, h5, h6, ?_⟩
    · rw [map_withoutMark_setNode tree n node m hn]
      exact h1
    · intro k hk
      have hne : n ≠ k := fun e => hk (e ▸ hN)
      simp only [NTree.setNode]
      rw [List.getElem?_set_ne hne]
      exact h7 k hk
  · intro tree n node i hI hN hn hi
    obtain ⟨node0, hn0, he⟩ := withoutMark_of hI.1 hn
    refine Reach.objects hok hroot hN node0 hn0 i ?_
    rw [(withoutMark_eq he).2.2.2.2.2]
    exact hi
  · intro tree n node j c hI hN hn hj
    obtain ⟨node0, hn0, he⟩ := withoutMark_of hI.1 hn
    exact Reach.child n node0 j c hN hn0 (by rw [(withoutMark_eq he).2.1]; exact hj)
  · intro tree n node p hI hN hn hp
    obtain ⟨node0, hn0, he⟩ := withoutMark_of hI.1 hn
    exact Reach.parent hok hN hn0 (by rw [(withoutMark_eq he).1]; exact hp)
  · intro src r hr
    cases hr
  · intro src p alg rels i q b rels' hp _ hq hsi hT hQ hc
    intro x hx
    rcases (createNeighbor_outcome sqrtF alg rels p.mSpaceObject q.mSpaceObject b rels'
      hc).1.mem x hx with h1 | ⟨-, rfl⟩
    · exact hQ x h1
    · cases hq0 : objs0[i]? with
      | none => rw [hq0] at hq; cases hq
      | some q0 =>
        rw [hq0] at hq
        simp only [Option.map_some', Option.some.injEq] at hq
        exact ⟨i, q0, hT, Ne.symm hsi, hq0, by rw [(withoutRelations_eq hq).1]⟩
  · intro tree n node k hI hN hn hleaf hcov
    obtain ⟨node0, hn0, he⟩ := withoutMark_of hI.1 hn
    obtain ⟨e1, e2, -, e4, e5, -⟩ := withoutMark_eq he
    obtain ⟨node0', hn0', hin⟩ := hcov
    rw [hn0] at hn0'
    cases hn0'
    have hall : ∀ j, j < 2 ^ mDim → ∃ (c : Nat) (child0 child : NTreeNode),
        node.mChildren.getD j none = some c ∧ T0.nodes[c]? = some child0 ∧
        tree.nodes[c]? = some child ∧ child.mMinPos = child0.mMinPos ∧
        child.mMaxPos = child0.mMaxPos ∧
        child0.mMinPos = (childBounds mDim node0.mMinPos node0.mMaxPos j).1 ∧
        child0.mMaxPos = (childBounds mDim node0.mMinPos node0.mMaxPos j).2 := by
      intro j hj
      have hs := hok.nodes.shape n node0 hn0 (by rw [e2]; exact hleaf) j hj
      cases hcj : node0.mChildren.getD j none with
      | none => exact absurd hcj hs
      | some c =>
        obtain ⟨child0, hc0, -, -, b3, b4⟩ := hok.nodes.link n node0 j c hn0 hcj
        obtain ⟨child, hch, hce⟩ := withoutMark_to hI.1 hc0
        exact ⟨c, child0, child, by rw [← e2]; exact hcj, hc0, hch,
          (withoutMark_eq hce).2.2.2.1, (withoutMark_eq hce).2.2.2.2.1, b3, b4⟩
    obtain ⟨j0, hj0, hin0⟩ := insideBox_child mDim (positionOf objs0 k) node0.mMinPos
      node0.mMaxPos hin
    obtain ⟨j, hj, hf, c, child, hcj, hch, hinj⟩ := firstContainingChild_spec mDim tree node
      (positionOf objs0 k) (List.range (2 ^ mDim))
      (by
        intro j hj
        obtain ⟨c, -, child, h1, -, h3, -⟩ := hall j (List.mem_range.1 hj)
        exact ⟨c, child, h1, h3⟩)
      (by
        obtain ⟨c, child0, child, h1, -, h3, h4, h5, h6, h7⟩ := hall j0 hj0
        exact ⟨j0, List.mem_range.2 hj0, c, child, h1, h3, by rw [h4, h5, h6, h7]; exact hin0⟩)
    obtain ⟨c', child0, child', h1, h2, h3, h4, h5, -, -⟩ := hall j (List.mem_range.1 hj)
    rw [hcj] at h1
    cases h1
    rw [hch] at h3
    cases h3
    exact ⟨j, c, List.mem_range.1 hj, hf, hcj, child0, h2, by rw [← h4, ← h5]; exact hinj⟩

theorem SameTree.sameTree_refl (T0 : NTree) : SameTree T0 T0 :=
  ⟨rfl, rfl, rfl, rfl, rfl, rfl, fun _ _ => rfl⟩

theorem TreeOK.sameTree {mDim : Nat} {T0 tree : NTree} (hok : TreeOK mDim T0)
    (hs : SameTree T0 tree) : TreeOK mDim tree := by
  obtain ⟨hn, hr, hmin, hmax, -⟩ := hs
  refine ⟨⟨?_, ?_, ?_, ?_⟩, ?_⟩
  · intro n node h
    obtain ⟨node0, h0, he⟩ := withoutMark_of hn h
    rw [← (withoutMark_eq he).2.1]
    exact hok.nodes.length n node0 h0
  · intro n node h
    obtain ⟨node0, h0, he⟩ := withoutMark_of hn h
    rw [← (withoutMark_eq he).2.1]
    exact hok.nodes.shape n node0 h0
  · intro n node j c h hj
    obtain ⟨node0, h0, he⟩ := withoutMark_of hn h
    obtain ⟨e1, e2, e3, e4, e5, e6⟩ := withoutMark_eq he
    obtain ⟨child0, hc0, a1, a2, a3, a4⟩ := hok.nodes.link n node0 j c h0 (by rw [e2]; exact hj)
    obtain ⟨child, hc, hce⟩ := withoutMark_to hn hc0
    obtain ⟨f1, f2, f3, f4, f5, f6⟩ := withoutMark_eq hce
    exact ⟨child, hc, by rw [f1, a1], by rw [f3, a2, e3], by rw [f4, a3, e4, e5],
      by rw [f5, a4, e4, e5]⟩
  · intro n node j c child _ h hj hc
    obtain ⟨node0, h0, he⟩ := withoutMark_of hn h
    obtain ⟨e1, e2, e3, e4, e5, e6⟩ := withoutMark_eq he
    obtain ⟨child0, hc0, hce⟩ := withoutMark_of hn hc
    obtain ⟨f1, f2, f3, f4, f5, f6⟩ := withoutMark_eq hce
    rw [← e6, ← f6]
    exact hok.nodes.objects n node0 j c child0 (fun hf => hf) h0 (by rw [e2]; exact hj) hc0
  · intro r hroot
    rw [hr] at hroot
    obtain ⟨node0, h0, a1, a2, a3⟩ := hok.root r hroot
    obtain ⟨node, h, he⟩ := withoutMark_to hn h0
    obtain ⟨e1, e2, e3, e4, e5, e6⟩ := withoutMark_eq he
    exact ⟨node, h, by rw [e1, a1], by rw [e4, a2, hmin], by rw [e5, a3, hmax]⟩

theorem NodesOK.of_nodes_eq {mDim : Nat} {P : Nat → Prop} {tree tree' : NTree}
    (h : NodesOK mDim P tree) (e : tree'.nodes = tree.nodes) : NodesOK mDim P tree' := by
  refine ⟨?_, ?_, ?_, ?_⟩
  · intro n node hn
    rw [e] at hn
    exact h.length n node hn
  · intro n node hn
    rw [e] at hn
    exact h.shape n node hn
  · intro n node j c hn hj
    rw [e] at hn
    rw [e]
    exact h.link n node j c hn hj
  · intro n node j c child hP hn hj hc
    rw [e] at hn hc
    exact h.objects n node j c child hP hn hj hc

theorem NTreeAlg.updateStructure_ok {alg alg' : NTreeAlg} {objs : List SpaceProxyObject}
    {fuel : Nat} {V : List Nat} (h : alg.updateStructure objs fuel V = .ok alg')
    (hok : TreeOK alg.mDim alg.mTree) :
    TreeOK alg'.mDim alg'.mTree ∧ alg'.mDim = alg.mDim ∧ alg'.mMinPos = alg.mMinPos ∧
      alg'.mMaxPos = alg.mMaxPos ∧ alg'.mFixedSize = alg.mFixedSize ∧
      alg'.mTree.mMinPos = alg.mTree.mMinPos ∧ alg'.mTree.mMaxPos = alg.mTree.mMaxPos ∧
      ∃ (r : Nat) (node : NTreeNode), alg'.mTree.mRootNode = some r ∧
        alg'.mTree.nodes[r]? = some node ∧ node.mObjects = V := by
  unfold NTreeAlg.updateStructure at h
  split_ifs at h with hd
  cases hu : NTreeVisitor.updateTree alg.mDim objs fuel alg.mTree V with
  | error e => rw [hu] at h; cases h
  | ok tree =>
    rw [hu] at h
    simp only [Except.ok.injEq] at h
    subst h
    obtain ⟨a1, a2, a3, a4⟩ := updateTree_ok alg.mDim objs fuel alg.mTree tree V hu hok
    exact ⟨a1, rfl, rfl, rfl, rfl, a2, a3, a4⟩

theorem NTreeAlg.updateNeighbors_header {sqrtF : ℚ → ℚ} {alg alg' : NTreeAlg}
    {objs objs' : List SpaceProxyObject} {fuel : Nat} {pObjects : List Nat}
    (h : alg.updateNeighbors sqrtF objs fuel pObjects = .ok (alg', objs')) :
    alg'.mDim = alg.mDim ∧ alg'.mMinPos = alg.mMinPos ∧ alg'.mMaxPos = alg.mMaxPos ∧
      alg'.mFixedSize = alg.mFixedSize := by
  unfold NTreeAlg.updateNeighbors at h
  split_ifs at h with hd
  cases hc : NTreeVisitor.calcNeighbors sqrtF alg.mDim fuel (alg.mTree, objs) pObjects with
  | error e => rw [hc] at h; cases h
  | ok r =>
    rw [hc] at h
    obtain ⟨tree, objs1⟩ := r
    simp only [Except.ok.injEq, Prod.mk.injEq] at h
    obtain ⟨h1, -⟩ := h
    subst h1
    exact ⟨rfl, rfl, rfl, rfl⟩

/-- The classification phase keeps the invariant of the space; the proxies of the visible
set are visible and, in a bounded space, inside the bounds; the proxies of the
neighbor-capable set lie inside the bounds the algorithm has after the phase. -/
theorem Space.updateObjects_ok {space s1 : Space} (h : space.updateObjects = .ok s1)
    (hok : SpaceOK space) :
    SpaceOK s1 ∧ s1.mObjects = space.mObjects ∧
      s1.mSpaceAlg.mFixedSize = space.mSpaceAlg.mFixedSize ∧
      (∀ j ∈ s1.mVisibleObjects, ∃ q : SpaceProxyObject, space.mObjects[j]? = some q ∧
        q.mNeighborGroup.mVisible = true ∧
        (s1.mSpaceAlg.mFixedSize = true →
          insideBox s1.mSpaceAlg.mMinPos.length q.mSpaceObject.mPosition
            s1.mSpaceAlg.mMinPos s1.mSpaceAlg.mMaxPos = true)) ∧
      (∀ k ∈ s1.mNeighborObjects, ∃ p : SpaceProxyObject, space.mObjects[k]? = some p ∧
        insideBox s1.mSpaceAlg.mMinPos.length p.mSpaceObject.mPosition
          s1.mSpaceAlg.mMinPos s1.mSpaceAlg.mMaxPos = true) := by
  by_cases hfix : space.mSpaceAlg.mFixedSize = true
  · unfold Space.updateObjects at h
    simp only [hfix, if_true] at h
    cases h
    refine ⟨⟨hok.tree, hok.minPos, hok.maxPos, hok.dim, hok.rows⟩, rfl, rfl, ?_, ?_⟩
    · intro j hj
      obtain ⟨q, hq, hv, hin⟩ := (mem_classifyFixed_visible space.mSpaceAlg.mMinPos
        space.mSpaceAlg.mMaxPos _ j).1 hj
      exact ⟨q, hq, hv, fun _ => hin⟩
    · intro k hk
      obtain ⟨p, a, hp, -, -, hin⟩ := (mem_classifyFixed_neighbor space.mSpaceAlg.mMinPos
        space.mSpaceAlg.mMaxPos _ k).1 hk
      exact ⟨p, hp, hin⟩
  · have hfree : space.mSpaceAlg.mFixedSize = false := by
      cases hb : space.mSpaceAlg.mFixedSize
      · rfl
      · exact absurd hb hfix
    obtain ⟨s, hs, ho, hv, hn, hmin, hmax, hsame, hdiff⟩ :=
      Space.updateObjects_free space hfree hok.rows
    rw [hs] at h
    cases h
    obtain ⟨l1, l2⟩ := classifyFree_lengths space.mSpaceAlg.mMinPos space.mSpaceAlg.mMaxPos
      space.mObjects hok.rows
    have halg : s1.mSpaceAlg.mFixedSize = false ∧ SpaceOK s1 := by
      by_cases hb : (classifyFree space.mSpaceAlg.mMinPos space.mSpaceAlg.mMaxPos
            space.mObjects).1 = space.mSpaceAlg.mMinPos ∧
          (classifyFree space.mSpaceAlg.mMinPos space.mSpaceAlg.mMaxPos space.mObjects).2.1
            = space.mSpaceAlg.mMaxPos
      · have := hsame hb
        refine ⟨by rw [this]; exact hfree, ⟨?_, ?_, ?_, ?_, ?_⟩⟩ <;> rw [this]
        · exact hok.tree
        · exact hok.minPos
        · exact hok.maxPos
        · exact hok.dim
        · exact hok.rows
      · have hr := hdiff hb
        unfold NTreeAlg.resize at hr
        split_ifs at hr with h1 h2 h3
        simp only [Except.ok.injEq] at hr
        have e := hr.symm
        refine ⟨by rw [e]; exact hfree, ⟨?_, ?_, ?_, ?_, ?_⟩⟩
        · rw [e]
          refine ⟨hok.tree.nodes.of_nodes_eq rfl, ?_⟩
          intro r hroot
          cases hroot
        · rw [e]
        · rw [e]
        · rw [e]
          simp only
          rw [l1]
          exact hok.dim
        · rw [e]
          simp only
          rw [l1, l2]
          exact hok.rows
    refine ⟨halg.2, ho, by rw [halg.1, hfree], ?_, ?_⟩
    · intro j hj
      rw [hv] at hj
      obtain ⟨q, hq, hvis⟩ := (mem_classifyFree_visible _ _ _ j).1 hj
      exact ⟨q, hq, hvis, fun hf => by rw [halg.1] at hf; cases hf⟩
    · intro k hk
      rw [hn] at hk
      obtain ⟨p, a, hp, -, -⟩ := (mem_classifyFree_neighbor _ _ _ k).1 hk
      refine ⟨p, hp, ?_⟩
      rw [insideBox_iff]
      intro d hd
      rw [hmin, l1] at hd
      obtain ⟨-, -, h3⟩ := classifyFree_contains space.mSpaceAlg.mMinPos
        space.mSpaceAlg.mMaxPos space.mObjects d hd
      rw [hmin, hmax]
      exact h3 p (List.getElem?_mem hp)

/-- A space whose tree has never been built satisfies the invariant. -/
theorem SpaceOK.ofEmptyTree (space : Space) (hn : space.mSpaceAlg.mTree.nodes = [])
    (hr : space.mSpaceAlg.mTree.mRootNode = none)
    (hmin : space.mSpaceAlg.mTree.mMinPos = space.mSpaceAlg.mMinPos)
    (hmax : space.mSpaceAlg.mTree.mMaxPos = space.mSpaceAlg.mMaxPos)
    (hdim : space.mSpaceAlg.mDim = space.mSpaceAlg.mMinPos.length)
    (hrows : space.mSpaceAlg.mMaxPos.length = space.mSpaceAlg.mMinPos.length) :
    SpaceOK space := by
  refine ⟨⟨⟨?_, ?_, ?_, ?_⟩, ?_⟩, hmin, hmax, hdim, hrows⟩
  · intro n node h
    rw [hn] at h
    cases h
  · intro n node h
    rw [hn] at h
    cases h
  · intro n node j c h
    rw [hn] at h
    cases h
  · intro n node j c child _ h
    rw [hn] at h
    cases h
  · intro r h
    rw [hr] at h
    cases h

/-- `Space::update` of a space with an N-tree: the invariant is kept, and the relation
vector of every proxy of the neighbor-capable set holds only targets that are objects of
proxies of the visible set other than the proxy itself. -/
theorem Space.update_targets {sqrtF : ℚ → ℚ} {fuel : Nat} {space s' : Space}
    (hok : SpaceOK space) (h : space.update sqrtF fuel = .ok s') :
    SpaceOK s' ∧ s'.mSpaceAlg.mFixedSize = space.mSpaceAlg.mFixedSize ∧
      (∀ j ∈ s'.mVisibleObjects, ∃ q : SpaceProxyObject, s'.mObjects[j]? = some q ∧
        q.mNeighborGroup.mVisible = true ∧
        (s'.mSpaceAlg.mFixedSize = true →
          insideBox s'.mSpaceAlg.mMinPos.length q.mSpaceObject.mPosition
            s'.mSpaceAlg.mMinPos s'.mSpaceAlg.mMaxPos = true)) ∧
      ∀ k ∈ s'.mNeighborObjects, ∀ p : SpaceProxyObject, s'.mObjects[k]? = some p →
        TargetsIn s'.mObjects s'.mVisibleObjects k p.mNeighborGroup.mNeighborRelations := by
  obtain ⟨s1, alg1, h1, h2, h3, hv, hn⟩ := Space.update_phases h
  obtain ⟨ok1, ho1, hf1, hvis1, hnb1⟩ := Space.updateObjects_ok h1 hok
  obtain ⟨ok2, d2, min2, max2, fix2, tmin2, tmax2, r, rootNode, hr, hrn, hro⟩ :=
    NTreeAlg.updateStructure_ok h2 ok1.tree
  obtain ⟨d3, min3, max3, fix3⟩ := NTreeAlg.updateNeighbors_header h3
  have K := SearchInv.ofTree sqrtF alg1.mDim s1.mObjects alg1.mTree s1.mVisibleObjects ok2
    (by
      intro r' node' hr' hn'
      rw [hr] at hr'
      cases hr'
      rw [hrn] at hn'
      cases hn'
      rw [hro]
      exact fun i hi => hi)
  obtain ⟨hI, hP, hD⟩ := NTreeAlg.updateNeighbors_inv K h3 (SameTree.sameTree_refl _)
    (fun root hroot => Reach.root root hroot)
  obtain ⟨rn2, hrn2, -, rmin, rmax⟩ := ok2.root r hr
  rw [hrn] at hrn2
  cases hrn2
  have hobj : ∀ (j : Nat) (q : SpaceProxyObject), s1.mObjects[j]? = some q →
      ∃ q' : SpaceProxyObject, s'.mObjects[j]? = some q' ∧
        q'.mSpaceObject = q.mSpaceObject ∧
        q'.mNeighborGroup.mVisible = q.mNeighborGroup.mVisible := by
    intro j q hq
    have := withoutRelations_getElem? hP.1 j
    rw [hq] at this
    cases hq' : s'.mObjects[j]? with
    | none => rw [hq'] at this; cases this
    | some q' =>
      rw [hq'] at this
      simp only [Option.map_some', Option.some.injEq] at this
      exact ⟨q', rfl, (withoutRelations_eq this).1.symm, (withoutRelations_eq this).2.1.symm⟩
  refine ⟨⟨ok2.sameTree hI |> fun t => by rw [d3]; exact t, ?_, ?_, ?_, ?_⟩, ?_, ?_, ?_⟩
  · rw [hI.2.2.1, min3, tmin2, min2]
    exact ok1.minPos
  · rw [hI.2.2.2.1, max3, tmax2, max2]
    exact ok1.maxPos
  · rw [d3, min3, d2, min2]
    exact ok1.dim
  · rw [max3, min3, max2, min2]
    exact ok1.rows
  · rw [fix3, fix2, hf1]
  · intro j hj
    rw [hv] at hj
    obtain ⟨q, hq, hvis, hin⟩ := hvis1 j hj
    rw [← ho1] at hq
    obtain ⟨q', hq', e1, e2⟩ := hobj j q hq
    refine ⟨q', hq', by rw [e2]; exact hvis, ?_⟩
    intro hfix
    rw [e1, min3, max3, min2, max2]
    exact hin (by rw [← fix2, ← fix3]; exact hfix)
  · intro k hk p hp
    rw [hn] at hk
    obtain ⟨p0, hp0, hin⟩ := hnb1 k hk
    have hcov : ∃ node : NTreeNode, alg1.mTree.nodes[r]? = some node ∧
        insideBox alg1.mDim (positionOf s1.mObjects k) node.mMinPos node.mMaxPos = true := by
      refine ⟨rootNode, hrn, ?_⟩
      rw [rmin, rmax, tmin2, tmax2, ok1.minPos, ok1.maxPos, d2, ok1.dim]
      simp only [positionOf, ho1, hp0]
      exact hin
    have hdone := hD r hr k hk hcov p hp
    intro x hx
    obtain ⟨j, q, hj, hjk, hq, hid⟩ := hdone x hx
    obtain ⟨q', hq', e1, -⟩ := hobj j q hq
    exact ⟨j, q', by rw [hv]; exact hj, hjk, hq', by rw [e1]; exact hid⟩

theorem DistinctObjects.index_eq {objs : List SpaceProxyObject} (hd : DistinctObjects objs)
    {j j0 : Nat} {q q0 : SpaceProxyObject} (hq : objs[j]? = some q)
    (hq0 : objs[j0]? = some q0) (he : q.mSpaceObject.mId = q0.mSpaceObject.mId) : j = j0 := by
  unfold DistinctObjects at hd
  rw [List.nodup_iff_getElem?_ne_getElem?] at hd
  have h1 : (objs.map fun p => p.mSpaceObject.mId)[j]? = some q.mSpaceObject.mId := by
    rw [List.getElem?_map, hq]; rfl
  have h2 : (objs.map fun p => p.mSpaceObject.mId)[j0]? = some q.mSpaceObject.mId := by
    rw [List.getElem?_map, hq0, he]; rfl
  have l1 : j < (objs.map fun p => p.mSpaceObject.mId).length := getElem?_lt_length h1
  have l2 : j0 < (objs.map fun p => p.mSpaceObject.mId).length := getElem?_lt_length h2
  by_contra hne
  rcases Nat.lt_or_gt_of_ne hne with h | h
  · exact hd j j0 h l2 (by rw [h1, h2])
  · exact hd j0 j h l1 (by rw [h1, h2])

theorem Under.level {tree : NTree} {a m : Nat} (h : Under tree a m) :
    ∀ (na nm : NTreeNode), tree.nodes[a]? = some na → tree.nodes[m]? = some nm →
      na.mLevel ≤ nm.mLevel ∧ (nm.mLevel = na.mLevel → m = a) := by
  induction h with
  | self =>
    intro na nm ha hm
    rw [ha] at hm
    cases hm
    exact ⟨le_refl _, fun _ => rfl⟩
  | step m p node pn hm hp hpn hl _ ih =>
    intro na nm ha hm'
    rw [hm] at hm'
    cases hm'
    have := (ih na pn ha hpn).1
    exact ⟨by omega, fun e => by omega⟩

theorem Under.under_trans {tree : NTree} {a b m : Nat} (hab : Under tree a b)
    (hbm : Under tree b m) : Under tree a m := by
  induction hbm with
  | self => exact hab
  | step m p node pn hm hp hpn hl _ ih => exact Under.step m p node pn hm hp hpn hl ih

theorem Under.disjoint {tree : NTree} {a b m : Nat} (ha : Under tree a m)
    (hb : Under tree b m) {na nb : NTreeNode} (hna : tree.nodes[a]? = some na)
    (hnb : tree.nodes[b]? = some nb) (hl : na.mLevel = nb.mLevel) : a = b := by
  induction ha with
  | self => exact ((hb.level nb na hnb hna).2 hl).symm ▸ rfl
  | step m p node pn hm hp hpn hlev hap ih =>
    cases hb with
    | self =>
      rw [hm] at hnb
      cases hnb
      have := (hap.level na pn hna hpn).1
      omega
    | step _ p' node' pn' hm' hp' hpn' hlev' hbp =>
      rw [hm] at hm'
      cases hm'
      rw [hp] at hp'
      cases hp'
      exact ih hbp

theorem Under.forward {tree tree' : NTree} {level a m : Nat} (hs : Stable tree tree' level)
    (h : Under tree a m) : Under tree' a m := by
  induction h with
  | self => exact Under.self
  | step m p node pn hm hp hpn hl _ ih =>
    obtain ⟨node', h1, a1, a2, -⟩ := hs.nodes m node hm
    obtain ⟨pn', h2, -, b2, -⟩ := hs.nodes p pn hpn
    exact Under.step m p node' pn' h1 (by rw [a1, hp]) h2 (by rw [a2, b2, hl]) ih

theorem Under.of_desc {mDim : Nat} {P : Nat → Prop} {tree : NTree} (hok : NodesOK mDim P tree)
    {a m : Nat} (h : Desc tree a m) : Under tree a m := by
  induction h with
  | self => exact Under.self
  | child m node j c _ hm hj ih =>
    obtain ⟨child, hc, h1, h2, -⟩ := hok.link m node j c hm hj
    exact Under.step c m child node hc h1 hm h2 ih

theorem Desc.split {tree : NTree} {n m : Nat} (h : Desc tree n m) :
    m = n ∨ ∃ (node : NTreeNode) (j c : Nat), tree.nodes[n]? = some node ∧
      node.mChildren.getD j none = some c ∧ Desc tree c m := by
  induction h with
  | self => exact Or.inl rfl
  | child m node j c _ hm hj ih =>
    rcases ih with rfl | ⟨node0, j0, c0, h1, h2, h3⟩
    · exact Or.inr ⟨node, j, c, hm, hj, Desc.self⟩
    · exact Or.inr ⟨node0, j0, c0, h1, h2, Desc.child m node j c h3 hm hj⟩

theorem Desc.desc_trans {tree : NTree} {a b m : Nat} (hab : Desc tree a b)
    (hbm : Desc tree b m) : Desc tree a m := by
  induction hbm with
  | self => exact hab
  | child m node j c _ hm hj ih => exact Desc.child m node j c ih hm hj

theorem Desc.exists_node {mDim : Nat} {P : Nat → Prop} {tree : NTree}
    (hok : NodesOK mDim P tree) {a m : Nat} (h : Desc tree a m) {na : NTreeNode}
    (ha : tree.nodes[a]? = some na) : ∃ nm : NTreeNode, tree.nodes[m]? = some nm := by
  induction h with
  | self => exact ⟨na, ha⟩
  | child m node j c _ hm hj _ =>
    obtain ⟨child, hc, -⟩ := hok.link m node j c hm hj
    exact ⟨child, hc⟩

theorem Reach.iff_desc {tree : NTree} {m : Nat} :
    Reach tree m ↔ ∃ r, tree.mRootNode = some r ∧ Desc tree r m := by
  constructor
  · intro h
    induction h with
    | root r hr => exact ⟨r, hr, Desc.self⟩
    | child n node j c _ hn hj ih =>
      obtain ⟨r, hr, hd⟩ := ih
      exact ⟨r, hr, Desc.child n node j c hd hn hj⟩
  · rintro ⟨r, hr, hd⟩
    induction hd with
    | self => exact Reach.root r hr
    | child m node j c _ hm hj ih => exact Reach.child m node j c ih hm hj

theorem set_getElem?_self {α : Type} {l : List α} {i : Nat} {x : α} (h : l[i]? = some x) :
    l.set i x = l := by
  apply List.ext_getElem?
  intro k
  by_cases hk : i = k
  · subst hk
    rw [List.getElem?_set_self (getElem?_lt_length h), h]
  · rw [List.getElem?_set_ne hk]

theorem resetNode_eq {child child1 : NTreeNode} (X : List Nat)
    (h : child.withoutMark = child1.withoutMark) (hm : child1.mLastCheckedObject = none)
    (hX : child1.mObjects = X) :
    ({ child with mLastCheckedObject := none, mObjects := X } : NTreeNode) = child1 := by
  obtain ⟨h1, h2, h3, h4, h5, -⟩ := withoutMark_eq h
  cases child
  cases child1
  simp only at h1 h2 h3 h4 h5 hm hX
  subst h1 h2 h3 h4 h5 hm hX
  rfl

theorem buildTreeNode_built_leaf (mDim : Nat) (objs : List SpaceProxyObject) (T1 : NTree)
    (fuel : Nat) (hf : 0 < fuel) (ns : List NTreeNode) (n : Nat) (node : NTreeNode)
    (hn : ns[n]? = some node) (hsub : subdivides T1 node = false)
    (hch : node.mChildren = List.replicate (2 ^ mDim) none) :
    NTreeVisitor.buildTreeNode mDim objs fuel { T1 with nodes := ns } n
      = .ok { T1 with nodes := ns } := by
  cases fuel with
  | zero => omega
  | succ fuel =>
    simp only [NTreeVisitor.buildTreeNode]
    rw [hn]
    simp only
    have hs : subdivides { T1 with nodes := ns } node = false := hsub
    rw [hs]
    simp only [Bool.false_eq_true, if_false, NTree.setNode]
    have : ({ node with mChildren := List.replicate (2 ^ mDim) none } : NTreeNode) = node := by
      rw [← hch]
    rw [this, set_getElem?_self hn]

/-- On a tree whose reachable nodes are as the structure phase leaves them, and whose store
differs from that of `T1` in marks only, `updateTree(NTree&, NTreeNode*)` returns with the
store of `T1` restored below the node. -/
theorem updateTreeNode_built (mDim : Nat) (objs : List SpaceProxyObject) (B : Nat) (T1 : NTree)
    (hlink : NodesOK mDim (fun _ => True) T1) :
    ∀ (fuel : Nat) (ns : List NTreeNode) (n : Nat) (node : NTreeNode),
      ns.map NTreeNode.withoutMark = T1.nodes.map NTreeNode.withoutMark →
      (∀ m : Nat, Desc T1 n m → BuiltAt mDim objs B T1 m) →
      ns[n]? = some node → T1.nodes[n]? = some node → B ≤ node.mLevel + fuel →
      node.mChildren ≠ List.replicate (2 ^ mDim) none →
      ∃ ns' : List NTreeNode,
        NTreeVisitor.updateTreeNode mDim objs fuel { T1 with nodes := ns } n
          = .ok { T1 with nodes := ns' } ∧
        ns'.map NTreeNode.withoutMark = T1.nodes.map NTreeNode.withoutMark ∧
        (∀ m : Nat, ns[m]? = T1.nodes[m]? → ns'[m]? = T1.nodes[m]?) ∧
        (∀ m : Nat, Desc T1 n m → ns'[m]? = T1.nodes[m]?) := by
  intro fuel
  induction fuel with
  | zero =>
    intro ns n node hmap hb hn hn1 hB hne
    obtain ⟨node', h1, -, h3, -⟩ := hb n Desc.self
    rw [hn1] at h1
    cases h1
    omega
  | succ fuel ih =>
    intro ns n node hmap hb hn hn1 hB hne
    obtain ⟨node', h1, hmark, hlev, hcase⟩ := hb n Desc.self
    rw [hn1] at h1
    cases h1
    rcases hcase with ⟨hsub, hex⟩ | ⟨-, hrep⟩
    swap
    · exact absurd hrep hne
    have hchild : ∀ j, j < 2 ^ mDim → ∃ (c : Nat) (child1 : NTreeNode),
        node.mChildren.getD j none = some c ∧ T1.nodes[c]? = some child1 ∧
        child1.mLastCheckedObject = none ∧ child1.mLevel = node.mLevel + 1 ∧
        child1.mLevel < B ∧
        child1.mObjects = node.mObjects.filter (fun i =>
          visibleOf objs i &&
            insideBox mDim (positionOf objs i) child1.mMinPos child1.mMaxPos) ∧
        ∀ m : Nat, Desc T1 c m → BuiltAt mDim objs B T1 m := by
      intro j hj
      obtain ⟨c, child1, hc, hc1, hobj⟩ := hex j hj
      have hd : Desc T1 n c := Desc.child n node j c Desc.self hn1 hc
      obtain ⟨x, hx, hxm, hxl, -⟩ := hb c hd
      rw [hc1] at hx
      cases hx
      obtain ⟨y, hy, -, hyl, -⟩ := hlink.link n node j c hn1 hc
      rw [hc1] at hy
      cases hy
      exact ⟨c, child1, hc, hc1, hxm, hyl, hxl, hobj, fun m hm => hb m (hd.desc_trans hm)⟩
    have hreset : ∀ (L : List Nat) (ns : List NTreeNode), (∀ j ∈ L, j < 2 ^ mDim) →
        ns.map NTreeNode.withoutMark = T1.nodes.map NTreeNode.withoutMark →
        ∃ ns1 : List NTreeNode,
          L.foldlM
            (fun (t : NTree) childNr =>
              match node.mChildren.getD childNr none with
              | none => (.error .undefinedBehaviour : Except Fault NTree)
              | some c =>
                match t.nodes[c]? with
                | none => .error .undefinedBehaviour
                | some child =>
                  .ok (t.setNode c { child with
                    mLastCheckedObject := none
                    mObjects := node.mObjects.filter fun i =>
                      visibleOf objs i &&
                        insideBox mDim (positionOf objs i) child.mMinPos child.mMaxPos }))
            ({ T1 with nodes := ns } : NTree) = .ok { T1 with nodes := ns1 } ∧
          ns1.map NTreeNode.withoutMark = T1.nodes.map NTreeNode.withoutMark ∧
          (∀ m : Nat, ns[m]? = T1.nodes[m]? → ns1[m]? = T1.nodes[m]?) ∧
          (∀ j ∈ L, ∀ c, node.mChildren.getD j none = some c → ns1[c]? = T1.nodes[c]?) := by
      intro L
      induction L with
      | nil =>
        intro ns _ hmap
        exact ⟨ns, rfl, hmap, fun m hm => hm, fun j hj => by cases hj⟩
      | cons j rest ihL =>
        intro ns hL hmap
        obtain ⟨c, child1, hcj, hc1, hcm, -, -, hobj, -⟩ := hchild j (hL j (List.mem_cons_self _ _))
        obtain ⟨child, hch, he⟩ := @withoutMark_to { T1 with nodes := ns } T1 hmap c child1 hc1
        simp only at hch
        have hset : ({ child with
            mLastCheckedObject := none
            mObjects := node.mObjects.filter fun i =>
              visibleOf objs i &&
                insideBox mDim (positionOf objs i) child.mMinPos child.mMaxPos } : NTreeNode)
            = child1 := by
          apply resetNode_eq _ he hcm
          rw [(withoutMark_eq he).2.2.2.1, (withoutMark_eq he).2.2.2.2.1]
          exact hobj
        have hmap' : (ns.set c child1).map NTreeNode.withoutMark
            = T1.nodes.map NTreeNode.withoutMark := by
          rw [List.map_set, hmap]
          apply set_getElem?_self
          rw [List.getElem?_map, hc1]
          rfl
        have hcs : (ns.set c child1)[c]? = some child1 :=
          List.getElem?_set_self (getElem?_lt_length hch)
        obtain ⟨ns1, e1, e2, e3, e4⟩ := ihL (ns.set c child1)
          (fun j' hj' => hL j' (List.mem_cons_of_mem _ hj')) hmap'
        have hkeep : ∀ m : Nat, ns[m]? = T1.nodes[m]? → (ns.set c child1)[m]? = T1.nodes[m]? := by
          intro m hm
          by_cases hmc : c = m
          · subst hmc
            rw [hcs, hc1]
          · rw [List.getElem?_set_ne hmc]
            exact hm
        refine ⟨ns1, ?_, e2, fun m hm => e3 m (hkeep m hm), ?_⟩
        · simp only [List.foldlM_cons]
          rw [hcj]
          simp only
          rw [hch]
          simp only [NTree.setNode]
          rw [hset]
          exact e1
        · intro j' hj' c' hc'
          rcases List.mem_cons.1 hj' with rfl | hj'
          · rw [hcj] at hc'
            cases hc'
            exact e3 c (by rw [hcs, hc1])
          · exact e4 j' hj' c' hc'
    have hdesc : ∀ (L : List Nat) (ns : List NTreeNode), (∀ j ∈ L, j < 2 ^ mDim) →
        ns.map NTreeNode.withoutMark = T1.nodes.map NTreeNode.withoutMark →
        (∀ j, j < 2 ^ mDim → ∀ c, node.mChildren.getD j none = some c →
          ns[c]? = T1.nodes[c]?) →
        ∃ ns' : List NTreeNode,
          L.foldlM
            (fun (t : NTree) i =>
              match node.mChildren.getD i none with
              | none => (.error .undefinedBehaviour : Except Fault NTree)
              | some c =>
                match t.nodes[c]? with
                | none => .error .undefinedBehaviour
                | some child =>
                  if child.mChildren.getD i none = none then
                    NTreeVisitor.buildTreeNode mDim objs fuel t c
                  else NTreeVisitor.updateTreeNode mDim objs fuel t c)
            ({ T1 with nodes := ns } : NTree) = .ok { T1 with nodes := ns' } ∧
          ns'.map NTreeNode.withoutMark = T1.nodes.map NTreeNode.withoutMark ∧
          (∀ m : Nat, ns[m]? = T1.nodes[m]? → ns'[m]? = T1.nodes[m]?) ∧
          (∀ j ∈ L, ∀ c, node.mChildren.getD j none = some c →
            ∀ m : Nat, Desc T1 c m → ns'[m]? = T1.nodes[m]?) := by
      intro L
      induction L with
      | nil =>
        intro ns _ hmap _
        exact ⟨ns, rfl, hmap, fun m hm => hm, fun j hj => by cases hj⟩
      | cons j rest ihL =>
        intro ns hL hmap hfix
        have hjl := hL j (List.mem_cons_self _ _)
        obtain ⟨c, child1, hcj, hc1, hcm, hcl, hcB, hobj, hcb⟩ := hchild j hjl
        have hch : ns[c]? = some child1 := by rw [hfix j hjl c hcj, hc1]
        have hstep : ∃ ns2 : List NTreeNode,
            (if child1.mChildren.getD j none = none then
                NTreeVisitor.buildTreeNode mDim objs fuel { T1 with nodes := ns } c
              else NTreeVisitor.updateTreeNode mDim objs fuel { T1 with nodes := ns } c)
              = .ok { T1 with nodes := ns2 } ∧
            ns2.map NTreeNode.withoutMark = T1.nodes.map NTreeNode.withoutMark ∧
            (∀ m : Nat, ns[m]? = T1.nodes[m]? → ns2[m]? = T1.nodes[m]?) ∧
            (∀ m : Nat, Desc T1 c m → ns2[m]? = T1.nodes[m]?) := by
          by_cases hb0 : child1.mChildren.getD j none = none
          · rw [if_pos hb0]
            obtain ⟨x, hx, -, -, hcase⟩ := hcb c Desc.self
            rw [hc1] at hx
            cases hx
            rcases hcase with ⟨-, hex'⟩ | ⟨hsub', hrep'⟩
            · obtain ⟨c', -, hc', -⟩ := hex' j hjl
              rw [hb0] at hc'
              cases hc'
            · refine ⟨ns, buildTreeNode_built_leaf mDim objs T1 fuel (by omega) ns c child1
                hch hsub' hrep', hmap, fun m hm => hm, ?_⟩
              intro m hm
              rcases hm.split with rfl | ⟨x, j', c', hx, hj', -⟩
              · rw [hch, hc1]
              · rw [hc1] at hx
                cases hx
                rw [hrep', getD_replicate_none] at hj'
                cases hj'
          · rw [if_neg hb0]
            refine ih ns c child1 hmap hcb hch hc1 (by omega) ?_
            intro hrep'
            rw [hrep', getD_replicate_none] at hb0
            exact hb0 rfl
        obtain ⟨ns2, s1, s2, s3, s4⟩ := hstep
        obtain ⟨ns', e1, e2, e3, e4⟩ := ihL ns2
          (fun j' hj' => hL j' (List.mem_cons_of_mem _ hj')) s2
          (fun j' hj' c' hc' => s3 c' (hfix j' hj' c' hc'))
        refine ⟨ns', ?_, e2, fun m hm => e3 m (s3 m hm), ?_⟩
        · simp only [List.foldlM_cons]
          rw [hcj]
          simp only
          rw [hch]
          simp only
          rw [s1]
          exact e1
        · intro j' hj' c' hc' m hm
          rcases List.mem_cons.1 hj' with rfl | hj'
          · rw [hcj] at hc'
            cases hc'
            exact e3 m (s4 m hm)
          · exact e4 j' hj' c' hc' m hm
    have hall : ∀ j ∈ List.range (2 ^ mDim), j < 2 ^ mDim := fun j hj => List.mem_range.1 hj
    obtain ⟨ns1, a1, a2, a3, a4⟩ := hreset (List.range (2 ^ mDim)) ns hall hmap
    obtain ⟨ns', b1, b2, b3, b4⟩ := hdesc (List.range (2 ^ mDim)) ns1 hall a2
      (fun j hj c hc => a4 j (List.mem_range.2 hj) c hc)
    refine ⟨ns', ?_, b2, fun m hm => b3 m (a3 m hm), ?_⟩
    · simp only [NTreeVisitor.updateTreeNode]
      rw [hn]
      simp only
      have hs : subdivides { T1 with nodes := ns } node = true := hsub
      rw [if_pos hs, a1]
      exact b1
    · intro m hm
      rcases hm.split with rfl | ⟨x, j, c, hx, hj, hd⟩
      · exact b3 m (a3 m (by rw [hn, hn1]))
      · rw [hn1] at hx
        cases hx
        have hjl : j < 2 ^ mDim := by
          rw [← hlink.length n node hn1]
          exact getD_some_lt hj
        exact b4 j (List.mem_range.2 hjl) c hj m hd

/-- On a tree that differs from `T1` only in the marks of reachable nodes, where the
reachable nodes of `T1` are as the structure phase leaves them for the objects `V` of the
root, `updateTree(NTree&, std::vector<SpaceProxyObject*>&)` returns `T1`. -/
theorem updateTree_built (mDim : Nat) (objs : List SpaceProxyObject) (B fuel : Nat)
    (T1 tree : NTree) (V : List Nat) (r : Nat) (root : NTreeNode)
    (hlink : NodesOK mDim (fun _ => True) T1) (hr : T1.mRootNode = some r)
    (hroot : T1.nodes[r]? = some root) (hV : root.mObjects = V)
    (hB : B ≤ root.mLevel + fuel)
    (hb : ∀ m : Nat, Reach T1 m → BuiltAt mDim objs B T1 m) (hs : SameTree T1 tree) :
    NTreeVisitor.updateTree mDim objs fuel tree V = .ok T1 := by
  obtain ⟨hmap, h2, h3, h4, h5, h6, hframe⟩ := hs
  have htree : tree = { T1 with nodes := tree.nodes } := by
    cases tree
    cases T1
    simp only at h2 h3 h4 h5 h6
    subst h2 h3 h4 h5 h6
    rfl
  have hbd : ∀ m : Nat, Desc T1 r m → BuiltAt mDim objs B T1 m :=
    fun m hm => hb m (Reach.iff_desc.2 ⟨r, hr, hm⟩)
  obtain ⟨x, hx, hmark, hlev, hcase⟩ := hbd r Desc.self
  rw [hroot] at hx
  cases hx
  obtain ⟨node', hn', he⟩ := withoutMark_to hmap hroot
  have hset : ({ node' with mLastCheckedObject := none, mObjects := V } : NTreeNode) = root :=
    resetNode_eq V he hmark hV
  have hmap' : (tree.nodes.set r root).map NTreeNode.withoutMark
      = T1.nodes.map NTreeNode.withoutMark := by
    rw [List.map_set, hmap]
    apply set_getElem?_self
    rw [List.getElem?_map, hroot]
    rfl
  have hrs : (tree.nodes.set r root)[r]? = some root :=
    List.getElem?_set_self (getElem?_lt_length hn')
  have hres : ∃ ns' : List NTreeNode,
      (if node'.mChildren.getD 0 none = none then
          NTreeVisitor.buildTreeNode mDim objs fuel { T1 with nodes := tree.nodes.set r root } r
        else
          NTreeVisitor.updateTreeNode mDim objs fuel
            { T1 with nodes := tree.nodes.set r root } r)
        = .ok { T1 with nodes := ns' } ∧
      (∀ m : Nat, (tree.nodes.set r root)[m]? = T1.nodes[m]? → ns'[m]? = T1.nodes[m]?) ∧
      (∀ m : Nat, Desc T1 r m → ns'[m]? = T1.nodes[m]?) := by
    rw [(withoutMark_eq he).2.1]
    by_cases hb0 : root.mChildren.getD 0 none = none
    · rw [if_pos hb0]
      rcases hcase with ⟨-, hex⟩ | ⟨hsub, hrep⟩
      · obtain ⟨c, -, hc, -⟩ := hex 0 (Nat.pow_pos (by decide))
        rw [hb0] at hc
        cases hc
      · refine ⟨tree.nodes.set r root,
          buildTreeNode_built_leaf mDim objs T1 fuel (by omega) _ r root hrs hsub hrep,
          fun m hm => hm, ?_⟩
        intro m hm
        rcases hm.split with rfl | ⟨y, j, c, hy, hj, -⟩
        · rw [hrs, hroot]
        · rw [hroot] at hy
          cases hy
          rw [hrep, getD_replicate_none] at hj
          cases hj
    · rw [if_neg hb0]
      obtain ⟨ns', e1, -, e3, e4⟩ := updateTreeNode_built mDim objs B T1 hlink fuel
        (tree.nodes.set r root) r root hmap' hbd hrs hroot hB
        (by
          intro hrep
          rw [hrep, getD_replicate_none] at hb0
          exact hb0 rfl)
      exact ⟨ns', e1, e3, e4⟩
  obtain ⟨ns', e1, e3, e4⟩ := hres
  have hns : ns' = T1.nodes := by
    apply List.ext_getElem?
    intro m
    by_cases hm : Reach T1 m
    · obtain ⟨r', hr', hd⟩ := Reach.iff_desc.1 hm
      rw [hr] at hr'
      cases hr'
      exact e4 m hd
    · apply e3
      have hne : r ≠ m := fun e => hm (e ▸ Reach.root r hr)
      rw [List.getElem?_set_ne hne]
      exact hframe m hm
  rw [htree]
  simp only [NTreeVisitor.updateTree]
  rw [hr]
  simp only
  rw [hn']
  simp only [NTree.setNode]
  rw [hset, ← hr, e1, hns]

theorem withoutRelations_some {A B : List SpaceProxyObject}
    (h : A.map SpaceProxyObject.withoutRelations = B.map SpaceProxyObject.withoutRelations)
    {i : Nat} {p : SpaceProxyObject} (hp : A[i]? = some p) :
    ∃ q : SpaceProxyObject, B[i]? = some q ∧ q.withoutRelations = p.withoutRelations := by
  have := withoutRelations_getElem? h i
  rw [hp] at this
  cases hq : B[i]? with
  | none => rw [hq] at this; cases this
  | some q =>
    rw [hq] at this
    simp only [Option.map_some', Option.some.injEq] at this
    exact ⟨q, rfl, this⟩

theorem withoutRelations_none {A B : List SpaceProxyObject}
    (h : A.map SpaceProxyObject.withoutRelations = B.map SpaceProxyObject.withoutRelations)
    {i : Nat} (hp : A[i]? = none) : B[i]? = none := by
  have := withoutRelations_getElem? h i
  rw [hp] at this
  cases hq : B[i]? with
  | none => rfl
  | some q => rw [hq] at this; cases this

theorem offerNodeObjects_congr (sqrtF : ℚ → ℚ) (alg : NeighborGroupAlg)
    {A B : List SpaceProxyObject}
    (h : A.map SpaceProxyObject.withoutRelations = B.map SpaceProxyObject.withoutRelations)
    (src : Nat) (srcObject : SpaceObject) :
    ∀ (L : List Nat) (rels : List SpaceNeighborRelation),
      offerNodeObjects sqrtF alg A src srcObject rels L
        = offerNodeObjects sqrtF alg B src srcObject rels L := by
  intro L
  induction L with
  | nil => intro rels; rfl
  | cons i rest ih =>
    intro rels
    simp only [offerNodeObjects]
    by_cases hsi : src ≠ i
    · rw [if_pos hsi, if_pos hsi]
      cases hp : A[i]? with
      | none => rw [withoutRelations_none h hp]
      | some p =>
        obtain ⟨q, hq, he⟩ := withoutRelations_some h hp
        rw [hq]
        simp only
        rw [(withoutRelations_eq he).1]
        cases alg.createNeighbor sqrtF rels srcObject p.mSpaceObject with
        | error e => rfl
        | ok r => exact ih r.2
    · rw [if_neg hsi, if_neg hsi]
      exact ih rels

theorem calcNeighborsObject_congr (sqrtF : ℚ → ℚ) (mDim : Nat) {A B : List SpaceProxyObject}
    (h : A.map SpaceProxyObject.withoutRelations = B.map SpaceProxyObject.withoutRelations)
    (alg : NeighborGroupAlg) (src : Nat) (srcObject : SpaceObject) (qMin qMax : Vec) :
    ∀ (fuel : Nat) (s : NTree × List SpaceNeighborRelation) (n : Nat),
      NTreeVisitor.calcNeighborsObject sqrtF mDim A alg src srcObject qMin qMax fuel s n
        = NTreeVisitor.calcNeighborsObject sqrtF mDim B alg src srcObject qMin qMax fuel s n := by
  intro fuel
  induction fuel with
  | zero => intro s n; rfl
  | succ fuel ih =>
    rintro ⟨tree, rels⟩ n
    simp only [NTreeVisitor.calcNeighborsObject, offerNodeObjects_congr sqrtF alg h, ih]

theorem distributeObjects_congr (mDim : Nat) {A B : List SpaceProxyObject}
    (h : A.map SpaceProxyObject.withoutRelations = B.map SpaceProxyObject.withoutRelations)
    (tree : NTree) (node : NTreeNode) :
    ∀ L : List Nat, distributeObjects mDim A tree node L = distributeObjects mDim B tree node L := by
  intro L
  induction L with
  | nil => rfl
  | cons i rest ih =>
    simp only [distributeObjects]
    rw [positionOf_congr h i, ih]

theorem calcNeighborsLeafObject_lockstep (sqrtF : ℚ → ℚ) (mDim fuel pNode : Nat)
    {A0 B0 A B : List SpaceProxyObject} (t : NTree) (i : Nat) (t' : NTree)
    (A' : List SpaceProxyObject) (hl : Lockstep A0 B0 A B)
    (h : NTreeVisitor.calcNeighborsLeafObject sqrtF mDim fuel pNode (t, A) i = .ok (t', A')) :
    ∃ B' : List SpaceProxyObject,
      NTreeVisitor.calcNeighborsLeafObject sqrtF mDim fuel pNode (t, B) i = .ok (t', B') ∧
        Lockstep A0 B0 A' B' := by
  simp only [NTreeVisitor.calcNeighborsLeafObject] at h ⊢
  cases hp : A[i]? with
  | none => rw [hp] at h; cases h
  | some p =>
    obtain ⟨q, hq, he⟩ := withoutRelations_some hl.1 hp
    obtain ⟨e1, e2, e3⟩ := withoutRelations_eq he
    obtain ⟨po, ⟨pv, pa, pr⟩⟩ := p
    obtain ⟨qo, ⟨qv, qa, qr⟩⟩ := q
    simp only at e1 e2 e3
    subst e1 e2 e3
    rw [hp] at h
    rw [hq]
    simp only at h ⊢
    cases qa with
    | none => cases h
    | some alg =>
      simp only at h ⊢
      rw [← calcNeighborsObject_congr sqrtF mDim hl.1]
      generalize NTreeVisitor.calcNeighborsObject sqrtF mDim A alg i qo
        ((List.range mDim).map fun d =>
          if alg.mNeighborRadius ≥ 0 then qo.mPosition.getD d 0 - alg.mNeighborRadius
          else -FLT_MAX)
        ((List.range mDim).map fun d =>
          if alg.mNeighborRadius ≥ 0 then qo.mPosition.getD d 0 + alg.mNeighborRadius
          else FLT_MAX) fuel (t, []) pNode = r at h ⊢
      cases r with
      | error e => cases h
      | ok s =>
        obtain ⟨tree', rels'⟩ := s
        simp only [Except.ok.injEq, Prod.mk.injEq] at h ⊢
        obtain ⟨rfl, rfl⟩ := h
        refine ⟨_, ⟨rfl, rfl⟩, ?_, ?_⟩
        · have h1 := map_withoutRelations_set A i _ rels' hp
          have h2 := map_withoutRelations_set B i _ rels' hq
          simp only at h1 h2
          rw [h1, h2]
          exact hl.1
        · intro k
          by_cases hk : i = k
          · subst hk
            left
            rw [List.getElem?_set_self (getElem?_lt_length hp),
              List.getElem?_set_self (getElem?_lt_length hq)]
          · rw [List.getElem?_set_ne hk, List.getElem?_set_ne hk]
            exact hl.2 k

theorem calcNeighborsNode_lockstep (sqrtF : ℚ → ℚ) (mDim searchFuel : Nat)
    {A0 B0 : List SpaceProxyObject} :
    ∀ (fuel : Nat) (t : NTree) (A B : List SpaceProxyObject) (n : Nat) (pObjects : List Nat)
      (t' : NTree) (A' : List SpaceProxyObject), Lockstep A0 B0 A B →
      NTreeVisitor.calcNeighborsNode sqrtF mDim searchFuel fuel (t, A) n pObjects
        = .ok (t', A') →
      ∃ B' : List SpaceProxyObject,
        NTreeVisitor.calcNeighborsNode sqrtF mDim searchFuel fuel (t, B) n pObjects
          = .ok (t', B') ∧ Lockstep A0 B0 A' B' := by
  intro fuel
  induction fuel with
  | zero =>
    intro t A B n pObjects t' A' _ h
    simp only [NTreeVisitor.calcNeighborsNode] at h
    cases h
  | succ fuel ih =>
    intro t A B n pObjects t' A' hl h
    simp only [NTreeVisitor.calcNeighborsNode] at h ⊢
    cases hn : t.nodes[n]? with
    | none => rw [hn] at h; cases h
    | some node =>
      rw [hn] at h
      simp only at h ⊢
      by_cases hleaf : node.mChildren.getD 0 none = none
      · rw [if_pos hleaf] at h ⊢
        have hfold : ∀ (L : List Nat) (t : NTree) (A B : List SpaceProxyObject),
            Lockstep A0 B0 A B →
            L.foldlM (NTreeVisitor.calcNeighborsLeafObject sqrtF mDim searchFuel n) (t, A)
              = .ok (t', A') →
            ∃ B' : List SpaceProxyObject,
              L.foldlM (NTreeVisitor.calcNeighborsLeafObject sqrtF mDim searchFuel n) (t, B)
                = .ok (t', B') ∧ Lockstep A0 B0 A' B' := by
          intro L
          induction L with
          | nil =>
            intro t A B hl h
            simp only [List.foldlM_nil] at h ⊢
            cases h
            exact ⟨B, rfl, hl⟩
          | cons i rest ihL =>
            intro t A B hl h
            simp only [List.foldlM_cons] at h ⊢
            generalize hr : NTreeVisitor.calcNeighborsLeafObject sqrtF mDim searchFuel n
              (t, A) i = r at h
            cases r with
            | error e => cases h
            | ok s =>
              obtain ⟨t1, A1⟩ := s
              obtain ⟨B1, e1, e2⟩ := calcNeighborsLeafObject_lockstep sqrtF mDim searchFuel n
                t i t1 A1 hl hr
              rw [e1]
              exact ihL t1 A1 B1 e2 h
        exact hfold pObjects t A B hl h
      · rw [if_neg hleaf] at h ⊢
        rw [← distributeObjects_congr mDim hl.1]
        cases hd : distributeObjects mDim A t node pObjects with
        | error e => rw [hd] at h; cases h
        | ok groups =>
          rw [hd] at h
          simp only at h ⊢
          have hfold : ∀ (L : List Nat) (t : NTree) (A B : List SpaceProxyObject),
              Lockstep A0 B0 A B →
              L.foldlM
                (fun (t : NTree × List SpaceProxyObject) i =>
                  match node.mChildren.getD i none with
                  | none => (.error .undefinedBehaviour :
                      Except Fault (NTree × List SpaceProxyObject))
                  | some c =>
                    NTreeVisitor.calcNeighborsNode sqrtF mDim searchFuel fuel t c
                      (groups.getD i []))
                (t, A) = .ok (t', A') →
              ∃ B' : List SpaceProxyObject,
                L.foldlM
                  (fun (t : NTree × List SpaceProxyObject) i =>
                    match node.mChildren.getD i none with
                    | none => (.error .undefinedBehaviour :
                        Except Fault (NTree × List SpaceProxyObject))
                    | some c =>
                      NTreeVisitor.calcNeighborsNode sqrtF mDim searchFuel fuel t c
                        (groups.getD i []))
                  (t, B) = .ok (t', B') ∧ Lockstep A0 B0 A' B' := by
            intro L
            induction L with
            | nil =>
              intro t A B hl h
              simp only [List.foldlM_nil] at h ⊢
              cases h
              exact ⟨B, rfl, hl⟩
            | cons i rest ihL =>
              intro t A B hl h
              simp only [List.foldlM_cons] at h ⊢
              cases hc : node.mChildren.getD i none with
              | none => rw [hc] at h; cases h
              | some c =>
                rw [hc] at h
                simp only at h ⊢
                generalize hr : NTreeVisitor.calcNeighborsNode sqrtF mDim searchFuel fuel
                  (t, A) c (groups.getD i []) = r at h
                cases r with
                | error e => cases h
                | ok s =>
                  obtain ⟨t1, A1⟩ := s
                  obtain ⟨B1, e1, e2⟩ := ih t A B c (groups.getD i []) t1 A1 hl hr
                  rw [e1]
                  exact ihL t1 A1 B1 e2 h
          exact hfold (List.range (2 ^ mDim)) t A B hl h

theorem dimMismatch_congr (alg : NTreeAlg) {A B : List SpaceProxyObject}
    (h : A.map SpaceProxyObject.withoutRelations = B.map SpaceProxyObject.withoutRelations)
    (pObjects : List Nat) : alg.dimMismatch A pObjects = alg.dimMismatch B pObjects := by
  unfold NTreeAlg.dimMismatch
  cases pObjects with
  | nil => rfl
  | cons i rest =>
    simp only
    cases hp : A[i]? with
    | none => rw [withoutRelations_none h hp]
    | some p =>
      obtain ⟨q, hq, he⟩ := withoutRelations_some h hp
      rw [hq]
      simp only
      rw [(withoutRelations_eq he).1]

/-- The neighbor phase of the N-tree run again on the proxy vector it has produced returns
the same tree and the same proxy vector. -/
theorem NTreeAlg.updateNeighbors_again {sqrtF : ℚ → ℚ} {alg alg' : NTreeAlg}
    {objs objs' : List SpaceProxyObject} {fuel : Nat} {pObjects : List Nat}
    (h : alg.updateNeighbors sqrtF objs fuel pObjects = .ok (alg', objs'))
    (hmap : objs.map SpaceProxyObject.withoutRelations
      = objs'.map SpaceProxyObject.withoutRelations) :
    alg.updateNeighbors sqrtF objs' fuel pObjects = .ok (alg', objs') := by
  unfold NTreeAlg.updateNeighbors at h ⊢
  rw [← dimMismatch_congr alg hmap]
  by_cases hd : alg.dimMismatch objs pObjects = true
  · rw [if_pos hd] at h
    cases h
  · rw [if_neg hd] at h ⊢
    have hl : Lockstep objs objs' objs objs' := ⟨hmap, fun k => Or.inr ⟨rfl, rfl⟩⟩
    have key : ∀ (t' : NTree) (A' : List SpaceProxyObject),
        NTreeVisitor.calcNeighbors sqrtF alg.mDim fuel (alg.mTree, objs) pObjects
          = .ok (t', A') →
        ∃ B' : List SpaceProxyObject,
          NTreeVisitor.calcNeighbors sqrtF alg.mDim fuel (alg.mTree, objs') pObjects
            = .ok (t', B') ∧ Lockstep objs objs' A' B' := by
      intro t' A' hc
      unfold NTreeVisitor.calcNeighbors at hc ⊢
      simp only at hc ⊢
      cases hr : alg.mTree.mRootNode with
      | none =>
        rw [hr] at hc
        simp only [Except.ok.injEq, Prod.mk.injEq] at hc
        obtain ⟨rfl, rfl⟩ := hc
        exact ⟨objs', rfl, hl⟩
      | some root =>
        rw [hr] at hc
        exact calcNeighborsNode_lockstep sqrtF alg.mDim fuel fuel alg.mTree objs objs' root
          pObjects t' A' hl hc
    cases hc : NTreeVisitor.calcNeighbors sqrtF alg.mDim fuel (alg.mTree, objs) pObjects with
    | error e => rw [hc] at h; cases h
    | ok s =>
      obtain ⟨t', A'⟩ := s
      rw [hc] at h
      simp only [Except.ok.injEq, Prod.mk.injEq] at h
      obtain ⟨rfl, rfl⟩ := h
      obtain ⟨B', e1, e2⟩ := key t' A' hc
      rw [e1]
      have hB : B' = A' := by
        apply List.ext_getElem?
        intro k
        rcases e2.2 k with h1 | ⟨h1, h2⟩
        · exact h1.symm
        · exact h2
      rw [hB]

theorem subdivides_congr {t t' : NTree} {x x' : NTreeNode} (h1 : t'.mMaxDepth = t.mMaxDepth)
    (h2 : t'.mMinObjectCount = t.mMinObjectCount) (h3 : x'.mObjects = x.mObjects)
    (h4 : x'.mLevel = x.mLevel) : subdivides t' x' = subdivides t x := by
  unfold subdivides
  rw [h1, h2, h3, h4]

theorem BuiltAt.transfer {mDim : Nat} {objs : List SpaceProxyObject} {B : Nat} {t t' : NTree}
    {a : Nat} (h1 : t'.mMaxDepth = t.mMaxDepth) (h2 : t'.mMinObjectCount = t.mMinObjectCount)
    (hun : ∀ m : Nat, Desc t a m → t'.nodes[m]? = t.nodes[m]?)
    (hb : ∀ m : Nat, Desc t a m → BuiltAt mDim objs B t m) :
    ∀ m : Nat, Desc t' a m → BuiltAt mDim objs B t' m := by
  have hd : ∀ m : Nat, Desc t' a m → Desc t a m := by
    intro m hm
    induction hm with
    | self => exact Desc.self
    | child m0 node j c _ hm0 hj ih =>
      exact Desc.child m0 node j c ih (by rw [← hun m0 ih]; exact hm0) hj
  intro m hm
  have hm0 := hd m hm
  obtain ⟨node, hn, hmark, hlev, hcase⟩ := hb m hm0
  refine ⟨node, by rw [hun m hm0]; exact hn, hmark, hlev, ?_⟩
  rcases hcase with ⟨hsub, hex⟩ | ⟨hsub, hrep⟩
  · left
    refine ⟨by rw [subdivides_congr h1 h2 rfl rfl]; exact hsub, ?_⟩
    intro j hj
    obtain ⟨c, child, hc, hch, hobj⟩ := hex j hj
    exact ⟨c, child, hc, by rw [hun c (Desc.child m node j c hm0 hn hc)]; exact hch, hobj⟩
  · right
    exact ⟨by rw [subdivides_congr h1 h2 rfl rfl]; exact hsub, hrep⟩

/-- The loop over the children of a node, each at level `lev`, where every step is a visit
of the child `cOf k`. -/
theorem visitChildren {mDim : Nat} {objs : List SpaceProxyObject} {B lev : Nat}
    (cOf : Nat → Option Nat) (step : NTree → Nat → Except Fault NTree)
    (hstep : ∀ (t : NTree) (k c : Nat) (child : NTreeNode) (t1 : NTree),
      cOf k = some c → t.nodes[c]? = some child → step t k = .ok t1 →
      NodesOK mDim (fun _ => True) t → child.mLastCheckedObject = none →
      (∀ i ∈ child.mObjects, visibleOf objs i = true) → child.mLevel = lev →
      Visited mDim objs B lev t t1 c) :
    ∀ (L : List Nat) (t t' : NTree), L.foldlM step t = .ok t' →
      NodesOK mDim (fun _ => True) t →
      (∀ k ∈ L, ∃ (c : Nat) (child : NTreeNode), cOf k = some c ∧
        t.nodes[c]? = some child ∧ child.mLastCheckedObject = none ∧
        (∀ i ∈ child.mObjects, visibleOf objs i = true) ∧ child.mLevel = lev) →
      NodesOK mDim (fun _ => True) t' ∧ Stable t t' lev ∧
        t'.mMaxDepth = t.mMaxDepth ∧ t'.mMinObjectCount = t.mMinObjectCount ∧
        (∀ (m : Nat) (x : NTreeNode), t.nodes[m]? = some x →
          (∀ k ∈ L, ∀ c : Nat, cOf k = some c → ¬ Under t' c m) → t'.nodes[m]? = some x) ∧
        (∀ k ∈ L, ∀ c : Nat, cOf k = some c →
          ∀ m : Nat, Desc t' c m → BuiltAt mDim objs B t' m) := by
  intro L
  induction L with
  | nil =>
    intro t t' h hok _
    simp only [List.foldlM_nil] at h
    cases h
    exact ⟨hok, Stable.stable_refl _ _, rfl, rfl, fun m x hx _ => hx,
      fun k hk => by cases hk⟩
  | cons k rest ih =>
    intro t t' h hok hpre
    simp only [List.foldlM_cons] at h
    obtain ⟨c, child, hc, hch, hmark, hvis, hlev⟩ := hpre k (List.mem_cons_self _ _)
    cases hs : step t k with
    | error e => rw [hs] at h; cases h
    | ok t1 =>
      rw [hs] at h
      have V := hstep t k c child t1 hc hch hs hok hmark hvis hlev
      have hpre1 : ∀ k' ∈ rest, ∃ (c' : Nat) (child' : NTreeNode), cOf k' = some c' ∧
          t1.nodes[c']? = some child' ∧ child'.mLastCheckedObject = none ∧
          (∀ i ∈ child'.mObjects, visibleOf objs i = true) ∧ child'.mLevel = lev := by
        intro k' hk'
        obtain ⟨c', child', hc', hch', hmark', hvis', hlev'⟩ :=
          hpre k' (List.mem_cons_of_mem _ hk')
        obtain ⟨x1, hx1, -, s2, -, -, s5⟩ := V.stable.nodes c' child' hch'
        by_cases hcc : c' = c
        · subst hcc
          obtain ⟨x', hx', hm'⟩ := V.mark child' hch'
          rw [hx1] at hx'
          cases hx'
          refine ⟨c', x1, hc', hx1, by rw [hm', hmark'], ?_, by rw [s2, hlev']⟩
          rw [s5 (by omega)]
          exact hvis'
        · have hnu : ¬ Under t1 c c' := by
            intro hu
            obtain ⟨y1, hy1, -, r2, -⟩ := V.stable.nodes c child hch
            exact hcc ((hu.level y1 x1 hy1 hx1).2 (by rw [s2, r2, hlev, hlev']))
          exact ⟨c', child', hc', V.frame c' child' hch' hnu, hmark', hvis', hlev'⟩
      obtain ⟨a1, a2, a3, a4, a5, a6⟩ := ih t1 t' h V.ok hpre1
      refine ⟨a1, V.stable.stable_trans a2 (le_refl _), a3.trans V.depth, a4.trans V.count,
        ?_, ?_⟩
      · intro m x hx hnu
        apply a5 m x
        · apply V.frame m x hx
          intro hu
          exact hnu k (List.mem_cons_self _ _) c hc (hu.forward a2)
        · intro k' hk' c' hc'
          exact hnu k' (List.mem_cons_of_mem _ hk') c' hc'
      · intro k' hk' c' hc'
        rcases List.mem_cons.1 hk' with rfl | hk'
        · rw [hc] at hc'
          cases hc'
          by_cases hdup : ∃ k'' ∈ rest, cOf k'' = some c
          · obtain ⟨k'', hk'', hc''⟩ := hdup
            exact a6 k'' hk'' c hc''
          · apply BuiltAt.transfer a3 a4 ?_ V.built
            intro m hm
            have hu : Under t1 c m := Under.of_desc V.ok hm
            obtain ⟨y1, hy1, -, r2, -⟩ := V.stable.nodes c child hch
            obtain ⟨xm, hxm⟩ := Desc.exists_node V.ok hm hy1
            rw [hxm]
            apply a5 m xm hxm
            intro k'' hk'' c'' hc'' hu''
            obtain ⟨c2, child2, hc2, hch2, -, -, hlev2⟩ := hpre1 k'' hk''
            rw [hc''] at hc2
            cases hc2
            obtain ⟨z1, hz1, -, q2, -⟩ := a2.nodes c'' child2 hch2
            obtain ⟨z2, hz2, -, q3, -⟩ := a2.nodes c y1 hy1
            have hcc : c = c'' := Under.disjoint (hu.forward a2) hu'' hz2 hz1
              (by rw [q3, r2, hlev, q2, hlev2])
            exact hdup ⟨k'', hk'', by rw [hc'', hcc]⟩
        · exact a6 k' hk' c' hc'

theorem buildTreeNode_subdivided (mDim : Nat) (objs : List SpaceProxyObject) (fuel : Nat)
    (tree : NTree) (n : Nat) (node : NTreeNode) (hn : tree.nodes[n]? = some node)
    (hsub : subdivides tree node = true) :
    NTreeVisitor.buildTreeNode mDim objs (fuel + 1) tree n =
      (List.range (2 ^ mDim)).foldlM
        (fun t i => NTreeVisitor.buildTreeNode mDim objs fuel t (tree.nodes.length + i))
        { tree with nodes := (tree.nodes.set n { node with
            mChildren := (List.range (2 ^ mDim)).map fun childNr =>
              some (tree.nodes.length + childNr) }) ++
          (List.range (2 ^ mDim)).map (newChild mDim objs n node) } := by
  simp only [NTreeVisitor.buildTreeNode]
  rw [hn]
  simp only
  rw [if_pos hsub]
  rfl

theorem buildTreeNode_leaf (mDim : Nat) (objs : List SpaceProxyObject) (fuel : Nat)
    (tree : NTree) (n : Nat) (node : NTreeNode) (hn : tree.nodes[n]? = some node)
    (hsub : ¬ subdivides tree node = true) :
    NTreeVisitor.buildTreeNode mDim objs (fuel + 1) tree n =
      .ok (tree.setNode n { node with mChildren := List.replicate (2 ^ mDim) none }) := by
  simp only [NTreeVisitor.buildTreeNode]
  rw [hn]
  simp only
  rw [if_neg hsub]

theorem subdivided_nodes {tree : NTree} {n : Nat} {node : NTreeNode} (node' : NTreeNode)
    (kids : List NTreeNode) (hn : tree.nodes[n]? = some node) :
    (tree.nodes.set n node' ++ kids)[n]? = some node' ∧
      (∀ (m : Nat) (x : NTreeNode), tree.nodes[m]? = some x → m ≠ n →
        (tree.nodes.set n node' ++ kids)[m]? = some x) ∧
      (∀ (j : Nat) (x : NTreeNode), kids[j]? = some x →
        (tree.nodes.set n node' ++ kids)[tree.nodes.length + j]? = some x) := by
  have hlt := getElem?_lt_length hn
  refine ⟨?_, ?_, ?_⟩
  · rw [List.getElem?_append_left (by rw [List.length_set]; exact hlt),
      List.getElem?_set_self hlt]
  · intro m x hx hne
    rw [List.getElem?_append_left (by rw [List.length_set]; exact getElem?_lt_length hx),
      List.getElem?_set_ne (Ne.symm hne)]
    exact hx
  · intro j x hx
    rw [List.getElem?_append_right (by rw [List.length_set]; omega), List.length_set,
      Nat.add_sub_cancel_left]
    exact hx

theorem Visited.leaf {mDim : Nat} {objs : List SpaceProxyObject} {B : Nat} {tree : NTree}
    {n : Nat} {node : NTreeNode} (hok : NodesOK mDim (fun _ => True) tree)
    (hn : tree.nodes[n]? = some node) (hmark : node.mLastCheckedObject = none)
    (hlev : node.mLevel < B) (hsub : ¬ subdivides tree node = true) :
    Visited mDim objs B node.mLevel tree
      (tree.setNode n { node with mChildren := List.replicate (2 ^ mDim) none }) n := by
  have hlt := getElem?_lt_length hn
  have hself : (tree.setNode n
      { node with mChildren := List.replicate (2 ^ mDim) none }).nodes[n]?
      = some { node with mChildren := List.replicate (2 ^ mDim) none } := by
    simp only [NTree.setNode]
    rw [List.getElem?_set_self hlt]
  have hother : ∀ m : Nat, m ≠ n → (tree.setNode n
      { node with mChildren := List.replicate (2 ^ mDim) none }).nodes[m]?
      = tree.nodes[m]? := by
    intro m hm
    simp only [NTree.setNode]
    rw [List.getElem?_set_ne (Ne.symm hm)]
  refine ⟨NodesOK.setLeaf (hok.mono fun m _ => Or.inl trivial) hn, ⟨rfl, rfl, rfl, ?_⟩,
    rfl, rfl, ?_, ?_, ?_⟩
  · intro m x hx
    by_cases hm : m = n
    · subst hm
      rw [hn] at hx
      cases hx
      exact ⟨_, hself, rfl, rfl, rfl, rfl, fun _ => rfl⟩
    · rw [hother m hm]
      exact ⟨x, hx, rfl, rfl, rfl, rfl, fun _ => rfl⟩
  · intro m x hx hnu
    have hm : m ≠ n := fun e => hnu (e ▸ Under.self)
    rw [hother m hm]
    exact hx
  · intro x hx
    rw [hn] at hx
    cases hx
    exact ⟨_, hself, rfl⟩
  · intro m hm
    rcases hm.split with hmn | ⟨x, j, c, hx, hj, -⟩
    · rw [hmn]
      refine ⟨_, hself, hmark, hlev, Or.inr ⟨?_, rfl⟩⟩
      have : subdivides (tree.setNode n
          { node with mChildren := List.replicate (2 ^ mDim) none })
          { node with mChildren := List.replicate (2 ^ mDim) none } = subdivides tree node :=
        rfl
      rw [this]
      exact Bool.eq_false_iff.2 hsub
    · rw [hself] at hx
      cases hx
      simp only at hj
      rw [getD_replicate_none] at hj
      cases hj

theorem buildTreeNode_visited (mDim : Nat) (objs : List SpaceProxyObject) (B : Nat) :
    ∀ (fuel : Nat) (tree : NTree) (n : Nat) (node : NTreeNode) (tree' : NTree),
      NTreeVisitor.buildTreeNode mDim objs fuel tree n = .ok tree' →
      tree.nodes[n]? = some node → NodesOK mDim (fun _ => True) tree →
      node.mLastCheckedObject = none → (∀ i ∈ node.mObjects, visibleOf objs i = true) →
      node.mLevel + fuel ≤ B → Visited mDim objs B node.mLevel tree tree' n := by
  intro fuel
  induction fuel with
  | zero =>
    intro tree n node tree' h
    simp only [NTreeVisitor.buildTreeNode] at h
    cases h
  | succ fuel ih =>
    intro tree n node tree' h hn hok hmark hvis hB
    by_cases hsub : subdivides tree node = true
    · rw [buildTreeNode_subdivided mDim objs fuel tree n node hn hsub] at h
      obtain ⟨k1, k2⟩ := NodesOK.subdivide (P := fun _ => True)
        ((List.range (2 ^ mDim)).map (newChild mDim objs n node))
        (hok.mono fun m _ => Or.inl trivial) hn (by simp)
        (by
          intro j ch hj
          rw [List.getElem?_map] at hj
          have hjl : j < 2 ^ mDim := by
            by_contra hcon
            rw [List.getElem?_eq_none (by simp; omega)] at hj
            cases hj
          rw [List.getElem?_range hjl] at hj
          simp only [Option.map_some', Option.some.injEq] at hj
          subst hj
          exact ⟨rfl, rfl, rfl, rfl, rfl, fun i hi => (List.mem_filter.1 hi).1⟩)
      obtain ⟨f1, f2, f3⟩ := subdivided_nodes
        ({ node with mChildren :=
            (List.range (2 ^ mDim)).map (fun childNr => some (tree.nodes.length + childNr)) } :
          NTreeNode)
        ((List.range (2 ^ mDim)).map (newChild mDim objs n node)) hn
      have hkid : ∀ j : Nat, j < 2 ^ mDim →
          ((List.range (2 ^ mDim)).map (newChild mDim objs n node))[j]?
            = some (newChild mDim objs n node j) := by
        intro j hj
        rw [List.getElem?_map, List.getElem?_range hj]
        rfl
      obtain ⟨a1, a2, a3, a4, a5, a6⟩ := @visitChildren mDim objs B (node.mLevel + 1)
        (fun k => some (tree.nodes.length + k))
        (fun t i => NTreeVisitor.buildTreeNode mDim objs fuel t (tree.nodes.length + i))
        (by
          intro t k c child t1 hc hch hs hokt hm hv hl
          simp only [Option.some.injEq] at hc
          subst hc
          have := ih t _ child t1 hs hch hokt hm hv (by omega)
          rw [hl] at this
          exact this)
        (List.range (2 ^ mDim)) _ tree' h k1
        (by
          intro k hk
          have hkl := List.mem_range.1 hk
          refine ⟨_, newChild mDim objs n node k, rfl, f3 k _ (hkid k hkl), rfl, ?_, rfl⟩
          intro i hi
          exact hvis i (List.mem_filter.1 hi).1)
      obtain ⟨xn, hxn, -, xl, -⟩ := a2.nodes n _ f1
      have hunder : ∀ k : Nat, k < 2 ^ mDim → Under tree' n (tree.nodes.length + k) := by
        intro k hk
        obtain ⟨xc, hxc, p1, p2, -⟩ := a2.nodes _ _ (f3 k _ (hkid k hk))
        exact Under.step _ n xc xn hxc p1 hxn (by rw [p2, xl]; rfl) Under.self
      have hnot : ∀ k : Nat, k < 2 ^ mDim → ¬ Under tree' (tree.nodes.length + k) n := by
        intro k hk hu
        obtain ⟨xc, hxc, -, p2, -⟩ := a2.nodes _ _ (f3 k _ (hkid k hk))
        have := (hu.level xc xn hxc hxn).1
        rw [p2, xl] at this
        simp only [newChild] at this
        omega
      have hn' := a5 n _ f1 (by
        intro k hk c hc
        simp only [Option.some.injEq] at hc
        subst hc
        exact hnot k (List.mem_range.1 hk))
      refine ⟨a1, k2.stable_trans a2 (Nat.le_succ _), a3, a4, ?_, ?_, ?_⟩
      · intro m x hx hnu
        have hm : m ≠ n := fun e => hnu (e ▸ Under.self)
        apply a5 m x (f2 m x hx hm)
        intro k hk c hc hu
        simp only [Option.some.injEq] at hc
        subst hc
        exact hnu ((hunder k (List.mem_range.1 hk)).under_trans hu)
      · intro x hx
        rw [hn] at hx
        cases hx
        exact ⟨_, hn', rfl⟩
      · intro m hm
        rcases hm.split with hmn | ⟨x, j, c, hx, hj, hd⟩
        · rw [hmn]
          refine ⟨_, hn', hmark, (by omega : node.mLevel < B), Or.inl ⟨?_, ?_⟩⟩
          · rw [← hsub]
            exact subdivides_congr a3 a4 rfl rfl
          · intro j hj
            obtain ⟨xc, hxc, -, -, p3, p4, p5⟩ := a2.nodes _ _ (f3 j _ (hkid j hj))
            refine ⟨tree.nodes.length + j, xc, ?_, hxc, ?_⟩
            · simp only
              rw [getD_map_some_range, if_pos hj]
            · rw [p5 (le_refl _), p3, p4]
              simp only [newChild]
              apply List.filter_congr
              intro i hi
              rw [hvis i hi, Bool.true_and]
        · rw [hn'] at hx
          cases hx
          simp only at hj
          rw [getD_map_some_range] at hj
          split_ifs at hj with hjl
          simp only [Option.some.injEq] at hj
          subst hj
          exact a6 j (List.mem_range.2 hjl) _ rfl m hd
    · rw [buildTreeNode_leaf mDim objs fuel tree n node hn hsub] at h
      simp only [Except.ok.injEq] at h
      subst h
      exact Visited.leaf hok hn hmark (by omega) hsub

/-- The first loop of `updateTree(NTree&, NTreeNode*)` on the node `n`: every child it
passes holds, unmarked, exactly the visible objects of `n` inside its cell, and a node
that is no such child is unchanged. -/
theorem resetChildren_exact (mDim : Nat) (objs : List SpaceProxyObject) {n : Nat}
    {node : NTreeNode} :
    ∀ (L : List Nat) (t t1 : NTree), NodesOK mDim (fun _ => True) t →
      t.nodes[n]? = some node →
      L.foldlM
        (fun (t : NTree) childNr =>
          match node.mChildren.getD childNr none with
          | none => (.error .undefinedBehaviour : Except Fault NTree)
          | some c =>
            match t.nodes[c]? with
            | none => .error .undefinedBehaviour
            | some child =>
              .ok (t.setNode c { child with
                mLastCheckedObject := none
                mObjects := node.mObjects.filter fun i =>
                  visibleOf objs i &&
                    insideBox mDim (positionOf objs i) child.mMinPos child.mMaxPos }))
        t = .ok t1 →
      NodesOK mDim (fun _ => True) t1 ∧ Stable t t1 node.mLevel ∧
        t1.mMaxDepth = t.mMaxDepth ∧ t1.mMinObjectCount = t.mMinObjectCount ∧
        t1.nodes[n]? = some node ∧
        (∀ (m : Nat) (x : NTreeNode), t.nodes[m]? = some x →
          (∀ j ∈ L, node.mChildren.getD j none ≠ some m) → t1.nodes[m]? = some x) ∧
        (∀ j ∈ L, ∃ (c : Nat) (child : NTreeNode), node.mChildren.getD j none = some c ∧
          t1.nodes[c]? = some child ∧ child.mLastCheckedObject = none ∧
          child.mLevel = node.mLevel + 1 ∧
          child.mObjects = node.mObjects.filter (fun i =>
            visibleOf objs i &&
              insideBox mDim (positionOf objs i) child.mMinPos child.mMaxPos)) := by
  intro L
  induction L with
  | nil =>
    intro t t1 hok hn h
    simp only [List.foldlM_nil] at h
    cases h
    exact ⟨hok, Stable.stable_refl _ _, rfl, rfl, hn, fun m x hx _ => hx,
      fun j hj => by cases hj⟩
  | cons j rest ih =>
    intro t t1 hok hn h
    simp only [List.foldlM_cons] at h
    cases hcj : node.mChildren.getD j none with
    | none => rw [hcj] at h; cases h
    | some c =>
      rw [hcj] at h
      simp only at h
      cases hch : t.nodes[c]? with
      | none => rw [hch] at h; cases h
      | some child =>
        rw [hch] at h
        simp only at h
        obtain ⟨child', hch', -, hlev', -, -⟩ := hok.link n node j c hn hcj
        rw [hch] at hch'
        cases hch'
        have hcn : c ≠ n := by
          intro he
          subst he
          rw [hn] at hch
          cases hch
          omega
        obtain ⟨a1, a2⟩ := NodesOK.setObjects
          (node.mObjects.filter fun i =>
            visibleOf objs i &&
              insideBox mDim (positionOf objs i) child.mMinPos child.mMaxPos)
          none hok hch trivial (fun m x j' hP => absurd trivial hP)
        have hlt := getElem?_lt_length hch
        have hself : (t.setNode c { child with
              mLastCheckedObject := none
              mObjects := node.mObjects.filter fun i =>
                visibleOf objs i &&
                  insideBox mDim (positionOf objs i) child.mMinPos child.mMaxPos }).nodes[c]?
            = some { child with
              mLastCheckedObject := none
              mObjects := node.mObjects.filter fun i =>
                visibleOf objs i &&
                  insideBox mDim (positionOf objs i) child.mMinPos child.mMaxPos } := by
          simp only [NTree.setNode]
          rw [List.getElem?_set_self hlt]
        have hother : ∀ (m : Nat) (x : NTreeNode), t.nodes[m]? = some x → m ≠ c →
            (t.setNode c { child with
              mLastCheckedObject := none
              mObjects := node.mObjects.filter fun i =>
                visibleOf objs i &&
                  insideBox mDim (positionOf objs i) child.mMinPos child.mMaxPos }).nodes[m]?
            = some x := by
          intro m x hx hm
          simp only [NTree.setNode]
          rw [List.getElem?_set_ne (Ne.symm hm)]
          exact hx
        have hst : Stable t
            (t.setNode c { child with
              mLastCheckedObject := none
              mObjects := node.mObjects.filter fun i =>
                visibleOf objs i &&
                  insideBox mDim (positionOf objs i) child.mMinPos child.mMaxPos })
            node.mLevel := by
          refine ⟨rfl, rfl, rfl, ?_⟩
          intro m x hx
          obtain ⟨x', hx', b1, b2, b3, b4, -, b6, -⟩ := a2 m x hx
          refine ⟨x', hx', b1, b2, b3, b4, fun hle => ?_⟩
          by_cases hmc : m = c
          · subst hmc
            rw [hch] at hx
            cases hx
            omega
          · rw [b6 hmc]
        obtain ⟨r1, r2, r3, r4, r5, r6, r7⟩ := ih _ t1 a1 (hother n node hn (Ne.symm hcn)) h
        refine ⟨r1, hst.stable_trans r2 (le_refl _), r3, r4, r5, ?_, ?_⟩
        · intro m x hx hno
          have hmc : m ≠ c := by
            intro e
            subst e
            exact hno j (List.mem_cons_self _ _) hcj
          exact r6 m x (hother m x hx hmc) fun j' hj' => hno j' (List.mem_cons_of_mem _ hj')
        · intro j' hj'
          rcases List.mem_cons.1 hj' with rfl | hj'
          · by_cases hdup : ∃ j'' ∈ rest, node.mChildren.getD j'' none = some c
            · obtain ⟨j'', hj'', hc''⟩ := hdup
              obtain ⟨c2, child2, q1, q2, q3, q4, q5⟩ := r7 j'' hj''
              rw [hc''] at q1
              cases q1
              exact ⟨c, child2, hcj, q2, q3, q4, q5⟩
            · refine ⟨c, _, hcj, r6 c _ hself ?_, rfl, hlev', rfl⟩
              intro j'' hj'' hc''
              exact hdup ⟨j'', hj'', hc''⟩
          · exact r7 j' hj'

theorem updateTreeNode_visited (mDim : Nat) (objs : List SpaceProxyObject) (B : Nat) :
    ∀ (fuel : Nat) (tree : NTree) (n : Nat) (node : NTreeNode) (tree' : NTree),
      NTreeVisitor.updateTreeNode mDim objs fuel tree n = .ok tree' →
      tree.nodes[n]? = some node → NodesOK mDim (fun _ => True) tree →
      node.mLastCheckedObject = none → node.mLevel + fuel ≤ B →
      Visited mDim objs B node.mLevel tree tree' n := by
  intro fuel
  induction fuel with
  | zero =>
    intro tree n node tree' h
    simp only [NTreeVisitor.updateTreeNode] at h
    cases h
  | succ fuel ih =>
    intro tree n node tree' h hn hok hmark hB
    simp only [NTreeVisitor.updateTreeNode] at h
    rw [hn] at h
    simp only at h
    by_cases hsub : subdivides tree node = true
    · rw [if_pos hsub] at h
      generalize hf1 : (List.range (2 ^ mDim)).foldlM
        (fun (t : NTree) childNr =>
          match node.mChildren.getD childNr none with
          | none => (.error .undefinedBehaviour : Except Fault NTree)
          | some c =>
            match t.nodes[c]? with
            | none => .error .undefinedBehaviour
            | some child =>
              .ok (t.setNode c { child with
                mLastCheckedObject := none
                mObjects := node.mObjects.filter fun i =>
                  visibleOf objs i &&
                    insideBox mDim (positionOf objs i) child.mMinPos child.mMaxPos }))
        tree = r1 at h
      cases r1 with
      | error e => cases h
      | ok tree1 =>
        simp only at h
        obtain ⟨s1, s2, s3, s4, s5, s6, s7⟩ := resetChildren_exact mDim objs
          (List.range (2 ^ mDim)) tree tree1 hok hn hf1
        obtain ⟨a1, a2, a3, a4, a5, a6⟩ := @visitChildren mDim objs B (node.mLevel + 1)
          (fun k => node.mChildren.getD k none)
          (fun (t : NTree) i =>
            match node.mChildren.getD i none with
            | none => (.error .undefinedBehaviour : Except Fault NTree)
            | some c =>
              match t.nodes[c]? with
              | none => .error .undefinedBehaviour
              | some child =>
                if child.mChildren.getD i none = none then
                  NTreeVisitor.buildTreeNode mDim objs fuel t c
                else NTreeVisitor.updateTreeNode mDim objs fuel t c)
          (by
            intro t k c child t1 hc hch hs hokt hm hv hl
            simp only at hc hs
            rw [hc] at hs
            simp only at hs
            rw [hch] at hs
            simp only at hs
            have : Visited mDim objs B child.mLevel t t1 c := by
              by_cases hb : child.mChildren.getD k none = none
              · rw [if_pos hb] at hs
                exact buildTreeNode_visited mDim objs B fuel t c child t1 hs hch hokt hm hv
                  (by omega)
              · rw [if_neg hb] at hs
                exact ih t c child t1 hs hch hokt hm (by omega)
            rw [hl] at this
            exact this)
          (List.range (2 ^ mDim)) tree1 tree' h s1
          (by
            intro k hk
            obtain ⟨c, child, q1, q2, q3, q4, q5⟩ := s7 k hk
            refine ⟨c, child, q1, q2, q3, ?_, q4⟩
            intro i hi
            rw [q5] at hi
            have := (List.mem_filter.1 hi).2
            simp only [Bool.and_eq_true] at this
            exact this.1)
        obtain ⟨xn, hxn, -, xl, -⟩ := a2.nodes n node s5
        have hlenc : node.mChildren.length = 2 ^ mDim := hok.length n node hn
        have hjl : ∀ (j c : Nat), node.mChildren.getD j none = some c → j < 2 ^ mDim := by
          intro j c hj
          rw [← hlenc]
          exact getD_some_lt hj
        have hkid : ∀ (j c : Nat), node.mChildren.getD j none = some c →
            ∃ xc : NTreeNode, tree'.nodes[c]? = some xc ∧ xc.mParent = some n ∧
              xc.mLevel = node.mLevel + 1 := by
          intro j c hj
          obtain ⟨child1, h1, h2, h3, -⟩ := s1.link n node j c s5 hj
          obtain ⟨xc, hxc, p1, p2, -⟩ := a2.nodes c child1 h1
          exact ⟨xc, hxc, by rw [p1, h2], by rw [p2, h3]⟩
        have hunder : ∀ (j c : Nat), node.mChildren.getD j none = some c →
            Under tree' n c := by
          intro j c hj
          obtain ⟨xc, hxc, p1, p2⟩ := hkid j c hj
          exact Under.step c n xc xn hxc p1 hxn (by rw [p2, xl]) Under.self
        have hnot : ∀ (j c : Nat), node.mChildren.getD j none = some c →
            ¬ Under tree' c n := by
          intro j c hj hu
          obtain ⟨xc, hxc, -, p2⟩ := hkid j c hj
          have := (hu.level xc xn hxc hxn).1
          omega
        have hn' : tree'.nodes[n]? = some node :=
          a5 n node s5 fun k _ c hc => hnot k c hc
        refine ⟨a1, s2.stable_trans a2 (Nat.le_succ _), a3.trans s3, a4.trans s4, ?_, ?_, ?_⟩
        · intro m x hx hnu
          apply a5 m x
          · apply s6 m x hx
            intro j _ hj
            exact hnu (hunder j m hj)
          · intro k _ c hc hu
            exact hnu ((hunder k c hc).under_trans hu)
        · intro x hx
          rw [hn] at hx
          cases hx
          exact ⟨node, hn', rfl⟩
        · intro m hm
          rcases hm.split with hmn | ⟨x, j, c, hx, hj, hd⟩
          · rw [hmn]
            refine ⟨node, hn', hmark, by omega, Or.inl ⟨?_, ?_⟩⟩
            · rw [← hsub]
              exact subdivides_congr (a3.trans s3) (a4.trans s4) rfl rfl
            · intro j hj
              obtain ⟨c, child, q1, q2, -, q4, q5⟩ := s7 j (List.mem_range.2 hj)
              obtain ⟨xc, hxc, -, -, p3, p4, p5⟩ := a2.nodes c child q2
              refine ⟨c, xc, q1, hxc, ?_⟩
              rw [p5 (by omega), p3, p4]
              exact q5
          · rw [hn'] at hx
            cases hx
            exact a6 j (List.mem_range.2 (hjl j c hj)) c hj m hd
    · rw [if_neg hsub] at h
      split_ifs at h with hany
      simp only [Except.ok.injEq] at h
      subst h
      exact Visited.leaf hok hn hmark (by omega) hsub

theorem visibleOf_congr {objs objs0 : List SpaceProxyObject}
    (h : objs.map SpaceProxyObject.withoutRelations
      = objs0.map SpaceProxyObject.withoutRelations) (i : Nat) :
    visibleOf objs i = visibleOf objs0 i := by
  unfold visibleOf
  cases hp : objs[i]? with
  | none => rw [withoutRelations_none h hp]
  | some p =>
    obtain ⟨q, hq, he⟩ := withoutRelations_some h hp
    rw [hq]
    exact (withoutRelations_eq he).2.1.symm

theorem BuiltAt.builtAt_congr {mDim : Nat} {objs objs0 : List SpaceProxyObject} {B : Nat} {tree : NTree}
    {m : Nat}
    (h : objs.map SpaceProxyObject.withoutRelations
      = objs0.map SpaceProxyObject.withoutRelations)
    (hb : BuiltAt mDim objs B tree m) : BuiltAt mDim objs0 B tree m := by
  obtain ⟨node, hn, hmark, hlev, hcase⟩ := hb
  refine ⟨node, hn, hmark, hlev, ?_⟩
  rcases hcase with ⟨hsub, hex⟩ | hleaf
  · left
    refine ⟨hsub, fun j hj => ?_⟩
    obtain ⟨c, child, hc, hch, hobj⟩ := hex j hj
    refine ⟨c, child, hc, hch, ?_⟩
    rw [hobj]
    apply List.filter_congr
    intro i _
    rw [visibleOf_congr h i, positionOf_congr h i]
  · exact Or.inr hleaf

/-- After the structure phase every node reachable from the root is as a visit leaves it,
and the root holds the objects passed to the phase. -/
theorem updateTree_visited (mDim : Nat) (objs : List SpaceProxyObject) (fuel : Nat)
    (tree tree' : NTree) (V : List Nat)
    (h : NTreeVisitor.updateTree mDim objs fuel tree V = .ok tree')
    (hok : TreeOK mDim tree) (hvis : ∀ i ∈ V, visibleOf objs i = true) :
    ∃ (r : Nat) (root : NTreeNode), tree'.mRootNode = some r ∧
      tree'.nodes[r]? = some root ∧ root.mObjects = V ∧
      ∀ m : Nat, Reach tree' m → BuiltAt mDim objs (root.mLevel + fuel) tree' m := by
  have hfin : ∀ (t0 : NTree) (r : Nat) (node : NTreeNode) (lev : Nat),
      Visited mDim objs (lev + fuel) lev t0 tree' r → t0.nodes[r]? = some node →
      node.mLevel = lev → t0.mRootNode = some r → node.mObjects = V →
      ∃ (r : Nat) (root : NTreeNode), tree'.mRootNode = some r ∧
        tree'.nodes[r]? = some root ∧ root.mObjects = V ∧
        ∀ m : Nat, Reach tree' m → BuiltAt mDim objs (root.mLevel + fuel) tree' m := by
    intro t0 r node lev hv hn hlev hr hV
    obtain ⟨root, hroot, -, p2, -, -, p5⟩ := hv.stable.nodes r node hn
    have hr' : tree'.mRootNode = some r := by rw [hv.stable.root, hr]
    refine ⟨r, root, hr', hroot, by rw [p5 (by omega), hV], ?_⟩
    intro m hm
    obtain ⟨r2, hr2, hd⟩ := Reach.iff_desc.1 hm
    rw [hr'] at hr2
    cases hr2
    rw [p2, hlev]
    exact hv.built m hd
  unfold NTreeVisitor.updateTree at h
  cases hr : tree.mRootNode with
  | none =>
    rw [hr] at h
    simp only [NTreeVisitor.buildTree] at h
    have hn0 : ∀ x : NTreeNode,
        ({ tree with mRootNode := some tree.nodes.length, nodes := tree.nodes ++ [x] } :
          NTree).nodes[tree.nodes.length]? = some x := by
      intro x
      simp
    have hv := buildTreeNode_visited mDim objs (0 + fuel) fuel _ _ _ tree' h (hn0 _)
      ((NodesOK.append _ hok.nodes rfl).mono fun m _ => trivial) rfl hvis (le_refl _)
    exact hfin _ _ _ 0 hv (hn0 _) rfl rfl rfl
  | some r =>
    rw [hr] at h
    simp only at h
    obtain ⟨node, hn, hpar, -, -⟩ := hok.root r hr
    rw [hn] at h
    simp only at h
    obtain ⟨c1, c2⟩ := NodesOK.setObjects V none
      (@NodesOK.mono _ _ (fun _ => True) _ hok.nodes fun m _ => trivial) hn trivial
      (fun m x j hP => absurd trivial hP)
    have hn1 : (tree.setNode r { node with mLastCheckedObject := none, mObjects := V }).nodes[r]?
        = some { node with mLastCheckedObject := none, mObjects := V } := by
      simp only [NTree.setNode]
      rw [List.getElem?_set_self (getElem?_lt_length hn)]
    by_cases hb : node.mChildren.getD 0 none = none
    · rw [if_pos hb] at h
      have hv := buildTreeNode_visited mDim objs (node.mLevel + fuel) fuel _ r _ tree' h hn1 c1
        rfl hvis (le_refl _)
      exact hfin _ r _ node.mLevel hv hn1 rfl hr rfl
    · rw [if_neg hb] at h
      have hv := updateTreeNode_visited mDim objs (node.mLevel + fuel) fuel _ r _ tree' h hn1
        c1 rfl (le_refl _)
      exact hfin _ r _ node.mLevel hv hn1 rfl hr rfl

theorem canHaveNeighbors_congr {p q : SpaceProxyObject}
    (h : q.withoutRelations = p.withoutRelations) :
    q.canHaveNeighbors = p.canHaveNeighbors := by
  obtain ⟨-, -, h3⟩ := withoutRelations_eq h
  unfold SpaceProxyObject.canHaveNeighbors NeighborGroup.canHaveNeighbors
  rw [h3]

theorem classifyFixed_congr (minPos maxPos : Vec) {A B : List SpaceProxyObject}
    (h : A.map SpaceProxyObject.withoutRelations = B.map SpaceProxyObject.withoutRelations) :
    classifyFixed minPos maxPos A = classifyFixed minPos maxPos B := by
  have hlen : A.length = B.length := by
    have := congrArg List.length h
    simpa using this
  have h1 : (fun i => insideBox minPos.length (positionOf A i) minPos maxPos)
      = fun i => insideBox minPos.length (positionOf B i) minPos maxPos := by
    funext i
    rw [positionOf_congr h i]
  have h2 : (fun i => visibleOf A i) = fun i => visibleOf B i := by
    funext i
    rw [visibleOf_congr h i]
  have h3 : (fun (i : Nat) =>
      match A[i]? with
      | none => false
      | some p =>
        p.canHaveNeighbors &&
          (match p.mNeighborGroup.mNeighborGroupAlg with
           | none => false
           | some a => decide (a.mMaxNeighborCount > 0)))
      = fun (i : Nat) =>
      match B[i]? with
      | none => false
      | some p =>
        p.canHaveNeighbors &&
          (match p.mNeighborGroup.mNeighborGroupAlg with
           | none => false
           | some a => decide (a.mMaxNeighborCount > 0)) := by
    funext i
    cases hp : A[i]? with
    | none => rw [withoutRelations_none h hp]
    | some p =>
      obtain ⟨q, hq, he⟩ := withoutRelations_some h hp
      rw [hq]
      simp only
      rw [canHaveNeighbors_congr he, (withoutRelations_eq he).2.2]
  unfold classifyFixed
  simp only
  rw [h1, h2, h3, hlen]

theorem foldl_growBounds_congr (dim : Nat) {A B : List SpaceProxyObject}
    (h : A.map SpaceProxyObject.withoutRelations = B.map SpaceProxyObject.withoutRelations)
    (b : Vec × Vec) : A.foldl (growBounds dim) b = B.foldl (growBounds dim) b := by
  have key : ∀ (L : List SpaceProxyObject) (b : Vec × Vec),
      L.foldl (growBounds dim) b
        = (L.map SpaceProxyObject.withoutRelations).foldl (growBounds dim) b := by
    intro L
    induction L with
    | nil => intro b; rfl
    | cons p rest ih =>
      intro b
      simp only [List.foldl_cons, List.map_cons]
      exact ih _
  rw [key A, key B, h]

theorem classifyFree_congr (minPos maxPos : Vec) {A B : List SpaceProxyObject}
    (h : A.map SpaceProxyObject.withoutRelations = B.map SpaceProxyObject.withoutRelations) :
    classifyFree minPos maxPos A = classifyFree minPos maxPos B := by
  have hlen : A.length = B.length := by
    have := congrArg List.length h
    simpa using this
  have h2 : (fun i => visibleOf A i) = fun i => visibleOf B i := by
    funext i
    rw [visibleOf_congr h i]
  have h3 : (fun (i : Nat) =>
      match A[i]? with
      | none => false
      | some p => p.canHaveNeighbors)
      = fun (i : Nat) =>
      match B[i]? with
      | none => false
      | some p => p.canHaveNeighbors := by
    funext i
    cases hp : A[i]? with
    | none => rw [withoutRelations_none h hp]
    | some p =>
      obtain ⟨q, hq, he⟩ := withoutRelations_some h hp
      rw [hq]
      simp only
      rw [canHaveNeighbors_congr he]
  have hb := foldl_growBounds_congr minPos.length h (minPos, maxPos)
  obtain ⟨e1, e2⟩ := classifyFree_bounds_eq minPos maxPos A
  obtain ⟨e3, e4⟩ := classifyFree_bounds_eq minPos maxPos B
  refine Prod.ext (by rw [e1, e3, hb]) (Prod.ext (by rw [e2, e4, hb]) ?_)
  unfold classifyFree
  simp only
  rw [h2, h3, hlen]

theorem growBounds_fixed (dim : Nat) (b : Vec × Vec) (p : SpaceProxyObject)
    (h1 : b.1.length = dim) (h2 : b.2.length = dim)
    (hin : ∀ d, d < dim → b.1.getD d 0 ≤ p.mSpaceObject.mPosition.getD d 0 ∧
      p.mSpaceObject.mPosition.getD d 0 ≤ b.2.getD d 0) :
    growBounds dim b p = b := by
  have key : ∀ (l : Vec) (f : Nat → ℚ), l.length = dim →
      (∀ d, d < dim → f d = l.getD d 0) → (List.range dim).map f = l := by
    intro l f hl hf
    apply List.ext_getElem?
    intro d
    by_cases hd : d < dim
    · rw [List.getElem?_map, List.getElem?_range hd]
      simp only [Option.map_some']
      rw [hf d hd, List.getD_eq_getElem?_getD, List.getElem?_eq_getElem (by omega)]
      rfl
    · rw [List.getElem?_eq_none (by simp; omega), List.getElem?_eq_none (by omega)]
  unfold growBounds
  refine Prod.ext (key b.1 _ h1 ?_) (key b.2 _ h2 ?_)
  · intro d hd
    rw [if_neg (not_lt.2 (hin d hd).1)]
  · intro d hd
    rw [if_neg (not_lt.2 (hin d hd).2)]

theorem foldl_growBounds_fixed (dim : Nat) :
    ∀ (L : List SpaceProxyObject) (b : Vec × Vec), b.1.length = dim → b.2.length = dim →
      (∀ p ∈ L, ∀ d, d < dim → b.1.getD d 0 ≤ p.mSpaceObject.mPosition.getD d 0 ∧
        p.mSpaceObject.mPosition.getD d 0 ≤ b.2.getD d 0) →
      L.foldl (growBounds dim) b = b := by
  intro L
  induction L with
  | nil => intro b _ _ _; rfl
  | cons p rest ih =>
    intro b h1 h2 hin
    simp only [List.foldl_cons]
    rw [growBounds_fixed dim b p h1 h2 (hin p (List.mem_cons_self _ _))]
    exact ih b h1 h2 fun q hq => hin q (List.mem_cons_of_mem _ hq)

theorem foldl_growBounds_again (dim : Nat) (objs : List SpaceProxyObject) (b : Vec × Vec) :
    objs.foldl (growBounds dim) (objs.foldl (growBounds dim) b)
      = objs.foldl (growBounds dim) b := by
  cases objs with
  | nil => rfl
  | cons p rest =>
    have hl := foldl_growBounds_length dim rest (growBounds dim b p)
      (by simp [growBounds]) (by simp [growBounds])
    apply foldl_growBounds_fixed dim _ _
    · simpa only [List.foldl_cons] using hl.1
    · simpa only [List.foldl_cons] using hl.2
    · intro q hq d hd
      exact (foldl_growBounds dim (p :: rest) b d hd).2.2 q hq

theorem classifyFree_again (minPos maxPos : Vec) (objs : List SpaceProxyObject) :
    classifyFree (classifyFree minPos maxPos objs).1 (classifyFree minPos maxPos objs).2.1 objs
      = classifyFree minPos maxPos objs := by
  obtain ⟨e1, e2⟩ := classifyFree_bounds_eq minPos maxPos objs
  have hdim : (classifyFree minPos maxPos objs).1.length = minPos.length := by
    rw [e1]
    cases objs with
    | nil => rfl
    | cons p rest =>
      exact (foldl_growBounds_length minPos.length rest (growBounds minPos.length
        (minPos, maxPos) p) (by simp [growBounds]) (by simp [growBounds])).1
  obtain ⟨e3, e4⟩ := classifyFree_bounds_eq (classifyFree minPos maxPos objs).1
    (classifyFree minPos maxPos objs).2.1 objs
  rw [hdim] at e3 e4
  have hb : ((classifyFree minPos maxPos objs).1, (classifyFree minPos maxPos objs).2.1)
      = objs.foldl (growBounds minPos.length) (minPos, maxPos) := Prod.ext e1 e2
  rw [hb, foldl_growBounds_again] at e3 e4
  refine Prod.ext (by rw [e3, e1]) (Prod.ext (by rw [e4, e2]) ?_)
  rfl

theorem NTreeAlg.resize_ok {alg alg' : NTreeAlg} {a b : Vec}
    (h : alg.resize a b = .ok alg') :
    alg'.mMinPos = a ∧ alg'.mMaxPos = b ∧ alg'.mFixedSize = alg.mFixedSize := by
  unfold NTreeAlg.resize at h
  split_ifs at h
  simp only [Except.ok.injEq] at h
  subst h
  exact ⟨rfl, rfl, rfl⟩

theorem PermanentNeighborsAlg.resize_ok_permanent {alg alg' : PermanentNeighborsAlg} {a b : Vec}
    (h : alg.resize a b = .ok alg') :
    alg'.mMinPos = a ∧ alg'.mMaxPos = b ∧ alg'.mFixedSize = alg.mFixedSize := by
  unfold PermanentNeighborsAlg.resize at h
  split_ifs at h
  simp only [Except.ok.injEq] at h
  subst h
  exact ⟨rfl, rfl, rfl⟩

/-- What `Space::updateObjects` leaves behind, in terms of the two classification loops. -/
theorem Space.updateObjects_classified {space s0 : Space} (h : space.updateObjects = .ok s0) :
    s0.mSpaceAlg.mFixedSize = space.mSpaceAlg.mFixedSize ∧
      (space.mSpaceAlg.mFixedSize = true →
        s0.mSpaceAlg.mMinPos = space.mSpaceAlg.mMinPos ∧
        s0.mSpaceAlg.mMaxPos = space.mSpaceAlg.mMaxPos ∧
        s0.mVisibleObjects =
          (classifyFixed space.mSpaceAlg.mMinPos space.mSpaceAlg.mMaxPos space.mObjects).1 ∧
        s0.mNeighborObjects =
          (classifyFixed space.mSpaceAlg.mMinPos space.mSpaceAlg.mMaxPos space.mObjects).2) ∧
      (space.mSpaceAlg.mFixedSize = false →
        (s0.mSpaceAlg.mMinPos, s0.mSpaceAlg.mMaxPos, s0.mVisibleObjects, s0.mNeighborObjects)
          = classifyFree space.mSpaceAlg.mMinPos space.mSpaceAlg.mMaxPos space.mObjects) := by
  unfold Space.updateObjects at h
  simp only at h
  by_cases hf : space.mSpaceAlg.mFixedSize = true
  · rw [if_pos hf] at h
    simp only [Except.ok.injEq] at h
    subst h
    exact ⟨rfl, fun _ => ⟨rfl, rfl, rfl, rfl⟩, fun h0 => by rw [hf] at h0; cases h0⟩
  · rw [if_neg hf] at h
    by_cases hc : (classifyFree space.mSpaceAlg.mMinPos space.mSpaceAlg.mMaxPos
          space.mObjects).1 ≠ space.mSpaceAlg.mMinPos ∨
        (classifyFree space.mSpaceAlg.mMinPos space.mSpaceAlg.mMaxPos
          space.mObjects).2.1 ≠ space.mSpaceAlg.mMaxPos
    · rw [if_pos hc] at h
      cases hr : space.mSpaceAlg.resize
          (classifyFree space.mSpaceAlg.mMinPos space.mSpaceAlg.mMaxPos space.mObjects).1
          (classifyFree space.mSpaceAlg.mMinPos space.mSpaceAlg.mMaxPos space.mObjects).2.1 with
      | error e => rw [hr] at h; cases h
      | ok alg' =>
        rw [hr] at h
        simp only [Except.ok.injEq] at h
        subst h
        obtain ⟨r1, r2, r3⟩ := NTreeAlg.resize_ok hr
        refine ⟨r3, fun h0 => absurd h0 hf, fun _ => ?_⟩
        simp only
        rw [r1, r2]
    · rw [if_neg hc] at h
      simp only [Except.ok.injEq] at h
      subst h
      rw [not_or, not_not, not_not] at hc
      exact ⟨rfl, fun h0 => absurd h0 hf, fun _ => Prod.ext hc.1.symm (Prod.ext hc.2.symm rfl)⟩

/-- The classification of `Space::updateObjects` run again on a space that differs from its
first result in relation vectors and in the tree only, changes nothing. -/
theorem Space.updateObjects_again {space s0 s1 : Space} (h : space.updateObjects = .ok s0)
    (hmap : s1.mObjects.map SpaceProxyObject.withoutRelations
      = space.mObjects.map SpaceProxyObject.withoutRelations)
    (hmin : s1.mSpaceAlg.mMinPos = s0.mSpaceAlg.mMinPos)
    (hmax : s1.mSpaceAlg.mMaxPos = s0.mSpaceAlg.mMaxPos)
    (hfix : s1.mSpaceAlg.mFixedSize = s0.mSpaceAlg.mFixedSize)
    (hvis : s1.mVisibleObjects = s0.mVisibleObjects)
    (hnbr : s1.mNeighborObjects = s0.mNeighborObjects) : s1.updateObjects = .ok s1 := by
  obtain ⟨c1, c2, c3⟩ := Space.updateObjects_classified h
  unfold Space.updateObjects
  simp only
  by_cases hf : space.mSpaceAlg.mFixedSize = true
  · obtain ⟨d1, d2, d3, d4⟩ := c2 hf
    rw [if_pos (by rw [hfix, c1, hf]), hmin, hmax, d1, d2, classifyFixed_congr _ _ hmap, ← d3,
      ← d4, ← hvis, ← hnbr]
  · have hff : space.mSpaceAlg.mFixedSize = false := Bool.eq_false_iff.2 hf
    have d := c3 hff
    have e : classifyFree s1.mSpaceAlg.mMinPos s1.mSpaceAlg.mMaxPos s1.mObjects
        = (s1.mSpaceAlg.mMinPos, s1.mSpaceAlg.mMaxPos, s1.mVisibleObjects,
            s1.mNeighborObjects) := by
      rw [classifyFree_congr _ _ hmap, hmin, hmax, hvis, hnbr, d]
      have d1 := congrArg (fun x => x.1) d
      have d2 := congrArg (fun x => x.2.1) d
      simp only at d1 d2
      rw [d1, d2]
      exact classifyFree_again _ _ _
    rw [if_neg (by rw [hfix, c1, hff]; simp), e]
    simp only [ne_eq, not_true_eq_false, or_self, if_false]

theorem NTreeAlg.updateStructure_spec {alg alg' : NTreeAlg} {objs : List SpaceProxyObject}
    {fuel : Nat} {V : List Nat} (h : alg.updateStructure objs fuel V = .ok alg') :
    alg.dimMismatch objs V = false ∧
      NTreeVisitor.updateTree alg.mDim objs fuel alg.mTree V = .ok alg'.mTree ∧
      alg' = { alg with mTree := alg'.mTree } := by
  unfold NTreeAlg.updateStructure at h
  split_ifs at h with hd
  cases hu : NTreeVisitor.updateTree alg.mDim objs fuel alg.mTree V with
  | error e => rw [hu] at h; cases h
  | ok tree =>
    rw [hu] at h
    simp only [Except.ok.injEq] at h
    subst h
    exact ⟨Bool.eq_false_iff.2 hd, rfl, rfl⟩

theorem NTreeAlg.updateNeighbors_spec {sqrtF : ℚ → ℚ} {alg alg' : NTreeAlg}
    {objs objs' : List SpaceProxyObject} {fuel : Nat} {pObjects : List Nat}
    (h : alg.updateNeighbors sqrtF objs fuel pObjects = .ok (alg', objs')) :
    alg' = { alg with mTree := alg'.mTree } := by
  unfold NTreeAlg.updateNeighbors at h
  split_ifs at h with hd
  cases hc : NTreeVisitor.calcNeighbors sqrtF alg.mDim fuel (alg.mTree, objs) pObjects with
  | error e => rw [hc] at h; cases h
  | ok s =>
    rw [hc] at h
    simp only [Except.ok.injEq, Prod.mk.injEq] at h
    rw [← h.1]

theorem dimMismatch_header {alg alg0 : NTreeAlg} (h : alg.mMinPos = alg0.mMinPos)
    (objs : List SpaceProxyObject) (V : List Nat) :
    alg.dimMismatch objs V = alg0.dimMismatch objs V := by
  unfold NTreeAlg.dimMismatch
  rw [h]

/-- `Space::update` of a space with an N-tree, called again on its own result, returns that
result: the space after the first call is a fixed point of the update. The tree of that
space has a root, so that the second call updates the tree and does not build it. -/
theorem Space.update_again {sqrtF : ℚ → ℚ} {fuel : Nat} {space s1 : Space}
    (hok : SpaceOK space) (h : space.update sqrtF fuel = .ok s1) :
    s1.update sqrtF fuel = .ok s1 ∧ s1.mSpaceAlg.mTree.mRootNode ≠ none := by
  obtain ⟨s0, alg1, h1, h2, h3, hv, hn⟩ := Space.update_phases h
  obtain ⟨ok1, ho1, hf1, hvis1, -⟩ := Space.updateObjects_ok h1 hok
  obtain ⟨ok2, d2, min2, max2, fix2, -, -, r0, root0, hr0, hrn0, hro0⟩ :=
    NTreeAlg.updateStructure_ok h2 ok1.tree
  obtain ⟨hdm, hut, -⟩ := NTreeAlg.updateStructure_spec h2
  obtain ⟨d3, min3, max3, fix3⟩ := NTreeAlg.updateNeighbors_header h3
  have halg2 := NTreeAlg.updateNeighbors_spec h3
  obtain ⟨r, root, hr, hroot, hV, hb⟩ := updateTree_visited _ _ _ _ _ _ hut ok1.tree
    (by
      intro i hi
      obtain ⟨q, hq, hvq, -⟩ := hvis1 i hi
      unfold visibleOf
      rw [ho1, hq]
      exact hvq)
  have K := SearchInv.ofTree sqrtF alg1.mDim s0.mObjects alg1.mTree s0.mVisibleObjects ok2
    (by
      intro r' node' hr' hn'
      rw [hr0] at hr'
      cases hr'
      rw [hrn0] at hn'
      cases hn'
      rw [hro0]
      exact fun i hi => hi)
  obtain ⟨hI, hP, -⟩ := NTreeAlg.updateNeighbors_inv K h3 (SameTree.sameTree_refl _)
    (fun root hroot => Reach.root root hroot)
  have hmap : s1.mObjects.map SpaceProxyObject.withoutRelations
      = s0.mObjects.map SpaceProxyObject.withoutRelations := hP.1
  have e1 : s1.updateObjects = .ok s1 :=
    Space.updateObjects_again h1 (by rw [hmap, ho1]) (min3.trans min2) (max3.trans max2)
      (fix3.trans fix2) hv hn
  have e2 : s1.mSpaceAlg.updateStructure s1.mObjects fuel s1.mVisibleObjects = .ok alg1 := by
    unfold NTreeAlg.updateStructure
    rw [dimMismatch_header (min3.trans min2), dimMismatch_congr _ hmap, hv, hdm]
    simp only [Bool.false_eq_true, if_false]
    rw [d3, d2, updateTree_built s0.mSpaceAlg.mDim s1.mObjects (root.mLevel + fuel) fuel
      alg1.mTree s1.mSpaceAlg.mTree s0.mVisibleObjects r root
      (by rw [← d2]; exact ok2.nodes.mono fun m _ => trivial) hr hroot hV (le_refl _)
      (fun m hm => (hb m hm).builtAt_congr hmap.symm) hI]
    simp only
    rw [halg2]
    simp only
    rw [← d2]
  have e3 : alg1.updateNeighbors sqrtF s1.mObjects fuel s1.mNeighborObjects
      = .ok (s1.mSpaceAlg, s1.mObjects) := by
    rw [hn]
    exact NTreeAlg.updateNeighbors_again h3 hmap.symm
  refine ⟨?_, ?_⟩
  · unfold Space.update
    rw [e1]
    simp only
    rw [e2]
    simp only
    rw [e3]
  · rw [hI.2.1, hr]
    exact fun hne => Option.noConfusion hne

/-- What `Space::updateObjects` leaves behind for a space with a `PermanentNeighborsAlg`, in
terms of the two classification loops. -/
theorem PermanentSpace.updateObjects_classified_permanent {space s0 : PermanentSpace}
    (h : space.updateObjects = .ok s0) :
    s0.mSpaceAlg.mFixedSize = space.mSpaceAlg.mFixedSize ∧
      (space.mSpaceAlg.mFixedSize = true →
        s0.mSpaceAlg.mMinPos = space.mSpaceAlg.mMinPos ∧
        s0.mSpaceAlg.mMaxPos = space.mSpaceAlg.mMaxPos ∧
        s0.mVisibleObjects =
          (classifyFixed space.mSpaceAlg.mMinPos space.mSpaceAlg.mMaxPos space.mObjects).1 ∧
        s0.mNeighborObjects =
          (classifyFixed space.mSpaceAlg.mMinPos space.mSpaceAlg.mMaxPos space.mObjects).2) ∧
      (space.mSpaceAlg.mFixedSize = false →
        (s0.mSpaceAlg.mMinPos, s0.mSpaceAlg.mMaxPos, s0.mVisibleObjects, s0.mNeighborObjects)
          = classifyFree space.mSpaceAlg.mMinPos space.mSpaceAlg.mMaxPos space.mObjects) := by
  unfold PermanentSpace.updateObjects at h
  simp only at h
  by_cases hf : space.mSpaceAlg.mFixedSize = true
  · rw [if_pos hf] at h
    simp only [Except.ok.injEq] at h
    subst h
    exact ⟨rfl, fun _ => ⟨rfl, rfl, rfl, rfl⟩, fun h0 => by rw [hf] at h0; cases h0⟩
  · rw [if_neg hf] at h
    by_cases hc : (classifyFree space.mSpaceAlg.mMinPos space.mSpaceAlg.mMaxPos
          space.mObjects).1 ≠ space.mSpaceAlg.mMinPos ∨
        (classifyFree space.mSpaceAlg.mMinPos space.mSpaceAlg.mMaxPos
          space.mObjects).2.1 ≠ space.mSpaceAlg.mMaxPos
    · rw [if_pos hc] at h
      cases hr : space.mSpaceAlg.resize
          (classifyFree space.mSpaceAlg.mMinPos space.mSpaceAlg.mMaxPos space.mObjects).1
          (classifyFree space.mSpaceAlg.mMinPos space.mSpaceAlg.mMaxPos space.mObjects).2.1 with
      | error e => rw [hr] at h; cases h
      | ok alg' =>
        rw [hr] at h
        simp only [Except.ok.injEq] at h
        subst h
        obtain ⟨r1, r2, r3⟩ := PermanentNeighborsAlg.resize_ok_permanent hr
        refine ⟨r3, fun h0 => absurd h0 hf, fun _ => ?_⟩
        simp only
        rw [r1, r2]
    · rw [if_neg hc] at h
      simp only [Except.ok.injEq] at h
      subst h
      rw [not_or, not_not, not_not] at hc
      exact ⟨rfl, fun h0 => absurd h0 hf, fun _ => Prod.ext hc.1.symm (Prod.ext hc.2.symm rfl)⟩

theorem PermanentSpace.updateObjects_again_permanent {space s0 s1 : PermanentSpace}
    (h : space.updateObjects = .ok s0)
    (hmap : s1.mObjects.map SpaceProxyObject.withoutRelations
      = space.mObjects.map SpaceProxyObject.withoutRelations)
    (hmin : s1.mSpaceAlg.mMinPos = s0.mSpaceAlg.mMinPos)
    (hmax : s1.mSpaceAlg.mMaxPos = s0.mSpaceAlg.mMaxPos)
    (hfix : s1.mSpaceAlg.mFixedSize = s0.mSpaceAlg.mFixedSize)
    (hvis : s1.mVisibleObjects = s0.mVisibleObjects)
    (hnbr : s1.mNeighborObjects = s0.mNeighborObjects) : s1.updateObjects = .ok s1 := by
  obtain ⟨c1, c2, c3⟩ := PermanentSpace.updateObjects_classified_permanent h
  unfold PermanentSpace.updateObjects
  simp only
  by_cases hf : space.mSpaceAlg.mFixedSize = true
  · obtain ⟨d1, d2, d3, d4⟩ := c2 hf
    rw [if_pos (by rw [hfix, c1, hf]), hmin, hmax, d1, d2, classifyFixed_congr _ _ hmap, ← d3,
      ← d4, ← hvis, ← hnbr]
  · have hff : space.mSpaceAlg.mFixedSize = false := Bool.eq_false_iff.2 hf
    have d := c3 hff
    have e : classifyFree s1.mSpaceAlg.mMinPos s1.mSpaceAlg.mMaxPos s1.mObjects
        = (s1.mSpaceAlg.mMinPos, s1.mSpaceAlg.mMaxPos, s1.mVisibleObjects,
            s1.mNeighborObjects) := by
      rw [classifyFree_congr _ _ hmap, hmin, hmax, hvis, hnbr, d]
      have d1 := congrArg (fun x => x.1) d
      have d2 := congrArg (fun x => x.2.1) d
      simp only at d1 d2
      rw [d1, d2]
      exact classifyFree_again _ _ _
    rw [if_neg (by rw [hfix, c1, hff]; simp), e]
    simp only [ne_eq, not_true_eq_false, or_self, if_false]

theorem withoutRelations_ext {p q : SpaceProxyObject} (h1 : q.mSpaceObject = p.mSpaceObject)
    (h2 : q.mNeighborGroup.mVisible = p.mNeighborGroup.mVisible)
    (h3 : q.mNeighborGroup.mNeighborGroupAlg = p.mNeighborGroup.mNeighborGroupAlg) :
    q.withoutRelations = p.withoutRelations := by
  obtain ⟨po, ⟨pv, pa, pr⟩⟩ := p
  obtain ⟨qo, ⟨qv, qa, qr⟩⟩ := q
  simp only at h1 h2 h3
  subst h1 h2 h3
  rfl

/-- The loop of `PermanentNeighborsAlg::updateNeighbors` changes nothing when the relations
of every proxy it passes are already recomputed. -/
theorem permanent_fold_fixed (sqrtF : ℚ → ℚ) (heap : Nat → Option SpaceObject)
    (cur : List SpaceProxyObject) :
    ∀ (pObjects : List Nat),
      (∀ i ∈ pObjects, ∃ object : SpaceProxyObject, cur[i]? = some object ∧
        (object.canHaveNeighbors = true →
          PermanentNeighborsAlg.updateRelations sqrtF heap object.mSpaceObject
            object.mNeighborGroup.mNeighborRelations
              = .ok object.mNeighborGroup.mNeighborRelations)) →
      pObjects.foldlM
        (fun (cur : List SpaceProxyObject) i =>
          match cur[i]? with
          | none => (.error .undefinedBehaviour : Except Fault (List SpaceProxyObject))
          | some object =>
            if object.canHaveNeighbors then
              match PermanentNeighborsAlg.updateRelations sqrtF heap object.mSpaceObject
                  object.mNeighborGroup.mNeighborRelations with
              | .error e => .error e
              | .ok rels' =>
                .ok (cur.set i { object with
                  mNeighborGroup :=
                    { object.mNeighborGroup with mNeighborRelations := rels' } })
            else .ok cur)
        cur = .ok cur := by
  intro pObjects
  induction pObjects with
  | nil => intro _; rfl
  | cons i rest ih =>
    intro hall
    obtain ⟨object, ho, hu⟩ := hall i (List.mem_cons_self _ _)
    simp only [List.foldlM_cons]
    rw [ho]
    simp only
    by_cases hc : object.canHaveNeighbors = true
    · rw [if_pos hc, hu hc]
      simp only
      have : ({ object with mNeighborGroup := { object.mNeighborGroup with
          mNeighborRelations := object.mNeighborGroup.mNeighborRelations } } :
          SpaceProxyObject) = object := rfl
      rw [this, set_getElem?_self ho]
      exact ih fun j hj => hall j (List.mem_cons_of_mem _ hj)
    · rw [if_neg hc]
      exact ih fun j hj => hall j (List.mem_cons_of_mem _ hj)

/-- `Space::update` of a space with a `PermanentNeighborsAlg`, called again on its own
result with the objects where they were, returns that result. -/
theorem PermanentSpace.update_again_permanent {sqrtF : ℚ → ℚ}
    {heap : Nat → Option SpaceObject} {space s1 : PermanentSpace}
    (h : space.update sqrtF heap = .ok s1) : s1.update sqrtF heap = .ok s1 := by
  obtain ⟨s0, h1, h3, ha, hv, hn, hlen, hobj⟩ := PermanentSpace.update_spec h
  have hmap : s1.mObjects.map SpaceProxyObject.withoutRelations
      = space.mObjects.map SpaceProxyObject.withoutRelations := by
    apply List.ext_getElem?
    intro k
    rw [List.getElem?_map, List.getElem?_map]
    cases hp : space.mObjects[k]? with
    | none =>
      rw [List.getElem?_eq_none (by
        rw [hlen]
        by_contra hcon
        rw [List.getElem?_eq_getElem (by omega)] at hp
        cases hp)]
    | some p =>
      obtain ⟨p', hp', e1, e2, e3, -⟩ := hobj k p hp
      rw [hp']
      simp only [Option.map_some', Option.some.injEq]
      exact withoutRelations_ext e1 e2 e3
  have e1 : s1.updateObjects = .ok s1 :=
    PermanentSpace.updateObjects_again_permanent h1 hmap (by rw [ha]) (by rw [ha]) (by rw [ha])
      hv hn
  have e2 : s1.mSpaceAlg.updateNeighbors sqrtF heap s1.mObjects s1.mNeighborObjects
      = .ok s1.mObjects := by
    unfold PermanentNeighborsAlg.updateNeighbors
    rw [if_neg (by rw [ha, h3]; simp)]
    apply permanent_fold_fixed
    intro i hi
    rw [hn] at hi
    obtain ⟨p, hp, hcan⟩ := PermanentSpace.updateObjects_neighbor h1 hi
    obtain ⟨p', hp', e1, -, -, e4, -⟩ := hobj i p hp
    refine ⟨p', hp', fun _ => ?_⟩
    rw [e1]
    exact updateRelations_idem (e4 ⟨hi, hcan⟩)
  unfold PermanentSpace.update
  rw [e1]
  simp only
  rw [e2]

theorem findProxyIndex_none (mObjects : List SpaceProxyObject) (o : SpaceObject) :
    findProxyIndex mObjects o = none ↔ o.mId ∉ mObjects.map fun p => p.mSpaceObject.mId := by
  unfold findProxyIndex
  simp only [List.mem_map, not_exists, not_and]
  constructor
  · intro h p hp he
    have hlt : (mObjects.findIdx fun p => decide (p.mSpaceObject.mId = o.mId)) <
        mObjects.length := List.findIdx_lt_length_of_exists ⟨p, hp, by simpa using he⟩
    simp [hlt] at h
  · intro h
    have : ¬ (mObjects.findIdx fun p => decide (p.mSpaceObject.mId = o.mId)) <
        mObjects.length := by
      intro hlt
      have := List.findIdx_getElem (w := hlt)
      simp only [decide_eq_true_eq] at this
      exact h _ (List.getElem_mem _) this
    simp [this]

theorem findProxyIndex_some {mObjects : List SpaceProxyObject} {o : SpaceObject} {i : Nat}
    (h : findProxyIndex mObjects o = some i) :
    ∃ l1 p l2, mObjects = l1 ++ p :: l2 ∧ l1.length = i ∧ p.mSpaceObject.mId = o.mId ∧
      (∀ q ∈ l1, q.mSpaceObject.mId ≠ o.mId) ∧ mObjects.eraseIdx i = l1 ++ l2 := by
  unfold findProxyIndex at h
  simp only at h
  split_ifs at h with hlt
  cases h
  set i := mObjects.findIdx fun p => decide (p.mSpaceObject.mId = o.mId) with hi
  have hp := List.findIdx_getElem (w := hlt)
  simp only [decide_eq_true_eq] at hp
  refine ⟨mObjects.take i, mObjects[i], mObjects.drop (i + 1), ?_, ?_, hp, ?_, ?_⟩
  · rw [← List.drop_eq_getElem_cons hlt, List.take_append_drop]
  · rw [List.length_take]
    omega
  · intro q hq
    obtain ⟨k, hk, rfl⟩ := List.getElem_of_mem hq
    rw [List.length_take] at hk
    rw [List.getElem_take]
    have := @List.not_of_lt_findIdx _ (fun p => decide (p.mSpaceObject.mId = o.mId))
      mObjects k (by omega)
    simpa using this
  · rw [List.eraseIdx_eq_take_drop_succ]

theorem removeObjectFrom_spec {R : Type} (remove : R → Option R)
    (mObjects : List SpaceProxyObject) (registry : R) (pObject : SpaceObject) :
    (pObject.mId ∉ mObjects.map (fun p => p.mSpaceObject.mId) →
      removeObjectFrom remove mObjects registry pObject =
        (.error .exception, mObjects, registry)) ∧
    ((remove registry).isSome = true →
      ((removeObjectFrom remove mObjects registry pObject).1 = .ok () ↔
        pObject.mId ∈ mObjects.map (fun p => p.mSpaceObject.mId))) ∧
    ((removeObjectFrom remove mObjects registry pObject).1 = .ok () →
      ∃ l1 p l2, mObjects = l1 ++ p :: l2 ∧ p.mSpaceObject.mId = pObject.mId ∧
        (∀ q ∈ l1, q.mSpaceObject.mId ≠ pObject.mId) ∧
        (removeObjectFrom remove mObjects registry pObject).2.1 = l1 ++ l2 ∧
        remove registry = some (removeObjectFrom remove mObjects registry pObject).2.2) ∧
    (DistinctObjects mObjects →
      (removeObjectFrom remove mObjects registry pObject).1 = .ok () →
      pObject.mId ∉ (removeObjectFrom remove mObjects registry pObject).2.1.map
        (fun p => p.mSpaceObject.mId)) := by
  have hc : (removeObjectFrom remove mObjects registry pObject).1 = .ok () →
      ∃ l1 p l2, mObjects = l1 ++ p :: l2 ∧ p.mSpaceObject.mId = pObject.mId ∧
        (∀ q ∈ l1, q.mSpaceObject.mId ≠ pObject.mId) ∧
        (removeObjectFrom remove mObjects registry pObject).2.1 = l1 ++ l2 ∧
        remove registry = some (removeObjectFrom remove mObjects registry pObject).2.2 := by
    unfold removeObjectFrom
    cases hf : findProxyIndex mObjects pObject with
    | none => simp
    | some i =>
      obtain ⟨l1, p, l2, h1, -, h3, h4, h5⟩ := findProxyIndex_some hf
      cases hr : remove registry with
      | none => simp
      | some r => exact fun _ => ⟨l1, p, l2, h1, h3, h4, h5, rfl⟩
  refine ⟨?_, ?_, hc, ?_⟩
  · intro h
    unfold removeObjectFrom
    rw [(findProxyIndex_none mObjects pObject).2 h]
  · intro hr
    constructor
    · intro h
      obtain ⟨l1, p, l2, h1, h2, -⟩ := hc h
      rw [h1]
      simp only [List.map_append, List.map_cons, List.mem_append, List.mem_cons]
      exact Or.inr (Or.inl h2.symm)
    · intro h
      unfold removeObjectFrom
      cases hf : findProxyIndex mObjects pObject with
      | none => exact absurd h ((findProxyIndex_none mObjects pObject).1 hf)
      | some i =>
        cases hq : remove registry with
        | none => simp [hq] at hr
        | some r => rfl
  · intro hd h
    obtain ⟨l1, p, l2, h1, h2, h3, h4, -⟩ := hc h
    rw [h4]
    unfold DistinctObjects at hd
    rw [h1, List.map_append, List.map_cons, List.nodup_append] at hd
    obtain ⟨-, hd2, -⟩ := hd
    rw [List.nodup_cons, h2] at hd2
    simp only [List.map_append, List.mem_append, List.mem_map, not_or, not_exists, not_and]
    refine ⟨fun q hq he => h3 q hq he, fun q hq he => hd2.1 ?_⟩
    exact List.mem_map.2 ⟨q, hq, he⟩

theorem floatToUnsigned_ok {x : ℚ} (h0 : 0 ≤ x) (h1 : x < 2 ^ 32) :
    floatToUnsigned x = .ok ⌊x⌋.toNat := by
  unfold floatToUnsigned
  rw [if_neg]
  · rfl
  · intro h
    rcases h with h | h
    · linarith
    · linarith

theorem ManagedSpace.update_again_managed {sqrtF : ℚ → ℚ} {fuel : Nat}
    {heap : Nat → Option SpaceObject} {s s1 : ManagedSpace} {c c1 : Nat}
    (hs : s.Settled) (h : s.update sqrtF fuel heap c = .ok (s1, c1)) :
    s1.update sqrtF fuel heap c1 = .ok (s1, c1) := by
  cases s with
  | ntree space =>
    unfold ManagedSpace.update at h
    simp only at h
    cases hu : space.update sqrtF fuel with
    | error e =>
      rw [hu] at h
      cases h
    | ok t =>
      rw [hu] at h
      cases h
      unfold ManagedSpace.update
      simp only
      rw [(Space.update_again hs hu).1]
  | permanent space =>
    unfold ManagedSpace.update at h
    simp only at h
    cases hu : space.update sqrtF heap with
    | error e =>
      rw [hu] at h
      cases h
    | ok t =>
      rw [hu] at h
      cases h
      unfold ManagedSpace.update
      simp only
      rw [PermanentSpace.update_again_permanent hu]
  | grid space => exact absurd hs id

theorem SpaceManager.update_settled (sqrtF : ℚ → ℚ) (fuel : Nat)
    (heap : Nat → Option SpaceObject) (mSpaces : List ManagedSpace) (c : Nat)
    (hs : ∀ s ∈ mSpaces, s.Settled) :
    SpaceManager.update sqrtF fuel heap mSpaces c = updateEachOnce sqrtF fuel heap mSpaces c := by
  unfold SpaceManager.update updateEachOnce
  have key : ∀ (l : List ManagedSpace) (st : List ManagedSpace × Nat),
      (∀ s ∈ l, s.Settled) →
      l.foldlM
        (fun (st : List ManagedSpace × Nat) s =>
          match s.update sqrtF fuel heap st.2 with
          | .error e => (.error e : Except Fault (List ManagedSpace × Nat))
          | .ok (s1, count1) =>
            match s1.update sqrtF fuel heap count1 with
            | .error e => .error e
            | .ok (s2, count2) => .ok (st.1 ++ [s2], count2)) st =
      l.foldlM
        (fun (st : List ManagedSpace × Nat) s =>
          match s.update sqrtF fuel heap st.2 with
          | .error e => (.error e : Except Fault (List ManagedSpace × Nat))
          | .ok (s1, count1) => .ok (st.1 ++ [s1], count1)) st := by
    intro l
    induction l with
    | nil => intro st _; rfl
    | cons s rest ih =>
      intro st hl
      rw [List.foldlM_cons, List.foldlM_cons]
      cases hu : s.update sqrtF fuel heap st.2 with
      | error e => rfl
      | ok r =>
        obtain ⟨s1, c1⟩ := r
        simp only [ManagedSpace.update_again_managed (hl s (List.mem_cons_self _ _)) hu]
        exact ih _ (fun t ht => hl t (List.mem_cons_of_mem _ ht))
  exact key mSpaces _ hs

/-- The loop over the children of a node returns when every step does. -/
theorem visitChildren_returns {mDim : Nat} {objs : List SpaceProxyObject} {B lev : Nat}
    (D : Int) (cOf : Nat → Option Nat) (step : NTree → Nat → Except Fault NTree)
    (hstep : ∀ (t : NTree) (k c : Nat) (child : NTreeNode) (t1 : NTree),
      cOf k = some c → t.nodes[c]? = some child → step t k = .ok t1 →
      NodesOK mDim (fun _ => True) t → child.mLastCheckedObject = none →
      (∀ i ∈ child.mObjects, visibleOf objs i = true) → child.mLevel = lev →
      Visited mDim objs B lev t t1 c)
    (hret : ∀ (t : NTree) (k c : Nat) (child : NTreeNode),
      cOf k = some c → t.nodes[c]? = some child →
      NodesOK mDim (fun _ => True) t → child.mLastCheckedObject = none →
      (∀ i ∈ child.mObjects, visibleOf objs i = true) → child.mLevel = lev →
      t.mMaxDepth = D → ∃ t1 : NTree, step t k = .ok t1) :
    ∀ (L : List Nat) (t : NTree), NodesOK mDim (fun _ => True) t → t.mMaxDepth = D →
      (∀ k ∈ L, ∃ (c : Nat) (child : NTreeNode), cOf k = some c ∧
        t.nodes[c]? = some child ∧ child.mLastCheckedObject = none ∧
        (∀ i ∈ child.mObjects, visibleOf objs i = true) ∧ child.mLevel = lev) →
      ∃ t' : NTree, L.foldlM step t = .ok t' := by
  intro L
  induction L with
  | nil =>
    intro t _ _ _
    exact ⟨t, rfl⟩
  | cons k rest ih =>
    intro t hok hD hpre
    obtain ⟨c, child, hc, hch, hmark, hvis, hlev⟩ := hpre k (List.mem_cons_self _ _)
    obtain ⟨t1, hs⟩ := hret t k c child hc hch hok hmark hvis hlev hD
    have V := hstep t k c child t1 hc hch hs hok hmark hvis hlev
    have hpre1 : ∀ k' ∈ rest, ∃ (c' : Nat) (child' : NTreeNode), cOf k' = some c' ∧
        t1.nodes[c']? = some child' ∧ child'.mLastCheckedObject = none ∧
        (∀ i ∈ child'.mObjects, visibleOf objs i = true) ∧ child'.mLevel = lev := by
      intro k' hk'
      obtain ⟨c', child', hc', hch', hmark', hvis', hlev'⟩ :=
        hpre k' (List.mem_cons_of_mem _ hk')
      obtain ⟨x1, hx1, -, s2, -, -, s5⟩ := V.stable.nodes c' child' hch'
      by_cases hcc : c' = c
      · subst hcc
        obtain ⟨x', hx', hm'⟩ := V.mark child' hch'
        rw [hx1] at hx'
        cases hx'
        refine ⟨c', x1, hc', hx1, by rw [hm', hmark'], ?_, by rw [s2, hlev']⟩
        rw [s5 (by omega)]
        exact hvis'
      · have hnu : ¬ Under t1 c c' := by
          intro hu
          obtain ⟨y1, hy1, -, r2, -⟩ := V.stable.nodes c child hch
          exact hcc ((hu.level y1 x1 hy1 hx1).2 (by rw [s2, r2, hlev, hlev']))
        exact ⟨c', child', hc', V.frame c' child' hch' hnu, hmark', hvis', hlev'⟩
    obtain ⟨t', ht'⟩ := ih t1 V.ok (V.depth.trans hD) hpre1
    refine ⟨t', ?_⟩
    rw [List.foldlM_cons, hs]
    exact ht'

/-- `buildTree(NTree&, NTreeNode*)` returns when the depth limit of the tree is not negative
and the recursion budget exceeds the number of levels left below the node. -/
theorem buildTreeNode_returns (mDim : Nat) (objs : List SpaceProxyObject) :
    ∀ (fuel : Nat) (tree : NTree) (n : Nat) (node : NTreeNode),
      tree.nodes[n]? = some node → NodesOK mDim (fun _ => True) tree →
      node.mLastCheckedObject = none → (∀ i ∈ node.mObjects, visibleOf objs i = true) →
      0 ≤ tree.mMaxDepth → 1 ≤ fuel → tree.mMaxDepth.toNat + 1 ≤ node.mLevel + fuel →
      ∃ tree' : NTree, NTreeVisitor.buildTreeNode mDim objs fuel tree n = .ok tree' := by
  intro fuel
  induction fuel with
  | zero =>
    intro tree n node _ _ _ _ _ h1
    omega
  | succ fuel ih =>
    intro tree n node hn hok hmark hvis hD _ hfuel
    by_cases hsub : subdivides tree node = true
    · rw [buildTreeNode_subdivided mDim objs fuel tree n node hn hsub]
      have hlev : node.mLevel < tree.mMaxDepth.toNat := by
        unfold subdivides at hsub
        simp only [Bool.and_eq_true, Bool.or_eq_true, decide_eq_true_eq] at hsub
        rcases hsub.1.2 with h | h
        · omega
        · unfold toUInt at h
          rw [if_pos hD] at h
          exact h
      obtain ⟨k1, -⟩ := NodesOK.subdivide (P := fun _ => True)
        ((List.range (2 ^ mDim)).map (newChild mDim objs n node))
        (hok.mono fun m _ => Or.inl trivial) hn (by simp)
        (by
          intro j ch hj
          rw [List.getElem?_map] at hj
          have hjl : j < 2 ^ mDim := by
            by_contra hcon
            rw [List.getElem?_eq_none (by simp; omega)] at hj
            cases hj
          rw [List.getElem?_range hjl] at hj
          simp only [Option.map_some', Option.some.injEq] at hj
          subst hj
          exact ⟨rfl, rfl, rfl, rfl, rfl, fun i hi => (List.mem_filter.1 hi).1⟩)
      obtain ⟨-, -, f3⟩ := subdivided_nodes
        ({ node with mChildren :=
            (List.range (2 ^ mDim)).map (fun childNr => some (tree.nodes.length + childNr)) } :
          NTreeNode)
        ((List.range (2 ^ mDim)).map (newChild mDim objs n node)) hn
      have hkid : ∀ j : Nat, j < 2 ^ mDim →
          ((List.range (2 ^ mDim)).map (newChild mDim objs n node))[j]?
            = some (newChild mDim objs n node j) := by
        intro j hj
        rw [List.getElem?_map, List.getElem?_range hj]
        rfl
      exact @visitChildren_returns mDim objs (node.mLevel + 1 + fuel) (node.mLevel + 1)
        tree.mMaxDepth
        (fun k => some (tree.nodes.length + k))
        (fun t i => NTreeVisitor.buildTreeNode mDim objs fuel t (tree.nodes.length + i))
        (by
          intro t k c child t1 hc hch hs hokt hm hv hl
          simp only [Option.some.injEq] at hc
          subst hc
          have := buildTreeNode_visited mDim objs (node.mLevel + 1 + fuel) fuel t _ child t1 hs
            hch hokt hm hv (by omega)
          rw [hl] at this
          exact this)
        (by
          intro t k c child hc hch hokt hm hv hl hd
          simp only [Option.some.injEq] at hc
          subst hc
          exact ih t _ child hch hokt hm hv (by rw [hd]; exact hD) (by omega)
            (by rw [hd, hl]; omega))
        (List.range (2 ^ mDim)) _ k1 rfl
        (by
          intro k hk
          have hkl := List.mem_range.1 hk
          refine ⟨_, newChild mDim objs n node k, rfl, f3 k _ (hkid k hkl), rfl, ?_, rfl⟩
          intro i hi
          exact hvis i (List.mem_filter.1 hi).1)
    · rw [buildTreeNode_leaf mDim objs fuel tree n node hn hsub]
      exact ⟨_, rfl⟩

/-- What `buildTree(NTree&, std::vector<SpaceProxyObject*>&)` returns, given a budget above
the depth limit. -/
theorem buildTree_returns (mDim : Nat) (objs : List SpaceProxyObject) (fuel : Nat)
    (tree : NTree) (V : List Nat) (hok : TreeOK mDim tree)
    (hvis : ∀ i ∈ V, visibleOf objs i = true) (hD : 0 ≤ tree.mMaxDepth)
    (hfuel : tree.mMaxDepth.toNat + 1 ≤ fuel) :
    ∃ (tree' : NTree) (r : Nat) (root : NTreeNode),
      NTreeVisitor.buildTree mDim objs fuel tree V = .ok tree' ∧
      NodesOK mDim (fun _ => True) tree' ∧
      tree'.mMaxDepth = tree.mMaxDepth ∧ tree'.mMinObjectCount = tree.mMinObjectCount ∧
      tree'.mRootNode = some r ∧ tree'.nodes[r]? = some root ∧ root.mObjects = V ∧
      root.mLevel = 0 ∧ root.mMinPos = tree.mMinPos ∧ root.mMaxPos = tree.mMaxPos ∧
      ∀ m : Nat, Reach tree' m → BuiltAt mDim objs fuel tree' m := by
  have hn0 : ∀ x : NTreeNode,
      ({ tree with mRootNode := some tree.nodes.length, nodes := tree.nodes ++ [x] } :
        NTree).nodes[tree.nodes.length]? = some x := by
    intro x
    simp
  have hk1 := (NodesOK.append
    ({ mParent := none, mChildren := List.replicate (2 ^ mDim) none,
       mLastCheckedObject := none, mLevel := 0, mMinPos := tree.mMinPos,
       mMaxPos := tree.mMaxPos, mObjects := V } : NTreeNode) hok.nodes rfl).mono
    fun m _ => trivial
  obtain ⟨tree', h⟩ := buildTreeNode_returns mDim objs fuel _ _ _ (hn0 _) hk1 rfl hvis hD
    (by omega) (by simp only; omega)
  have hv := buildTreeNode_visited mDim objs (0 + fuel) fuel _ _ _ tree' h (hn0 _) hk1 rfl hvis
    (le_refl _)
  obtain ⟨root, hroot, -, p2, p3, p4, p5⟩ := hv.stable.nodes _ _ (hn0 _)
  have hr' : tree'.mRootNode = some tree.nodes.length := by rw [hv.stable.root]
  refine ⟨tree', tree.nodes.length, root, h, hv.ok, hv.depth, hv.count, hr', hroot,
    p5 (le_refl _), p2, p3, p4, ?_⟩
  intro m hm
  obtain ⟨r2, hr2, hd⟩ := Reach.iff_desc.1 hm
  rw [hr'] at hr2
  cases hr2
  have := hv.built m hd
  rw [Nat.zero_add] at this
  exact this

theorem MarkedBy.setNode {src : Nat} {tree : NTree} {n : Nat} {node : NTreeNode}
    (hn : tree.nodes[n]? = some node) :
    MarkedBy src (tree.setNode n { node with mLastCheckedObject := some src }) n ∧
      (∀ m, MarkedBy src tree m →
        MarkedBy src (tree.setNode n { node with mLastCheckedObject := some src }) m) ∧
      (∀ m, m ≠ n →
        MarkedBy src (tree.setNode n { node with mLastCheckedObject := some src }) m →
        MarkedBy src tree m) ∧
      ∀ (m : Nat) (x : NTreeNode),
        (tree.setNode n { node with mLastCheckedObject := some src }).nodes[m]? = some x →
        x.mLastCheckedObject = some src ∨ tree.nodes[m]? = some x := by
  have hlt := getElem?_lt_length hn
  have hself : (tree.setNode n { node with mLastCheckedObject := some src }).nodes[n]?
      = some { node with mLastCheckedObject := some src } := by
    simp only [NTree.setNode]
    rw [List.getElem?_set_self hlt]
  have hother : ∀ m : Nat, m ≠ n →
      (tree.setNode n { node with mLastCheckedObject := some src }).nodes[m]?
        = tree.nodes[m]? := by
    intro m hm
    simp only [NTree.setNode]
    rw [List.getElem?_set_ne (Ne.symm hm)]
  refine ⟨⟨_, hself, rfl⟩, ?_, ?_, ?_⟩
  · rintro m ⟨x, hx, hmx⟩
    by_cases hm : m = n
    · subst hm
      exact ⟨_, hself, rfl⟩
    · exact ⟨x, by rw [hother m hm]; exact hx, hmx⟩
  · rintro m hm ⟨x, hx, hmx⟩
    rw [hother m hm] at hx
    exact ⟨x, hx, hmx⟩
  · intro m x hx
    by_cases hm : m = n
    · subst hm
      rw [hself] at hx
      cases hx
      exact Or.inl rfl
    · rw [hother m hm] at hx
      exact Or.inr hx

theorem SameTree.mark {T0 tree : NTree} {n : Nat} {node : NTreeNode} (m : Option Nat)
    (hS : SameTree T0 tree) (hN : Reach T0 n) (hn : tree.nodes[n]? = some node) :
    SameTree T0 (tree.setNode n { node with mLastCheckedObject := m }) := by
  obtain ⟨h1, h2, h3, h4, h5, h6, h7⟩ := hS
  refine ⟨?_, h2, h3, h4, h5, h6, ?_⟩
  · rw [map_withoutMark_setNode tree n node m hn]
    exact h1
  · intro k hk
    have hne : n ≠ k := fun e => hk (e ▸ hN)
    simp only [NTree.setNode]
    rw [List.getElem?_set_ne hne]
    exact h7 k hk

theorem sumsq_le (dir : List ℚ) :
    ∀ a : ℚ, a ≤ dir.foldl (fun acc x => acc + x * x) a ∧
      ∀ x ∈ dir, a + x * x ≤ dir.foldl (fun acc x => acc + x * x) a := by
  induction dir with
  | nil =>
    intro a
    exact ⟨le_refl _, fun x hx => by cases hx⟩
  | cons y rest ih =>
    intro a
    simp only [List.foldl_cons]
    obtain ⟨h1, h2⟩ := ih (a + y * y)
    refine ⟨by nlinarith [mul_self_nonneg y], ?_⟩
    intro x hx
    rcases List.mem_cons.1 hx with rfl | hx
    · exact h1
    · have := h2 x hx
      nlinarith [mul_self_nonneg y]

theorem coarseSqrt_upper : ∀ x y : ℚ, 0 ≤ y → y * y ≤ x → y ≤ coarseSqrt x := by
  intro x y hy h
  unfold coarseSqrt
  by_cases h1 : y ≤ 1
  · exact le_trans h1 (le_max_right _ _)
  · push_neg at h1
    have : y ≤ y * y := by nlinarith
    exact le_trans (le_trans this h) (le_max_left _ _)

theorem calcNeighborsLeafObject_frame {sqrtF : ℚ → ℚ} {mDim fuel pNode : Nat}
    {s s' : NTree × List SpaceProxyObject} {i : Nat}
    (h : NTreeVisitor.calcNeighborsLeafObject sqrtF mDim fuel pNode s i = .ok s') :
    ∀ k, k ≠ i → s'.2[k]? = s.2[k]? := by
  unfold NTreeVisitor.calcNeighborsLeafObject at h
  cases hi : s.2[i]? with
  | none => rw [hi] at h; cases h
  | some object =>
    rw [hi] at h
    simp only at h
    cases ha : object.mNeighborGroup.mNeighborGroupAlg with
    | none => rw [ha] at h; cases h
    | some alg =>
      rw [ha] at h
      simp only at h
      generalize NTreeVisitor.calcNeighborsObject sqrtF mDim s.2 alg i object.mSpaceObject
        ((List.range mDim).map fun d =>
          if alg.mNeighborRadius ≥ 0 then object.mSpaceObject.mPosition.getD d 0
            - alg.mNeighborRadius else -FLT_MAX)
        ((List.range mDim).map fun d =>
          if alg.mNeighborRadius ≥ 0 then object.mSpaceObject.mPosition.getD d 0
            + alg.mNeighborRadius else FLT_MAX) fuel (s.1, []) pNode = res at h
      cases res with
      | error e => cases h
      | ok r =>
        obtain ⟨tree', rels'⟩ := r
        simp only at h
        cases h
        intro k hk
        simp only
        rw [List.getElem?_set_ne (Ne.symm hk)]

theorem calcNeighborsNode_frame (sqrtF : ℚ → ℚ) (mDim searchFuel : Nat) :
    ∀ (fuel : Nat) (s : NTree × List SpaceProxyObject) (n : Nat) (pObjects : List Nat)
      (s' : NTree × List SpaceProxyObject),
      NTreeVisitor.calcNeighborsNode sqrtF mDim searchFuel fuel s n pObjects = .ok s' →
      ∀ k, k ∉ pObjects → s'.2[k]? = s.2[k]? := by
  intro fuel
  induction fuel with
  | zero =>
    intro s n pObjects s' h
    simp only [NTreeVisitor.calcNeighborsNode] at h
    cases h
  | succ fuel ih =>
    intro s n pObjects s' h
    simp only [NTreeVisitor.calcNeighborsNode] at h
    cases hn : s.1.nodes[n]? with
    | none => rw [hn] at h; cases h
    | some node =>
      rw [hn] at h
      simp only at h
      by_cases hleaf : node.mChildren.getD 0 none = none
      · rw [if_pos hleaf] at h
        have hfold : ∀ (L : List Nat) (t t' : NTree × List SpaceProxyObject),
            L.foldlM (NTreeVisitor.calcNeighborsLeafObject sqrtF mDim searchFuel n) t = .ok t' →
            ∀ k, k ∉ L → t'.2[k]? = t.2[k]? := by
          intro L
          induction L with
          | nil =>
            intro t t' hf k _
            simp only [List.foldlM_nil] at hf
            cases hf
            rfl
          | cons i rest ihL =>
            intro t t' hf k hk
            simp only [List.foldlM_cons] at hf
            cases h1 : NTreeVisitor.calcNeighborsLeafObject sqrtF mDim searchFuel n t i with
            | error e => rw [h1] at hf; cases hf
            | ok t1 =>
              rw [h1] at hf
              rw [ihL t1 t' hf k (fun hm => hk (List.mem_cons_of_mem _ hm)),
                calcNeighborsLeafObject_frame h1 k (fun e => hk (e ▸ List.mem_cons_self _ _))]
        exact hfold pObjects s s' h
      · rw [if_neg hleaf] at h
        cases hd : distributeObjects mDim s.2 s.1 node pObjects with
        | error e => rw [hd] at h; cases h
        | ok groups =>
          rw [hd] at h
          simp only at h
          obtain ⟨-, hsound, -⟩ := distributeObjects_spec mDim s.2 s.1 node pObjects groups hd
          have hfold : ∀ (L : List Nat) (t t' : NTree × List SpaceProxyObject),
              L.foldlM
                (fun (t : NTree × List SpaceProxyObject) i =>
                  match node.mChildren.getD i none with
                  | none => (.error .undefinedBehaviour :
                      Except Fault (NTree × List SpaceProxyObject))
                  | some c =>
                    NTreeVisitor.calcNeighborsNode sqrtF mDim searchFuel fuel t c
                      (groups.getD i []))
                t = .ok t' →
              ∀ k, k ∉ pObjects → t'.2[k]? = t.2[k]? := by
            intro L
            induction L with
            | nil =>
              intro t t' hf k _
              simp only [List.foldlM_nil] at hf
              cases hf
              rfl
            | cons j rest ihL =>
              intro t t' hf k hk
              simp only [List.foldlM_cons] at hf
              cases hcj : node.mChildren.getD j none with
              | none => rw [hcj] at hf; cases hf
              | some c =>
                rw [hcj] at hf
                simp only at hf
                cases hstep : NTreeVisitor.calcNeighborsNode sqrtF mDim searchFuel fuel t c
                    (groups.getD j []) with
                | error e => rw [hstep] at hf; cases hf
                | ok t1 =>
                  rw [hstep] at hf
                  rw [ihL t1 t' hf k hk,
                    ih t c (groups.getD j []) t1 hstep k (fun hm => hk (hsound j k hm).1)]
          exact hfold (List.range (2 ^ mDim)) s s' h

theorem NTreeAlg.updateNeighbors_frame {sqrtF : ℚ → ℚ} {objs : List SpaceProxyObject}
    {alg alg' : NTreeAlg} {fuel : Nat} {pObjects : List Nat} {objs' : List SpaceProxyObject}
    (h : alg.updateNeighbors sqrtF objs fuel pObjects = .ok (alg', objs')) :
    ∀ k, k ∉ pObjects → objs'[k]? = objs[k]? := by
  unfold NTreeAlg.updateNeighbors at h
  split_ifs at h with hdim
  cases hc : NTreeVisitor.calcNeighbors sqrtF alg.mDim fuel (alg.mTree, objs) pObjects with
  | error e => rw [hc] at h; cases h
  | ok r =>
    rw [hc] at h
    obtain ⟨tree, objs1⟩ := r
    simp only [Except.ok.injEq, Prod.mk.injEq] at h
    obtain ⟨h1, h2⟩ := h
    subst h1
    subst h2
    unfold NTreeVisitor.calcNeighbors at hc
    cases hroot : alg.mTree.mRootNode with
    | none =>
      rw [hroot] at hc
      simp only [Except.ok.injEq, Prod.mk.injEq] at hc
      rw [← hc.2]
      exact fun k _ => rfl
    | some root =>
      rw [hroot] at hc
      simp only at hc
      exact calcNeighborsNode_frame sqrtF alg.mDim fuel fuel (alg.mTree, objs) root pObjects
        (tree, objs1) hc

/-- `Space::update` of a space with an N-tree leaves every proxy outside the
neighbor-capable set as it is. -/
theorem Space.update_frame {sqrtF : ℚ → ℚ} {fuel : Nat} {space s' : Space}
    (h : space.update sqrtF fuel = .ok s') :
    ∀ k, k ∉ s'.mNeighborObjects → s'.mObjects[k]? = space.mObjects[k]? := by
  obtain ⟨s1, alg1, h1, -, h3, -, hn⟩ := Space.update_phases h
  have ho := Space.updateObjects_objects h1
  intro k hk
  rw [hn] at hk
  rw [NTreeAlg.updateNeighbors_frame h3 k hk, ho]

/-- The invariant of the neighbor phase with another property of the relation vectors:
one that holds of the empty vector and that the first entry point preserves. -/
theorem SearchInv.withQ {sqrtF : ℚ → ℚ} {mDim : Nat} {objs0 : List SpaceProxyObject}
    {I : NTree → Prop} {N T : Nat → Prop} {Q : Nat → List SpaceNeighborRelation → Prop}
    {Cov : Nat → Nat → Prop} (K : SearchInv sqrtF mDim objs0 I N T Q Cov)
    (Q' : Nat → List SpaceNeighborRelation → Prop) (hempty : ∀ src, Q' src [])
    (hstep : ∀ (src : Nat) (p : SpaceProxyObject) (alg : NeighborGroupAlg)
      (rels : List SpaceNeighborRelation) (q : SpaceProxyObject) (b : Bool)
      (rels' : List SpaceNeighborRelation),
      (objs0[src]?).map SpaceProxyObject.withoutRelations = some p.withoutRelations →
      Q' src rels →
      alg.createNeighbor sqrtF rels p.mSpaceObject q.mSpaceObject = .ok (b, rels') →
      Q' src rels') :
    SearchInv sqrtF mDim objs0 I N T Q' Cov :=
  { mark := K.mark
    objects := K.objects
    child := K.child
    parent := K.parent
    empty := hempty
    step := fun src p alg rels _ q b rels' hp _ _ _ _ hq hc =>
      hstep src p alg rels q b rels' hp hq hc
    cover := K.cover }

/-- `Space::update` of a space with an N-tree that satisfies the invariant of the space:
the relation vector of every proxy of the neighbor-capable set has been built up from the
empty vector by `createNeighbor` calls for the object of the proxy. -/
theorem Space.update_rebuilt {sqrtF : ℚ → ℚ} {fuel : Nat} {space s' : Space}
    (hok : SpaceOK space) (h : space.update sqrtF fuel = .ok s') :
    ∀ k ∈ s'.mNeighborObjects, Done (RebuiltFor sqrtF space.mObjects) k s'.mObjects := by
  obtain ⟨s1, alg1, h1, h2, h3, hv, hn⟩ := Space.update_phases h
  obtain ⟨ok1, ho1, hf1, hvis1, hnb1⟩ := Space.updateObjects_ok h1 hok
  obtain ⟨ok2, d2, min2, max2, fix2, tmin2, tmax2, r, rootNode, hr, hrn, hro⟩ :=
    NTreeAlg.updateStructure_ok h2 ok1.tree
  have K0 := SearchInv.ofTree sqrtF alg1.mDim s1.mObjects alg1.mTree s1.mVisibleObjects ok2
    (by
      intro r' node' hr' hn'
      rw [hr] at hr'
      cases hr'
      rw [hrn] at hn'
      cases hn'
      rw [hro]
      exact fun i hi => hi)
  have K := K0.withQ (RebuiltFor sqrtF s1.mObjects) (fun src p _ => Rebuilt.empty)
    (by
      intro src p alg rels q b rels' hp hQ hc p0 hp0
      rw [hp0] at hp
      simp only [Option.map_some', Option.some.injEq] at hp
      rw [(withoutRelations_eq hp).1]
      have := hQ p0 hp0
      rw [(withoutRelations_eq hp).1] at this
      exact Rebuilt.offer alg rels q.mSpaceObject b rels' this hc)
  obtain ⟨-, -, hD⟩ := NTreeAlg.updateNeighbors_inv K h3 (SameTree.sameTree_refl _)
    (fun root hroot => Reach.root root hroot)
  obtain ⟨rn2, hrn2, -, rmin, rmax⟩ := ok2.root r hr
  rw [hrn] at hrn2
  cases hrn2
  intro k hk
  rw [hn] at hk
  obtain ⟨p0, hp0, hin⟩ := hnb1 k hk
  have hcov : ∃ node : NTreeNode, alg1.mTree.nodes[r]? = some node ∧
      insideBox alg1.mDim (positionOf s1.mObjects k) node.mMinPos node.mMaxPos = true := by
    refine ⟨rootNode, hrn, ?_⟩
    rw [rmin, rmax, tmin2, tmax2, ok1.minPos, ok1.maxPos, d2, ok1.dim]
    simp only [positionOf, ho1, hp0]
    exact hin
  have := hD r hr k hk hcov
  rw [ho1] at this
  exact this

theorem ShapeCache.refresh_spec {M : Type} (ops : MatrixOps M) (fuel : Nat)
    (s : ShapeCache M) (g : Geometry) (hg : s.mGeometry = some g) (hfuel : 6 ≤ fuel) :
    s.refresh ops fuel = .ok (s.refreshed ops g) := by
  obtain ⟨n, rfl⟩ : ∃ n, fuel = n + 6 := ⟨fuel - 6, by omega⟩
  obtain ⟨geo, node, oa, wa, gc, tc, o2w, w2o, calls⟩ := s
  simp only at hg
  subst hg
  cases gc <;> cases tc <;>
    simp [ShapeCache.refresh, ShapeCache.refreshed, ShapeCache.update, ShapeCache.updateAABB,
      ShapeCache.object2world, ShapeCache.updateMatrix]

theorem ShapeCache.object2world_spec {M : Type} (ops : MatrixOps M) (fuel : Nat)
    (s : ShapeCache M) (g : Geometry) (hg : s.mGeometry = some g) (hfuel : 7 ≤ fuel)
    (p : Vec3) :
    ShapeCache.object2world ops fuel s p =
      .ok (ops.mul (s.refreshed ops g).mObject2WorldTransformMatrix p, s.refreshed ops g) := by
  obtain ⟨n, rfl⟩ : ∃ n, fuel = n + 7 := ⟨fuel - 7, by omega⟩
  obtain ⟨geo, node, oa, wa, gc, tc, o2w, w2o, calls⟩ := s
  simp only at hg
  subst hg
  cases gc <;> cases tc <;>
    simp [ShapeCache.refreshed, ShapeCache.update, ShapeCache.updateAABB,
      ShapeCache.object2world, ShapeCache.updateMatrix]

theorem ShapeCache.refreshed_flags {M : Type} (ops : MatrixOps M) (s : ShapeCache M)
    (g : Geometry) :
    (s.refreshed ops g).mTransformChanged = false ∧
      (s.refreshed ops g).mGeometryChanged = false ∧
      (s.refreshed ops g).mGeometry = s.mGeometry ∧
      (s.refreshed ops g).nodeMatrix = s.nodeMatrix := by
  obtain ⟨geo, node, oa, wa, gc, tc, o2w, w2o, calls⟩ := s
  cases gc <;> cases tc <;> simp [ShapeCache.refreshed]

theorem ShapeCache.refreshed_clean {M : Type} (ops : MatrixOps M) (s : ShapeCache M)
    (g : Geometry) (ht : s.mTransformChanged = false) (hc : s.mGeometryChanged = false) :
    s.refreshed ops g = s := by
  unfold ShapeCache.refreshed
  rw [if_neg (by rw [ht, hc]; simp)]

theorem ShapeCache.refreshed_calls {M : Type} (ops : MatrixOps M) (s : ShapeCache M)
    (g : Geometry) :
    ∃ events : List CacheEvent, (s.refreshed ops g).calls = s.calls ++ events ∧
      (CacheEvent.updateAABB ∈ events ↔
        (s.mTransformChanged = true ∨ s.mGeometryChanged = true)) ∧
      (CacheEvent.updateMatrix ∈ events ↔ s.mTransformChanged = true) := by
  obtain ⟨geo, node, oa, wa, gc, tc, o2w, w2o, calls⟩ := s
  cases gc <;> cases tc
  · exact ⟨[], by simp [ShapeCache.refreshed], by simp, by simp⟩
  · exact ⟨[.updateMatrix, .updateAABB], by simp [ShapeCache.refreshed], by simp, by simp⟩
  · exact ⟨[.updateAABB], by simp [ShapeCache.refreshed], by simp, by simp⟩
  · exact ⟨[.updateMatrix, .updateAABB, .updateAABB], by simp [ShapeCache.refreshed],
      by simp, by simp⟩

theorem ShapeCache.AABB_spec {M : Type} (ops : MatrixOps M) (fuel : Nat)
    (s : ShapeCache M) (g : Geometry) (hg : s.mGeometry = some g) (hfuel : 6 ≤ fuel) :
    s.AABB ops fuel = .ok ((s.refreshed ops g).mWorldAABB, s.refreshed ops g) := by
  unfold ShapeCache.AABB
  rw [ShapeCache.refresh_spec ops fuel s g hg hfuel]

theorem wrapUnsigned_of_lt (m : Nat) (h : m < 2 ^ 32) : wrapUnsigned (m : Int) = m := by
  unfold wrapUnsigned
  have h1 : ((m : Int) % 2 ^ 32) = m := by
    apply Int.emod_eq_of_lt
    · exact Int.natCast_nonneg m
    · exact_mod_cast h
  rw [h1]
  exact Int.toNat_natCast m

theorem foldl_mul_take_succ (counts : List Nat) (i : Nat) (n : Nat)
    (h : counts[i]? = some n) :
    (counts.take (i + 1)).foldl (· * ·) 1 = (counts.take i).foldl (· * ·) 1 * n := by
  have hlt : i < counts.length := (List.getElem?_eq_some_iff.1 h).1
  have hn : counts[i] = n := (List.getElem?_eq_some_iff.1 h).2
  rw [List.take_succ, List.foldl_append, h]
  simp

theorem foldl_mul_take_le (counts : List Nat) (hpos : ∀ n ∈ counts, 1 ≤ n) :
    ∀ i, (counts.take i).foldl (· * ·) 1 ≤ counts.foldl (· * ·) 1 := by
  have hmono : ∀ i, (counts.take i).foldl (· * ·) 1 ≤ (counts.take (i + 1)).foldl (· * ·) 1 := by
    intro i
    by_cases hi : i < counts.length
    · rw [foldl_mul_take_succ counts i counts[i] (List.getElem?_eq_getElem hi)]
      exact Nat.le_mul_of_pos_right _ (hpos _ (List.getElem_mem hi))
    · rw [List.take_of_length_le (by omega), List.take_of_length_le (by omega)]
  have hall : ∀ k i, (counts.take i).foldl (· * ·) 1 ≤ (counts.take (i + k)).foldl (· * ·) 1 := by
    intro k
    induction k with
    | zero => intro i; exact le_refl _
    | succ k ih => intro i; exact le_trans (ih i) (hmono (i + k))
  intro i
  have := hall counts.length i
  rw [List.take_of_length_le (show counts.length ≤ i + counts.length by omega)] at this
  exact this

theorem position2indexFlat_eq (g : SpaceGrid) (p : Vec) :
    g.position2indexFlat p =
      if p.length ≠ g.mGridDim then .error .exception
      else
        match (List.range g.mGridDim).foldlM (flatStep g p) (0, 1) with
        | .error e => .error e
        | .ok acc => .ok acc.1 := rfl

theorem floatToUnsigned_scaled {lo hi p : ℚ} {n : Nat} (hn : 1 ≤ n)
    (hn32 : n < 2 ^ 32) (h1 : lo < p) (h2 : p < hi) :
    ∃ k, floatToUnsigned ((p - lo) * (((n : ℚ) - 1) / (hi - lo))) = .ok k ∧ k ≤ n - 1 := by
  have hd : 0 < hi - lo := by linarith
  have hnq : (1 : ℚ) ≤ n := by exact_mod_cast hn
  have hx0 : 0 ≤ (p - lo) * (((n : ℚ) - 1) / (hi - lo)) :=
    mul_nonneg (by linarith) (div_nonneg (by linarith) hd.le)
  have hx1 : (p - lo) * (((n : ℚ) - 1) / (hi - lo)) ≤ (n : ℚ) - 1 := by
    have hfrac : (p - lo) / (hi - lo) ≤ 1 := by
      rw [div_le_one hd]
      linarith
    have : (p - lo) * (((n : ℚ) - 1) / (hi - lo)) = ((n : ℚ) - 1) * ((p - lo) / (hi - lo)) := by
      field_simp
      ring
    rw [this]
    have := mul_le_mul_of_nonneg_left hfrac (show (0 : ℚ) ≤ (n : ℚ) - 1 by linarith)
    linarith
  have hn32q : ((n : ℚ)) < 2 ^ 32 := by exact_mod_cast hn32
  refine ⟨_, floatToUnsigned_ok hx0 (by linarith), ?_⟩
  have hf : ⌊(p - lo) * (((n : ℚ) - 1) / (hi - lo))⌋ ≤ (n : Int) - 1 := by
    have h := Int.floor_le ((p - lo) * (((n : ℚ) - 1) / (hi - lo)))
    have h' : ((⌊(p - lo) * (((n : ℚ) - 1) / (hi - lo))⌋ : Int) : ℚ)
        ≤ (((n : Int) - 1 : Int) : ℚ) := by
      push_cast
      linarith
    exact_mod_cast h'
  omega

theorem positionScale_getElem? (counts : List Nat) (minPos maxPos : Vec) (i : Nat)
    (hi : i < counts.length) :
    (positionScale counts minPos maxPos)[i]? =
      some (((counts.getD i 0 : ℚ) - 1) / (maxPos.getD i 0 - minPos.getD i 0)) := by
  unfold positionScale
  rw [List.getElem?_map, List.getElem?_range hi]
  rfl

theorem flatStep_spec (g : SpaceGrid) (pPosition : Vec) (i idx P n : Nat) (p lo hi : ℚ)
    (e1 : pPosition[i]? = some p) (e2 : g.mMinPos[i]? = some lo)
    (e3 : g.mMaxPos[i]? = some hi) (e4 : g.subdivisionCount[i]? = some n)
    (e5 : g.mPositionScale[i]? = some (((n : ℚ) - 1) / (hi - lo)))
    (hn : 1 ≤ n) (hn32 : n < 2 ^ 32) (hidx : idx < P)
    (hPn : P * n < 2 ^ 32) :
    ∃ idx', flatStep g pPosition (idx, P) i = .ok (idx', P * n) ∧ idx' < P * n := by
  have hw2 : wrapUnsigned ((P : Int) * (n : Int)) = P * n := by
    have := wrapUnsigned_of_lt (P * n) hPn
    push_cast at this
    exact this
  have hsum : (n - 1) * P + P = P * n := by
    rw [← Nat.succ_mul, Nat.succ_eq_add_one, Nat.sub_add_cancel hn, Nat.mul_comm]
  unfold flatStep
  simp only [e1, e2, e3, e4, e5]
  by_cases hge : p ≥ hi
  · rw [if_pos hge]
    have hlt' : idx + (n - 1) * P < P * n := by omega
    have hw1 : wrapUnsigned ((idx : Int) + ((n : Int) - 1) * (P : Int)) = idx + (n - 1) * P := by
      have := wrapUnsigned_of_lt (idx + (n - 1) * P) (by omega)
      push_cast [Nat.cast_sub hn] at this
      exact this
    exact ⟨idx + (n - 1) * P, by rw [hw1, hw2], hlt'⟩
  · rw [if_neg hge]
    by_cases hgt : p > lo
    · rw [if_pos hgt]
      obtain ⟨k, hk, hkn⟩ := floatToUnsigned_scaled hn hn32 hgt (not_le.1 hge)
      rw [hk]
      have hlt' : idx + k * P < P * n := by
        have h1 : k * P ≤ (n - 1) * P := Nat.mul_le_mul_right P hkn
        omega
      have hw1 : wrapUnsigned ((idx : Int) + (k : Int) * (P : Int)) = idx + k * P := by
        have := wrapUnsigned_of_lt (idx + k * P) (by omega)
        push_cast at this
        exact this
      exact ⟨idx + k * P, by simp only; rw [hw1, hw2], hlt'⟩
    · rw [if_neg hgt]
      exact ⟨idx, by rw [hw2], lt_of_lt_of_le hidx (Nat.le_mul_of_pos_right _ hn)⟩

/-- The flat form of `position2index` on a grid that is a box with fewer than 2^32 cells,
whose `mPositionScale` is as the constructor and the setters compute it: for a position
with one entry per axis it returns a flat index, and the index is one of a cell. -/
theorem position2indexFlat_lt (g : SpaceGrid) (p : Vec) (hbox : g.IsBox)
    (hscale : g.mPositionScale = positionScale g.subdivisionCount g.mMinPos g.mMaxPos)
    (hsmall : g.subdivisionCount.foldl (· * ·) 1 < 2 ^ 32) (hp : p.length = g.mGridDim) :
    ∃ k, g.position2indexFlat p = .ok k ∧ k < g.subdivisionCount.foldl (· * ·) 1 := by
  obtain ⟨h1, h2, h3, h4⟩ := hbox
  have hpos : ∀ n ∈ g.subdivisionCount, 1 ≤ n := by
    intro n hn
    obtain ⟨i, hi, rfl⟩ := List.getElem_of_mem hn
    exact (h4 i _ _ _ (List.getElem?_eq_getElem (by omega)) (List.getElem?_eq_getElem (by omega))
      (List.getElem?_eq_getElem hi)).2.1
  have hle := foldl_mul_take_le g.subdivisionCount hpos
  have key : ∀ i, i ≤ g.mGridDim → ∃ idx,
      (List.range i).foldlM (flatStep g p) (0, 1)
        = .ok (idx, (g.subdivisionCount.take i).foldl (· * ·) 1) ∧
      idx < (g.subdivisionCount.take i).foldl (· * ·) 1 := by
    intro i
    induction i with
    | zero =>
      intro _
      exact ⟨0, rfl, by simp⟩
    | succ i ih =>
      intro hi
      obtain ⟨idx, hfold, hidx⟩ := ih (by omega)
      have hic : i < g.subdivisionCount.length := by omega
      have e1 : p[i]? = some (p[i]) := List.getElem?_eq_getElem (by omega)
      have e2 : g.mMinPos[i]? = some (g.mMinPos[i]) := List.getElem?_eq_getElem (by omega)
      have e3 : g.mMaxPos[i]? = some (g.mMaxPos[i]) := List.getElem?_eq_getElem (by omega)
      have e4 : g.subdivisionCount[i]? = some (g.subdivisionCount[i]) :=
        List.getElem?_eq_getElem hic
      obtain ⟨-, b2, b3⟩ := h4 i _ _ _ e2 e3 e4
      have e5 := positionScale_getElem? g.subdivisionCount g.mMinPos g.mMaxPos i hic
      rw [← hscale] at e5
      simp only [List.getD_eq_getElem?_getD, e2, e3, e4, Option.getD_some] at e5
      have hP1 := foldl_mul_take_succ g.subdivisionCount i _ e4
      have hPle : (g.subdivisionCount.take i).foldl (· * ·) 1 * g.subdivisionCount[i] < 2 ^ 32 := by
        have := hle (i + 1)
        rw [hP1] at this
        omega
      obtain ⟨idx', hstep, hidx'⟩ := flatStep_spec g p i idx _ _ _ _ _ e1 e2 e3 e4 e5 b2 b3
        hidx hPle
      refine ⟨idx', ?_, ?_⟩
      · rw [List.range_succ, List.foldlM_append, hfold, hP1]
        simp only [List.foldlM_cons, List.foldlM_nil]
        change (flatStep g p (idx, _) i >>= fun s => pure s) = _
        rw [hstep]
        rfl
      · rw [hP1]
        exact hidx'
  obtain ⟨idx, hfold, hidx⟩ := key g.mGridDim (le_refl _)
  refine ⟨idx, ?_, ?_⟩
  · rw [position2indexFlat_eq, if_neg (by rw [hp]; simp), hfold]
  · rw [List.take_of_length_le (by omega)] at hidx
    exact hidx

theorem foldlM_cons_ok {σ α : Type} (f : σ → α → Except Fault σ) (a : α) (l : List α)
    (s s1 : σ) (h : f s a = .ok s1) : (a :: l).foldlM f s = l.foldlM f s1 := by
  rw [List.foldlM_cons, h]
  rfl

theorem GridAlg.writeOf_eq_some (heap : Nat → Option SpaceObject) (alg : GridAlg)
    (rel : SpaceNeighborRelation) (w : Nat × Vec) :
    alg.writeOf heap rel = some w ↔
      ∃ o, alg.target heap rel.mNeighborObject = some o ∧
        alg.mGrid.position2indexFlat o.mPosition = .ok w.1 ∧ w.2 = rel.mValue := by
  unfold GridAlg.writeOf
  cases ht : alg.target heap rel.mNeighborObject with
  | none => simp
  | some o =>
    simp only
    cases hp : alg.mGrid.position2indexFlat o.mPosition with
    | error e => simp [hp]
    | ok k =>
      simp only [Option.some.injEq, exists_eq_left', hp, Except.ok.injEq]
      constructor
      · rintro rfl
        exact ⟨rfl, rfl⟩
      · rintro ⟨h1, h2⟩
        exact Prod.ext h1 h2.symm

theorem GridAlg.mem_writesOf (heap : Nat → Option SpaceObject) (alg : GridAlg)
    (objs : List SpaceProxyObject) (pObjects : List Nat) (w : Nat × Vec) :
    w ∈ alg.writesOf heap objs pObjects ↔
      ∃ i ∈ pObjects, ∃ p, objs[i]? = some p ∧ p.canHaveNeighbors = true ∧
        ∃ rel ∈ p.mNeighborGroup.mNeighborRelations, alg.writeOf heap rel = some w := by
  unfold GridAlg.writesOf
  simp only [List.mem_flatten, List.mem_map]
  constructor
  · rintro ⟨l, ⟨i, hi, rfl⟩, hw⟩
    cases hp : objs[i]? with
    | none => rw [hp] at hw; simp at hw
    | some p =>
      rw [hp] at hw
      simp only at hw
      by_cases hc : p.canHaveNeighbors = true
      · rw [if_pos hc] at hw
        obtain ⟨rel, hrel, hwr⟩ := List.mem_filterMap.1 hw
        exact ⟨i, hi, p, hp, hc, rel, hrel, hwr⟩
      · rw [if_neg hc] at hw
        simp at hw
  · rintro ⟨i, hi, p, hp, hc, rel, hrel, hwr⟩
    refine ⟨_, ⟨i, hi, rfl⟩, ?_⟩
    rw [hp]
    simp only
    rw [if_pos hc]
    exact List.mem_filterMap.2 ⟨rel, hrel, hwr⟩

theorem UniformChildren.uniform_setNode {tree : NTree} {n : Nat} {x : NTreeNode}
    (h : UniformChildren tree)
    (hx : ∀ j : Nat, x.mChildren.getD j none ≠ none → x.mChildren.getD 0 none ≠ none) :
    UniformChildren (tree.setNode n x) := by
  intro node hnode
  rcases List.mem_or_eq_of_mem_set hnode with hm | rfl
  · exact h node hm
  · exact hx

theorem buildTreeNode_uniform (mDim : Nat) (objs : List SpaceProxyObject) :
    ∀ (fuel : Nat) (tree : NTree) (n : Nat) (tree' : NTree),
      NTreeVisitor.buildTreeNode mDim objs fuel tree n = .ok tree' →
      UniformChildren tree → UniformChildren tree' := by
  intro fuel
  induction fuel with
  | zero =>
    intro tree n tree' h
    simp only [NTreeVisitor.buildTreeNode] at h
    cases h
  | succ fuel ih =>
    intro tree n tree' h hu
    cases hn : tree.nodes[n]? with
    | none =>
      simp only [NTreeVisitor.buildTreeNode] at h
      rw [hn] at h
      cases h
    | some node =>
      by_cases hsub : subdivides tree node = true
      · rw [buildTreeNode_subdivided mDim objs fuel tree n node hn hsub] at h
        refine foldlM_except_inv UniformChildren _ _ _ tree' ?_ ?_ h
        · intro s a s' _ hs hstep
          exact ih s _ s' hstep hs
        · intro x hx
          simp only [List.mem_append, List.mem_map, List.mem_range] at hx
          rcases hx with hx | ⟨j, _, rfl⟩
          · rcases List.mem_or_eq_of_mem_set hx with hm | rfl
            · exact hu x hm
            · intro j _
              simp only
              rw [getD_map_some_range, if_pos (Nat.two_pow_pos mDim)]
              exact fun hc => Option.noConfusion hc
          · intro k hk
            exact absurd (getD_replicate_none _ _) hk
      · rw [buildTreeNode_leaf mDim objs fuel tree n node hn hsub] at h
        cases h
        apply UniformChildren.uniform_setNode hu
        intro k hk
        exact absurd (getD_replicate_none _ _) hk

theorem updateTreeNode_uniform (mDim : Nat) (objs : List SpaceProxyObject) :
    ∀ (fuel : Nat) (tree : NTree) (n : Nat) (tree' : NTree),
      NTreeVisitor.updateTreeNode mDim objs fuel tree n = .ok tree' →
      UniformChildren tree → UniformChildren tree' := by
  intro fuel
  induction fuel with
  | zero =>
    intro tree n tree' h
    simp only [NTreeVisitor.updateTreeNode] at h
    cases h
  | succ fuel ih =>
    intro tree n tree' h hu
    simp only [NTreeVisitor.updateTreeNode] at h
    cases hn : tree.nodes[n]? with
    | none =>
      rw [hn] at h
      cases h
    | some node =>
      rw [hn] at h
      simp only at h
      by_cases hsub : subdivides tree node = true
      · rw [if_pos hsub] at h
        generalize hf1 : (List.range (2 ^ mDim)).foldlM
          (fun (t : NTree) childNr =>
            match node.mChildren.getD childNr none with
            | none => (.error .undefinedBehaviour : Except Fault NTree)
            | some c =>
              match t.nodes[c]? with
              | none => .error .undefinedBehaviour
              | some child =>
                .ok (t.setNode c { child with
                  mLastCheckedObject := none
                  mObjects := node.mObjects.filter fun i =>
                    visibleOf objs i &&
                      insideBox mDim (positionOf objs i) child.mMinPos child.mMaxPos }))
          tree = r1 at h
        cases r1 with
        | error e => cases h
        | ok tree1 =>
          simp only at h
          have hu1 : UniformChildren tree1 := by
            refine foldlM_except_inv UniformChildren _ _ _ tree1 ?_ hu hf1
            intro s a s' _ hs hstep
            simp only at hstep
            cases hc : node.mChildren.getD a none with
            | none => rw [hc] at hstep; cases hstep
            | some c =>
              rw [hc] at hstep
              simp only at hstep
              cases hch : s.nodes[c]? with
              | none => rw [hch] at hstep; cases hstep
              | some child =>
                rw [hch] at hstep
                simp only [Except.ok.injEq] at hstep
                subst hstep
                exact UniformChildren.uniform_setNode hs (hs child (List.getElem?_mem hch))
          refine foldlM_except_inv UniformChildren _ _ _ tree' ?_ hu1 h
          intro s a s' _ hs hstep
          simp only at hstep
          cases hc : node.mChildren.getD a none with
          | none => rw [hc] at hstep; cases hstep
          | some c =>
            rw [hc] at hstep
            simp only at hstep
            cases hch : s.nodes[c]? with
            | none => rw [hch] at hstep; cases hstep
            | some child =>
              rw [hch] at hstep
              simp only at hstep
              by_cases hb : child.mChildren.getD a none = none
              · rw [if_pos hb] at hstep
                exact buildTreeNode_uniform mDim objs fuel s c s' hstep hs
              · rw [if_neg hb] at hstep
                exact ih s c s' hstep hs
      · rw [if_neg hsub] at h
        split_ifs at h with hany
        simp only [Except.ok.injEq] at h
        subst h
        apply UniformChildren.uniform_setNode hu
        intro k hk
        exact absurd (getD_replicate_none _ _) hk

theorem updateTree_uniform (mDim : Nat) (objs : List SpaceProxyObject) (fuel : Nat)
    (tree tree' : NTree) (V : List Nat)
    (h : NTreeVisitor.updateTree mDim objs fuel tree V = .ok tree')
    (hu : UniformChildren tree) : UniformChildren tree' := by
  unfold NTreeVisitor.updateTree at h
  cases hr : tree.mRootNode with
  | none =>
    rw [hr] at h
    simp only [NTreeVisitor.buildTree] at h
    refine buildTreeNode_uniform mDim objs fuel _ _ tree' h ?_
    intro x hx
    simp only [List.mem_append, List.mem_singleton] at hx
    rcases hx with hx | rfl
    · exact hu x hx
    · intro k hk
      exact absurd (getD_replicate_none _ _) hk
  | some r =>
    rw [hr] at h
    simp only at h
    cases hn : tree.nodes[r]? with
    | none => rw [hn] at h; cases h
    | some node =>
      rw [hn] at h
      simp only at h
      have hu1 : UniformChildren
          (tree.setNode r { node with mLastCheckedObject := none, mObjects := V }) :=
        UniformChildren.uniform_setNode hu (hu node (List.getElem?_mem hn))
      by_cases hb : node.mChildren.getD 0 none = none
      · rw [if_pos hb] at h
        exact buildTreeNode_uniform mDim objs fuel _ _ tree' h hu1
      · rw [if_neg hb] at h
        exact updateTreeNode_uniform mDim objs fuel _ _ tree' h hu1

theorem foldlM_except_returns {σ α : Type} (P : σ → Prop) (f : σ → α → Except Fault σ) :
    ∀ (l : List α) (s : σ),
      (∀ s a, a ∈ l → P s → ∃ s', f s a = .ok s' ∧ P s') → P s →
      ∃ s', l.foldlM f s = .ok s' ∧ P s' := by
  intro l
  induction l with
  | nil =>
    intro s _ hs
    exact ⟨s, rfl, hs⟩
  | cons a rest ih =>
    intro s hf hs
    obtain ⟨s1, h1, hP1⟩ := hf s a (List.mem_cons_self _ _) hs
    obtain ⟨s', h2, hP2⟩ := ih s1 (fun s b hb => hf s b (List.mem_cons_of_mem _ hb)) hP1
    refine ⟨s', ?_, hP2⟩
    rw [foldlM_cons_ok f a rest s s1 h1]
    exact h2

/-- The loop over the children of a node returns when every step does, a property `Q` of
the tree that every step keeps being at hand. -/
theorem visitChildren_returns_inv {mDim : Nat} {objs : List SpaceProxyObject} {B lev : Nat}
    (Q : NTree → Prop) (D : Int) (cOf : Nat → Option Nat)
    (step : NTree → Nat → Except Fault NTree)
    (hstep : ∀ (t : NTree) (k c : Nat) (child : NTreeNode) (t1 : NTree),
      cOf k = some c → t.nodes[c]? = some child → step t k = .ok t1 →
      NodesOK mDim (fun _ => True) t → child.mLastCheckedObject = none →
      (∀ i ∈ child.mObjects, visibleOf objs i = true) → child.mLevel = lev →
      Visited mDim objs B lev t t1 c)
    (hkeep : ∀ (t : NTree) (k : Nat) (t1 : NTree), step t k = .ok t1 → Q t → Q t1)
    (hret : ∀ (t : NTree) (k c : Nat) (child : NTreeNode),
      cOf k = some c → t.nodes[c]? = some child →
      NodesOK mDim (fun _ => True) t → child.mLastCheckedObject = none →
      (∀ i ∈ child.mObjects, visibleOf objs i = true) → child.mLevel = lev →
      t.mMaxDepth = D → Q t → ∃ t1 : NTree, step t k = .ok t1) :
    ∀ (L : List Nat) (t : NTree), NodesOK mDim (fun _ => True) t → t.mMaxDepth = D → Q t →
      (∀ k ∈ L, ∃ (c : Nat) (child : NTreeNode), cOf k = some c ∧
        t.nodes[c]? = some child ∧ child.mLastCheckedObject = none ∧
        (∀ i ∈ child.mObjects, visibleOf objs i = true) ∧ child.mLevel = lev) →
      ∃ t' : NTree, L.foldlM step t = .ok t' := by
  intro L
  induction L with
  | nil =>
    intro t _ _ _ _
    exact ⟨t, rfl⟩
  | cons k rest ih =>
    intro t hok hD hQ hpre
    obtain ⟨c, child, hc, hch, hmark, hvis, hlev⟩ := hpre k (List.mem_cons_self _ _)
    obtain ⟨t1, hs⟩ := hret t k c child hc hch hok hmark hvis hlev hD hQ
    have V := hstep t k c child t1 hc hch hs hok hmark hvis hlev
    have hpre1 : ∀ k' ∈ rest, ∃ (c' : Nat) (child' : NTreeNode), cOf k' = some c' ∧
        t1.nodes[c']? = some child' ∧ child'.mLastCheckedObject = none ∧
        (∀ i ∈ child'.mObjects, visibleOf objs i = true) ∧ child'.mLevel = lev := by
      intro k' hk'
      obtain ⟨c', child', hc', hch', hmark', hvis', hlev'⟩ :=
        hpre k' (List.mem_cons_of_mem _ hk')
      obtain ⟨x1, hx1, -, s2, -, -, s5⟩ := V.stable.nodes c' child' hch'
      by_cases hcc : c' = c
      · subst hcc
        obtain ⟨x', hx', hm'⟩ := V.mark child' hch'
        rw [hx1] at hx'
        cases hx'
        refine ⟨c', x1, hc', hx1, by rw [hm', hmark'], ?_, by rw [s2, hlev']⟩
        rw [s5 (by omega)]
        exact hvis'
      · have hnu : ¬ Under t1 c c' := by
          intro hu
          obtain ⟨y1, hy1, -, r2, -⟩ := V.stable.nodes c child hch
          exact hcc ((hu.level y1 x1 hy1 hx1).2 (by rw [s2, r2, hlev, hlev']))
        exact ⟨c', child', hc', V.frame c' child' hch' hnu, hmark', hvis', hlev'⟩
    obtain ⟨t', ht'⟩ := ih t1 V.ok (V.depth.trans hD) (hkeep t k t1 hs hQ) hpre1
    refine ⟨t', ?_⟩
    rw [List.foldlM_cons, hs]
    exact ht'

theorem resetChildren_returns (mDim : Nat) (objs : List SpaceProxyObject) {n : Nat}
    {node : NTreeNode} (tree : NTree) (hok : NodesOK mDim (fun _ => True) tree)
    (hn : tree.nodes[n]? = some node) (hu : UniformChildren tree)
    (hall : ∀ j, j < 2 ^ mDim → node.mChildren.getD j none ≠ none) :
    ∃ t1 : NTree,
      (List.range (2 ^ mDim)).foldlM
        (fun (t : NTree) childNr =>
          match node.mChildren.getD childNr none with
          | none => (.error .undefinedBehaviour : Except Fault NTree)
          | some c =>
            match t.nodes[c]? with
            | none => .error .undefinedBehaviour
            | some child =>
              .ok (t.setNode c { child with
                mLastCheckedObject := none
                mObjects := node.mObjects.filter fun i =>
                  visibleOf objs i &&
                    insideBox mDim (positionOf objs i) child.mMinPos child.mMaxPos }))
        tree = .ok t1 ∧ UniformChildren t1 := by
  obtain ⟨t1, h1, -, h3⟩ := foldlM_except_returns
    (fun t : NTree => t.nodes.length = tree.nodes.length ∧ UniformChildren t)
    (fun (t : NTree) childNr =>
      match node.mChildren.getD childNr none with
      | none => (.error .undefinedBehaviour : Except Fault NTree)
      | some c =>
        match t.nodes[c]? with
        | none => .error .undefinedBehaviour
        | some child =>
          .ok (t.setNode c { child with
            mLastCheckedObject := none
            mObjects := node.mObjects.filter fun i =>
              visibleOf objs i &&
                insideBox mDim (positionOf objs i) child.mMinPos child.mMaxPos }))
    (List.range (2 ^ mDim)) tree
    (by
      intro s a ha hs
      have hal := List.mem_range.1 ha
      simp only
      cases hc : node.mChildren.getD a none with
      | none => exact absurd hc (hall a hal)
      | some c =>
        obtain ⟨child0, hch0, -⟩ := hok.link n node a c hn hc
        have hlt : c < s.nodes.length := by
          rw [hs.1]
          exact getElem?_lt_length hch0
        have hch : s.nodes[c]? = some (s.nodes.get ⟨c, hlt⟩) := List.getElem?_eq_getElem hlt
        simp only
        rw [hch]
        refine ⟨_, rfl, ?_, ?_⟩
        · simp only [NTree.setNode, List.length_set]
          exact hs.1
        · exact UniformChildren.uniform_setNode hs.2
            (hs.2 (s.nodes.get ⟨c, hlt⟩) (List.getElem?_mem hch)))
    ⟨rfl, hu⟩
  exact ⟨t1, h1, h3⟩

theorem children_any_isNone {mDim : Nat} {node : NTreeNode}
    (hlen : node.mChildren.length = 2 ^ mDim)
    (hall : ∀ j, j < 2 ^ mDim → node.mChildren.getD j none ≠ none) :
    node.mChildren.any (fun c => c.isNone) = false := by
  rw [Bool.eq_false_iff]
  intro h
  obtain ⟨x, hx, hnone⟩ := List.any_eq_true.1 h
  obtain ⟨j, hj, rfl⟩ := List.getElem_of_mem hx
  apply hall j (by omega)
  rw [List.getD_eq_getElem?_getD, List.getElem?_eq_getElem hj]
  simp only [Option.getD_some]
  cases hv : node.mChildren[j] with
  | none => rfl
  | some c => rw [hv] at hnone; cases hnone

/-- `updateTree(NTree&, NTreeNode*)` returns on a node that has children, when the depth
limit of the tree is not negative and the recursion budget exceeds the number of levels
left below the node. -/
theorem updateTreeNode_returns (mDim : Nat) (objs : List SpaceProxyObject) :
    ∀ (fuel : Nat) (tree : NTree) (n : Nat) (node : NTreeNode),
      tree.nodes[n]? = some node → NodesOK mDim (fun _ => True) tree →
      UniformChildren tree → node.mChildren.getD 0 none ≠ none →
      0 ≤ tree.mMaxDepth → 1 ≤ fuel → tree.mMaxDepth.toNat + 1 ≤ node.mLevel + fuel →
      ∃ tree' : NTree, NTreeVisitor.updateTreeNode mDim objs fuel tree n = .ok tree' := by
  intro fuel
  induction fuel with
  | zero =>
    intro tree n node _ _ _ _ _ h1
    omega
  | succ fuel ih =>
    intro tree n node hn hok hu hkids hD _ hfuel
    have hall : ∀ j, j < 2 ^ mDim → node.mChildren.getD j none ≠ none :=
      hok.shape n node hn hkids
    simp only [NTreeVisitor.updateTreeNode]
    rw [hn]
    simp only
    by_cases hsub : subdivides tree node = true
    · rw [if_pos hsub]
      have hlev : node.mLevel < tree.mMaxDepth.toNat := by
        unfold subdivides at hsub
        simp only [Bool.and_eq_true, Bool.or_eq_true, decide_eq_true_eq] at hsub
        rcases hsub.1.2 with h | h
        · omega
        · unfold toUInt at h
          rw [if_pos hD] at h
          exact h
      obtain ⟨tree1, hf1, hu1⟩ := resetChildren_returns mDim objs tree hok hn hu hall
      rw [hf1]
      simp only
      obtain ⟨s1, -, s3, -, -, -, s7⟩ := resetChildren_exact mDim objs
        (List.range (2 ^ mDim)) tree tree1 hok hn hf1
      exact @visitChildren_returns_inv mDim objs (node.mLevel + 1 + fuel) (node.mLevel + 1)
        UniformChildren tree.mMaxDepth
        (fun k => node.mChildren.getD k none)
        (fun (t : NTree) i =>
          match node.mChildren.getD i none with
          | none => (.error .undefinedBehaviour : Except Fault NTree)
          | some c =>
            match t.nodes[c]? with
            | none => .error .undefinedBehaviour
            | some child =>
              if child.mChildren.getD i none = none then
                NTreeVisitor.buildTreeNode mDim objs fuel t c
              else NTreeVisitor.updateTreeNode mDim objs fuel t c)
        (by
          intro t k c child t1 hc hch hs hokt hm hv hl
          simp only at hc hs
          rw [hc] at hs
          simp only at hs
          rw [hch] at hs
          simp only at hs
          have : Visited mDim objs (node.mLevel + 1 + fuel) child.mLevel t t1 c := by
            by_cases hb : child.mChildren.getD k none = none
            · rw [if_pos hb] at hs
              exact buildTreeNode_visited mDim objs _ fuel t c child t1 hs hch hokt hm hv
                (by omega)
            · rw [if_neg hb] at hs
              exact updateTreeNode_visited mDim objs _ fuel t c child t1 hs hch hokt hm
                (by omega)
          rw [hl] at this
          exact this)
        (by
          intro t k t1 hs hQ
          simp only at hs
          cases hc : node.mChildren.getD k none with
          | none => rw [hc] at hs; cases hs
          | some c =>
            rw [hc] at hs
            simp only at hs
            cases hch : t.nodes[c]? with
            | none => rw [hch] at hs; cases hs
            | some child =>
              rw [hch] at hs
              simp only at hs
              by_cases hb : child.mChildren.getD k none = none
              · rw [if_pos hb] at hs
                exact buildTreeNode_uniform mDim objs fuel t c t1 hs hQ
              · rw [if_neg hb] at hs
                exact updateTreeNode_uniform mDim objs fuel t c t1 hs hQ)
        (by
          intro t k c child hc hch hokt hm hv hl hd hQ
          simp only at hc
          simp only
          rw [hc]
          simp only
          rw [hch]
          simp only
          by_cases hb : child.mChildren.getD k none = none
          · rw [if_pos hb]
            exact buildTreeNode_returns mDim objs fuel t c child hch hokt hm hv
              (by rw [hd]; exact hD) (by omega) (by rw [hd, hl]; omega)
          · rw [if_neg hb]
            exact ih t c child hch hokt hQ (hQ child (List.getElem?_mem hch) k hb)
              (by rw [hd]; exact hD) (by omega) (by rw [hd, hl]; omega))
        (List.range (2 ^ mDim)) tree1 s1 s3 hu1
        (by
          intro k hk
          obtain ⟨c, child, q1, q2, q3, q4, q5⟩ := s7 k hk
          refine ⟨c, child, q1, q2, q3, ?_, q4⟩
          intro i hi
          rw [q5] at hi
          have := (List.mem_filter.1 hi).2
          simp only [Bool.and_eq_true] at this
          exact this.1)
    · rw [if_neg hsub]
      rw [children_any_isNone (hok.length n node hn) hall]
      exact ⟨_, rfl⟩

theorem mapM_option_congr {α β : Type} (f g : α → Option β) :
    ∀ l : List α, (∀ a ∈ l, f a = g a) → l.mapM f = l.mapM g := by
  intro l
  induction l with
  | nil => intro _; rfl
  | cons a l ih =>
    intro h
    rw [List.mapM_cons, List.mapM_cons, h a (List.mem_cons_self _ _),
      ih fun x hx => h x (List.mem_cons_of_mem _ hx)]

theorem mapM_option_some {α β : Type} (f : α → Option β) :
    ∀ l : List α, (∀ a ∈ l, ∃ b, f a = some b) → ∃ bs, l.mapM f = some bs := by
  intro l
  induction l with
  | nil => intro _; exact ⟨[], rfl⟩
  | cons a l ih =>
    intro h
    obtain ⟨b, hb⟩ := h a (List.mem_cons_self _ _)
    obtain ⟨bs, hbs⟩ := ih fun x hx => h x (List.mem_cons_of_mem _ hx)
    refine ⟨b :: bs, ?_⟩
    rw [List.mapM_cons, hb, hbs]
    rfl

/-- In a store that is in order, a node all of whose descendants are as the structure
phase leaves them has the view that subdividing makes of its cell and its objects. -/
theorem viewAt_built (mDim : Nat) (objs : List SpaceProxyObject) (B : Nat) (tree : NTree)
    (hok : NodesOK mDim (fun _ => True) tree) :
    ∀ (fuel n : Nat) (node : NTreeNode), tree.nodes[n]? = some node →
      (∀ m : Nat, Desc tree n m → BuiltAt mDim objs B tree m) →
      (∀ i ∈ node.mObjects, visibleOf objs i = true) → B ≤ node.mLevel + fuel →
      ∃ v : TreeView, tree.viewAt fuel n = some v ∧
        builtView mDim objs tree.mMaxDepth tree.mMinObjectCount fuel node.mLevel
          node.mMinPos node.mMaxPos node.mObjects = some v := by
  intro fuel
  induction fuel with
  | zero =>
    intro n node hn hb _ hB
    obtain ⟨x, hx, -, hlev, -⟩ := hb n Desc.self
    rw [hn] at hx
    cases hx
    omega
  | succ fuel ih =>
    intro n node hn hb hvis hB
    obtain ⟨x, hx, -, hlev, hcase⟩ := hb n Desc.self
    rw [hn] at hx
    cases hx
    have hsubeq : subdivides ⟨tree.mMaxDepth, tree.mMinObjectCount, [], [], none, []⟩
        ⟨none, [], none, node.mLevel, node.mMinPos, node.mMaxPos, node.mObjects⟩
        = subdivides tree node := subdivides_congr rfl rfl rfl rfl
    rcases hcase with ⟨hsub, hex⟩ | ⟨hsub, hrep⟩
    · have hkid : ∀ j ∈ List.range (2 ^ mDim),
          (match node.mChildren.getD j none with
            | none => none
            | some c => NTree.viewAt tree fuel c)
          = builtView mDim objs tree.mMaxDepth tree.mMinObjectCount fuel (node.mLevel + 1)
              (childBounds mDim node.mMinPos node.mMaxPos j).1
              (childBounds mDim node.mMinPos node.mMaxPos j).2
              (node.mObjects.filter fun i =>
                insideBox mDim (positionOf objs i)
                  (childBounds mDim node.mMinPos node.mMaxPos j).1
                  (childBounds mDim node.mMinPos node.mMaxPos j).2) ∧
          ∃ v, builtView mDim objs tree.mMaxDepth tree.mMinObjectCount fuel (node.mLevel + 1)
              (childBounds mDim node.mMinPos node.mMaxPos j).1
              (childBounds mDim node.mMinPos node.mMaxPos j).2
              (node.mObjects.filter fun i =>
                insideBox mDim (positionOf objs i)
                  (childBounds mDim node.mMinPos node.mMaxPos j).1
                  (childBounds mDim node.mMinPos node.mMaxPos j).2) = some v := by
        intro j hj
        obtain ⟨c, child, hc, hch, hobj⟩ := hex j (List.mem_range.1 hj)
        obtain ⟨child', hch', -, l1, l2, l3⟩ := hok.link n node j c hn hc
        rw [hch] at hch'
        cases hch'
        have hobj' : child.mObjects = node.mObjects.filter fun i =>
            insideBox mDim (positionOf objs i)
              (childBounds mDim node.mMinPos node.mMaxPos j).1
              (childBounds mDim node.mMinPos node.mMaxPos j).2 := by
          rw [hobj, l2, l3]
          apply List.filter_congr
          intro i hi
          rw [hvis i hi, Bool.true_and]
        obtain ⟨v, hv1, hv2⟩ := ih c child hch
          (fun m hm => hb m (Desc.desc_trans (Desc.child n node j c Desc.self hn hc) hm))
          (by
            intro i hi
            rw [hobj'] at hi
            exact hvis i (List.mem_filter.1 hi).1)
          (by omega)
        rw [l1, l2, l3, hobj'] at hv2
        rw [hc]
        simp only
        exact ⟨hv1.trans hv2.symm, v, hv2⟩
      obtain ⟨views, hviews⟩ := mapM_option_some _ (List.range (2 ^ mDim))
        (fun j hj => (hkid j hj).2)
      obtain ⟨c0, child0, hc0, -⟩ := hex 0 (Nat.two_pow_pos mDim)
      refine ⟨.node node.mLevel node.mMinPos node.mMaxPos node.mObjects views, ?_, ?_⟩
      · simp only [NTree.viewAt]
        rw [hn]
        simp only
        rw [hc0]
        simp only
        rw [hok.length n node hn,
          mapM_option_congr _ _ (List.range (2 ^ mDim)) (fun j hj => (hkid j hj).1), hviews]
      · simp only [builtView]
        rw [hsubeq, if_pos hsub, hviews]
    · refine ⟨.node node.mLevel node.mMinPos node.mMaxPos node.mObjects [], ?_, ?_⟩
      · simp only [NTree.viewAt]
        rw [hn]
        simp only
        rw [hrep, getD_replicate_none]
      · simp only [builtView]
        rw [hsubeq, hsub]
        rfl

/-- The root node that `updateTree(NTree&, std::vector<SpaceProxyObject*>&)` leaves is at
level 0 when the root node it found, if any, was. -/
theorem updateTree_rootLevel (mDim : Nat) (objs : List SpaceProxyObject) (fuel : Nat)
    (tree tree' : NTree) (pObjects : List Nat)
    (h : NTreeVisitor.updateTree mDim objs fuel tree pObjects = .ok tree')
    (hok : TreeOK mDim tree)
    (hlev : ∀ (r : Nat) (node : NTreeNode), tree.mRootNode = some r →
      tree.nodes[r]? = some node → node.mLevel = 0) :
    ∀ (r : Nat) (node : NTreeNode), tree'.mRootNode = some r →
      tree'.nodes[r]? = some node → node.mLevel = 0 := by
  unfold NTreeVisitor.updateTree at h
  cases hr : tree.mRootNode with
  | none =>
    rw [hr] at h
    simp only [NTreeVisitor.buildTree] at h
    have hn0 : ∀ x : NTreeNode,
        ({ tree with mRootNode := some tree.nodes.length, nodes := tree.nodes ++ [x] } :
          NTree).nodes[tree.nodes.length]? = some x := by
      intro x
      simp
    obtain ⟨-, a2⟩ := buildTreeNode_ok mDim objs fuel (fun _ => False) _ _ _ tree' h (hn0 _)
      ((NodesOK.append _ hok.nodes rfl).mono fun m hm => Or.inl hm)
    obtain ⟨node', hn', -, b2, -⟩ := a2.nodes _ _ (hn0 _)
    intro r node hr' hnode
    rw [a2.root] at hr'
    simp only [Option.some.injEq] at hr'
    subst hr'
    rw [hn'] at hnode
    cases hnode
    exact b2
  | some r =>
    rw [hr] at h
    simp only at h
    obtain ⟨node, hn, hpar, -, -⟩ := hok.root r hr
    rw [hn] at h
    simp only at h
    obtain ⟨c1, c2⟩ := NodesOK.setObjects pObjects none
      (@NodesOK.mono _ _ (fun m => False ∨ m = r) _ hok.nodes fun m hm => Or.inl hm) hn
      (Or.inr rfl)
      (by
        intro m x j hP hx hj
        obtain ⟨ch, hch, hp, -⟩ := hok.nodes.link m x j r hx hj
        rw [hn] at hch
        cases hch
        rw [hpar] at hp
        cases hp)
    obtain ⟨node1, hn1, -, d2, -⟩ := c2 r node hn
    have hres : Stable (tree.setNode r { node with mLastCheckedObject := none, mObjects := pObjects })
          tree' node1.mLevel := by
      by_cases hb : node.mChildren.getD 0 none = none
      · rw [if_pos hb] at h
        exact (buildTreeNode_ok mDim objs fuel _ _ r node1 tree' h hn1 c1).2
      · rw [if_neg hb] at h
        exact (updateTreeNode_ok mDim objs fuel _ _ r node1 tree' h hn1 c1).2
    obtain ⟨node', hn', -, b2, -⟩ := hres.nodes _ _ hn1
    intro r' x hr' hx
    rw [hres.root] at hr'
    have hr2 : some r = some r' := hr.symm.trans hr'
    cases hr2
    rw [hn'] at hx
    cases hx
    rw [b2, d2]
    exact hlev r node hr hn

/-- The limits of the tree are kept by
`updateTree(NTree&, std::vector<SpaceProxyObject*>&)`. -/
theorem updateTree_limits (mDim : Nat) (objs : List SpaceProxyObject) (fuel : Nat)
    (tree tree' : NTree) (V : List Nat)
    (h : NTreeVisitor.updateTree mDim objs fuel tree V = .ok tree')
    (hok : TreeOK mDim tree) (hvis : ∀ i ∈ V, visibleOf objs i = true) :
    tree'.mMaxDepth = tree.mMaxDepth ∧ tree'.mMinObjectCount = tree.mMinObjectCount := by
  unfold NTreeVisitor.updateTree at h
  cases hr : tree.mRootNode with
  | none =>
    rw [hr] at h
    simp only [NTreeVisitor.buildTree] at h
    have hn0 : ∀ x : NTreeNode,
        ({ tree with mRootNode := some tree.nodes.length, nodes := tree.nodes ++ [x] } :
          NTree).nodes[tree.nodes.length]? = some x := by
      intro x
      simp
    have hv := buildTreeNode_visited mDim objs (0 + fuel) fuel _ _ _ tree' h (hn0 _)
      ((NodesOK.append _ hok.nodes rfl).mono fun m _ => trivial) rfl hvis (le_refl _)
    exact ⟨hv.depth, hv.count⟩
  | some r =>
    rw [hr] at h
    simp only at h
    obtain ⟨node, hn, hpar, -, -⟩ := hok.root r hr
    rw [hn] at h
    simp only at h
    obtain ⟨c1, c2⟩ := NodesOK.setObjects V none
      (@NodesOK.mono _ _ (fun _ => True) _ hok.nodes fun m _ => trivial) hn trivial
      (fun m x j hP => absurd trivial hP)
    have hn1 : (tree.setNode r { node with mLastCheckedObject := none, mObjects := V }).nodes[r]?
        = some { node with mLastCheckedObject := none, mObjects := V } := by
      simp only [NTree.setNode]
      rw [List.getElem?_set_self (getElem?_lt_length hn)]
    by_cases hb : node.mChildren.getD 0 none = none
    · rw [if_pos hb] at h
      have hv := buildTreeNode_visited mDim objs (node.mLevel + fuel) fuel _ r _ tree' h hn1 c1
        rfl hvis (le_refl _)
      exact ⟨hv.depth, hv.count⟩
    · rw [if_neg hb] at h
      have hv := updateTreeNode_visited mDim objs (node.mLevel + fuel) fuel _ r _ tree' h hn1
        c1 rfl (le_refl _)
      exact ⟨hv.depth, hv.count⟩

/-- `updateTree(NTree&, std::vector<SpaceProxyObject*>&)` returns when the depth limit of
the tree is not negative and the recursion budget exceeds it. -/
theorem updateTree_returns (mDim : Nat) (objs : List SpaceProxyObject) (fuel : Nat)
    (tree : NTree) (V : List Nat) (hok : TreeOK mDim tree) (hu : UniformChildren tree)
    (hvis : ∀ i ∈ V, visibleOf objs i = true) (hD : 0 ≤ tree.mMaxDepth)
    (hfuel : tree.mMaxDepth.toNat + 1 ≤ fuel) :
    ∃ tree' : NTree, NTreeVisitor.updateTree mDim objs fuel tree V = .ok tree' := by
  unfold NTreeVisitor.updateTree
  cases hr : tree.mRootNode with
  | none =>
    simp only
    obtain ⟨tree', -, -, h, -⟩ := buildTree_returns mDim objs fuel tree V hok hvis hD hfuel
    exact ⟨tree', h⟩
  | some r =>
    simp only
    obtain ⟨node, hn, hpar, -, -⟩ := hok.root r hr
    rw [hn]
    simp only
    obtain ⟨c1, c2⟩ := NodesOK.setObjects V none
      (@NodesOK.mono _ _ (fun _ => True) _ hok.nodes fun m _ => trivial) hn trivial
      (fun m x j hP => absurd trivial hP)
    have hn1 : (tree.setNode r { node with mLastCheckedObject := none, mObjects := V }).nodes[r]?
        = some { node with mLastCheckedObject := none, mObjects := V } := by
      simp only [NTree.setNode]
      rw [List.getElem?_set_self (getElem?_lt_length hn)]
    have hu1 : UniformChildren
        (tree.setNode r { node with mLastCheckedObject := none, mObjects := V }) :=
      UniformChildren.uniform_setNode hu (hu node (List.getElem?_mem hn))
    by_cases hb : node.mChildren.getD 0 none = none
    · rw [if_pos hb]
      exact buildTreeNode_returns mDim objs fuel _ r _ hn1 c1 rfl hvis hD (by omega)
        (by
          have : (tree.setNode r
            { node with mLastCheckedObject := none, mObjects := V }).mMaxDepth
              = tree.mMaxDepth := rfl
          rw [this]
          omega)
    · rw [if_neg hb]
      exact updateTreeNode_returns mDim objs fuel _ r _ hn1 c1 hu1 hb hD (by omega)
        (by
          have : (tree.setNode r
            { node with mLastCheckedObject := none, mObjects := V }).mMaxDepth
              = tree.mMaxDepth := rfl
          rw [this]
          omega)

/-- A tree that the structure phase produces is in order, its nodes have all or none of
their children, and its root node is at level 0. -/
theorem Produced.invariants {mDim : Nat} {tree : NTree} (h : Produced mDim tree) :
    TreeOK mDim tree ∧ UniformChildren tree ∧
      ∀ (r : Nat) (node : NTreeNode), tree.mRootNode = some r →
        tree.nodes[r]? = some node → node.mLevel = 0 := by
  induction h with
  | cleared tree hr hn =>
    refine ⟨⟨⟨?_, ?_, ?_, ?_⟩, ?_⟩, ?_, ?_⟩
    · intro n node h
      rw [hn] at h
      cases h
    · intro n node h
      rw [hn] at h
      cases h
    · intro n node j c h
      rw [hn] at h
      cases h
    · intro n node j c child _ h
      rw [hn] at h
      cases h
    · intro r h
      rw [hr] at h
      cases h
    · intro node hnode
      rw [hn] at hnode
      cases hnode
    · intro r node h
      rw [hr] at h
      cases h
  | updated objs fuel tree V tree' _ hrun ih =>
    obtain ⟨i1, i2, i3⟩ := ih
    exact ⟨(updateTree_ok mDim objs fuel tree tree' V hrun i1).1,
      updateTree_uniform mDim objs fuel tree tree' V hrun i2,
      updateTree_rootLevel mDim objs fuel tree tree' V hrun i1 i3⟩

/-- The tree that `updateTree(NTree&, std::vector<SpaceProxyObject*>&)` returns for a list
of visible proxies has the view that subdividing makes of the bounds of the tree and the
list. -/
theorem updateTree_view (mDim : Nat) (objs : List SpaceProxyObject) (fuel : Nat)
    (tree tree' : NTree) (V : List Nat)
    (h : NTreeVisitor.updateTree mDim objs fuel tree V = .ok tree')
    (hok : TreeOK mDim tree)
    (hlev : ∀ (r : Nat) (node : NTreeNode), tree.mRootNode = some r →
      tree.nodes[r]? = some node → node.mLevel = 0)
    (hvis : ∀ i ∈ V, visibleOf objs i = true) :
    ∃ v : TreeView, tree'.view fuel = some v ∧
      builtView mDim objs tree.mMaxDepth tree.mMinObjectCount fuel 0 tree.mMinPos
        tree.mMaxPos V = some v := by
  obtain ⟨hok', e1, e2, -⟩ := updateTree_ok mDim objs fuel tree tree' V h hok
  obtain ⟨r, root, hr, hroot, hV, hb⟩ := updateTree_visited mDim objs fuel tree tree' V h hok hvis
  obtain ⟨l1, l2⟩ := updateTree_limits mDim objs fuel tree tree' V h hok hvis
  have hl0 := updateTree_rootLevel mDim objs fuel tree tree' V h hok hlev r root hr hroot
  obtain ⟨root', hroot', -, b1, b2⟩ := hok'.root r hr
  rw [hroot] at hroot'
  cases hroot'
  obtain ⟨v, hv1, hv2⟩ := viewAt_built mDim objs (root.mLevel + fuel) tree'
    (hok'.nodes.mono fun m _ => trivial) fuel r root hroot
    (fun m hm => hb m (Reach.iff_desc.2 ⟨r, hr, hm⟩))
    (by rw [hV]; exact hvis) (le_refl _)
  refine ⟨v, ?_, ?_⟩
  · unfold NTree.view
    rw [hr]
    exact hv1
  · rw [l1, l2, hl0, b1, b2, e1, e2, hV] at hv2
    exact hv2

/-- When the object has a proxy and the registry throws, `Space::removeObject` throws after
the proxy has been erased. -/
theorem removeObjectFrom_throw {R : Type} (remove : R → Option R)
    (mObjects : List SpaceProxyObject) (registry : R) (pObject : SpaceObject)
    (hmem : pObject.mId ∈ mObjects.map (fun p => p.mSpaceObject.mId))
    (hrem : remove registry = none) :
    ∃ l1 p l2, mObjects = l1 ++ p :: l2 ∧ p.mSpaceObject.mId = pObject.mId ∧
      (∀ q ∈ l1, q.mSpaceObject.mId ≠ pObject.mId) ∧
      removeObjectFrom remove mObjects registry pObject
        = (.error .exception, l1 ++ l2, registry) := by
  unfold removeObjectFrom
  cases hf : findProxyIndex mObjects pObject with
  | none => exact absurd hmem ((findProxyIndex_none mObjects pObject).1 hf)
  | some i =>
    obtain ⟨l1, p, l2, h1, -, h3, h4, h5⟩ := findProxyIndex_some hf
    refine ⟨l1, p, l2, h1, h3, h4, ?_⟩
    simp only
    rw [hrem, h5]

/-- A function that does not fall below the square root gives distances that are not below
the components of the direction. -/
theorem normDominates_of_upper {sqrtF : ℚ → ℚ}
    (hsqrt : ∀ x y : ℚ, 0 ≤ y → y * y ≤ x → y ≤ sqrtF x) (dir : Vec) :
    ∀ c ∈ dir, |c| ≤ distanceOf sqrtF dir := by
  intro c hc
  have hsq := (sumsq_le dir 0).2 c hc
  rw [zero_add] at hsq
  unfold distanceOf
  refine hsqrt _ _ (abs_nonneg _) ?_
  rw [abs_mul_abs_self]
  exact hsq

/-- C1: a relation vector sorted by non-decreasing distance is still sorted after a
`createNeighbor` call, for every admission policy and every candidate, through each of the
three entry points (distance computed from the positions; distance and direction supplied;
value, direction and distance supplied). The calls return for cap >= -1 whenever the
relation can be constructed (and, for the first entry point, the positions have the group's
dimension and the case cap = -1, replace mode, empty vector is excluded). -/
theorem C1_createNeighbor_keeps_sorted (sqrtF : ℚ → ℚ) (alg : NeighborGroupAlg)
    (rels : List SpaceNeighborRelation) (o1 o2 : SpaceObject) (d : ℚ) (dir value : Vec)
    (hs : SortedByDistance rels) :
    (∀ b l', alg.createNeighbor sqrtF rels o1 o2 = .ok (b, l') → SortedByDistance l') ∧
    (∀ b l', alg.createNeighborDistDir rels o1 o2 d dir = .ok (b, l') →
      SortedByDistance l') ∧
    (∀ b l', alg.createNeighborValueDirDist rels o1 o2 value dir d = .ok (b, l') →
      SortedByDistance l') ∧
    (alg.mNeighborDirectionRows ≤ o1.mPosition.length →
      alg.mNeighborDirectionRows ≤ o2.mPosition.length →
      (∃ r, SpaceNeighborRelation.create o1 o2
        (distanceOf sqrtF (directionOf alg.mNeighborDirectionRows o1.mPosition o2.mPosition))
        (directionOf alg.mNeighborDirectionRows o1.mPosition o2.mPosition) = .ok r) →
      (0 ≤ alg.mMaxNeighborCount ∨ alg.mReplaceNeighborMode = false ∨ rels ≠ []) →
      ∃ b l', alg.createNeighbor sqrtF rels o1 o2 = .ok (b, l')) ∧
    (-1 ≤ alg.mMaxNeighborCount →
      (∃ r, SpaceNeighborRelation.create o1 o2 d dir = .ok r) →
      ∃ b l', alg.createNeighborDistDir rels o1 o2 d dir = .ok (b, l')) ∧
    (-1 ≤ alg.mMaxNeighborCount →
      (∃ r, SpaceNeighborRelation.createValue o1 o2 value dir d = .ok r) →
      ∃ b l', alg.createNeighborValueDirDist rels o1 o2 value dir d = .ok (b, l')) :=
  ⟨fun b l' h => (createNeighbor_outcome sqrtF alg rels o1 o2 b l' h).1.sorted hs,
   fun b l' h => (createNeighborDistDir_outcome alg rels o1 o2 d dir b l' h).1.sorted hs,
   fun b l' h =>
    (createNeighborValueDirDist_outcome alg rels o1 o2 value dir d b l' h).1.sorted hs,
   fun h1 h2 hc hdef => createNeighbor_returns sqrtF alg rels o1 o2 h1 h2 hc hdef,
   fun hcap hc => createNeighborDistDir_returns alg rels o1 o2 d dir hcap hc,
   fun hcap hc => createNeighborValueDirDist_returns alg rels o1 o2 value dir d hcap hc⟩

theorem C1_createNeighbor_keeps_sorted_witness :
    SortedByDistance [⟨0, 1, [1], [1], 1⟩, ⟨0, 2, [3], [3], 3⟩] ∧
      SortedByDistance [⟨0, 3, [1], [1], 1⟩, ⟨0, 1, [1], [1], 1⟩, ⟨0, 2, [3], [3], 3⟩] :=
  ⟨by unfold SortedByDistance distances; simp,
   (C1_createNeighbor_keeps_sorted (fun x => x) ⟨5, 3, true, 1⟩
    [⟨0, 1, [1], [1], 1⟩, ⟨0, 2, [3], [3], 3⟩] ⟨0, 1, [0]⟩ ⟨3, 1, [1]⟩ 1 [1] [1]
    (by unfold SortedByDistance distances; simp)).2.1 true _ (by decide)⟩

/-- C2: for a policy with cap >= 0 and a relation vector of length <= cap, the length is
still <= cap after a `createNeighbor` call, through each of the three entry points, in
either replace mode and for every candidate. -/
theorem C2_createNeighbor_keeps_length_le_cap (sqrtF : ℚ → ℚ) (alg : NeighborGroupAlg)
    (rels : List SpaceNeighborRelation) (o1 o2 : SpaceObject) (d : ℚ) (dir value : Vec)
    (hcap : 0 ≤ alg.mMaxNeighborCount) (hlen : (rels.length : Int) ≤ alg.mMaxNeighborCount) :
    (∀ b l', alg.createNeighbor sqrtF rels o1 o2 = .ok (b, l') →
      (l'.length : Int) ≤ alg.mMaxNeighborCount) ∧
    (∀ b l', alg.createNeighborDistDir rels o1 o2 d dir = .ok (b, l') →
      (l'.length : Int) ≤ alg.mMaxNeighborCount) ∧
    (∀ b l', alg.createNeighborValueDirDist rels o1 o2 value dir d = .ok (b, l') →
      (l'.length : Int) ≤ alg.mMaxNeighborCount) := by
  have hsz : (toSizeT alg.mMaxNeighborCount : Int) = alg.mMaxNeighborCount :=
    toSizeT_of_nonneg hcap
  have key : ∀ (e : Prop) (r : SpaceNeighborRelation) (b : Bool)
      (l' : List SpaceNeighborRelation), alg.mMaxNeighborCount ≠ 0 →
      (¬ e → (rels.length : Int) + 1 ≤ alg.mMaxNeighborCount) →
      InsertOutcome e rels r b l' → (l'.length : Int) ≤ alg.mMaxNeighborCount := by
    intro e r b l' h0 he ho
    have h := ho.length_le alg.mMaxNeighborCount.toNat (by omega) (by omega)
      (fun hne => by have := he hne; omega)
    omega
  have hzero : ∀ (b : Bool) (l' : List SpaceNeighborRelation), alg.mMaxNeighborCount = 0 →
      (Except.ok (false, rels) : Except Fault (Bool × List SpaceNeighborRelation))
        = .ok (b, l') → (l'.length : Int) ≤ alg.mMaxNeighborCount := by
    intro b l' _ hh
    simp only [Except.ok.injEq, Prod.mk.injEq] at hh
    rw [← hh.2]
    exact hlen
  refine ⟨?_, ?_, ?_⟩
  · intro b l' h
    by_cases h0 : alg.mMaxNeighborCount = 0
    · unfold NeighborGroupAlg.createNeighbor at h
      rw [if_pos h0] at h
      exact hzero b l' h0 h
    · refine key _ _ b l' h0 ?_ (createNeighbor_outcome sqrtF alg rels o1 o2 b l' h).1
      intro hne
      by_contra hc
      exact hne ⟨by omega, by omega⟩
  · intro b l' h
    by_cases h0 : alg.mMaxNeighborCount = 0
    · unfold NeighborGroupAlg.createNeighborDistDir at h
      rw [if_pos h0] at h
      exact hzero b l' h0 h
    · refine key _ _ b l' h0 ?_ (createNeighborDistDir_outcome alg rels o1 o2 d dir b l' h).1
      intro hne
      by_contra hc
      exact hne ⟨by omega, by omega⟩
  · intro b l' h
    by_cases h0 : alg.mMaxNeighborCount = 0
    · unfold NeighborGroupAlg.createNeighborValueDirDist at h
      rw [if_pos h0] at h
      exact hzero b l' h0 h
    · refine key _ _ b l' h0 ?_
        (createNeighborValueDirDist_outcome alg rels o1 o2 value dir d b l' h).1
      intro hne
      by_contra hc
      exact hne ⟨by omega, by omega⟩

theorem C2_createNeighbor_keeps_length_le_cap_witness :
    (([⟨0, 3, [1], [1], 1⟩, ⟨0, 1, [2], [2], 2⟩] : List SpaceNeighborRelation).length : Int)
      ≤ 2 :=
  (C2_createNeighbor_keeps_length_le_cap (fun x => x) ⟨5, 2, true, 1⟩
    [⟨0, 1, [2], [2], 2⟩, ⟨0, 2, [3], [3], 3⟩] ⟨0, 1, [0]⟩ ⟨3, 1, [1]⟩ 1 [1] [1]
    (by decide) (by decide)).2.1 true _ (by decide)

/-- C3: when the policy radius is >= 0 and the candidate distance is greater than the
radius, `createNeighbor` returns false and leaves the relation vector unchanged, through
each of the three entry points (the first for positions that have the group's dimension,
the other two for a candidate from which the relation can be constructed); for any other
candidate the call does not return at all (a read outside a position vector, a thrown
exception). Consequently, when every stored distance is <= radius before a call, every
stored distance is <= radius after it. -/
theorem C3_createNeighbor_rejects_outside_radius (sqrtF : ℚ → ℚ) (alg : NeighborGroupAlg)
    (rels : List SpaceNeighborRelation) (o1 o2 : SpaceObject) (d : ℚ) (dir value : Vec)
    (hr : 0 ≤ alg.mNeighborRadius) :
    (alg.mNeighborDirectionRows ≤ o1.mPosition.length →
      alg.mNeighborDirectionRows ≤ o2.mPosition.length →
      alg.mNeighborRadius <
        distanceOf sqrtF (directionOf alg.mNeighborDirectionRows o1.mPosition o2.mPosition) →
      alg.createNeighbor sqrtF rels o1 o2 = .ok (false, rels)) ∧
    (alg.mNeighborRadius < d →
      (∃ r, SpaceNeighborRelation.create o1 o2 d dir = .ok r) →
      alg.createNeighborDistDir rels o1 o2 d dir = .ok (false, rels)) ∧
    (alg.mNeighborRadius < d →
      (∃ r, SpaceNeighborRelation.createValue o1 o2 value dir d = .ok r) →
      alg.createNeighborValueDirDist rels o1 o2 value dir d = .ok (false, rels)) ∧
    (alg.mNeighborRadius <
        distanceOf sqrtF (directionOf alg.mNeighborDirectionRows o1.mPosition o2.mPosition) →
      alg.createNeighbor sqrtF rels o1 o2 = .ok (false, rels) ∨
        alg.createNeighbor sqrtF rels o1 o2 = .error .undefinedBehaviour) ∧
    (alg.mNeighborRadius < d →
      alg.createNeighborDistDir rels o1 o2 d dir = .ok (false, rels) ∨
        alg.createNeighborDistDir rels o1 o2 d dir = .error .exception) ∧
    (alg.mNeighborRadius < d →
      alg.createNeighborValueDirDist rels o1 o2 value dir d = .ok (false, rels) ∨
        alg.createNeighborValueDirDist rels o1 o2 value dir d = .error .exception) ∧
    ((∀ x ∈ rels, x.mDistance ≤ alg.mNeighborRadius) →
      ∀ b l', (alg.createNeighbor sqrtF rels o1 o2 = .ok (b, l') ∨
          alg.createNeighborDistDir rels o1 o2 d dir = .ok (b, l') ∨
          alg.createNeighborValueDirDist rels o1 o2 value dir d = .ok (b, l')) →
        ∀ x ∈ l', x.mDistance ≤ alg.mNeighborRadius) := by
  refine ⟨fun h1 h2 hd => createNeighbor_radius sqrtF alg rels o1 o2 h1 h2 hr hd,
    fun hd hc => createNeighborDistDir_radius alg rels o1 o2 d dir hc hr hd,
    fun hd hc => createNeighborValueDirDist_radius alg rels o1 o2 value dir d hc hr hd,
    fun hd => createNeighbor_radius_any sqrtF alg rels o1 o2 hr hd, ?_, ?_, ?_⟩
  · intro hd
    rcases create_cases o1 o2 d dir with hc | hc
    · exact Or.inl (createNeighborDistDir_radius alg rels o1 o2 d dir hc hr hd)
    · exact createNeighborDistDir_of_throw alg rels o1 o2 d dir hc
  · intro hd
    rcases createValue_cases o1 o2 value dir d with hc | hc
    · exact Or.inl (createNeighborValueDirDist_radius alg rels o1 o2 value dir d hc hr hd)
    · exact createNeighborValueDirDist_of_throw alg rels o1 o2 value dir d hc
  · intro hold b l' h
    rcases h with h | h | h
    · obtain ⟨ho, hadm⟩ := createNeighbor_outcome sqrtF alg rels o1 o2 b l' h
      exact ho.within_radius hr hadm hold
    · obtain ⟨ho, hadm⟩ := createNeighborDistDir_outcome alg rels o1 o2 d dir b l' h
      exact ho.within_radius hr hadm hold
    · obtain ⟨ho, hadm⟩ :=
        createNeighborValueDirDist_outcome alg rels o1 o2 value dir d b l' h
      exact ho.within_radius hr hadm hold

theorem C3_createNeighbor_rejects_outside_radius_witness :
    (⟨5, 3, true, 1⟩ : NeighborGroupAlg).createNeighborDistDir [⟨0, 1, [1], [1], 1⟩]
      ⟨0, 1, [0]⟩ ⟨3, 1, [7]⟩ 7 [7] = .ok (false, [⟨0, 1, [1], [1], 1⟩]) :=
  (C3_createNeighbor_rejects_outside_radius (fun x => x) ⟨5, 3, true, 1⟩
    [⟨0, 1, [1], [1], 1⟩] ⟨0, 1, [0]⟩ ⟨3, 1, [7]⟩ 7 [7] [7] (by decide)).2.1 (by decide)
    ⟨_, rfl⟩

/-- C4: a `createNeighbor` call that returns false leaves the relation vector identical; a
call that returns true yields the old vector with the newly constructed relation inserted
at one position and at most the old last relation dropped, so that the new relation is in
the resulting vector exactly when the call returns true. Stated for each of the three
entry points, with the relation each of them constructs. -/
theorem C4_createNeighbor_result_tells_membership (sqrtF : ℚ → ℚ) (alg : NeighborGroupAlg)
    (rels : List SpaceNeighborRelation) (o1 o2 : SpaceObject) (d : ℚ) (dir value : Vec) :
    (∀ b l', alg.createNeighbor sqrtF rels o1 o2 = .ok (b, l') →
      (b = false → l' = rels) ∧
      (b = true → InsertedInto rels
        ⟨o1.mId, o2.mId, directionOf alg.mNeighborDirectionRows o1.mPosition o2.mPosition,
          directionOf alg.mNeighborDirectionRows o1.mPosition o2.mPosition,
          distanceOf sqrtF
            (directionOf alg.mNeighborDirectionRows o1.mPosition o2.mPosition)⟩ l')) ∧
    (∀ b l', alg.createNeighborDistDir rels o1 o2 d dir = .ok (b, l') →
      (b = false → l' = rels) ∧
      (b = true → InsertedInto rels ⟨o1.mId, o2.mId, dir, dir, d⟩ l')) ∧
    (∀ b l', alg.createNeighborValueDirDist rels o1 o2 value dir d = .ok (b, l') →
      (b = false → l' = rels) ∧
      (b = true → InsertedInto rels ⟨o1.mId, o2.mId, value, dir, d⟩ l')) :=
  ⟨fun b l' h => (createNeighbor_outcome sqrtF alg rels o1 o2 b l' h).1.shape,
   fun b l' h => (createNeighborDistDir_outcome alg rels o1 o2 d dir b l' h).1.shape,
   fun b l' h => (createNeighborValueDirDist_outcome alg rels o1 o2 value dir d b l' h).1.shape⟩

theorem C4_createNeighbor_result_tells_membership_witness :
    InsertedInto [⟨0, 1, [2], [2], 2⟩, ⟨0, 2, [3], [3], 3⟩] ⟨0, 3, [1], [1], 1⟩
      [⟨0, 3, [1], [1], 1⟩, ⟨0, 1, [2], [2], 2⟩] :=
  ((C4_createNeighbor_result_tells_membership (fun x => x) ⟨5, 2, true, 1⟩
    [⟨0, 1, [2], [2], 2⟩, ⟨0, 2, [3], [3], 3⟩] ⟨0, 1, [0]⟩ ⟨3, 1, [1]⟩ 1 [1] [1]).2.1
      true _ (by decide)).2 rfl

/-- C5: for cap `k >= 1`, replace mode and any radius, offering any finite sequence of
candidates to an empty relation vector through `createNeighbor` (each of the three entry
points, candidates from which a relation can be constructed) returns every time, and the
stored distances are then the `k` smallest admissible candidate distances, with
multiplicity and in ascending order; this list does not depend on the order of the
candidates. -/
theorem C5_offered_candidates_keep_k_nearest (sqrtF : ℚ → ℚ) (alg : NeighborGroupAlg)
    (k : Nat) (hk : 1 ≤ k) (hcap : alg.mMaxNeighborCount = k)
    (hrep : alg.mReplaceNeighborMode = true) (src : SpaceObject) :
    (∀ cands : List SpaceObject,
      alg.mNeighborDirectionRows ≤ src.mPosition.length →
      (∀ c ∈ cands, alg.mNeighborDirectionRows ≤ c.mPosition.length ∧
        ∃ r, SpaceNeighborRelation.create src c
          (distanceOf sqrtF (directionOf alg.mNeighborDirectionRows src.mPosition c.mPosition))
          (directionOf alg.mNeighborDirectionRows src.mPosition c.mPosition) = .ok r) →
      ∃ l, offerAll (fun rels c => alg.createNeighbor sqrtF rels src c) [] cands = .ok l ∧
        distances l = nearestDistances k alg.mNeighborRadius
          (cands.map fun c => distanceOf sqrtF
            (directionOf alg.mNeighborDirectionRows src.mPosition c.mPosition))) ∧
    (∀ cands : List (SpaceObject × ℚ × Vec),
      (∀ c ∈ cands, ∃ r, SpaceNeighborRelation.create src c.1 c.2.1 c.2.2 = .ok r) →
      ∃ l, offerAll (fun rels c => alg.createNeighborDistDir rels src c.1 c.2.1 c.2.2) []
          cands = .ok l ∧
        distances l = nearestDistances k alg.mNeighborRadius (cands.map fun c => c.2.1)) ∧
    (∀ cands : List (SpaceObject × Vec × Vec × ℚ),
      (∀ c ∈ cands, ∃ r,
        SpaceNeighborRelation.createValue src c.1 c.2.1 c.2.2.1 c.2.2.2 = .ok r) →
      ∃ l, offerAll
          (fun rels c => alg.createNeighborValueDirDist rels src c.1 c.2.1 c.2.2.1 c.2.2.2) []
          cands = .ok l ∧
        distances l = nearestDistances k alg.mNeighborRadius (cands.map fun c => c.2.2.2)) ∧
    (∀ ds ds' : List ℚ, ds.Perm ds' →
      nearestDistances k alg.mNeighborRadius ds = nearestDistances k alg.mNeighborRadius ds') := by
  refine ⟨?_, ?_, ?_, fun ds ds' h => nearestDistances_perm k _ h⟩
  · intro cands hsrc hgood
    refine offerAll_nearest_from_empty _ _
      (fun c => alg.mNeighborDirectionRows ≤ c.mPosition.length ∧
        ∃ r, SpaceNeighborRelation.create src c
          (distanceOf sqrtF (directionOf alg.mNeighborDirectionRows src.mPosition c.mPosition))
          (directionOf alg.mNeighborDirectionRows src.mPosition c.mPosition) = .ok r)
      k alg.mNeighborRadius ?_ cands hgood
    intro rels c hc hs hlen
    rw [createNeighbor_eq_createNeighborDistDir sqrtF alg rels src c (by rw [hcap]; omega)
      hsrc hc.1 hc.2]
    exact createNeighborDistDir_step alg k hk hcap hrep rels src c _ _ hc.2 hs hlen
  · intro cands hgood
    refine offerAll_nearest_from_empty _ _
      (fun c => ∃ r, SpaceNeighborRelation.create src c.1 c.2.1 c.2.2 = .ok r)
      k alg.mNeighborRadius ?_ cands hgood
    intro rels c hc hs hlen
    exact createNeighborDistDir_step alg k hk hcap hrep rels src c.1 c.2.1 c.2.2 hc hs hlen
  · intro cands hgood
    refine offerAll_nearest_from_empty _ _
      (fun c => ∃ r, SpaceNeighborRelation.createValue src c.1 c.2.1 c.2.2.1 c.2.2.2 = .ok r)
      k alg.mNeighborRadius ?_ cands hgood
    intro rels c hc hs hlen
    exact createNeighborValueDirDist_step alg k hk hcap hrep rels src c.1 c.2.1 c.2.2.1
      c.2.2.2 hc hs hlen

theorem C5_offered_candidates_keep_k_nearest_witness :
    ∃ l, offerAll (fun rels (c : SpaceObject × ℚ × Vec) =>
          (⟨5, 2, true, 1⟩ : NeighborGroupAlg).createNeighborDistDir rels ⟨0, 1, [0]⟩
            c.1 c.2.1 c.2.2) []
          [(⟨1, 1, [3]⟩, 3, [3]), (⟨2, 1, [7]⟩, 7, [7]), (⟨3, 1, [1]⟩, 1, [1]),
            (⟨4, 1, [2]⟩, 2, [2])] = .ok l ∧
        distances l = nearestDistances 2 5 [3, 7, 1, 2] :=
  (C5_offered_candidates_keep_k_nearest (fun x => x) ⟨5, 2, true, 1⟩ 2 (by decide) rfl rfl
    ⟨0, 1, [0]⟩).2.1
    [(⟨1, 1, [3]⟩, 3, [3]), (⟨2, 1, [7]⟩, 7, [7]), (⟨3, 1, [1]⟩, 1, [1]),
      (⟨4, 1, [2]⟩, 2, [2])]
    (by
      intro c hc
      simp only [List.mem_cons, List.mem_singleton, List.not_mem_nil, or_false] at hc
      rcases hc with h | h | h | h <;> subst h <;> exact ⟨_, rfl⟩)

/-- C6 (counterexample): cap 2, replace mode, two stored relations at distance 1 and a
candidate at distance 1 (not smaller than the last stored distance): the call returns true,
the candidate is stored in front and the old last relation is dropped. -/
theorem C6_tie_with_all_equal_is_admitted :
    (([⟨0, 1, [1], [1], 1⟩, ⟨0, 2, [1], [1], 1⟩] : List SpaceNeighborRelation).length : Int)
        = (⟨5, 2, true, 1⟩ : NeighborGroupAlg).mMaxNeighborCount ∧
      (⟨0, 2, [1], [1], 1⟩ : SpaceNeighborRelation).mDistance ≤ 1 ∧
      (⟨5, 2, true, 1⟩ : NeighborGroupAlg).createNeighborDistDir
          [⟨0, 1, [1], [1], 1⟩, ⟨0, 2, [1], [1], 1⟩] ⟨0, 1, [0]⟩ ⟨3, 1, [1]⟩ 1 [1]
        = .ok (true, [⟨0, 3, [1], [1], 1⟩, ⟨0, 1, [1], [1], 1⟩]) := by
  refine ⟨by decide, by decide, by decide⟩

/-- C6 (amended): when the length equals cap (cap >= 1), replace mode is on and the
candidate distance is greater than the last stored distance, or equal to it and greater
than the first stored distance, the candidate is rejected: `createNeighbor` returns false
and the relation vector is unchanged (each of the three entry points, for a candidate from
which the relation can be constructed). -/
theorem C6_full_replace_rejects_farther (sqrtF : ℚ → ℚ) (alg : NeighborGroupAlg) (k : Nat)
    (hk : 1 ≤ k) (hcap : alg.mMaxNeighborCount = k) (hrep : alg.mReplaceNeighborMode = true)
    (rels : List SpaceNeighborRelation) (f b : SpaceNeighborRelation)
    (hlen : rels.length = k) (hf : rels.head? = some f) (hb : rels.getLast? = some b)
    (o1 o2 : SpaceObject) (d : ℚ) (dir value : Vec) :
    (alg.mNeighborDirectionRows ≤ o1.mPosition.length →
      alg.mNeighborDirectionRows ≤ o2.mPosition.length →
      (∃ r, SpaceNeighborRelation.create o1 o2
        (distanceOf sqrtF (directionOf alg.mNeighborDirectionRows o1.mPosition o2.mPosition))
        (directionOf alg.mNeighborDirectionRows o1.mPosition o2.mPosition) = .ok r) →
      (b.mDistance <
          distanceOf sqrtF (directionOf alg.mNeighborDirectionRows o1.mPosition o2.mPosition) ∨
        (b.mDistance =
          distanceOf sqrtF (directionOf alg.mNeighborDirectionRows o1.mPosition o2.mPosition) ∧
         f.mDistance <
          distanceOf sqrtF
            (directionOf alg.mNeighborDirectionRows o1.mPosition o2.mPosition))) →
      alg.createNeighbor sqrtF rels o1 o2 = .ok (false, rels)) ∧
    ((∃ r, SpaceNeighborRelation.create o1 o2 d dir = .ok r) →
      (b.mDistance < d ∨ (b.mDistance = d ∧ f.mDistance < d)) →
      alg.createNeighborDistDir rels o1 o2 d dir = .ok (false, rels)) ∧
    ((∃ r, SpaceNeighborRelation.createValue o1 o2 value dir d = .ok r) →
      (b.mDistance < d ∨ (b.mDistance = d ∧ f.mDistance < d)) →
      alg.createNeighborValueDirDist rels o1 o2 value dir d = .ok (false, rels)) := by
  have h0 : alg.mMaxNeighborCount ≠ 0 := by rw [hcap]; omega
  have hdd : ∀ (d : ℚ) (dir : Vec), (∃ r, SpaceNeighborRelation.create o1 o2 d dir = .ok r) →
      (b.mDistance < d ∨ (b.mDistance = d ∧ f.mDistance < d)) →
      alg.createNeighborDistDir rels o1 o2 d dir = .ok (false, rels) := by
    rintro d dir ⟨r, hr⟩ hd
    have hrd : r.mDistance = d := by rw [create_ok hr]
    unfold NeighborGroupAlg.createNeighborDistDir
    rw [if_neg h0, hr]
    exact admitConstructed_full_replace alg k hk hcap hrep rels r f b hlen hf hb
      (by rw [hrd]; exact hd)
  refine ⟨?_, hdd d dir, ?_⟩
  · intro h1 h2 hc hd
    rw [createNeighbor_eq_createNeighborDistDir sqrtF alg rels o1 o2 (by rw [hcap]; omega)
      h1 h2 hc]
    exact hdd _ _ hc hd
  · rintro ⟨r, hr⟩ hd
    have hrd : r.mDistance = d := by rw [createValue_ok hr]
    unfold NeighborGroupAlg.createNeighborValueDirDist
    rw [if_neg h0, hr]
    exact admitConstructed_full_replace alg k hk hcap hrep rels r f b hlen hf hb
      (by rw [hrd]; exact hd)

theorem C6_full_replace_rejects_farther_witness :
    (⟨5, 2, true, 1⟩ : NeighborGroupAlg).createNeighborDistDir
        [⟨0, 1, [1], [1], 1⟩, ⟨0, 2, [2], [2], 2⟩] ⟨0, 1, [0]⟩ ⟨3, 1, [2]⟩ 2 [2]
      = .ok (false, [⟨0, 1, [1], [1], 1⟩, ⟨0, 2, [2], [2], 2⟩]) :=
  (C6_full_replace_rejects_farther (fun x => x) ⟨5, 2, true, 1⟩ 2 (by decide) rfl rfl
    [⟨0, 1, [1], [1], 1⟩, ⟨0, 2, [2], [2], 2⟩] ⟨0, 1, [1], [1], 1⟩ ⟨0, 2, [2], [2], 2⟩
    rfl rfl rfl ⟨0, 1, [0]⟩ ⟨3, 1, [2]⟩ 2 [2] [2]).2.1 ⟨_, rfl⟩
    (Or.inr ⟨rfl, by decide⟩)

/-- C7: whenever the full-predicate of the policy holds (cap >= 0, replace mode off, length
>= cap; in particular for cap = 0 with replace mode off), every `createNeighbor` call
returns false and leaves the relation vector unchanged: the first entry point for every
candidate, the other two for every candidate from which the relation can be constructed
(for any other candidate they throw, the vector unchanged). Hence offering any further
candidates to a full vector, as a search that does not stop would, changes nothing. -/
theorem C7_full_rejects_every_candidate (sqrtF : ℚ → ℚ) (alg : NeighborGroupAlg)
    (rels : List SpaceNeighborRelation) (o1 o2 : SpaceObject) (d : ℚ) (dir value : Vec)
    (hfull : alg.full rels = true) :
    alg.createNeighbor sqrtF rels o1 o2 = .ok (false, rels) ∧
    ((∃ r, SpaceNeighborRelation.create o1 o2 d dir = .ok r) →
      alg.createNeighborDistDir rels o1 o2 d dir = .ok (false, rels)) ∧
    ((∃ r, SpaceNeighborRelation.createValue o1 o2 value dir d = .ok r) →
      alg.createNeighborValueDirDist rels o1 o2 value dir d = .ok (false, rels)) ∧
    (alg.createNeighborDistDir rels o1 o2 d dir = .ok (false, rels) ∨
      alg.createNeighborDistDir rels o1 o2 d dir = .error .exception) ∧
    (alg.createNeighborValueDirDist rels o1 o2 value dir d = .ok (false, rels) ∨
      alg.createNeighborValueDirDist rels o1 o2 value dir d = .error .exception) ∧
    (∀ cands : List SpaceObject,
      offerAll (fun rels c => alg.createNeighbor sqrtF rels o1 c) rels cands = .ok rels) ∧
    (alg.mMaxNeighborCount = 0 → alg.mReplaceNeighborMode = false →
      ∀ rels', alg.full rels' = true) := by
  have hdd : (∃ r, SpaceNeighborRelation.create o1 o2 d dir = .ok r) →
      alg.createNeighborDistDir rels o1 o2 d dir = .ok (false, rels) := by
    rintro ⟨r, hr⟩
    unfold NeighborGroupAlg.createNeighborDistDir
    by_cases h0 : alg.mMaxNeighborCount = 0
    · rw [if_pos h0]
    · rw [if_neg h0, hr]
      exact admitConstructed_full alg rels r hfull
  have hvd : (∃ r, SpaceNeighborRelation.createValue o1 o2 value dir d = .ok r) →
      alg.createNeighborValueDirDist rels o1 o2 value dir d = .ok (false, rels) := by
    rintro ⟨r, hr⟩
    unfold NeighborGroupAlg.createNeighborValueDirDist
    by_cases h0 : alg.mMaxNeighborCount = 0
    · rw [if_pos h0]
    · rw [if_neg h0, hr]
      exact admitConstructed_full alg rels r hfull
  refine ⟨createNeighbor_full sqrtF alg rels o1 o2 hfull, hdd, hvd, ?_, ?_, ?_, ?_⟩
  · rcases create_cases o1 o2 d dir with hc | hc
    · exact Or.inl (hdd hc)
    · exact createNeighborDistDir_of_throw alg rels o1 o2 d dir hc
  · rcases createValue_cases o1 o2 value dir d with hc | hc
    · exact Or.inl (hvd hc)
    · exact createNeighborValueDirDist_of_throw alg rels o1 o2 value dir d hc
  · intro cands
    induction cands with
    | nil => rfl
    | cons c cs ih =>
      unfold offerAll
      rw [createNeighbor_full sqrtF alg rels o1 c hfull]
      exact ih
  · intro h0 hrep rels'
    unfold NeighborGroupAlg.full
    rw [h0, hrep]
    simp [toSizeT]

theorem C7_full_rejects_every_candidate_witness :
    (⟨5, 1, false, 1⟩ : NeighborGroupAlg).createNeighbor (fun x => x)
      [⟨0, 1, [2], [2], 2⟩] ⟨0, 1, [0]⟩ ⟨3, 1, [1]⟩ = .ok (false, [⟨0, 1, [2], [2], 2⟩]) :=
  (C7_full_rejects_every_candidate (fun x => x) ⟨5, 1, false, 1⟩ [⟨0, 1, [2], [2], 2⟩]
    ⟨0, 1, [0]⟩ ⟨3, 1, [1]⟩ 1 [1] [1] (by decide)).1

/-- C8 (the code at the failing input): cap -1, replace mode, radius 5. With the stored
relation at distance 1 and a candidate at distance 2 the first entry point returns false
and stores nothing, where the second entry point admits the same candidate; on the empty
vector the first entry point reads `back()` of an empty vector. -/
theorem C8_unbounded_cap_first_entry_point_rejects (sqrtF : ℚ → ℚ) (h : sqrtF 4 = 2) :
    (⟨5, -1, true, 1⟩ : NeighborGroupAlg).createNeighbor sqrtF [⟨0, 1, [1], [1], 1⟩]
        ⟨0, 1, [0]⟩ ⟨2, 1, [2]⟩ = .ok (false, [⟨0, 1, [1], [1], 1⟩]) ∧
    (⟨5, -1, true, 1⟩ : NeighborGroupAlg).createNeighborDistDir [⟨0, 1, [1], [1], 1⟩]
        ⟨0, 1, [0]⟩ ⟨2, 1, [2]⟩ 2 [2]
      = .ok (true, [⟨0, 1, [1], [1], 1⟩, ⟨0, 2, [2], [2], 2⟩]) ∧
    (⟨5, -1, true, 1⟩ : NeighborGroupAlg).createNeighbor sqrtF []
        ⟨0, 1, [0]⟩ ⟨2, 1, [2]⟩ = .error .undefinedBehaviour := by
  have hd : distanceOf sqrtF (directionOf 1 [0] [2]) = 2 := by
    unfold distanceOf directionOf
    norm_num [List.range, List.range.loop, h]
  refine ⟨?_, by decide, ?_⟩
  · unfold NeighborGroupAlg.createNeighbor
    simp only [hd]
    norm_num
  · unfold NeighborGroupAlg.createNeighbor
    simp only [hd]
    norm_num

theorem C8_unbounded_cap_first_entry_point_rejects_witness :
    (⟨5, -1, true, 1⟩ : NeighborGroupAlg).createNeighbor (fun _ => 2)
      [⟨0, 1, [1], [1], 1⟩] ⟨0, 1, [0]⟩ ⟨2, 1, [2]⟩ = .ok (false, [⟨0, 1, [1], [1], 1⟩]) :=
  (C8_unbounded_cap_first_entry_point_rejects (fun _ => 2) rfl).1

/-- C9 (the code at the failing input): cap -1, replace mode, no radius limit, one stored
relation at distance 3, source at (0,0), target at (3,4). The first entry point computes
direction (3,4) and distance 5 and returns false without storing anything; the second and
third entry point, called with that direction and distance (and value = direction), return
true and store the relation. -/
theorem C9_first_entry_point_differs_for_unbounded_cap (sqrtF : ℚ → ℚ) (h : sqrtF 25 = 5) :
    directionOf 2 [0, 0] [3, 4] = [3, 4] ∧ distanceOf sqrtF [3, 4] = 5 ∧
    (⟨-1, -1, true, 2⟩ : NeighborGroupAlg).createNeighbor sqrtF [⟨0, 1, [3, 0], [3, 0], 3⟩]
        ⟨0, 2, [0, 0]⟩ ⟨2, 2, [3, 4]⟩ = .ok (false, [⟨0, 1, [3, 0], [3, 0], 3⟩]) ∧
    (⟨-1, -1, true, 2⟩ : NeighborGroupAlg).createNeighborDistDir [⟨0, 1, [3, 0], [3, 0], 3⟩]
        ⟨0, 2, [0, 0]⟩ ⟨2, 2, [3, 4]⟩ 5 [3, 4]
      = .ok (true, [⟨0, 1, [3, 0], [3, 0], 3⟩, ⟨0, 2, [3, 4], [3, 4], 5⟩]) ∧
    (⟨-1, -1, true, 2⟩ : NeighborGroupAlg).createNeighborValueDirDist
        [⟨0, 1, [3, 0], [3, 0], 3⟩] ⟨0, 2, [0, 0]⟩ ⟨2, 2, [3, 4]⟩ [3, 4] [3, 4] 5
      = .ok (true, [⟨0, 1, [3, 0], [3, 0], 3⟩, ⟨0, 2, [3, 4], [3, 4], 5⟩]) := by
  have hdir : directionOf 2 [0, 0] [3, 4] = [3, 4] := by
    unfold directionOf
    norm_num [List.range, List.range.loop]
  have hd : distanceOf sqrtF [3, 4] = 5 := by
    unfold distanceOf
    norm_num [h]
  refine ⟨hdir, hd, ?_, by decide, by decide⟩
  unfold NeighborGroupAlg.createNeighbor
  simp only [hdir, hd]
  norm_num

theorem C9_first_entry_point_differs_for_unbounded_cap_witness :
    (⟨-1, -1, true, 2⟩ : NeighborGroupAlg).createNeighbor (fun _ => 5)
        [⟨0, 1, [3, 0], [3, 0], 3⟩] ⟨0, 2, [0, 0]⟩ ⟨2, 2, [3, 4]⟩
      = .ok (false, [⟨0, 1, [3, 0], [3, 0], 3⟩]) :=
  (C9_first_entry_point_differs_for_unbounded_cap (fun _ => 5) rfl).2.2.1

/-- C10 (the code at the failing inputs): in `midpointSpace` the source at 1 has the
visible objects at 8 (distance 7) and 11 (distance 10) within its radius 16, and cap 2;
after `Space.update` its relation vector holds the object at 8 twice and the object at 11
not at all: the object on the midpoint of the root cell is stored in both children and
offered once per leaf. In the spec scenario placed in the plane (`scenarioPlaneSpace`, the
candidates on an axis through the centre of the bounds) the list of the source is likewise
the candidate at 0.1 twice; placed on the line (`scenarioLineSpace`, no object on a cell
boundary) it is the candidates at 0.1 and 0.2. -/
theorem C10_midpoint_object_is_stored_twice (sqrtF : ℚ → ℚ) (h49 : sqrtF 49 = 7)
    (h100 : sqrtF 100 = 10) (h1 : sqrtF (1 / 100) = 1 / 10) (h2 : sqrtF (1 / 25) = 1 / 5)
    (h3 : sqrtF (9 / 100) = 3 / 10) (h4 : sqrtF (4 / 25) = 2 / 5) :
    (Space.update sqrtF 20 midpointSpace).map
        (fun s => s.mObjects.map fun p => p.mNeighborGroup.mNeighborRelations)
      = .ok [[⟨0, 1, [7], [7], 7⟩, ⟨0, 1, [7], [7], 7⟩], [], []] ∧
    (Space.update sqrtF 20 scenarioPlaneSpace).map (fun s => neighborsOf s 0) = .ok [1, 1] ∧
    (Space.update sqrtF 20 scenarioLineSpace).map (fun s => neighborsOf s 0) = .ok [1, 2] := by
  have hg : sqrtF = fun x => if x = 49 then 7 else if x = 100 then 10
      else if x = 1 / 100 then 1 / 10 else if x = 1 / 25 then 1 / 5
      else if x = 9 / 100 then 3 / 10 else if x = 4 / 25 then 2 / 5 else sqrtF x := by
    funext x
    split_ifs with ha hb hc hd he hf
    · rw [ha, h49]
    · rw [hb, h100]
    · rw [hc, h1]
    · rw [hd, h2]
    · rw [he, h3]
    · rw [hf, h4]
    · rfl
  rw [hg]
  refine ⟨?_, ?_, ?_⟩
  · with_unfolding_all rfl
  · with_unfolding_all rfl
  · with_unfolding_all rfl

theorem C10_midpoint_object_is_stored_twice_witness :
    (Space.update
        (fun x => if x = 49 then 7 else if x = 100 then 10 else if x = 1 / 100 then 1 / 10
          else if x = 1 / 25 then 1 / 5 else if x = 9 / 100 then 3 / 10 else 2 / 5)
        20 midpointSpace).map
        (fun s => s.mObjects.map fun p => p.mNeighborGroup.mNeighborRelations)
      = .ok [[⟨0, 1, [7], [7], 7⟩, ⟨0, 1, [7], [7], 7⟩], [], []] :=
  (C10_midpoint_object_is_stored_twice
    (fun x => if x = 49 then 7 else if x = 100 then 10 else if x = 1 / 100 then 1 / 10
      else if x = 1 / 25 then 1 / 5 else if x = 9 / 100 then 3 / 10 else 2 / 5)
    (by norm_num) (by norm_num) (by norm_num) (by norm_num) (by norm_num) (by norm_num)).1

/-- C11: `Space::update` of a space with an N-tree that satisfies the invariant of the
space (as every space does whose tree was only ever touched by updates) keeps the
invariant, and afterwards every relation stored for a proxy of the neighbor-capable set has
as target the object of a proxy of the visible set other than the proxy itself: that proxy
has the visible flag set and, in a bounded space, a position inside [min, max]. When no
object has two proxies, every proxy of the target object is of that kind. In the spec
scenario (bounds (0,0)-(1,1), proxies at (0.5,0.5) and (1.5,0.5)) both relation vectors are
empty after the update. -/
theorem C11_ntree_neighbors_are_visible (sqrtF : ℚ → ℚ) (fuel : Nat) (space s' : Space)
    (hok : SpaceOK space) (h : space.update sqrtF fuel = .ok s') :
    SpaceOK s' ∧
    (∀ k ∈ s'.mNeighborObjects, ∀ p : SpaceProxyObject, s'.mObjects[k]? = some p →
      ∀ r ∈ p.mNeighborGroup.mNeighborRelations,
        ∃ (j : Nat) (q : SpaceProxyObject), j ∈ s'.mVisibleObjects ∧ j ≠ k ∧
          s'.mObjects[j]? = some q ∧ q.mSpaceObject.mId = r.mNeighborObject ∧
          q.mNeighborGroup.mVisible = true ∧
          (s'.mSpaceAlg.mFixedSize = true →
            insideBox s'.mSpaceAlg.mMinPos.length q.mSpaceObject.mPosition
              s'.mSpaceAlg.mMinPos s'.mSpaceAlg.mMaxPos = true)) ∧
    (DistinctObjects s'.mObjects →
      ∀ k ∈ s'.mNeighborObjects, ∀ p : SpaceProxyObject, s'.mObjects[k]? = some p →
      ∀ r ∈ p.mNeighborGroup.mNeighborRelations,
        ∀ (j : Nat) (q : SpaceProxyObject), s'.mObjects[j]? = some q →
          q.mSpaceObject.mId = r.mNeighborObject →
          q.mNeighborGroup.mVisible = true ∧
          (s'.mSpaceAlg.mFixedSize = true →
            insideBox s'.mSpaceAlg.mMinPos.length q.mSpaceObject.mPosition
              s'.mSpaceAlg.mMinPos s'.mSpaceAlg.mMaxPos = true)) ∧
    (boundsScenarioSpace.update sqrtF 20).map
        (fun s => s.mObjects.map fun p => p.mNeighborGroup.mNeighborRelations)
      = .ok [[], []] := by
  obtain ⟨a1, -, a3, a4⟩ := Space.update_targets hok h
  have key : ∀ k ∈ s'.mNeighborObjects, ∀ p : SpaceProxyObject, s'.mObjects[k]? = some p →
      ∀ r ∈ p.mNeighborGroup.mNeighborRelations,
        ∃ (j : Nat) (q : SpaceProxyObject), j ∈ s'.mVisibleObjects ∧ j ≠ k ∧
          s'.mObjects[j]? = some q ∧ q.mSpaceObject.mId = r.mNeighborObject ∧
          q.mNeighborGroup.mVisible = true ∧
          (s'.mSpaceAlg.mFixedSize = true →
            insideBox s'.mSpaceAlg.mMinPos.length q.mSpaceObject.mPosition
              s'.mSpaceAlg.mMinPos s'.mSpaceAlg.mMaxPos = true) := by
    intro k hk p hp r hr
    obtain ⟨j, q, hj, hjk, hq, hid⟩ := a4 k hk p hp r hr
    obtain ⟨q', hq', hv, hin⟩ := a3 j hj
    rw [hq] at hq'
    cases hq'
    exact ⟨j, q, hj, hjk, hq, hid, hv, hin⟩
  refine ⟨a1, key, ?_, by with_unfolding_all rfl⟩
  intro hd k hk p hp r hr j q hq hid
  obtain ⟨j0, q0, -, -, hq0, hid0, hv, hin⟩ := key k hk p hp r hr
  have := hd.index_eq hq hq0 (by rw [hid, hid0])
  subst this
  rw [hq] at hq0
  cases hq0
  exact ⟨hv, hin⟩

theorem C11_ntree_neighbors_are_visible_witness :
    ∃ (j : Nat) (q : SpaceProxyObject),
      j ∈ (scenarioLineSpace.updated scenarioSqrt 20).mVisibleObjects ∧ j ≠ 0 ∧
      (scenarioLineSpace.updated scenarioSqrt 20).mObjects[j]? = some q ∧
      q.mSpaceObject.mId = 2 ∧ q.mNeighborGroup.mVisible = true ∧
      ((scenarioLineSpace.updated scenarioSqrt 20).mSpaceAlg.mFixedSize = true →
        insideBox (scenarioLineSpace.updated scenarioSqrt 20).mSpaceAlg.mMinPos.length
          q.mSpaceObject.mPosition
          (scenarioLineSpace.updated scenarioSqrt 20).mSpaceAlg.mMinPos
          (scenarioLineSpace.updated scenarioSqrt 20).mSpaceAlg.mMaxPos = true) :=
  (C11_ntree_neighbors_are_visible scenarioSqrt 20 scenarioLineSpace
    (scenarioLineSpace.updated scenarioSqrt 20)
    (SpaceOK.ofEmptyTree scenarioLineSpace rfl rfl rfl rfl rfl rfl)
    (by with_unfolding_all rfl)).2.1 0 (by with_unfolding_all decide)
    ⟨⟨0, 1, [0]⟩, ⟨true, some ⟨1, 2, true, 1⟩,
      [⟨0, 1, [1 / 10], [1 / 10], 1 / 10⟩, ⟨0, 2, [1 / 5], [1 / 5], 1 / 5⟩]⟩⟩
    (by with_unfolding_all rfl) ⟨0, 2, [1 / 5], [1 / 5], 1 / 5⟩ (by with_unfolding_all decide)

/-- C12 (idempotence of `Space::update`): when `Space::update` has returned, for a space
with an N-tree whose node store is in order (`SpaceOK`, which holds before the first update
and which every update preserves) and for a space with permanent neighbors, a second call
on the result, with every object where it was and the same visibility flags and policies,
returns and leaves the whole space as the first call left it: the relation vector of every
proxy (targets, values, directions, distances, order), the two classification vectors, the
bounds, and the tree with its marks. For the N-tree the space after the first call has a
root node, so that the second call takes the path of `updateTree` that updates the tree. -/
theorem C12_second_update_changes_nothing (sqrtF : ℚ → ℚ) (fuel : Nat)
    (heap : Nat → Option SpaceObject) (space s1 : Space) (pspace ps1 : PermanentSpace)
    (hok : SpaceOK space) (h : space.update sqrtF fuel = .ok s1)
    (hp : pspace.update sqrtF heap = .ok ps1) :
    s1.update sqrtF fuel = .ok s1 ∧ s1.mSpaceAlg.mTree.mRootNode ≠ none ∧
      ps1.update sqrtF heap = .ok ps1 :=
  ⟨(Space.update_again hok h).1, (Space.update_again hok h).2,
    PermanentSpace.update_again_permanent hp⟩

theorem C12_second_update_changes_nothing_witness :
    (scenarioLineSpace.updated sceneSqrt 20).update sceneSqrt 20
        = .ok (scenarioLineSpace.updated sceneSqrt 20) ∧
      (scenarioLineSpace.updated sceneSqrt 20).mSpaceAlg.mTree.mRootNode ≠ none ∧
      (permanentScenarioSpace.updated sceneSqrt (heapOf permanentScenarioSpace.mObjects)).update
          sceneSqrt (heapOf permanentScenarioSpace.mObjects)
        = .ok (permanentScenarioSpace.updated sceneSqrt
          (heapOf permanentScenarioSpace.mObjects)) :=
  C12_second_update_changes_nothing sceneSqrt 20 (heapOf permanentScenarioSpace.mObjects)
    scenarioLineSpace (scenarioLineSpace.updated sceneSqrt 20) permanentScenarioSpace
    (permanentScenarioSpace.updated sceneSqrt (heapOf permanentScenarioSpace.mObjects))
    (SpaceOK.ofEmptyTree scenarioLineSpace rfl rfl rfl rfl rfl rfl)
    (by with_unfolding_all rfl) (by with_unfolding_all rfl)

/-- C13 (counterexample): in `movedPermanentSpace` the relations A->B and A->C are stored in
this order; B is at distance 1 from A and C at distance 0. The update with permanent
neighbors recomputes the distances in place: the distances along the sequence of A are
1, 0 afterwards. (Both distances are their own squares; the identity stands for the
square root.) -/
theorem C13_permanent_update_keeps_order :
    (movedPermanentSpace.update (fun x => x) (heapOf movedPermanentSpace.mObjects)).map
        (fun s => s.mObjects.map fun p => distances p.mNeighborGroup.mNeighborRelations)
      = .ok [[1, 0], [], []] ∧
    ¬ ([1, 0] : List ℚ).Sorted (· ≤ ·) := by
  refine ⟨by with_unfolding_all rfl, ?_⟩
  simp [List.Sorted]

/-- C13 (amended): after `Space::update` of a space with an N-tree in which the distances
along every stored relation sequence were non-decreasing, the distances along the relation
sequence of every neighbor group are non-decreasing. -/
theorem C13_ntree_update_keeps_sorted (sqrtF : ℚ → ℚ) (fuel : Nat) (space s' : Space)
    (h : space.update sqrtF fuel = .ok s')
    (hs : ∀ p ∈ space.mObjects, SortedByDistance p.mNeighborGroup.mNeighborRelations) :
    ∀ p ∈ s'.mObjects, SortedByDistance p.mNeighborGroup.mNeighborRelations :=
  Space.update_sorted h hs

theorem C13_ntree_update_keeps_sorted_witness :
    SortedByDistance [⟨0, 1, [1 / 10], [1 / 10], 1 / 10⟩, ⟨0, 2, [1 / 5], [1 / 5], 1 / 5⟩] :=
  C13_ntree_update_keeps_sorted scenarioSqrt 20 scenarioLineSpace
    (scenarioLineSpace.updated scenarioSqrt 20) (by with_unfolding_all rfl)
    (by simp [scenarioLineSpace, SortedByDistance, distances])
    ⟨⟨0, 1, [0]⟩, ⟨true, some ⟨1, 2, true, 1⟩,
      [⟨0, 1, [1 / 10], [1 / 10], 1 / 10⟩, ⟨0, 2, [1 / 5], [1 / 5], 1 / 5⟩]⟩⟩
    (by with_unfolding_all decide)

/-- C14: a call of one of the three `addNeighbor` entry points of a proxy whose target is
the object of that proxy returns false and leaves the proxy as it was, whenever it returns;
each entry point, `Space::addObject` and `Space::update` (N-tree and permanent neighbors)
lead from a state in which no neighbor group holds a relation to its owning object to a
state of that kind. -/
theorem C14_no_relation_to_owner (sqrtF : ℚ → ℚ) :
    (∀ (p : SpaceProxyObject) (target : SpaceObject) (d : ℚ) (dir value : Vec)
        (r : Bool × SpaceProxyObject), target.mId = p.mSpaceObject.mId →
      (p.addNeighbor sqrtF target = .ok r → r = (false, p)) ∧
      (p.addNeighborDistDir target d dir = .ok r → r = (false, p)) ∧
      (p.addNeighborValueDirDist target value dir d = .ok r → r = (false, p))) ∧
    (∀ (p : SpaceProxyObject) (target : SpaceObject) (d : ℚ) (dir value : Vec)
        (r : Bool × SpaceProxyObject),
      NoRelationTo p.mSpaceObject.mId p.mNeighborGroup.mNeighborRelations →
      (p.addNeighbor sqrtF target = .ok r ∨ p.addNeighborDistDir target d dir = .ok r ∨
        p.addNeighborValueDirDist target value dir d = .ok r) →
      r.2.mSpaceObject = p.mSpaceObject ∧
        NoRelationTo p.mSpaceObject.mId r.2.mNeighborGroup.mNeighborRelations) ∧
    (∀ (add : Unit → Option Unit) (space : Space) (pspace : PermanentSpace)
        (pObject : SpaceObject) (pVisible : Bool) (pAlg : Option NeighborGroupAlg),
      (NoSelfRelation space.mObjects →
        NoSelfRelation (space.addObject add () pObject pVisible pAlg).2.1.mObjects) ∧
      (NoSelfRelation pspace.mObjects →
        NoSelfRelation (pspace.addObject add () pObject pVisible pAlg).2.1.mObjects)) ∧
    (∀ (fuel : Nat) (space s' : Space), space.update sqrtF fuel = .ok s' →
      NoSelfRelation space.mObjects → NoSelfRelation s'.mObjects) ∧
    (∀ (heap : Nat → Option SpaceObject) (pspace s' : PermanentSpace),
      pspace.update sqrtF heap = .ok s' →
      NoSelfRelation pspace.mObjects → NoSelfRelation s'.mObjects) := by
  refine ⟨?_, ?_, ?_, fun fuel space s' h hs => Space.update_noSelfRelation h hs,
    fun heap pspace s' h hs => PermanentSpace.update_noSelfRelation_permanent h hs⟩
  · intro p target d dir value r ht
    refine ⟨?_, ?_, ?_⟩
    · intro h
      unfold SpaceProxyObject.addNeighbor at h
      cases ha : p.mNeighborGroup.mNeighborGroupAlg with
      | none => rw [ha] at h; cases h
      | some alg =>
        rw [ha] at h
        simp only at h
        cases hc : alg.createNeighbor sqrtF p.mNeighborGroup.mNeighborRelations p.mSpaceObject
            target with
        | error e => rw [hc] at h; cases h
        | ok x =>
          rw [hc] at h
          obtain ⟨b, rels⟩ := x
          obtain ⟨hb, hl⟩ := createNeighbor_self sqrtF alg _ ht.symm hc
          subst hb
          subst hl
          simp only [Except.ok.injEq] at h
          rw [← h]
    · intro h
      unfold SpaceProxyObject.addNeighborDistDir at h
      cases ha : p.mNeighborGroup.mNeighborGroupAlg with
      | none => rw [ha] at h; cases h
      | some alg =>
        rw [ha] at h
        simp only at h
        cases hc : alg.createNeighborDistDir p.mNeighborGroup.mNeighborRelations
            p.mSpaceObject target d dir with
        | error e => rw [hc] at h; cases h
        | ok x =>
          rw [hc] at h
          obtain ⟨b, rels⟩ := x
          obtain ⟨hb, hl⟩ := createNeighborDistDir_self alg _ ht.symm d dir hc
          subst hb
          subst hl
          simp only [Except.ok.injEq] at h
          rw [← h]
    · intro h
      unfold SpaceProxyObject.addNeighborValueDirDist at h
      cases ha : p.mNeighborGroup.mNeighborGroupAlg with
      | none => rw [ha] at h; cases h
      | some alg =>
        rw [ha] at h
        simp only at h
        cases hc : alg.createNeighborValueDirDist p.mNeighborGroup.mNeighborRelations
            p.mSpaceObject target value dir d with
        | error e => rw [hc] at h; cases h
        | ok x =>
          rw [hc] at h
          obtain ⟨b, rels⟩ := x
          obtain ⟨hb, hl⟩ := createNeighborValueDirDist_self alg _ ht.symm value dir d hc
          subst hb
          subst hl
          simp only [Except.ok.injEq] at h
          rw [← h]
  · intro p target d dir value r hs h
    rcases h with h | h | h
    · unfold SpaceProxyObject.addNeighbor at h
      cases ha : p.mNeighborGroup.mNeighborGroupAlg with
      | none => rw [ha] at h; cases h
      | some alg =>
        rw [ha] at h
        simp only at h
        cases hc : alg.createNeighbor sqrtF p.mNeighborGroup.mNeighborRelations p.mSpaceObject
            target with
        | error e => rw [hc] at h; cases h
        | ok x =>
          rw [hc] at h
          obtain ⟨b, rels⟩ := x
          simp only [Except.ok.injEq] at h
          rw [← h]
          exact ⟨rfl, createNeighbor_noRelationTo sqrtF alg _ _ _ hc hs⟩
    · unfold SpaceProxyObject.addNeighborDistDir at h
      cases ha : p.mNeighborGroup.mNeighborGroupAlg with
      | none => rw [ha] at h; cases h
      | some alg =>
        rw [ha] at h
        simp only at h
        cases hc : alg.createNeighborDistDir p.mNeighborGroup.mNeighborRelations
            p.mSpaceObject target d dir with
        | error e => rw [hc] at h; cases h
        | ok x =>
          rw [hc] at h
          obtain ⟨b, rels⟩ := x
          simp only [Except.ok.injEq] at h
          rw [← h]
          exact ⟨rfl, createNeighborDistDir_noRelationTo alg _ _ _ d dir hc hs⟩
    · unfold SpaceProxyObject.addNeighborValueDirDist at h
      cases ha : p.mNeighborGroup.mNeighborGroupAlg with
      | none => rw [ha] at h; cases h
      | some alg =>
        rw [ha] at h
        simp only at h
        cases hc : alg.createNeighborValueDirDist p.mNeighborGroup.mNeighborRelations
            p.mSpaceObject target value dir d with
        | error e => rw [hc] at h; cases h
        | ok x =>
          rw [hc] at h
          obtain ⟨b, rels⟩ := x
          simp only [Except.ok.injEq] at h
          rw [← h]
          exact ⟨rfl, createNeighborValueDirDist_noRelationTo alg _ _ _ value dir d hc hs⟩
  · intro add space pspace pObject pVisible pAlg
    exact ⟨fun hs => addObjectTo_noSelfRelation add _ _ () pObject pVisible pAlg hs,
      fun hs => addObjectTo_noSelfRelation add _ _ () pObject pVisible pAlg hs⟩

theorem C14_no_relation_to_owner_witness :
    NoSelfRelation (scenarioLineSpace.updated scenarioSqrt 20).mObjects :=
  (C14_no_relation_to_owner scenarioSqrt).2.2.2.1 20 scenarioLineSpace _
    (by with_unfolding_all rfl)
    (by simp [scenarioLineSpace, NoSelfRelation, NoRelationTo])

/-- C15 (the code at the failing input): for a fixed-size algorithm the classification loop
yields, in proxy order, as visible set exactly the visible proxies inside the closed box
[min, max], and as neighbor-capable set exactly the proxies inside the box whose policy has
cap > 0. A policy with cap = -1 is left out: the proxy 0 of `unboundedCapSpace` (inside the
bounds, radius 1, cap -1) is not neighbor-capable, and the update of that space gives it no
neighbor although the visible proxy 1 is within its radius. -/
theorem C15_bounded_classification_leaves_out_unbounded_cap :
    (∀ (minPos maxPos : Vec) (objs : List SpaceProxyObject),
      ((classifyFixed minPos maxPos objs).1).Sublist (List.range objs.length) ∧
      ((classifyFixed minPos maxPos objs).2).Sublist (List.range objs.length) ∧
      (∀ i, i ∈ (classifyFixed minPos maxPos objs).1 ↔
        ∃ p, objs[i]? = some p ∧ p.mNeighborGroup.mVisible = true ∧
          insideBox minPos.length p.mSpaceObject.mPosition minPos maxPos = true) ∧
      (∀ i, i ∈ (classifyFixed minPos maxPos objs).2 ↔
        ∃ p a, objs[i]? = some p ∧ p.mNeighborGroup.mNeighborGroupAlg = some a ∧
          a.mMaxNeighborCount > 0 ∧
          insideBox minPos.length p.mSpaceObject.mPosition minPos maxPos = true)) ∧
    unboundedCapSpace.updateObjects.map (fun s => (s.mVisibleObjects, s.mNeighborObjects))
      = .ok ([0, 1], []) ∧
    (∀ sqrtF : ℚ → ℚ, (Space.update sqrtF 8 unboundedCapSpace).map (fun s => neighborsOf s 0)
      = .ok []) := by
  refine ⟨fun minPos maxPos objs =>
    ⟨(classifyFixed_sublist minPos maxPos objs).1, (classifyFixed_sublist minPos maxPos objs).2,
      mem_classifyFixed_visible minPos maxPos objs,
      mem_classifyFixed_neighbor minPos maxPos objs⟩, ?_, ?_⟩
  · with_unfolding_all rfl
  · intro sqrtF
    with_unfolding_all rfl

/-- C16 (counterexample): in the bounded space `invisibleSourceSpace` the proxy 0 lies
inside [min, max] and its policy has cap 1 > 0; after classification it is in the
neighbor-capable set and not in the visible set, because its visible flag is not set. -/
theorem C16_invisible_proxy_is_neighbor_capable :
    invisibleSourceSpace.mSpaceAlg.mFixedSize = true ∧
    insideBox 1 (positionOf invisibleSourceSpace.mObjects 0)
      invisibleSourceSpace.mSpaceAlg.mMinPos invisibleSourceSpace.mSpaceAlg.mMaxPos = true ∧
    (invisibleSourceSpace.mObjects[0]?.bind fun p =>
      p.mNeighborGroup.mNeighborGroupAlg.map fun a => a.mMaxNeighborCount) = some 1 ∧
    invisibleSourceSpace.updateObjects.map (fun s => (s.mVisibleObjects, s.mNeighborObjects))
      = .ok ([1], [0]) := by
  refine ⟨rfl, ?_, ?_, ?_⟩
  · with_unfolding_all rfl
  · with_unfolding_all rfl
  · with_unfolding_all rfl

/-- C16 (amended): for a bounded algorithm, after classification every proxy whose position
is inside [min, max] and whose policy has cap > 0 is in the neighbor-capable set, and it is
in the visible set if and only if its visible flag is set. -/
theorem C16_capable_proxy_is_visible_iff_flag (space s : Space) (i : Nat)
    (p : SpaceProxyObject) (a : NeighborGroupAlg)
    (hfixed : space.mSpaceAlg.mFixedSize = true) (hs : space.updateObjects = .ok s)
    (hp : space.mObjects[i]? = some p)
    (hin : insideBox space.mSpaceAlg.mMinPos.length p.mSpaceObject.mPosition
      space.mSpaceAlg.mMinPos space.mSpaceAlg.mMaxPos = true)
    (ha : p.mNeighborGroup.mNeighborGroupAlg = some a) (hcap : a.mMaxNeighborCount > 0) :
    i ∈ s.mNeighborObjects ∧ (i ∈ s.mVisibleObjects ↔ p.mNeighborGroup.mVisible = true) := by
  unfold Space.updateObjects at hs
  simp only [hfixed, if_true] at hs
  cases hs
  refine ⟨(mem_classifyFixed_neighbor _ _ _ i).2 ⟨p, a, hp, ha, hcap, hin⟩, ?_⟩
  rw [mem_classifyFixed_visible]
  constructor
  · rintro ⟨q, hq, hv, -⟩
    rw [hp] at hq
    cases hq
    exact hv
  · intro hv
    exact ⟨p, hp, hv, hin⟩

theorem C16_capable_proxy_is_visible_iff_flag_witness :
    0 ∈ [0] ∧ (0 ∈ [1] ↔ false = true) :=
  C16_capable_proxy_is_visible_iff_flag invisibleSourceSpace
    { invisibleSourceSpace with mVisibleObjects := [1], mNeighborObjects := [0] } 0
    ⟨⟨0, 1, [1 / 2]⟩, ⟨false, some ⟨1, 1, false, 1⟩, []⟩⟩ ⟨1, 1, false, 1⟩
    rfl (by with_unfolding_all rfl) rfl (by with_unfolding_all rfl) rfl (by decide)

/-- C17: for an algorithm that is not fixed-size (an N-tree in `space`, permanent neighbors
in `pspace`) `Space::updateObjects` returns; the visible set is, in proxy order, exactly the
proxies whose visible flag is set, the neighbor-capable set exactly the proxies whose policy
has cap != 0; on every axis the new bounds of the algorithm contain the previous bounds and
the position of every proxy; and the algorithm is left untouched when the computed bounds
equal the current ones and is the result of `resize` with the computed bounds otherwise. -/
theorem C17_unbounded_classification_grows_bounds (space : Space) (pspace : PermanentSpace)
    (hfree : space.mSpaceAlg.mFixedSize = false)
    (hlen : space.mSpaceAlg.mMaxPos.length = space.mSpaceAlg.mMinPos.length)
    (hpfree : pspace.mSpaceAlg.mFixedSize = false)
    (hplen : pspace.mSpaceAlg.mMaxPos.length = pspace.mSpaceAlg.mMinPos.length) :
    (∃ s, space.updateObjects = .ok s ∧ s.mObjects = space.mObjects ∧
      s.mVisibleObjects.Sublist (List.range space.mObjects.length) ∧
      s.mNeighborObjects.Sublist (List.range space.mObjects.length) ∧
      (∀ i, i ∈ s.mVisibleObjects ↔
        ∃ p, space.mObjects[i]? = some p ∧ p.mNeighborGroup.mVisible = true) ∧
      (∀ i, i ∈ s.mNeighborObjects ↔
        ∃ p a, space.mObjects[i]? = some p ∧ p.mNeighborGroup.mNeighborGroupAlg = some a ∧
          a.mMaxNeighborCount ≠ 0) ∧
      (∀ d, d < space.mSpaceAlg.mMinPos.length →
        s.mSpaceAlg.mMinPos.getD d 0 ≤ space.mSpaceAlg.mMinPos.getD d 0 ∧
        space.mSpaceAlg.mMaxPos.getD d 0 ≤ s.mSpaceAlg.mMaxPos.getD d 0 ∧
        ∀ p ∈ space.mObjects,
          s.mSpaceAlg.mMinPos.getD d 0 ≤ p.mSpaceObject.mPosition.getD d 0 ∧
          p.mSpaceObject.mPosition.getD d 0 ≤ s.mSpaceAlg.mMaxPos.getD d 0) ∧
      s.mSpaceAlg.mMinPos =
        (classifyFree space.mSpaceAlg.mMinPos space.mSpaceAlg.mMaxPos space.mObjects).1 ∧
      s.mSpaceAlg.mMaxPos =
        (classifyFree space.mSpaceAlg.mMinPos space.mSpaceAlg.mMaxPos space.mObjects).2.1 ∧
      ((s.mSpaceAlg.mMinPos = space.mSpaceAlg.mMinPos ∧
          s.mSpaceAlg.mMaxPos = space.mSpaceAlg.mMaxPos) → s.mSpaceAlg = space.mSpaceAlg) ∧
      (¬ (s.mSpaceAlg.mMinPos = space.mSpaceAlg.mMinPos ∧
          s.mSpaceAlg.mMaxPos = space.mSpaceAlg.mMaxPos) →
        space.mSpaceAlg.resize s.mSpaceAlg.mMinPos s.mSpaceAlg.mMaxPos = .ok s.mSpaceAlg)) ∧
    (∃ s, pspace.updateObjects = .ok s ∧ s.mObjects = pspace.mObjects ∧
      s.mVisibleObjects.Sublist (List.range pspace.mObjects.length) ∧
      s.mNeighborObjects.Sublist (List.range pspace.mObjects.length) ∧
      (∀ i, i ∈ s.mVisibleObjects ↔
        ∃ p, pspace.mObjects[i]? = some p ∧ p.mNeighborGroup.mVisible = true) ∧
      (∀ i, i ∈ s.mNeighborObjects ↔
        ∃ p a, pspace.mObjects[i]? = some p ∧ p.mNeighborGroup.mNeighborGroupAlg = some a ∧
          a.mMaxNeighborCount ≠ 0) ∧
      (∀ d, d < pspace.mSpaceAlg.mMinPos.length →
        s.mSpaceAlg.mMinPos.getD d 0 ≤ pspace.mSpaceAlg.mMinPos.getD d 0 ∧
        pspace.mSpaceAlg.mMaxPos.getD d 0 ≤ s.mSpaceAlg.mMaxPos.getD d 0 ∧
        ∀ p ∈ pspace.mObjects,
          s.mSpaceAlg.mMinPos.getD d 0 ≤ p.mSpaceObject.mPosition.getD d 0 ∧
          p.mSpaceObject.mPosition.getD d 0 ≤ s.mSpaceAlg.mMaxPos.getD d 0) ∧
      s.mSpaceAlg.mMinPos =
        (classifyFree pspace.mSpaceAlg.mMinPos pspace.mSpaceAlg.mMaxPos pspace.mObjects).1 ∧
      s.mSpaceAlg.mMaxPos =
        (classifyFree pspace.mSpaceAlg.mMinPos pspace.mSpaceAlg.mMaxPos pspace.mObjects).2.1 ∧
      ((s.mSpaceAlg.mMinPos = pspace.mSpaceAlg.mMinPos ∧
          s.mSpaceAlg.mMaxPos = pspace.mSpaceAlg.mMaxPos) → s.mSpaceAlg = pspace.mSpaceAlg) ∧
      (¬ (s.mSpaceAlg.mMinPos = pspace.mSpaceAlg.mMinPos ∧
          s.mSpaceAlg.mMaxPos = pspace.mSpaceAlg.mMaxPos) →
        pspace.mSpaceAlg.resize s.mSpaceAlg.mMinPos s.mSpaceAlg.mMaxPos
          = .ok s.mSpaceAlg)) := by
  constructor
  · obtain ⟨s, hs, ho, hv, hn, hmin, hmax, hsame, hdiff⟩ := Space.updateObjects_free space hfree hlen
    refine ⟨s, hs, ho, ?_, ?_, ?_, ?_, ?_, hmin, hmax, ?_, ?_⟩
    · rw [hv]; exact (classifyFree_sublist _ _ _).1
    · rw [hn]; exact (classifyFree_sublist _ _ _).2
    · intro i; rw [hv]; exact mem_classifyFree_visible _ _ _ i
    · intro i; rw [hn]; exact mem_classifyFree_neighbor _ _ _ i
    · intro d hd; rw [hmin, hmax]; exact classifyFree_contains _ _ _ d hd
    · rw [hmin, hmax]; exact hsame
    · rw [hmin, hmax]; exact hdiff
  · obtain ⟨s, hs, ho, hv, hn, hmin, hmax, hsame, hdiff⟩ :=
      PermanentSpace.updateObjects_free_permanent pspace hpfree hplen
    refine ⟨s, hs, ho, ?_, ?_, ?_, ?_, ?_, hmin, hmax, ?_, ?_⟩
    · rw [hv]; exact (classifyFree_sublist _ _ _).1
    · rw [hn]; exact (classifyFree_sublist _ _ _).2
    · intro i; rw [hv]; exact mem_classifyFree_visible _ _ _ i
    · intro i; rw [hn]; exact mem_classifyFree_neighbor _ _ _ i
    · intro d hd; rw [hmin, hmax]; exact classifyFree_contains _ _ _ d hd
    · rw [hmin, hmax]; exact hsame
    · rw [hmin, hmax]; exact hdiff

theorem C17_unbounded_classification_grows_bounds_witness :
    (∃ s, unboundedLineSpace.updateObjects = .ok s ∧
      s.mSpaceAlg.mMinPos = (classifyFree [0] [1 / 4] unboundedLineSpace.mObjects).1) ∧
    (∃ s, permanentScenarioSpace.updateObjects = .ok s ∧
      s.mSpaceAlg.mMaxPos =
        (classifyFree [0, 0, 0] [0, 0, 0] permanentScenarioSpace.mObjects).2.1) :=
  ⟨(C17_unbounded_classification_grows_bounds unboundedLineSpace permanentScenarioSpace
      rfl rfl rfl rfl).1.imp fun _ h => ⟨h.1, h.2.2.2.2.2.2.2.1⟩,
   (C17_unbounded_classification_grows_bounds unboundedLineSpace permanentScenarioSpace
      rfl rfl rfl rfl).2.imp fun _ h => ⟨h.1, h.2.2.2.2.2.2.2.2.1⟩⟩

/-- C18 (the code at the failing input): whenever `Space::update` of a space with permanent
neighbors returns, the space has dimension three, and every neighbor-capable proxy has its
relations in the old order with the old targets, each with direction = target position -
source position and distance = the norm of that direction. In any other dimension the
update does not return: in the plane scenario (A at (0,0), B at (3,4), one relation A->B)
the `Eigen::Vector3f direction(dim)` of `updateNeighbors` cannot hold the difference of the
positions. In the three-dimensional spec scenario the relation A->B gets direction (3,4,0)
and distance 5. -/
theorem C18_permanent_update_needs_three_rows (sqrtF : ℚ → ℚ) (h : sqrtF 25 = 5) :
    (∀ (heap : Nat → Option SpaceObject) (space s' : PermanentSpace),
      space.update sqrtF heap = .ok s' →
      space.mSpaceAlg.mMinPos.length = 3 ∧
      ∀ i ∈ s'.mNeighborObjects, ∃ p0 p, space.mObjects[i]? = some p0 ∧
        s'.mObjects[i]? = some p ∧
        List.Forall₂
          (fun r0 r => r.mObject = r0.mObject ∧ r.mNeighborObject = r0.mNeighborObject ∧
            ∃ target, heap r0.mNeighborObject = some target ∧
              r.mDirection =
                List.zipWith (fun a b => a - b) target.mPosition p0.mSpaceObject.mPosition ∧
              r.mDistance = distanceOf sqrtF r.mDirection)
          p0.mNeighborGroup.mNeighborRelations p.mNeighborGroup.mNeighborRelations) ∧
    (∀ heap : Nat → Option SpaceObject,
      permanentPlaneSpace.update sqrtF heap = .error .undefinedBehaviour) ∧
    (permanentScenarioSpace.update sqrtF (heapOf permanentScenarioSpace.mObjects)).map
        (fun s => s.mObjects.map fun p => p.mNeighborGroup.mNeighborRelations)
      = .ok [[⟨0, 1, [1, 0, 0], [3, 4, 0], 5⟩], []] := by
  refine ⟨?_, ?_, ?_⟩
  · intro heap space s' hu
    obtain ⟨s1, h1, h3, -⟩ := PermanentSpace.update_spec hu
    refine ⟨by rw [← PermanentSpace.updateObjects_dim h1]; exact h3, ?_⟩
    intro i hi
    obtain ⟨p0, p, hp0, hp, -, hf⟩ := PermanentSpace.update_recomputed hu hi
    refine ⟨p0, p, hp0, hp, hf.imp ?_⟩
    intro r0 r hr
    obtain ⟨target, ht, -, -, rfl⟩ := updateRelation_ok hr
    exact ⟨rfl, rfl, target, ht, rfl, rfl⟩
  · intro heap
    with_unfolding_all rfl
  · have hg : sqrtF = fun x => if x = 25 then 5 else sqrtF x := by
      funext x
      split_ifs with ha
      · rw [ha, h]
      · rfl
    rw [hg]
    with_unfolding_all rfl

theorem C18_permanent_update_needs_three_rows_witness :
    (permanentScenarioSpace.update (fun _ => 5) (heapOf permanentScenarioSpace.mObjects)).map
        (fun s => s.mObjects.map fun p => p.mNeighborGroup.mNeighborRelations)
      = .ok [[⟨0, 1, [1, 0, 0], [3, 4, 0], 5⟩], []] :=
  (C18_permanent_update_needs_three_rows (fun _ => 5) rfl).2.2

/-- C19 (counterexample): in the bounded space `boundedPermanentSpace` both relations A->B
and B->A exist; A is inside the bounds, B outside. After the update the relation A->B has
direction (0,0,-1) and distance 1, the relation B->A still its authored direction (1,1,1)
and distance 7. (The squared norm of (0,0,-1) is 1, whose square root is 1; the identity
stands for the square root.) -/
theorem C19_relation_of_proxy_outside_bounds_is_stale :
    (boundedPermanentSpace.update (fun x => x) (heapOf boundedPermanentSpace.mObjects)).map
        (fun s => s.mObjects.map fun p => p.mNeighborGroup.mNeighborRelations)
      = .ok [[⟨0, 1, [1, 1, 1], [0, 0, -1], 1⟩], [⟨1, 0, [1, 1, 1], [1, 1, 1], 7⟩]] := by
  with_unfolding_all rfl

/-- C19 (amended): after an update of a space with permanent neighbors, for two proxies A, B
of the neighbor-capable set, a relation A->B stored for A and a relation B->A stored for B
have equal distances and opposite directions. -/
theorem C19_capable_pair_is_symmetric (sqrtF : ℚ → ℚ) (heap : Nat → Option SpaceObject)
    (space s' : PermanentSpace) (i j : Nat) (p q : SpaceProxyObject)
    (r r' : SpaceNeighborRelation)
    (hheap : ∀ o ∈ space.mObjects, heap o.mSpaceObject.mId = some o.mSpaceObject)
    (hu : space.update sqrtF heap = .ok s')
    (hi : i ∈ s'.mNeighborObjects) (hj : j ∈ s'.mNeighborObjects)
    (hp : s'.mObjects[i]? = some p) (hq : s'.mObjects[j]? = some q)
    (hr : r ∈ p.mNeighborGroup.mNeighborRelations)
    (hr' : r' ∈ q.mNeighborGroup.mNeighborRelations)
    (hrq : r.mNeighborObject = q.mSpaceObject.mId)
    (hrp : r'.mNeighborObject = p.mSpaceObject.mId) :
    r.mDistance = r'.mDistance ∧ r.mDirection = r'.mDirection.map fun x => -x := by
  obtain ⟨p0, p1, hp0, hp1, hep, hfp⟩ := PermanentSpace.update_recomputed hu hi
  obtain ⟨q0, q1, hq0, hq1, heq, hfq⟩ := PermanentSpace.update_recomputed hu hj
  rw [hp] at hp1
  cases hp1
  rw [hq] at hq1
  cases hq1
  obtain ⟨r0, -, h0⟩ := forall₂_mem_right hfp hr
  obtain ⟨r0', -, h0'⟩ := forall₂_mem_right hfq hr'
  obtain ⟨t, ht, -, -, rfl⟩ := updateRelation_ok h0
  obtain ⟨t', ht', -, -, rfl⟩ := updateRelation_ok h0'
  simp only at hrq hrp ⊢
  have hq0m : q0 ∈ space.mObjects := List.getElem?_mem hq0
  have hp0m : p0 ∈ space.mObjects := List.getElem?_mem hp0
  rw [hrq, heq, hheap q0 hq0m] at ht
  rw [hrp, hep, hheap p0 hp0m] at ht'
  cases ht
  cases ht'
  have := zipWith_sub_neg q0.mSpaceObject.mPosition p0.mSpaceObject.mPosition
  rw [this, distanceOf_neg]
  exact ⟨rfl, rfl⟩

theorem C19_capable_pair_is_symmetric_witness :
    (1 : ℚ) = 1 ∧ ([0, 0, -1] : Vec) = ([0, 0, 1] : Vec).map fun x => -x :=
  C19_capable_pair_is_symmetric (fun x => x) (heapOf unboundedPairSpace.mObjects)
    unboundedPairSpace
    { unboundedPairSpace with
      mObjects :=
        [⟨⟨0, 3, [0, 0, 0]⟩, ⟨true, some ⟨-1, 4, false, 3⟩, [⟨0, 1, [1, 1, 1], [0, 0, -1], 1⟩]⟩⟩,
         ⟨⟨1, 3, [0, 0, -1]⟩, ⟨true, some ⟨-1, 4, false, 3⟩, [⟨1, 0, [1, 1, 1], [0, 0, 1], 1⟩]⟩⟩]
      mVisibleObjects := [0, 1]
      mNeighborObjects := [0, 1] }
    0 1
    ⟨⟨0, 3, [0, 0, 0]⟩, ⟨true, some ⟨-1, 4, false, 3⟩, [⟨0, 1, [1, 1, 1], [0, 0, -1], 1⟩]⟩⟩
    ⟨⟨1, 3, [0, 0, -1]⟩, ⟨true, some ⟨-1, 4, false, 3⟩, [⟨1, 0, [1, 1, 1], [0, 0, 1], 1⟩]⟩⟩
    ⟨0, 1, [1, 1, 1], [0, 0, -1], 1⟩ ⟨1, 0, [1, 1, 1], [0, 0, 1], 1⟩
    (by decide) (by with_unfolding_all rfl) (by decide) (by decide) rfl rfl (by decide)
    (by decide) rfl rfl

/-- C20: `Space::addObject` throws when the dimension of the object differs from the
dimension of the space and when the object already has a proxy in the space; whenever it
does not return, the space and the neighbor registry of the object are as before; when it
returns, the proxy vector is the old one with one proxy for the object (no relations, the
given visibility and policy) appended and the registry is the one `add` returned. Hence a
space in which no object has two proxies and every object has the dimension of the space
stays so. Stated for the space with an N-tree and the space with permanent neighbors. -/
theorem C20_addObject_fails_or_appends_one_proxy {R : Type} (add : R → Option R)
    (space : Space) (pspace : PermanentSpace) (registry : R) (pObject : SpaceObject)
    (pVisible : Bool) (pAlg : Option NeighborGroupAlg) :
    ((pObject.mDim ≠ space.mSpaceAlg.mMinPos.length →
        (space.addObject add registry pObject pVisible pAlg).1 = .error .exception) ∧
      (pObject.mId ∈ space.mObjects.map (fun p => p.mSpaceObject.mId) →
        (space.addObject add registry pObject pVisible pAlg).1 = .error .exception) ∧
      ((space.addObject add registry pObject pVisible pAlg).1 ≠ .ok () →
        (space.addObject add registry pObject pVisible pAlg).2 = (space, registry)) ∧
      ((space.addObject add registry pObject pVisible pAlg).1 = .ok () →
        (space.addObject add registry pObject pVisible pAlg).2.1 =
          { space with mObjects := space.mObjects ++ [⟨pObject, ⟨pVisible,
            pAlg.map fun a =>
              { a with mNeighborDirectionRows := space.mSpaceAlg.mMinPos.length }, []⟩⟩] } ∧
        add registry = some (space.addObject add registry pObject pVisible pAlg).2.2) ∧
      (DistinctObjects space.mObjects →
        AllOfDim space.mSpaceAlg.mMinPos.length space.mObjects →
        DistinctObjects (space.addObject add registry pObject pVisible pAlg).2.1.mObjects ∧
        AllOfDim space.mSpaceAlg.mMinPos.length
          (space.addObject add registry pObject pVisible pAlg).2.1.mObjects)) ∧
    ((pObject.mDim ≠ pspace.mSpaceAlg.mMinPos.length →
        (pspace.addObject add registry pObject pVisible pAlg).1 = .error .exception) ∧
      (pObject.mId ∈ pspace.mObjects.map (fun p => p.mSpaceObject.mId) →
        (pspace.addObject add registry pObject pVisible pAlg).1 = .error .exception) ∧
      ((pspace.addObject add registry pObject pVisible pAlg).1 ≠ .ok () →
        (pspace.addObject add registry pObject pVisible pAlg).2 = (pspace, registry)) ∧
      ((pspace.addObject add registry pObject pVisible pAlg).1 = .ok () →
        (pspace.addObject add registry pObject pVisible pAlg).2.1 =
          { pspace with mObjects := pspace.mObjects ++ [⟨pObject, ⟨pVisible,
            pAlg.map fun a =>
              { a with mNeighborDirectionRows := pspace.mSpaceAlg.mMinPos.length }, []⟩⟩] } ∧
        add registry = some (pspace.addObject add registry pObject pVisible pAlg).2.2) ∧
      (DistinctObjects pspace.mObjects →
        AllOfDim pspace.mSpaceAlg.mMinPos.length pspace.mObjects →
        DistinctObjects (pspace.addObject add registry pObject pVisible pAlg).2.1.mObjects ∧
        AllOfDim pspace.mSpaceAlg.mMinPos.length
          (pspace.addObject add registry pObject pVisible pAlg).2.1.mObjects)) := by
  constructor
  · obtain ⟨h1, h2, h3, h4⟩ := addObjectTo_spec add space.mSpaceAlg.mMinPos.length
      space.mObjects registry pObject pVisible pAlg
    refine ⟨h1, fun h => h2 ((checkObject_iff _ _).2 h), ?_, ?_, ?_⟩
    · intro h
      have := h3 h
      simp only [Space.addObject, this]
    · intro h
      obtain ⟨-, -, h5, h6⟩ := h4 h
      exact ⟨by simp only [Space.addObject, h6], h5⟩
    · intro hd ha
      exact addObjectTo_invariants add _ _ registry pObject pVisible pAlg hd ha
  · obtain ⟨h1, h2, h3, h4⟩ := addObjectTo_spec add pspace.mSpaceAlg.mMinPos.length
      pspace.mObjects registry pObject pVisible pAlg
    refine ⟨h1, fun h => h2 ((checkObject_iff _ _).2 h), ?_, ?_, ?_⟩
    · intro h
      have := h3 h
      simp only [PermanentSpace.addObject, this]
    · intro h
      obtain ⟨-, -, h5, h6⟩ := h4 h
      exact ⟨by simp only [PermanentSpace.addObject, h6], h5⟩
    · intro hd ha
      exact addObjectTo_invariants add _ _ registry pObject pVisible pAlg hd ha

theorem C20_addObject_fails_or_appends_one_proxy_witness :
    (unboundedCapSpace.addObject (fun (r : List String) => some ("space" :: r)) []
        ⟨1, 1, [1 / 4]⟩ true none).2 = (unboundedCapSpace, []) ∧
    (permanentScenarioSpace.addObject (fun (r : List String) => some ("space" :: r)) []
        ⟨2, 3, [1, 1, 1]⟩ true none).2.1 =
      { permanentScenarioSpace with
        mObjects := permanentScenarioSpace.mObjects ++ [⟨⟨2, 3, [1, 1, 1]⟩, ⟨true, none, []⟩⟩] } :=
  ⟨(C20_addObject_fails_or_appends_one_proxy (fun (r : List String) => some ("space" :: r))
      unboundedCapSpace permanentScenarioSpace [] ⟨1, 1, [1 / 4]⟩ true none).1.2.2.1
      (by decide),
   ((C20_addObject_fails_or_appends_one_proxy (fun (r : List String) => some ("space" :: r))
      unboundedCapSpace permanentScenarioSpace [] ⟨2, 3, [1, 1, 1]⟩ true none).2.2.2.2.1
      (by decide)).1⟩

/-- C21 (the code at the failing input): the object A of the permanent-neighbors scenario
has a proxy in the space, but its registry holds no neighbor group under the name of the
space (the group has been removed through the public `SpaceObject::removeNeighborGroup`).
`Space::removeObject` throws, and the proxy of A is gone from the proxy vector: the proxy is
erased before `removeNeighborGroup` throws. The same holds in every space, with an N-tree or
with permanent neighbors, whenever the object has a proxy and the registry throws. With a
registry that holds the group the call does what the claim says: it throws and changes
nothing when the object has no proxy, and otherwise succeeds, the proxy vector being the
old one without the first proxy of the object and the registry the one `remove` returned;
in a space in which no object has two proxies the object has no proxy left. -/
theorem C21_removeObject_fails_with_proxy_present :
    permanentScenarioSpace.removeObject (removeGroup "space") [] ⟨0, 3, [0, 0, 0]⟩
      = (.error .exception,
          { permanentScenarioSpace with mObjects := [⟨⟨1, 3, [3, 4, 0]⟩, ⟨true, none, []⟩⟩] },
          []) ∧
    (0 : Nat) ∈ permanentScenarioSpace.mObjects.map (fun p => p.mSpaceObject.mId) ∧
    (midpointSpace.removeObject (removeGroup "space") [] ⟨1, 1, [8]⟩).1 = .error .exception ∧
    (midpointSpace.removeObject (removeGroup "space") [] ⟨1, 1, [8]⟩).2.1.mObjects.map
      (fun p => p.mSpaceObject.mId) = [0, 2] ∧
    (∀ (R : Type) (remove : R → Option R) (space : Space) (pspace : PermanentSpace)
      (registry : R) (pObject : SpaceObject),
      (pObject.mId ∈ space.mObjects.map (fun p => p.mSpaceObject.mId) →
        remove registry = none →
        ∃ l1 p l2, space.mObjects = l1 ++ p :: l2 ∧ p.mSpaceObject.mId = pObject.mId ∧
          (∀ q ∈ l1, q.mSpaceObject.mId ≠ pObject.mId) ∧
          space.removeObject remove registry pObject
            = (.error .exception, { space with mObjects := l1 ++ l2 }, registry)) ∧
      (pObject.mId ∈ pspace.mObjects.map (fun p => p.mSpaceObject.mId) →
        remove registry = none →
        ∃ l1 p l2, pspace.mObjects = l1 ++ p :: l2 ∧ p.mSpaceObject.mId = pObject.mId ∧
          (∀ q ∈ l1, q.mSpaceObject.mId ≠ pObject.mId) ∧
          pspace.removeObject remove registry pObject
            = (.error .exception, { pspace with mObjects := l1 ++ l2 }, registry)) ∧
      ((pObject.mId ∉ space.mObjects.map (fun p => p.mSpaceObject.mId) →
          space.removeObject remove registry pObject = (.error .exception, space, registry)) ∧
        ((remove registry).isSome = true →
          ((space.removeObject remove registry pObject).1 = .ok () ↔
            pObject.mId ∈ space.mObjects.map (fun p => p.mSpaceObject.mId))) ∧
        ((space.removeObject remove registry pObject).1 = .ok () →
          ∃ l1 p l2, space.mObjects = l1 ++ p :: l2 ∧ p.mSpaceObject.mId = pObject.mId ∧
            (∀ q ∈ l1, q.mSpaceObject.mId ≠ pObject.mId) ∧
            (space.removeObject remove registry pObject).2.1 =
              { space with mObjects := l1 ++ l2 } ∧
            remove registry = some (space.removeObject remove registry pObject).2.2) ∧
        (DistinctObjects space.mObjects →
          (space.removeObject remove registry pObject).1 = .ok () →
          pObject.mId ∉ (space.removeObject remove registry pObject).2.1.mObjects.map
            (fun p => p.mSpaceObject.mId))) ∧
      ((pObject.mId ∉ pspace.mObjects.map (fun p => p.mSpaceObject.mId) →
          pspace.removeObject remove registry pObject = (.error .exception, pspace, registry)) ∧
        ((remove registry).isSome = true →
          ((pspace.removeObject remove registry pObject).1 = .ok () ↔
            pObject.mId ∈ pspace.mObjects.map (fun p => p.mSpaceObject.mId))) ∧
        ((pspace.removeObject remove registry pObject).1 = .ok () →
          ∃ l1 p l2, pspace.mObjects = l1 ++ p :: l2 ∧ p.mSpaceObject.mId = pObject.mId ∧
            (∀ q ∈ l1, q.mSpaceObject.mId ≠ pObject.mId) ∧
            (pspace.removeObject remove registry pObject).2.1 =
              { pspace with mObjects := l1 ++ l2 } ∧
            remove registry = some (pspace.removeObject remove registry pObject).2.2) ∧
        (DistinctObjects pspace.mObjects →
          (pspace.removeObject remove registry pObject).1 = .ok () →
          pObject.mId ∉ (pspace.removeObject remove registry pObject).2.1.mObjects.map
            (fun p => p.mSpaceObject.mId)))) := by
  refine ⟨by decide, by decide, by decide, by decide, ?_⟩
  intro R remove space pspace registry pObject
  refine ⟨?_, ?_, ?_, ?_⟩
  · intro hmem hrem
    obtain ⟨l1, p, l2, a1, a2, a3, a4⟩ :=
      removeObjectFrom_throw remove space.mObjects registry pObject hmem hrem
    refine ⟨l1, p, l2, a1, a2, a3, ?_⟩
    unfold Space.removeObject
    simp only
    rw [a4]
  · intro hmem hrem
    obtain ⟨l1, p, l2, a1, a2, a3, a4⟩ :=
      removeObjectFrom_throw remove pspace.mObjects registry pObject hmem hrem
    refine ⟨l1, p, l2, a1, a2, a3, ?_⟩
    unfold PermanentSpace.removeObject
    simp only
    rw [a4]
  · obtain ⟨h1, h2, h3, h4⟩ := removeObjectFrom_spec remove space.mObjects registry pObject
    refine ⟨fun h => ?_, h2, fun h => ?_, h4⟩
    · unfold Space.removeObject
      rw [h1 h]
    · obtain ⟨l1, p, l2, a1, a2, a3, a4, a5⟩ := h3 h
      refine ⟨l1, p, l2, a1, a2, a3, ?_, a5⟩
      unfold Space.removeObject
      simp only
      rw [a4]
  · obtain ⟨h1, h2, h3, h4⟩ := removeObjectFrom_spec remove pspace.mObjects registry pObject
    refine ⟨fun h => ?_, h2, fun h => ?_, h4⟩
    · unfold PermanentSpace.removeObject
      rw [h1 h]
    · obtain ⟨l1, p, l2, a1, a2, a3, a4, a5⟩ := h3 h
      refine ⟨l1, p, l2, a1, a2, a3, ?_, a5⟩
      unfold PermanentSpace.removeObject
      simp only
      rw [a4]

/-- C21 at the scenarios: an object without a proxy, and an object with a proxy whose
registry holds the group of the space. -/
theorem C21_removeObject_fails_with_proxy_present_witness :
    unboundedCapSpace.removeObject (removeGroup "space") ["space"] ⟨7, 1, [1 / 4]⟩ =
        (.error .exception, unboundedCapSpace, ["space"]) ∧
    ((permanentScenarioSpace.removeObject (removeGroup "space") ["space"]
          ⟨0, 3, [0, 0, 0]⟩).1 = .ok () ↔
        (⟨0, 3, [0, 0, 0]⟩ : SpaceObject).mId ∈
          permanentScenarioSpace.mObjects.map (fun p => p.mSpaceObject.mId)) ∧
    (0 : Nat) ∉ (permanentScenarioSpace.removeObject (removeGroup "space") ["space"]
          ⟨0, 3, [0, 0, 0]⟩).2.1.mObjects.map (fun p => p.mSpaceObject.mId) :=
  ⟨(C21_removeObject_fails_with_proxy_present.2.2.2.2 (List String) (removeGroup "space")
      unboundedCapSpace permanentScenarioSpace ["space"] ⟨7, 1, [1 / 4]⟩).2.2.1.1 (by decide),
   (C21_removeObject_fails_with_proxy_present.2.2.2.2 (List String) (removeGroup "space")
      unboundedCapSpace permanentScenarioSpace ["space"] ⟨0, 3, [0, 0, 0]⟩).2.2.2.2.1
      (by decide),
   (C21_removeObject_fails_with_proxy_present.2.2.2.2 (List String) (removeGroup "space")
      unboundedCapSpace permanentScenarioSpace ["space"] ⟨0, 3, [0, 0, 0]⟩).2.2.2.2.2.2
      (by unfold DistinctObjects; decide) (by decide)⟩

/-- C22 (the code at the failing input): `SpaceObject::setPosition` and `changePosition`
throw for a vector whose length is not the dimension of the object; for a vector of that
length they store the vector, respectively the sum of the position and the vector, and the
position keeps the length of the dimension. `SpaceShape::setPosition` and `changePosition`
have no such test: called on a shape at the origin (dimension 3, position (0,0,0)) with the vector
(1,2,3,4) they return normally and the position is (1,2,3); called with a vector of length
2 they read outside the vector. -/
theorem C22_shape_accepts_position_of_wrong_length :
    (∀ (o : SpaceObject) (p : Vec), p.length ≠ o.mDim →
      o.setPosition p = .error .exception ∧ o.changePosition p = .error .exception) ∧
    (∀ (o : SpaceObject) (p : Vec), p.length = o.mDim →
      o.setPosition p = .ok { o with mPosition := p } ∧
      (o.mPosition.length = o.mDim →
        o.changePosition p = .ok { o with mPosition := List.zipWith (· + ·) o.mPosition p } ∧
        (List.zipWith (· + ·) o.mPosition p).length = o.mDim)) ∧
    (shapeAtOrigin 0).setPosition [1, 2, 3, 4] =
      .ok { toSpaceObject := ⟨0, 3, [1, 2, 3]⟩, nodePosition := (1, 2, 3),
            mTransformChanged := true } ∧
    (shapeAtOrigin 0).changePosition [1, 2, 3, 4] =
      .ok { toSpaceObject := ⟨0, 3, [1, 2, 3]⟩, nodePosition := (1, 2, 3),
            mTransformChanged := true } ∧
    (shapeAtOrigin 0).setPosition [1, 2] = .error .undefinedBehaviour ∧
    (shapeAtOrigin 0).changePosition [1, 2] = .error .undefinedBehaviour := by
  refine ⟨?_, ?_, ?_, ?_, by rfl, by rfl⟩
  · intro o p h
    simp [SpaceObject.setPosition, SpaceObject.changePosition, h]
  · intro o p h
    refine ⟨by simp [SpaceObject.setPosition, h], fun hl => ⟨?_, ?_⟩⟩
    · simp [SpaceObject.changePosition, h, hl]
    · simp [List.length_zipWith, h, hl]
  · simp [SpaceShape.setPosition, SpaceShape.onPositionChanged, shapeAtOrigin]
  · simp [SpaceShape.changePosition, SpaceShape.onPositionChanged, shapeAtOrigin]

theorem C22_shape_accepts_position_of_wrong_length_witness :
    (⟨0, 3, [0, 0, 0]⟩ : SpaceObject).setPosition [1, 2, 3, 4] = .error .exception ∧
    (⟨0, 3, [0, 0, 0]⟩ : SpaceObject).changePosition [1, 2, 3, 4] = .error .exception :=
  C22_shape_accepts_position_of_wrong_length.1 ⟨0, 3, [0, 0, 0]⟩ [1, 2, 3, 4] (by decide)

/-- C23 (the code at the failing input): `SpaceManager::update` calls `update()` twice on
every space. A manager that holds the grid space of the spec scenario with update mode
NearestAdd (the cell (0,0) holding (5,0), one proxy at (0.1, 0.1)) ends with (10,0) in the
cell (0,0) and (10,0) as the value of the proxy's relation, where one `Space::update` ends
with (5,0) in the cell and (5,0) as the value. For a manager that holds only spaces with
an N-tree (satisfying the invariant of the tree) and spaces with permanent neighbors the
second call changes nothing, and the result is that of one update per space. -/
theorem C23_manager_updates_every_space_twice (sqrtF : ℚ → ℚ) (fuel : Nat)
    (heap : Nat → Option SpaceObject) :
    (SpaceManager.update sqrtF fuel heap
        [.grid (cellLocationSpace .NearestAddMode [1 / 10, 1 / 10])] 1).map
        (fun r => r.1.map ManagedSpace.gridState) =
      .ok [([[10, 0], [0, 0], [0, 0], [0, 7]], [[[10, 0]]])] ∧
    (updateEachOnce sqrtF fuel heap
        [.grid (cellLocationSpace .NearestAddMode [1 / 10, 1 / 10])] 1).map
        (fun r => r.1.map ManagedSpace.gridState) =
      .ok [([[5, 0], [0, 0], [0, 0], [0, 7]], [[[5, 0]]])] ∧
    ∀ (mSpaces : List ManagedSpace) (c : Nat), (∀ s ∈ mSpaces, s.Settled) →
      SpaceManager.update sqrtF fuel heap mSpaces c =
        updateEachOnce sqrtF fuel heap mSpaces c := by
  refine ⟨?_, ?_, fun mSpaces c hs => SpaceManager.update_settled sqrtF fuel heap mSpaces c hs⟩
  · with_unfolding_all rfl
  · with_unfolding_all rfl

theorem C23_manager_updates_every_space_twice_witness :
    SpaceManager.update sceneSqrt 20 (heapOf permanentScenarioSpace.mObjects)
        [.ntree scenarioLineSpace, .permanent permanentScenarioSpace] 0 =
      updateEachOnce sceneSqrt 20 (heapOf permanentScenarioSpace.mObjects)
        [.ntree scenarioLineSpace, .permanent permanentScenarioSpace] 0 :=
  (C23_manager_updates_every_space_twice sceneSqrt 20
    (heapOf permanentScenarioSpace.mObjects)).2.2 _ 0
    (by
      intro s hs
      simp only [List.mem_cons, List.mem_singleton, List.not_mem_nil, or_false] at hs
      rcases hs with rfl | rfl
      · exact SpaceOK.ofEmptyTree scenarioLineSpace rfl rfl rfl rfl rfl rfl
      · exact True.intro)

/-- C26 (the code at the failing input): the grid of the spec scenario (2x2 cells over
(0,0)-(1,1), the cell (0,0) holding (5,0) and the cell (1,1) holding (0,7)) in neighbor
mode CellLocation with one neighbor-capable proxy. With the proxy at (0.6, 0.6) the cell
that contains the proxy is the cell (1,1), as both index-vector forms of `position2index`
say, and it holds (0,7); the update gives the proxy one relation with direction (0,0) and
distance 0 whose value is (5,0), the content of the cell (0,0): the flat form of
`position2index` scales the position by (n - 1) / (max - min). With the proxy at
(0.1, 0.1), as in the spec scenario, the value is (5,0), the content of its cell. -/
theorem C26_cell_location_reads_another_cell :
    scenarioGrid.position2index [3 / 5, 3 / 5] = .ok [1, 1] ∧
    [clampedFloorIndex 0 1 2 (3 / 5), clampedFloorIndex 0 1 2 (3 / 5)] = [1, 1] ∧
    scenarioGrid.position2indexFlat [3 / 5, 3 / 5] = .ok 0 ∧
    scenarioGrid.vectors[1 + 1 * 2]? = some [0, 7] ∧
    ((cellLocationSpace .NoUpdateMode [3 / 5, 3 / 5]).update (fun _ => none) 1).map
        (fun r => r.1.mObjects.map fun p => p.mNeighborGroup.mNeighborRelations) =
      .ok [[⟨0, 1, [5, 0], [0, 0], 0⟩]] ∧
    ((cellLocationSpace .NoUpdateMode [1 / 10, 1 / 10]).update (fun _ => none) 1).map
        (fun r => r.1.mObjects.map fun p => p.mNeighborGroup.mNeighborRelations) =
      .ok [[⟨0, 1, [5, 0], [0, 0], 0⟩]] := by
  refine ⟨?_, ?_, ?_, ?_, ?_, ?_⟩
  · with_unfolding_all rfl
  · with_unfolding_all rfl
  · with_unfolding_all rfl
  · with_unfolding_all rfl
  · with_unfolding_all rfl
  · with_unfolding_all rfl

/-- C28 (the code at the failing input): in `roomyMidpointSpace` the source at 1 has radius
16 and cap 8, so its list never becomes full and every offer within the radius appends one
relation. After `Space.update` the relation vector of the source is the object at 8, the
object at 8 again, and the object at 11: the proxy on the midpoint of the root cell has
been offered twice, once from each of the two leaves that hold it. -/
theorem C28_midpoint_object_is_offered_twice :
    (Space.update (fun x => if x = 49 then 7 else 10) 20 roomyMidpointSpace).map
        (fun s => (s.mVisibleObjects, s.mNeighborObjects,
          s.mObjects.map fun p => p.mNeighborGroup.mNeighborRelations))
      = .ok ([0, 1, 2], [0],
          [[⟨0, 1, [7], [7], 7⟩, ⟨0, 1, [7], [7], 7⟩, ⟨0, 2, [10], [10], 10⟩], [], []]) ∧
    (Space.update (fun x => if x = 49 then 7 else 10) 20 roomyMidpointSpace).map
        (fun s => (neighborsOf s 0).count 1) = .ok 2 := by
  constructor
  · with_unfolding_all rfl
  · with_unfolding_all rfl

/-- C29 (the code at the failing input): the structure phase on `midpointSpace` (bounds
[0, 16], visible proxies 0, 1, 2 at the positions 1, 8, 11). The root has the children
[0, 8] and [8, 16]; the proxy 1 at the midpoint 8 is stored in both of them, and one level
down in the cells [4, 8] and [8, 12]. A second structure phase on the tree so built gives
the same layout. The first child of the root whose closed cell contains the position 8 is
the child 0, as the distribution loop of the neighbor phase computes it. -/
theorem C29_midpoint_object_is_in_both_children :
    (NTreeVisitor.updateTree 1 midpointSpace.mObjects 20 midpointSpace.mSpaceAlg.mTree
        [0, 1, 2]).map NTree.layout
      = .ok [([0], [16], [0, 1, 2], [some 1, some 2]),
             ([0], [8], [0, 1], [some 3, some 4]),
             ([8], [16], [1, 2], [some 5, some 6]),
             ([0], [4], [0], [none, none]),
             ([4], [8], [1], [none, none]),
             ([8], [12], [1, 2], [some 7, some 8]),
             ([12], [16], [], [none, none]),
             ([8], [10], [1], [none, none]),
             ([10], [12], [2], [none, none])] ∧
    ((NTreeVisitor.updateTree 1 midpointSpace.mObjects 20 midpointSpace.mSpaceAlg.mTree
        [0, 1, 2]).bind fun t =>
          (NTreeVisitor.updateTree 1 midpointSpace.mObjects 20 t [0, 1, 2]).map NTree.layout)
      = (NTreeVisitor.updateTree 1 midpointSpace.mObjects 20 midpointSpace.mSpaceAlg.mTree
        [0, 1, 2]).map NTree.layout ∧
    ((NTreeVisitor.updateTree 1 midpointSpace.mObjects 20 midpointSpace.mSpaceAlg.mTree
        [0, 1, 2]).bind fun t =>
          match t.nodes[0]? with
          | none => .error .undefinedBehaviour
          | some root => firstContainingChild 1 t root (positionOf midpointSpace.mObjects 1)
              [0, 1])
      = .ok (some 0) := by
  refine ⟨?_, ?_, ?_⟩
  · with_unfolding_all rfl
  · with_unfolding_all rfl
  · with_unfolding_all rfl

/-- C31: on a tree produced by earlier structure phases, `updateTree` over a list of visible
proxies and `buildTree` over the same list on the cleared tree (same bounds, `mMaxDepth`
and `mMinObjectCount`) give, whenever both return, trees with the same view from the root:
the same shape and at every node the same level, cell and proxy list, the view that
subdividing makes of the bounds and the list; and both return when `mMaxDepth` is not
negative and the recursion budget exceeds it. -/
theorem C31_update_refines_fresh_build (mDim : Nat) (objs : List SpaceProxyObject)
    (fuel : Nat) (tree : NTree) (V : List Nat) (hprod : Produced mDim tree)
    (hvis : ∀ i ∈ V, visibleOf objs i = true) :
    (∀ t1 t2 : NTree, NTreeVisitor.updateTree mDim objs fuel tree V = .ok t1 →
      NTreeVisitor.buildTree mDim objs fuel { tree with mRootNode := none, nodes := [] } V
        = .ok t2 →
      ∃ view : TreeView, t1.view fuel = some view ∧ t2.view fuel = some view ∧
        builtView mDim objs tree.mMaxDepth tree.mMinObjectCount fuel 0 tree.mMinPos
          tree.mMaxPos V = some view) ∧
      (0 ≤ tree.mMaxDepth → tree.mMaxDepth.toNat + 1 ≤ fuel →
        ∃ t1 t2 : NTree, NTreeVisitor.updateTree mDim objs fuel tree V = .ok t1 ∧
          NTreeVisitor.buildTree mDim objs fuel { tree with mRootNode := none, nodes := [] } V
            = .ok t2) := by
  obtain ⟨i1, i2, i3⟩ := hprod.invariants
  obtain ⟨j1, j2, j3⟩ := (@Produced.cleared mDim
    ({ tree with mRootNode := none, nodes := [] } : NTree) rfl rfl).invariants
  have hbuild : NTreeVisitor.updateTree mDim objs fuel
      { tree with mRootNode := none, nodes := [] } V
        = NTreeVisitor.buildTree mDim objs fuel { tree with mRootNode := none, nodes := [] } V :=
    rfl
  constructor
  · intro t1 t2 h1 h2
    obtain ⟨v1, a1, a2⟩ := updateTree_view mDim objs fuel tree t1 V h1 i1 i3 hvis
    obtain ⟨v2, b1, b2⟩ := updateTree_view mDim objs fuel _ t2 V (hbuild.trans h2) j1 j3 hvis
    have hv : v2 = v1 := by
      have := b2.symm.trans a2
      simpa using this
    subst hv
    exact ⟨v2, a1, b1, a2⟩
  · intro hD hfuel
    obtain ⟨t1, h1⟩ := updateTree_returns mDim objs fuel tree V i1 i2 hvis hD hfuel
    obtain ⟨t2, h2⟩ := updateTree_returns mDim objs fuel _ V j1 j2 hvis hD hfuel
    exact ⟨t1, t2, h1, hbuild.symm.trans h2⟩

/-- C31 (witness): on the tree grown over the positions 1, 8 and 11, after the objects
have moved to 13, 14 and 15, the update and the fresh build return trees with the same
view. -/
theorem C31_update_refines_fresh_build_witness :
    ∃ (t1 t2 : NTree) (view : TreeView),
      NTreeVisitor.updateTree 1 movedObjects 5 grownTree [0, 1, 2] = .ok t1 ∧
      NTreeVisitor.buildTree 1 movedObjects 5
        { grownTree with mRootNode := none, nodes := [] } [0, 1, 2] = .ok t2 ∧
      t1.view 5 = some view ∧ t2.view 5 = some view ∧ t1.nodes ≠ t2.nodes := by
  have hprod : Produced 1 grownTree :=
    Produced.updated midpointSpace.mObjects 5 midpointSpace.mSpaceAlg.mTree [0, 1, 2] grownTree
      (Produced.cleared _ rfl rfl) (by with_unfolding_all rfl)
  have hvis : ∀ i ∈ [0, 1, 2], visibleOf movedObjects i = true := by decide
  obtain ⟨hagree, hret⟩ := C31_update_refines_fresh_build 1 movedObjects 5 grownTree [0, 1, 2]
    hprod hvis
  have hdepth : grownTree.mMaxDepth = 3 := by with_unfolding_all rfl
  obtain ⟨t1, t2, h1, h2⟩ := hret (by rw [hdepth]; decide) (by rw [hdepth]; decide)
  obtain ⟨view, v1, v2, -⟩ := hagree t1 t2 h1 h2
  refine ⟨t1, t2, view, h1, h2, v1, v2, ?_⟩
  intro hne
  have e1 : (NTreeVisitor.updateTree 1 movedObjects 5 grownTree [0, 1, 2]).map
      (fun t => t.nodes.length) = .ok t1.nodes.length := by rw [h1]; rfl
  have e2 : (NTreeVisitor.buildTree 1 movedObjects 5
      { grownTree with mRootNode := none, nodes := [] } [0, 1, 2]).map
      (fun t => t.nodes.length) = .ok t2.nodes.length := by rw [h2]; rfl
  have f1 : (NTreeVisitor.updateTree 1 movedObjects 5 grownTree [0, 1, 2]).map
      (fun t => t.nodes.length) = .ok 11 := by with_unfolding_all rfl
  have f2 : (NTreeVisitor.buildTree 1 movedObjects 5
      { grownTree with mRootNode := none, nodes := [] } [0, 1, 2]).map
      (fun t => t.nodes.length) = .ok 7 := by with_unfolding_all rfl
  rw [hne] at e1
  rw [e1] at f1
  rw [e2] at f2
  have := f1.symm.trans f2
  simp at this

/-- C32 (the code at the failing input): mode GridLocation on the line, a grid of two cells
over [0, 1]. For the proxy at 0.6, inside the bounds, the continuous grid position is 1.2;
its corners are floor = 1 and ceil = 2, and 2 is not a cell index of a grid with two
cells: `gridValue` throws and the update fails. The same happens at the bound 1 (floor =
ceil = 2). For the proxy at 0.2 (grid position 0.4) the corners 0 and 1 are cells, and the
update gives the two relations, to objects at the corner positions 0 and 0.5 with the
values (5) and (7). In a space of two or more dimensions the branch multiplies two
`Eigen::VectorXf` and has undefined behaviour for every proxy. -/
theorem C32_grid_location_reads_outside_the_grid :
    (lineGridSpace [3 / 5]).searchUpdate gridSqrt 20 .GridLocationMode [0] (fun _ => none) 1
      = .error .exception ∧
    (lineGridSpace [1]).searchUpdate gridSqrt 20 .GridLocationMode [0] (fun _ => none) 1
      = .error .exception ∧
    ((lineGridSpace [3 / 5]).updateObjects).map (fun s => s.mNeighborObjects) = .ok [0] ∧
    (lineGridSpace [3 / 5]).mSpaceAlg.mGrid.gridValueAt [1] = .ok [7] ∧
    (lineGridSpace [3 / 5]).mSpaceAlg.mGrid.gridValueAt [2] = .error .exception ∧
    ((lineGridSpace [1 / 5]).searchUpdate gridSqrt 20 .GridLocationMode [0]
        (fun _ => none) 1).map GridSpace.outcome
      = .ok ([[⟨0, 1, [5], [-1 / 5], 1 / 5⟩, ⟨0, 2, [7], [3 / 10], 3 / 10⟩]],
          [[0], [1 / 2]]) ∧
    (planeGridSpace [2, 2] [[5, 0], [0, 0], [0, 0], [0, 7]] ⟨-1, 4, false, 2⟩
        [[1 / 10, 1 / 10]]).searchUpdate gridSqrt 20 .GridLocationMode [0, 0]
        (fun _ => none) 1
      = .error .undefinedBehaviour := by
  refine ⟨?_, ?_, ?_, ?_, ?_, ?_, ?_⟩
  · with_unfolding_all rfl
  · with_unfolding_all rfl
  · with_unfolding_all rfl
  · with_unfolding_all rfl
  · with_unfolding_all rfl
  · with_unfolding_all rfl
  · with_unfolding_all rfl

/-- C33 (the code at the failing input): mode AvgRegion. In the plane (grid of 2x2 cells
holding (5,0), (0,0), (0,0), (0,7), proxy at (0.25, 0.25) with radius 1) the index box
runs from (0,0) to (1,1) and the mean of its four cells is (5/4, 7/4); the branch for two
axes scans the cell (0,0) only (its loops stop before the end index) and never adds a cell
to `value`, so the value of the relation is the content `value` had before, divided by
the number of scanned cells: (0,0) when it was (0,0), (3,4) when it was (3,4). In three
dimensions (grid of 2x1x1 cells holding (2) and (4), mean (3)) the first proxy gets the
value (3) when `value` was (0) before; a second proxy at the same position gets (9/2),
because `value` is not reset between the proxies. -/
theorem C33_avg_region_value_is_not_the_mean :
    ((planeGridSpace [2, 2] [[5, 0], [0, 0], [0, 0], [0, 7]] ⟨1, 1, false, 2⟩
        [[1 / 4, 1 / 4]]).mSpaceAlg.mGrid.position2index [1 / 4 - 1, 1 / 4 - 1],
      (planeGridSpace [2, 2] [[5, 0], [0, 0], [0, 0], [0, 7]] ⟨1, 1, false, 2⟩
        [[1 / 4, 1 / 4]]).mSpaceAlg.mGrid.position2index [1 / 4 + 1, 1 / 4 + 1])
      = (.ok [0, 0], .ok [1, 1]) ∧
    ((planeGridSpace [2, 2] [[5, 0], [0, 0], [0, 0], [0, 7]] ⟨1, 1, false, 2⟩
        [[1 / 4, 1 / 4]]).searchUpdate gridSqrt 20 .AvgRegionMode [0, 0]
        (fun _ => none) 1).map GridSpace.outcome
      = .ok ([[⟨0, 1, [0, 0], [0, 0], 0⟩]], [[1 / 4, 1 / 4]]) ∧
    ((planeGridSpace [2, 2] [[5, 0], [0, 0], [0, 0], [0, 7]] ⟨1, 1, false, 2⟩
        [[1 / 4, 1 / 4]]).searchUpdate gridSqrt 20 .AvgRegionMode [3, 4]
        (fun _ => none) 1).map GridSpace.outcome
      = .ok ([[⟨0, 1, [3, 4], [0, 0], 0⟩]], [[1 / 4, 1 / 4]]) ∧
    ((cubeGridSpace [[1 / 2, 1 / 2, 1 / 2]]).searchUpdate gridSqrt 20 .AvgRegionMode [0]
        (fun _ => none) 2).map
        (fun r => r.1.mObjects.map fun p => p.mNeighborGroup.mNeighborRelations.map
          fun rel => rel.mValue)
      = .ok [[[3]]] ∧
    ((cubeGridSpace [[1 / 2, 1 / 2, 1 / 2], [1 / 2, 1 / 2, 1 / 2]]).searchUpdate gridSqrt 20
        .AvgRegionMode [0] (fun _ => none) 2).map
        (fun r => r.1.mObjects.map fun p => p.mNeighborGroup.mNeighborRelations.map
          fun rel => rel.mValue)
      = .ok [[[3]], [[9 / 2]]] := by
  refine ⟨?_, ?_, ?_, ?_, ?_⟩
  · with_unfolding_all rfl
  · with_unfolding_all rfl
  · with_unfolding_all rfl
  · with_unfolding_all rfl
  · with_unfolding_all rfl

/-- C34 (the code at the failing input): mode PeakSearch in the plane. (1) Grid of 2x2
cells holding (5,0), (1,0), (2,0), (0,7), proxy at (0.75, 0.5) with radius 1 and cap 2: the
search box is the whole grid, c = 4 cells, and the two cells with the largest norms are
those holding (0,7) and (5,0); the code computes `searchPosCount` as the product of
end - start (1 * 1 = 1), keeps one candidate and offers the cell holding (0,7) alone.
(2) Grid of 2x1 cells, proxy at (0.5, 0.5) with radius 0.6 and cap 2: the box is two cells
long and one cell wide, `searchPosCount` is 1 * 0 = 0, the two vectors of candidates are
empty, and the scan reads the element 0 of the empty vector. (3) In a grid of 3x3 cells
the box of end - start = 2 on both axes gives `searchPosCount` 4, and with cap 2 the two
cells of largest norm are offered, the larger first, at the positions `index2position`
returns for them: the centres of the cells as `float` values, 1/6 rounded and 1/2. -/
theorem C34_peak_search_counts_too_few_cells :
    ((planeGridSpace [2, 2] [[5, 0], [1, 0], [2, 0], [0, 7]] ⟨1, 2, false, 2⟩
        [[3 / 4, 1 / 2]]).searchUpdate gridSqrt 20 .PeakSearchMode [0, 0]
        (fun _ => none) 1).map GridSpace.outcome
      = .ok ([[⟨0, 1, [0, 7], [0, 1 / 4], 1 / 4⟩]], [[3 / 4, 3 / 4]]) ∧
    (planeGridSpace [2, 1] [[5, 0], [1, 0]] ⟨3 / 5, 2, false, 2⟩
        [[1 / 2, 1 / 2]]).searchUpdate gridSqrt 20 .PeakSearchMode [0, 0] (fun _ => none) 1
      = .error .undefinedBehaviour ∧
    ((planeGridSpace [3, 3]
        [[5, 0], [1, 0], [2, 0], [0, 7], [1, 0], [1, 0], [1, 0], [1, 0], [1, 0]]
        ⟨1, 2, false, 2⟩ [[1 / 2, 1 / 2]]).searchUpdate gridSqrt 20 .PeakSearchMode [0, 0]
        (fun _ => none) 1).map (fun r => (GridSpace.outcome r).2)
      = .ok [[fl32 (1 / 6), 1 / 2], [fl32 (1 / 6), fl32 (1 / 6)]] := by
  refine ⟨?_, ?_, ?_⟩
  · set_option maxRecDepth 100000 in with_unfolding_all rfl
  · set_option maxRecDepth 100000 in with_unfolding_all rfl
  · set_option maxRecDepth 100000 in with_unfolding_all rfl

/-- C36: the cache of a shape that has a geometry. Every reading member (`AABB`, `ocAABB`,
`world2object`, `object2world`, `closestPoint`, `info`) returns and leaves the state
`refreshed`, in which both flags are clear, whatever the flags were before (both are set
in a shape just constructed); read again, that state stays as it is, so a second read
recomputes nothing. Between the state before a read and the state after it `updateAABB`
has been entered exactly when a flag was set, and `updateMatrix` exactly when the transform
flag was set; with no flag set the read changes nothing. -/
theorem C36_read_clears_both_flags {M : Type} (ops : MatrixOps M)
    (closest : Geometry → Vec3 → Vec3) (fuel : Nat) (s : ShapeCache M) (g : Geometry)
    (hg : s.mGeometry = some g) (hfuel : 7 ≤ fuel) (p : Vec3) :
    (s.AABB ops fuel = .ok ((s.refreshed ops g).mWorldAABB, s.refreshed ops g) ∧
      s.ocAABB ops fuel = .ok ((s.refreshed ops g).mObjectAABB, s.refreshed ops g) ∧
      s.world2object ops fuel p =
        .ok (ops.mul (s.refreshed ops g).mWorld2ObjectTransformMatrix p, s.refreshed ops g) ∧
      ShapeCache.object2world ops fuel s p =
        .ok (ops.mul (s.refreshed ops g).mObject2WorldTransformMatrix p, s.refreshed ops g) ∧
      s.closestPoint ops closest fuel p =
        .ok (ops.mul (s.refreshed ops g).mObject2WorldTransformMatrix
          (closest g (ops.mul (s.refreshed ops g).mWorld2ObjectTransformMatrix p)),
          s.refreshed ops g) ∧
      s.info ops fuel =
        .ok (((s.refreshed ops g).mObject2WorldTransformMatrix,
          (s.refreshed ops g).mWorld2ObjectTransformMatrix, (s.refreshed ops g).mObjectAABB,
          (s.refreshed ops g).mWorldAABB), s.refreshed ops g)) ∧
    ((s.refreshed ops g).mTransformChanged = false ∧
      (s.refreshed ops g).mGeometryChanged = false) ∧
    (ShapeCache.create g s.nodeMatrix s).mTransformChanged = true ∧
    (ShapeCache.create g s.nodeMatrix s).mGeometryChanged = true ∧
    (s.refreshed ops g).refresh ops fuel = .ok (s.refreshed ops g) ∧
    (s.mTransformChanged = false → s.mGeometryChanged = false → s.refreshed ops g = s) ∧
    ∃ events : List CacheEvent, (s.refreshed ops g).calls = s.calls ++ events ∧
      (CacheEvent.updateAABB ∈ events ↔
        (s.mTransformChanged = true ∨ s.mGeometryChanged = true)) ∧
      (CacheEvent.updateMatrix ∈ events ↔ s.mTransformChanged = true) := by
  have hr := ShapeCache.refresh_spec ops fuel s g hg (by omega)
  obtain ⟨f1, f2, f3, -⟩ := ShapeCache.refreshed_flags ops s g
  have hg' : (s.refreshed ops g).mGeometry = some g := by rw [f3, hg]
  have hclean : (s.refreshed ops g).refreshed ops g = s.refreshed ops g :=
    ShapeCache.refreshed_clean ops _ g f1 f2
  have hr' := ShapeCache.refresh_spec ops fuel (s.refreshed ops g) g hg' (by omega)
  rw [hclean] at hr'
  refine ⟨⟨?_, ?_, ?_, ShapeCache.object2world_spec ops fuel s g hg hfuel p, ?_, ?_⟩,
    ⟨f1, f2⟩, rfl, rfl, hr', ShapeCache.refreshed_clean ops s g,
    ShapeCache.refreshed_calls ops s g⟩
  · unfold ShapeCache.AABB
    rw [hr]
  · unfold ShapeCache.ocAABB
    rw [hr]
  · unfold ShapeCache.world2object
    rw [hr]
  · unfold ShapeCache.closestPoint
    rw [hr]
    simp only
    unfold ShapeCache.world2object
    rw [hr']
    simp only
    rw [hg']
    simp only
    rw [ShapeCache.object2world_spec ops fuel _ g hg' hfuel, hclean]
  · unfold ShapeCache.info
    rw [hr]

/-- C36 at a shape just constructed with the unit cube and translated by (2,0,0): the
first read of the world box returns, with both flags clear afterwards. -/
theorem C36_read_clears_both_flags_witness :
    (cubeShape.AABB translationOps 7).map
        (fun r => (r.1, r.2.mTransformChanged, r.2.mGeometryChanged, r.2.calls)) =
      .ok (((2, 0, 0), (3, 1, 1)), false, false,
        [.updateMatrix, .updateAABB, .updateAABB]) := by
  rw [(C36_read_clears_both_flags translationOps (fun _ q => q) 7 cubeShape unitCube rfl
    (by decide) (0, 0, 0)).1.1]
  with_unfolding_all rfl

/-- C37 (the code at the failing input): a shape constructed with the unit cube, its node
translated by (2,0,0), is read (`AABB()` returns the box (2,0,0)-(3,1,1)); then
`setGeometry` replaces the geometry by the cube of side 5. `setGeometry` leaves the
geometry-changed flag clear, and the next `AABB()` returns the box (2,0,0)-(3,1,1) of the
old geometry; only when `setGeometryChanged()` is called as well does it return the box
(2,0,0)-(7,5,5) of the new one. The writes of position, orientation and scale set the
transform-changed flag. -/
theorem C37_setGeometry_leaves_flag_clear :
    (cubeShape.AABB translationOps 7).map (fun r => r.1) = .ok ((2, 0, 0), (3, 1, 1)) ∧
    boxAfterSetGeometry translationOps 7 cubeShape bigCube false =
      .ok (false, ((2, 0, 0), (3, 1, 1))) ∧
    boxAfterSetGeometry translationOps 7 cubeShape bigCube true =
      .ok (false, ((2, 0, 0), (7, 5, 5))) ∧
    (∀ (M : Type) (s : ShapeCache M) (g : Geometry),
      (s.setGeometry g).mGeometryChanged = s.mGeometryChanged ∧
      (s.setGeometry g).mGeometry = some g) ∧
    (∀ (M : Type) (s : ShapeCache M) (node : M),
      (s.movePosition node).mTransformChanged = true ∧
      (s.setOrientation node).mTransformChanged = true ∧
      (s.setScale node).mTransformChanged = true) ∧
    (∀ (s : SpaceShape) (p : Vec) (s' : SpaceShape),
      (s.setPosition p = .ok s' → s'.mTransformChanged = true) ∧
      (s.changePosition p = .ok s' → s'.mTransformChanged = true)) := by
  refine ⟨by with_unfolding_all rfl, ?_, ?_,
    fun _ _ _ => ⟨rfl, rfl⟩, fun _ _ _ => ⟨rfl, rfl, rfl⟩, ?_⟩
  · unfold boxAfterSetGeometry
    rw [ShapeCache.AABB_spec translationOps 7 cubeShape unitCube rfl (by decide)]
    simp only [Bool.false_eq_true, if_true, if_false]
    rw [ShapeCache.AABB_spec translationOps 7 _ bigCube rfl (by decide)]
    simp only [Except.ok.injEq, Prod.mk.injEq]
    constructor
    · rfl
    · norm_num [ShapeCache.refreshed, ShapeCache.setGeometry, ShapeCache.setGeometryChanged,
        cubeShape, ShapeCache.create, translationOps, bigCube, unitCube]
  · unfold boxAfterSetGeometry
    rw [ShapeCache.AABB_spec translationOps 7 cubeShape unitCube rfl (by decide)]
    simp only [Bool.true_eq_false, if_true, if_false]
    rw [ShapeCache.AABB_spec translationOps 7 _ bigCube rfl (by decide)]
    simp only [Except.ok.injEq, Prod.mk.injEq]
    constructor
    · rfl
    · norm_num [ShapeCache.refreshed, ShapeCache.setGeometry, ShapeCache.setGeometryChanged,
        cubeShape, ShapeCache.create, translationOps, bigCube, unitCube]
  intro s p s'
  constructor
  · intro h
    unfold SpaceShape.setPosition at h
    split at h
    · split at h
      · cases h
      · cases h
        rfl
    · cases h
  · intro h
    unfold SpaceShape.changePosition at h
    split at h
    · split at h
      · cases h
      · cases h
        rfl
    · cases h

/-- C38 (the code at the failing input): in the grid of the spec scenario (2x2 cells over
(0,0)-(1,1)) the position (0.6, 0.6) has the index vector (1,1), whose flat index is
1 + 1 * 2 = 3; the flat form of `position2index` returns 0 for it, and 1 for (0.6, 1).
The two forms agree at (0.1, 0.1) (both 0) and at (1, 1) (both 3). The flat form scales
by `mPositionScale`, which the constructor sets to (n - 1) / (max - min). -/
theorem C38_flat_index_differs_from_index_vector :
    scenarioGrid.position2index [3 / 5, 3 / 5] = .ok [1, 1] ∧
    linearIndex scenarioGrid.subdivisionCount [1, 1] = 3 ∧
    scenarioGrid.position2indexFlat [3 / 5, 3 / 5] = .ok 0 ∧
    (scenarioGrid.position2index [3 / 5, 1]).map (linearIndex scenarioGrid.subdivisionCount)
      = .ok 3 ∧
    scenarioGrid.position2indexFlat [3 / 5, 1] = .ok 2 ∧
    (scenarioGrid.position2index [1 / 10, 1 / 10]).map
        (linearIndex scenarioGrid.subdivisionCount)
      = scenarioGrid.position2indexFlat [1 / 10, 1 / 10] ∧
    (scenarioGrid.position2index [1, 1]).map (linearIndex scenarioGrid.subdivisionCount)
      = scenarioGrid.position2indexFlat [1, 1] ∧
    scenarioGrid.mPositionScale = [1, 1] ∧
    (SpaceGrid.create 2 [2, 2] [0, 0] [1, 1] scenarioGrid.vectors).map
        (fun g => g.mPositionScale) = .ok [1, 1] := by
  refine ⟨?_, ?_, ?_, ?_, ?_, ?_, ?_, ?_, ?_⟩
  · with_unfolding_all rfl
  · with_unfolding_all rfl
  · with_unfolding_all rfl
  · with_unfolding_all rfl
  · with_unfolding_all rfl
  · with_unfolding_all rfl
  · with_unfolding_all rfl
  · with_unfolding_all rfl
  · with_unfolding_all rfl

/-- C39: `Space::update` of a space with an N-tree leaves every proxy that is not in the
neighbor-capable set as it is, relation vector included; in a bounded space a proxy whose
position lies outside [min, max] is not in that set, so its relations are neither cleared
nor recomputed. When the space satisfies the invariant of the tree, a proxy of the
neighbor-capable set differs from its old state in the relation vector at most, and that
vector has been built up from the empty vector by `createNeighbor` calls for the object of
the proxy. -/
theorem C39_update_keeps_lists_outside_capable_set (sqrtF : ℚ → ℚ) (fuel : Nat)
    (space s' : Space) (h : space.update sqrtF fuel = .ok s') :
    (∀ k, k ∉ s'.mNeighborObjects → s'.mObjects[k]? = space.mObjects[k]?) ∧
    (space.mSpaceAlg.mFixedSize = true → ∀ (k : Nat) (p : SpaceProxyObject),
      space.mObjects[k]? = some p →
      insideBox space.mSpaceAlg.mMinPos.length p.mSpaceObject.mPosition
        space.mSpaceAlg.mMinPos space.mSpaceAlg.mMaxPos = false →
      k ∉ s'.mNeighborObjects ∧ s'.mObjects[k]? = some p) ∧
    (SpaceOK space → ∀ k ∈ s'.mNeighborObjects, ∀ p p' : SpaceProxyObject,
      space.mObjects[k]? = some p → s'.mObjects[k]? = some p' →
      p'.withoutRelations = p.withoutRelations ∧
        Rebuilt sqrtF p.mSpaceObject p'.mNeighborGroup.mNeighborRelations) := by
  have hframe := Space.update_frame h
  refine ⟨hframe, ?_, ?_⟩
  · intro hfix k p hp hout
    have hk : k ∉ s'.mNeighborObjects := by
      obtain ⟨s1, alg1, h1, -, -, -, hn⟩ := Space.update_phases h
      obtain ⟨-, hc, -⟩ := Space.updateObjects_classified h1
      rw [hn, (hc hfix).2.2.2]
      intro hm
      obtain ⟨p0, a, hp0, -, -, hin⟩ := (mem_classifyFixed_neighbor _ _ _ k).1 hm
      rw [hp] at hp0
      cases hp0
      rw [hin] at hout
      cases hout
    exact ⟨hk, by rw [hframe k hk, hp]⟩
  · intro hok k hk p p' hp hp'
    have hP := Space.update_progress h (fun _ _ => True) (fun _ => trivial)
      (fun _ _ _ _ _ _ _ _ _ _ => trivial)
    have hw := withoutRelations_getElem? hP.1 k
    rw [hp, hp'] at hw
    simp only [Option.map_some', Option.some.injEq] at hw
    exact ⟨hw.symm, Space.update_rebuilt hok h k hk p' hp' p hp⟩

theorem C39_update_keeps_lists_outside_capable_set_witness :
    staleOutsideSpace.update sceneSqrt 20 = .ok (Space.updated sceneSqrt 20 staleOutsideSpace) ∧
    ((1 : Nat) ∉ (Space.updated sceneSqrt 20 staleOutsideSpace).mNeighborObjects ∧
      (Space.updated sceneSqrt 20 staleOutsideSpace).mObjects[1]? =
        some ⟨⟨1, 1, [2]⟩, ⟨true, some ⟨4, 2, false, 1⟩, [⟨1, 0, [-7], [-7], 7⟩]⟩⟩) ∧
    (Space.updated sceneSqrt 20 staleOutsideSpace).mObjects[0]? =
      some ⟨⟨0, 1, [1 / 2]⟩,
        ⟨true, some ⟨4, 2, false, 1⟩, [⟨0, 2, [1 / 5], [1 / 5], 1 / 5⟩]⟩⟩ ∧
    Rebuilt sceneSqrt ⟨0, 1, [1 / 2]⟩ [⟨0, 2, [1 / 5], [1 / 5], 1 / 5⟩] :=
  ⟨by with_unfolding_all rfl,
   (C39_update_keeps_lists_outside_capable_set sceneSqrt 20 staleOutsideSpace
      (Space.updated sceneSqrt 20 staleOutsideSpace) (by with_unfolding_all rfl)).2.1 rfl 1
      ⟨⟨1, 1, [2]⟩, ⟨true, some ⟨4, 2, false, 1⟩, [⟨1, 0, [-7], [-7], 7⟩]⟩⟩ rfl
      (by with_unfolding_all decide),
   by with_unfolding_all rfl,
   ((C39_update_keeps_lists_outside_capable_set sceneSqrt 20 staleOutsideSpace
      (Space.updated sceneSqrt 20 staleOutsideSpace) (by with_unfolding_all rfl)).2.2
      (SpaceOK.ofEmptyTree staleOutsideSpace rfl rfl rfl rfl rfl rfl) 0
      (by with_unfolding_all decide)
      ⟨⟨0, 1, [1 / 2]⟩, ⟨true, some ⟨4, 2, false, 1⟩, [⟨0, 1, [7], [7], 7⟩]⟩⟩
      ⟨⟨0, 1, [1 / 2]⟩, ⟨true, some ⟨4, 2, false, 1⟩, [⟨0, 2, [1 / 5], [1 / 5], 1 / 5⟩]⟩⟩
      rfl (by with_unfolding_all rfl)).2⟩

/-- C40: the backward scan of the "normal insert" branch of `createNeighbor`. For every
non-empty relation vector and every candidate distance the insertion index is computed
without a read outside the vector; the scan is entered only when the first stored
distance is smaller than the candidate distance, and then it returns an index in
[1, length] without decrementing the unsigned index `i` at 0: the relation before the
index is not farther than the candidate and every relation from the index on is farther. -/
theorem C40_backward_scan_stops_at_front (rels : List SpaceNeighborRelation) (d : ℚ)
    (hne : rels ≠ []) :
    (∃ idx, insertionIndex rels d = .ok idx ∧ idx ≤ rels.length) ∧
    ∀ f : SpaceNeighborRelation, rels.head? = some f →
      (d ≤ f.mDistance → insertionIndex rels d = .ok 0) ∧
      (f.mDistance < d →
        ∃ k, scanBackward rels d (rels.length - 1) rels.length = .ok k ∧
          insertionIndex rels d = .ok k ∧ 1 ≤ k ∧ k ≤ rels.length ∧
          (∃ r, rels[k - 1]? = some r ∧ r.mDistance ≤ d) ∧
          ∀ j r, k ≤ j → rels[j]? = some r → d < r.mDistance) := by
  constructor
  · obtain ⟨idx, h⟩ := insertionIndex_total rels d hne
    exact ⟨idx, h, (insertionIndex_spec rels d idx h).1⟩
  · intro f hf
    refine ⟨fun hd => insertionIndex_front rels d f hf hd, fun hfd => ?_⟩
    obtain ⟨idx, h⟩ := insertionIndex_total rels d hne
    have hs : scanBackward rels d (rels.length - 1) rels.length = .ok idx := by
      unfold insertionIndex at h
      rw [hf] at h
      simp only [ge_iff_le, not_le.mpr hfd, if_false] at h
      exact h
    obtain ⟨hle, hcases⟩ := insertionIndex_spec rels d idx h
    rcases hcases with ⟨-, f', hf', hd'⟩ | ⟨h1, h2, h3⟩
    · rw [hf] at hf'
      cases hf'
      exact absurd hfd (not_lt.mpr hd')
    · exact ⟨idx, hs, h, h1, hle, h2, h3⟩

theorem C40_backward_scan_stops_at_front_witness :
    (∃ idx, insertionIndex [⟨0, 1, [1], [1], 1⟩, ⟨0, 2, [3], [3], 3⟩] 2 = .ok idx ∧
      idx ≤ 2) ∧
    ∃ k, scanBackward [⟨0, 1, [1], [1], 1⟩, ⟨0, 2, [3], [3], 3⟩] 2 (2 - 1) 2 = .ok k ∧
      insertionIndex [⟨0, 1, [1], [1], 1⟩, ⟨0, 2, [3], [3], 3⟩] 2 = .ok k ∧ 1 ≤ k ∧ k ≤ 2 :=
  ⟨(C40_backward_scan_stops_at_front [⟨0, 1, [1], [1], 1⟩, ⟨0, 2, [3], [3], 3⟩] 2
      (by simp)).1,
   (((C40_backward_scan_stops_at_front [⟨0, 1, [1], [1], 1⟩, ⟨0, 2, [3], [3], 3⟩] 2
      (by simp)).2 ⟨0, 1, [1], [1], 1⟩ rfl).2 (by norm_num)).imp fun _ h =>
        ⟨h.1, h.2.1, h.2.2.1, h.2.2.2.1⟩⟩

end dab.space
